import Mathlib

/-!
# Verification development for `simulation_native.cpp`

A shallow embedding of the PIC/FLIP kernels of `src/src/simulation_native.cpp`.

Conventions of the embedding:

* `float` values are elements of an arbitrary linearly ordered field `F` with a floor
  function (exact arithmetic; `ℚ` for evaluation, `ℝ` for the exact reading of `sqrtf`).
  `sqrtf` is a parameter `sqrtf : F → F` of the kernels that call it.
* `int` values are `ℤ` (grid sizes and indices; no wrap-around is modelled).
* a `float*` / `int32_t*` buffer is a total map from `ℤ` (the element index) to its
  contents; a store is `Function.update`.
* `for (int k = lo; k < hi; ++k)` is `forRange lo hi`; `continue` leaves the state as it is.
* `#pragma omp parallel for` loops write disjoint locations per iteration and are modelled
  by the sequential loop.
* NEON 4-lane blocks are modelled lane by lane: all four lanes are computed from the
  values loaded before the block's store.  The reciprocal estimate `vrecpeq_f32` is a
  parameter `vrecpeq_f32 : F → F` of `transferVelocities_native`; the Newton-Raphson step
  `vrecpsq_f32` applied to it is modelled as written.
-/

set_option linter.unusedSectionVars false

namespace FluidSim

/-! ## Constants and loop combinators -/

/-- The constant `FLUID_CELL_CPP`. -/
def FLUID_CELL_CPP : ℤ := 0

/-- The constant `AIR_CELL_CPP`. -/
def AIR_CELL_CPP : ℤ := 1

/-- The constant `SOLID_CELL_CPP`. -/
def SOLID_CELL_CPP : ℤ := 2

/-- The loop `for (int k = lo; k < hi; ++k) st = body k st`. -/
def forRange {σ : Type} (lo hi : ℤ) (body : ℤ → σ → σ) (st : σ) : σ :=
  (List.range (hi - lo).toNat).foldl (fun acc (k : ℕ) => body (lo + (k : ℤ)) acc) st

/-- Number of iterations of `for (j = 0; j <= m - 4; j += 4)`. -/
def numBlocks4 (m : ℤ) : ℤ := ((m / 4).toNat : ℤ)

section Kernels

variable {F : Type} [LinearOrderedField F] [FloorRing F]

/-- The literal `1e-9f`, read exactly. -/
def eps9 : F := 1 / 1000000000

/-- The literal `1e-12f`, read exactly. -/
def eps12 : F := 1 / 1000000000000

/-- The conversion `static_cast<int>(x)` of a float: truncation toward zero. -/
def toInt (x : F) : ℤ := if 0 ≤ x then ⌊x⌋ else ⌈x⌉

/-- The helper `clamp_cpp(val, min_val, max_val) = fmaxf(min_val, fminf(val, max_val))`. -/
def clamp_cpp (val min_val max_val : F) : F := max min_val (min val max_val)

/-! ## Static wall and draggable obstacle cells -/

/-- The helper `isCellStaticWall_native`. -/
def isCellStaticWall_native (ix iy fNumX_cells fNumY_cells : ℤ)
    (h_grid cCenterX cCenterY cRadius : F) : Bool :=
  if ix < 0 ∨ ix ≥ fNumX_cells ∨ iy < 0 ∨ iy ≥ fNumY_cells then true
  else
    let cell_center_x := ((ix : F) + 1 / 2) * h_grid
    let cell_center_y := ((iy : F) + 1 / 2) * h_grid
    let dx := cell_center_x - cCenterX
    let dy := cell_center_y - cCenterY
    decide (dx * dx + dy * dy > cRadius * cRadius)

/-- The helper `isCellDraggable_native`. -/
def isCellDraggable_native (ix iy fNumX_cells fNumY_cells : ℤ) (h_grid : F)
    (obsActive : Bool) (obsX obsY obsRadius : F) : Bool :=
  if !obsActive then false
  else if ix < 0 ∨ ix ≥ fNumX_cells ∨ iy < 0 ∨ iy ≥ fNumY_cells then false
  else
    let cell_center_x := ((ix : F) + 1 / 2) * h_grid
    let cell_center_y := ((iy : F) + 1 / 2) * h_grid
    let dx := cell_center_x - obsX
    let dy := cell_center_y - obsY
    decide (dx * dx + dy * dy < obsRadius * obsRadius)

/-! ## `solveIncompressibility_native` -/

/-- The three buffers `u`, `v`, `p` written by `solveIncompressibility_native`. -/
structure PressureState (F : Type) where
  /-- Buffer `u`. -/
  u : ℤ → F
  /-- Buffer `v`. -/
  v : ℤ → F
  /-- Buffer `p`. -/
  p : ℤ → F

/-- Body of the core pressure loop for the cell `(i, j)`. -/
def gsCell (s : ℤ → F) (cellType : ℤ → ℤ) (particleDensity : ℤ → F) (n : ℤ)
    (cp overRelaxation particleRestDensity : F) (compensateDrift : Bool)
    (i j : ℤ) (st : PressureState F) : PressureState F :=
  let idx := i * n + j
  if cellType idx ≠ FLUID_CELL_CPP then st
  else
    let left := (i - 1) * n + j
    let right := (i + 1) * n + j
    let bottom := i * n + (j - 1)
    let top := i * n + (j + 1)
    let sx0_from_code := s left
    let sx1_from_code := s right
    let sy0_from_code := s bottom
    let sy1_from_code := s top
    let sumS := sx0_from_code + sx1_from_code + sy0_from_code + sy1_from_code
    if sumS < eps9 then st
    else
      let div0 := (st.u right - st.u idx) + (st.v top - st.v idx)
      let div :=
        if particleRestDensity > 0 ∧ compensateDrift = true then
          let comp := particleDensity idx - particleRestDensity
          if comp > 0 then div0 - comp else div0
        else div0
      let pressure_update := -div / sumS * overRelaxation
      let p1 := Function.update st.p idx (st.p idx + cp * pressure_update)
      let u1 := Function.update st.u idx (st.u idx - sx0_from_code * pressure_update)
      let u2 := Function.update u1 right (u1 right + sx1_from_code * pressure_update)
      let v1 := Function.update st.v idx (st.v idx - sy0_from_code * pressure_update)
      let v2 := Function.update v1 top (v1 top + sy1_from_code * pressure_update)
      { u := u2, v := v2, p := p1 }

/-- The core pressure loop: `numIters` serial sweeps over the interior cells. -/
def gaussSeidel (s : ℤ → F) (cellType : ℤ → ℤ) (particleDensity : ℤ → F)
    (fNumX fNumY numIters : ℤ) (cp overRelaxation particleRestDensity : F)
    (compensateDrift : Bool) (st : PressureState F) : PressureState F :=
  forRange 0 numIters (fun _ st1 =>
    forRange 1 (fNumX - 1) (fun i st2 =>
      forRange 1 (fNumY - 1) (fun j st3 =>
        gsCell s cellType particleDensity fNumY cp overRelaxation particleRestDensity
          compensateDrift i j st3) st2) st1) st

/-- Value selected for one lane of a 4-wide block from the lane's two masks:
`vbslq_f32(overall_static_mask, zero, old)` followed by
`vbslq_f32(not_static_and_draggable_mask, obstacleVel, ·)`. -/
def laneSelect (overall_static_mask overall_draggable_mask : Bool) (obstacleVel old : F) : F :=
  let not_static_mask := !overall_static_mask
  let not_static_and_draggable_mask := not_static_mask && overall_draggable_mask
  let final1 := if overall_static_mask then 0 else old
  if not_static_and_draggable_mask then obstacleVel else final1

/-- Lane mask `cell_is_static` of the vectorized check for the cell `(ix, iy)`. -/
def laneStatic (ix iy fNumX fNumY : ℤ) (h circleCenterX circleCenterY circleRadiusSq : F) :
    Bool :=
  let static_domain_mask :=
    (decide (ix < 0) || decide (ix ≥ fNumX)) || (decide (iy < 0) || decide (iy ≥ fNumY))
  let cell_center_x := ((ix : F) + 1 / 2) * h
  let cell_center_y := ((iy : F) + 1 / 2) * h
  let dx_static := cell_center_x - circleCenterX
  let dy_static := cell_center_y - circleCenterY
  let dist_sq_static := dx_static * dx_static + dy_static * dy_static
  let static_radius_mask := decide (dist_sq_static > circleRadiusSq)
  static_domain_mask || static_radius_mask

/-- Lane mask `cell_is_draggable` of the vectorized check for the cell `(ix, iy)`. -/
def laneDraggable (ix iy fNumX fNumY : ℤ) (h : F) (isObstacleActive : Bool)
    (obstacleX obstacleY obstacleRadiusSq : F) : Bool :=
  if isObstacleActive then
    let draggable_domain_mask :=
      (decide (ix < 0) || decide (ix ≥ fNumX)) || (decide (iy < 0) || decide (iy ≥ fNumY))
    let cell_center_x := ((ix : F) + 1 / 2) * h
    let cell_center_y := ((iy : F) + 1 / 2) * h
    let dx_drag := cell_center_x - obstacleX
    let dy_drag := cell_center_y - obstacleY
    let dist_sq_drag := dx_drag * dx_drag + dy_drag * dy_drag
    let draggable_radius_mask := decide (dist_sq_drag < obstacleRadiusSq)
    (!draggable_domain_mask) && draggable_radius_mask
  else false

/-- New value of one lane of a 4-wide block whose two adjacent cells are `(ax, ay)` and
`(bx, by)` (the `side = 0` and `side = 1` cells). -/
def laneValue (fNumX fNumY : ℤ) (h circleCenterX circleCenterY circleRadius : F)
    (isObstacleActive : Bool) (obstacleX obstacleY obstacleRadiusCpp obstacleVel : F)
    (ax ay bx by_ : ℤ) (old : F) : F :=
  let circleRadiusSq := circleRadius * circleRadius
  let obstacleRadiusSq := obstacleRadiusCpp * obstacleRadiusCpp
  let overall_static_mask :=
    (false || laneStatic ax ay fNumX fNumY h circleCenterX circleCenterY circleRadiusSq)
      || laneStatic bx by_ fNumX fNumY h circleCenterX circleCenterY circleRadiusSq
  let overall_draggable_mask :=
    (false || laneDraggable ax ay fNumX fNumY h isObstacleActive obstacleX obstacleY
        obstacleRadiusSq)
      || laneDraggable bx by_ fNumX fNumY h isObstacleActive obstacleX obstacleY
        obstacleRadiusSq
  laneSelect overall_static_mask overall_draggable_mask obstacleVel old

/-- New value of one face in the scalar remainder loop whose two adjacent cells are
`(ax, ay)` and `(bx, by)`. -/
def scalarValue (fNumX fNumY : ℤ) (h circleCenterX circleCenterY circleRadius : F)
    (isObstacleActive : Bool) (obstacleX obstacleY obstacleRadiusCpp obstacleVel : F)
    (ax ay bx by_ : ℤ) (old : F) : F :=
  let adj_a_static :=
    isCellStaticWall_native ax ay fNumX fNumY h circleCenterX circleCenterY circleRadius
  let adj_b_static :=
    isCellStaticWall_native bx by_ fNumX fNumY h circleCenterX circleCenterY circleRadius
  let adj_a_draggable :=
    isCellDraggable_native ax ay fNumX fNumY h isObstacleActive obstacleX obstacleY
      obstacleRadiusCpp
  let adj_b_draggable :=
    isCellDraggable_native bx by_ fNumX fNumY h isObstacleActive obstacleX obstacleY
      obstacleRadiusCpp
  if adj_a_static || adj_b_static then 0
  else if adj_a_draggable || adj_b_draggable then obstacleVel
  else old

/-- The store `vst1q_f32(&f[base], ·)` of four lanes. -/
def store4 (f : ℤ → F) (base : ℤ) (lanes : ℤ → F) : ℤ → F :=
  forRange 0 4 (fun l g => Function.update g (base + l) (lanes l)) f

/-- One 4-wide block: load `f[base .. base+3]`, compute the four lanes, store them. -/
def storeBlock4 (lane : ℤ → F → F) (rowBase j0 : ℤ) (f : ℤ → F) : ℤ → F :=
  let base := rowBase + j0
  let loaded : ℤ → F := fun l => f (base + l)
  store4 f base (fun l => lane (j0 + l) (loaded l))

/-- One outer iteration of a boundary-enforcement loop: the vectorized part over
`j = 0, 4, ..` while `j <= fNumY - 4`, then the scalar remainder loop up to `fNumY`. -/
def enforceRow (lane scalar : ℤ → F → F) (rowBase fNumY : ℤ) (f : ℤ → F) : ℤ → F :=
  let f1 := forRange 0 (numBlocks4 fNumY) (fun b g => storeBlock4 lane rowBase (4 * b) g) f
  forRange (4 * numBlocks4 fNumY) fNumY
    (fun j g => Function.update g (rowBase + j) (scalar j (g (rowBase + j)))) f1

/-- The loop "Enforce U-velocities": adjacent cells `(i_face - 1, j)` and `(i_face, j)`. -/
def enforceU (fNumX fNumY : ℤ) (h circleCenterX circleCenterY circleRadius : F)
    (isObstacleActive : Bool) (obstacleX obstacleY obstacleRadiusCpp obstacleVelX : F)
    (u : ℤ → F) : ℤ → F :=
  forRange 0 fNumX (fun i_face g =>
    enforceRow
      (fun j old => laneValue fNumX fNumY h circleCenterX circleCenterY circleRadius
        isObstacleActive obstacleX obstacleY obstacleRadiusCpp obstacleVelX
        (i_face - 1) j i_face j old)
      (fun j old => scalarValue fNumX fNumY h circleCenterX circleCenterY circleRadius
        isObstacleActive obstacleX obstacleY obstacleRadiusCpp obstacleVelX
        (i_face - 1) j i_face j old)
      (i_face * fNumY) fNumY g) u

/-- The loop "Enforce V-velocities": adjacent cells `(i_col, j - 1)` and `(i_col, j)`. -/
def enforceV (fNumX fNumY : ℤ) (h circleCenterX circleCenterY circleRadius : F)
    (isObstacleActive : Bool) (obstacleX obstacleY obstacleRadiusCpp obstacleVelY : F)
    (v : ℤ → F) : ℤ → F :=
  forRange 0 fNumX (fun i_col g =>
    enforceRow
      (fun j old => laneValue fNumX fNumY h circleCenterX circleCenterY circleRadius
        isObstacleActive obstacleX obstacleY obstacleRadiusCpp obstacleVelY
        i_col (j - 1) i_col j old)
      (fun j old => scalarValue fNumX fNumY h circleCenterX circleCenterY circleRadius
        isObstacleActive obstacleX obstacleY obstacleRadiusCpp obstacleVelY
        i_col (j - 1) i_col j old)
      (i_col * fNumY) fNumY g) v

/-- The kernel `solveIncompressibility_native`: pressure loop, then boundary enforcement
of `u`, then of `v`. -/
def solveIncompressibility_native (st : PressureState F) (s : ℤ → F) (cellType : ℤ → ℤ)
    (particleDensity : ℤ → F) (fNumX fNumY numIters : ℤ)
    (h dt density overRelaxation particleRestDensity : F) (compensateDrift : Bool)
    (circleCenterX circleCenterY circleRadius : F) (isObstacleActive : Bool)
    (obstacleX obstacleY obstacleRadiusCpp obstacleVelX obstacleVelY : F) :
    PressureState F :=
  let cp := density * h / dt
  let st1 := gaussSeidel s cellType particleDensity fNumX fNumY numIters cp overRelaxation
    particleRestDensity compensateDrift st
  { u := enforceU fNumX fNumY h circleCenterX circleCenterY circleRadius isObstacleActive
      obstacleX obstacleY obstacleRadiusCpp obstacleVelX st1.u
    v := enforceV fNumX fNumY h circleCenterX circleCenterY circleRadius isObstacleActive
      obstacleX obstacleY obstacleRadiusCpp obstacleVelY st1.v
    p := st1.p }

/-! ## Neighbour-bin traversal shared by `pushParticlesApart_native` and
`diffuseParticleColors_native` -/

/-- The float function `floorf`. -/
def floorf (x : F) : F := ((⌊x⌋ : ℤ) : F)

/-- Bin coordinate of a particle:
`static_cast<int>(fmaxf(0.0f, fminf(static_cast<float>(pNum - 1), floorf(p * pInvSpacing))))`. -/
def binCoord (pNum : ℤ) (pInvSpacing p : F) : ℤ :=
  toInt (max 0 (min (((pNum - 1 : ℤ) : F)) (floorf (p * pInvSpacing))))

/-- The loops over the 3×3 window of bins around `(pxi, pyi)` and over the particles `jj`
listed in each bin, with the source's index validation; `interact jj` is the pair body
run for each enumerated neighbour `jj ≠ ii`. -/
def neighbourLoop {σ : Type} (firstCellParticle cellParticleIds : ℤ → ℤ)
    (numParticles pNumX pNumY : ℤ) (pxi pyi ii : ℤ) (interact : ℤ → σ → σ) (st : σ) : σ :=
  let pn := pNumY
  let x0 := max 0 (pxi - 1)
  let x1 := min (pNumX - 1) (pxi + 1)
  let y0 := max 0 (pyi - 1)
  let y1 := min (pNumY - 1) (pyi + 1)
  forRange x0 (x1 + 1) (fun cx st1 =>
    forRange y0 (y1 + 1) (fun cy st2 =>
      let cellIndex := cx * pn + cy
      if cellIndex < 0 ∨ cellIndex + 1 > pNumX * pNumY then st2
      else
        let cellStart := firstCellParticle cellIndex
        let cellEnd := firstCellParticle (cellIndex + 1)
        if cellStart < 0 ∨ cellEnd < cellStart ∨ cellEnd > numParticles then st2
        else
          forRange cellStart cellEnd (fun k_loop_idx st3 =>
            if k_loop_idx < 0 ∨ k_loop_idx ≥ numParticles then st3
            else
              let jj := cellParticleIds k_loop_idx
              if jj = ii then st3
              else if jj < 0 ∨ jj ≥ numParticles then st3
              else interact jj st3) st2) st1) st

/-! ## `pushParticlesApart_native` -/

/-- The pair interaction of `pushParticlesApart_native` for particles `ii` and `jj`. -/
def pushPair (sqrtf : F → F) (minDist minDist2 : F) (ii jj : ℤ) (particlePos : ℤ → F) :
    ℤ → F :=
  let pIdx := 2 * ii
  let qIdx := 2 * jj
  let p_curr_x := particlePos (pIdx + 0)
  let p_curr_y := particlePos (pIdx + 1)
  let q_curr_x := particlePos (qIdx + 0)
  let q_curr_y := particlePos (qIdx + 1)
  let dx_scalar := q_curr_x - p_curr_x
  let dy_scalar := q_curr_y - p_curr_y
  let dist2 := dx_scalar * dx_scalar + dy_scalar * dy_scalar
  if dist2 > minDist2 ∨ dist2 < eps12 then particlePos
  else
    let d := sqrtf dist2
    let s_factor := if d > eps9 then (1 / 2) * (minDist - d) / d else 0
    let offset_x := dx_scalar * s_factor
    let offset_y := dy_scalar * s_factor
    let pos1 := Function.update particlePos (pIdx + 0) (p_curr_x - offset_x)
    let pos2 := Function.update pos1 (pIdx + 1) (p_curr_y - offset_y)
    let pos3 := Function.update pos2 (qIdx + 0) (q_curr_x + offset_x)
    Function.update pos3 (qIdx + 1) (q_curr_y + offset_y)

/-- Body of the particle loop of `pushParticlesApart_native` for particle `ii`. -/
def pushParticle (sqrtf : F → F) (firstCellParticle cellParticleIds : ℤ → ℤ)
    (numParticles pNumX pNumY : ℤ) (pInvSpacing minDist minDist2 : F) (ii : ℤ)
    (particlePos : ℤ → F) : ℤ → F :=
  let pIdx := 2 * ii
  let px := particlePos pIdx
  let py := particlePos (pIdx + 1)
  let pxi := binCoord pNumX pInvSpacing px
  let pyi := binCoord pNumY pInvSpacing py
  neighbourLoop firstCellParticle cellParticleIds numParticles pNumX pNumY pxi pyi ii
    (fun jj pos => pushPair sqrtf minDist minDist2 ii jj pos) particlePos

/-- The kernel `pushParticlesApart_native`. -/
def pushParticlesApart_native (sqrtf : F → F) (particlePos : ℤ → F)
    (firstCellParticle cellParticleIds : ℤ → ℤ) (numParticles pNumX pNumY : ℤ)
    (pInvSpacing : F) (numIters : ℤ) (particleRadius minDist2 : F) : ℤ → F :=
  let minDist := 2 * particleRadius
  forRange 0 numIters (fun _ pos1 =>
    forRange 0 numParticles (fun ii pos2 =>
      pushParticle sqrtf firstCellParticle cellParticleIds numParticles pNumX pNumY
        pInvSpacing minDist minDist2 ii pos2) pos1) particlePos

/-! ## `diffuseParticleColors_native` -/

/-- The pair interaction of `diffuseParticleColors_native` for particles `ii` and `jj`. -/
def diffusePair (particlePos : ℤ → F) (minDist2 colorDiffusionCoeff_param : F) (ii jj : ℤ)
    (particleColor : ℤ → F) : ℤ → F :=
  let pIdx := 2 * ii
  let pColorIdx := 4 * ii
  let qIdx := 2 * jj
  let qColorIdx := 4 * jj
  let p_curr_x := particlePos (pIdx + 0)
  let p_curr_y := particlePos (pIdx + 1)
  let q_curr_x := particlePos (qIdx + 0)
  let q_curr_y := particlePos (qIdx + 1)
  let dx_scalar := q_curr_x - p_curr_x
  let dy_scalar := q_curr_y - p_curr_y
  let dist2 := dx_scalar * dx_scalar + dy_scalar * dy_scalar
  if dist2 < minDist2 ∧ dist2 > eps12 then
    let pColor_vec : ℤ → F := fun l => particleColor (pColorIdx + l)
    let qColor_vec : ℤ → F := fun l => particleColor (qColorIdx + l)
    let avg_color_vec : ℤ → F := fun l => (pColor_vec l + qColor_vec l) * (1 / 2)
    let pColor_new : ℤ → F := fun l =>
      pColor_vec l + (avg_color_vec l - pColor_vec l) * colorDiffusionCoeff_param
    let qColor_new : ℤ → F := fun l =>
      qColor_vec l + (avg_color_vec l - qColor_vec l) * colorDiffusionCoeff_param
    let pColor_clamped : ℤ → F := fun l => max 0 (min (pColor_new l) 1)
    let qColor_clamped : ℤ → F := fun l => max 0 (min (qColor_new l) 1)
    store4 (store4 particleColor pColorIdx pColor_clamped) qColorIdx qColor_clamped
  else particleColor

/-- The kernel `diffuseParticleColors_native`. -/
def diffuseParticleColors_native (particlePos particleColor_param : ℤ → F)
    (firstCellParticle cellParticleIds : ℤ → ℤ) (numParticles pNumX pNumY : ℤ)
    (pInvSpacing particleRadius : F) (enableDynamicColoring : Bool)
    (colorDiffusionCoeff_param : F) : ℤ → F :=
  if !enableDynamicColoring ∨ numParticles = 0 then particleColor_param
  else
    let minDist := 2 * particleRadius
    let minDist2 := minDist * minDist
    forRange 0 numParticles (fun ii col =>
      let pIdx := 2 * ii
      let px := particlePos pIdx
      let py := particlePos (pIdx + 1)
      let pxi := binCoord pNumX pInvSpacing px
      let pyi := binCoord pNumY pInvSpacing py
      neighbourLoop firstCellParticle cellParticleIds numParticles pNumX pNumY pxi pyi ii
        (fun jj col1 => diffusePair particlePos minDist2 colorDiffusionCoeff_param ii jj col1)
        col) particleColor_param

/-! ## `transferVelocities_native` -/

/-- The buffers written by `transferVelocities_native`. -/
structure TransferState (F : Type) where
  /-- Buffer `u`. -/
  u : ℤ → F
  /-- Buffer `v`. -/
  v : ℤ → F
  /-- Buffer `du`. -/
  du : ℤ → F
  /-- Buffer `dv`. -/
  dv : ℤ → F
  /-- Buffer `prevU`. -/
  prevU : ℤ → F
  /-- Buffer `prevV`. -/
  prevV : ℤ → F
  /-- Buffer `cellType`. -/
  cellType : ℤ → ℤ
  /-- Buffer `particleVel`. -/
  particleVel : ℤ → F

/-- Step 1, one 4-wide block at `i`: load `u`, `v`; store `prevU`, `prevV`, then zero
`du`, `dv`, `u`, `v`. -/
def backupBlock (i : ℤ) (st : TransferState F) : TransferState F :=
  let u_vec : ℤ → F := fun l => st.u (i + l)
  let v_vec : ℤ → F := fun l => st.v (i + l)
  { st with
    prevU := store4 st.prevU i u_vec
    prevV := store4 st.prevV i v_vec
    du := store4 st.du i (fun _ => 0)
    dv := store4 st.dv i (fun _ => 0)
    u := store4 st.u i (fun _ => 0)
    v := store4 st.v i (fun _ => 0) }

/-- Step 1, scalar remainder at `i`. -/
def backupScalar (i : ℤ) (st : TransferState F) : TransferState F :=
  { st with
    prevU := Function.update st.prevU i (st.u i)
    prevV := Function.update st.prevV i (st.v i)
    du := Function.update st.du i 0
    dv := Function.update st.dv i 0
    u := Function.update st.u i 0
    v := Function.update st.v i 0 }

/-- Step 1: backup grid velocities and clear current/delta velocities. -/
def backupAndClear (fNumCells : ℤ) (st : TransferState F) : TransferState F :=
  let st1 := forRange 0 (numBlocks4 fNumCells) (fun b st2 => backupBlock (4 * b) st2) st
  forRange (fNumCells - Int.tmod fNumCells 4) fNumCells (fun i st2 => backupScalar i st2) st1

/-- Step 2: initialize cell types (solid based on `s`, rest air). -/
def initCellTypes (s : ℤ → F) (fNumCells : ℤ) (cellType : ℤ → ℤ) : ℤ → ℤ :=
  forRange 0 fNumCells (fun i ct =>
    Function.update ct i (if s i = 0 then SOLID_CELL_CPP else AIR_CELL_CPP)) cellType

/-- Grid coordinate of a particle:
`static_cast<int>(clamp_cpp(floorf(p * invH), 0.0f, static_cast<float>(fNum - 1)))`. -/
def cellCoord (fNum : ℤ) (invH p : F) : ℤ :=
  toInt (clamp_cpp (floorf (p * invH)) 0 (((fNum - 1 : ℤ) : F)))

/-- Index `c = xi * n + yi` of the cell containing particle `i`. -/
def particleCellIndex (particlePos : ℤ → F) (fNumX fNumY : ℤ) (invH : F) (i : ℤ) : ℤ :=
  let px := particlePos (2 * i)
  let py := particlePos (2 * i + 1)
  let xi := cellCoord fNumX invH px
  let yi := cellCoord fNumY invH py
  xi * fNumY + yi

/-- Step 3: mark cells containing particles as fluid. -/
def markFluid (particlePos : ℤ → F) (fNumX fNumY : ℤ) (invH : F) (numParticles : ℤ)
    (cellType : ℤ → ℤ) : ℤ → ℤ :=
  let fNumCells := fNumX * fNumY
  forRange 0 numParticles (fun i ct =>
    let c := particleCellIndex particlePos fNumX fNumY invH i
    if c ≥ 0 ∧ c < fNumCells ∧ ct c = AIR_CELL_CPP then Function.update ct c FLUID_CELL_CPP
    else ct) cellType

/-- The bilinear stencil of one particle for one component: weights `w0..w3` and corner
indices `n0..n3`. -/
structure Stencil (F : Type) where
  /-- Weight `sx * sy`. -/
  w0 : F
  /-- Weight `tx * sy`. -/
  w1 : F
  /-- Weight `tx * ty`. -/
  w2 : F
  /-- Weight `sx * ty`. -/
  w3 : F
  /-- Corner `(x0, y0)`. -/
  n0 : ℤ
  /-- Corner `(x1, y0)`. -/
  n1 : ℤ
  /-- Corner `(x1, y1)`. -/
  n2 : ℤ
  /-- Corner `(x0, y1)`. -/
  n3 : ℤ

/-- The stencil computation shared by both transfer directions (the source repeats it
verbatim in the P->G and the G->P loop). -/
def stencil (fNumX fNumY : ℤ) (hh invH : F) (comp : ℤ) (px_orig py_orig : F) : Stencil F :=
  let n := fNumY
  let h2 := (1 / 2) * hh
  let dx_offset : F := if comp = 0 then 0 else h2
  let dy_offset : F := if comp = 0 then h2 else 0
  let clamp_max_x_val := (((fNumX - 1 : ℤ) : F)) * hh
  let clamp_max_y_val := (((fNumY - 1 : ℤ) : F)) * hh
  let grid_max_idx_f_x_val : F := ((fNumX - 2 : ℤ) : F)
  let grid_max_idx_f_y_val : F := ((fNumY - 2 : ℤ) : F)
  let px_clamped := max hh (min px_orig clamp_max_x_val)
  let py_clamped := max hh (min py_orig clamp_max_y_val)
  let fx := (px_clamped - dx_offset) * invH
  let fy := (py_clamped - dy_offset) * invH
  let x0 := toInt (min (floorf fx) grid_max_idx_f_x_val)
  let y0 := toInt (min (floorf fy) grid_max_idx_f_y_val)
  let tx := fx - (x0 : F)
  let ty := fy - (y0 : F)
  let sx := 1 - tx
  let sy := 1 - ty
  let x1 := x0 + 1
  let y1 := y0 + 1
  { w0 := sx * sy, w1 := tx * sy, w2 := tx * ty, w3 := sx * ty
    n0 := x0 * n + y0, n1 := x1 * n + y0, n2 := x1 * n + y1, n3 := x0 * n + y1 }

/-- One guarded deposit `if (nk >= 0 && nk < fNumCells) { f[nk] += pv * wk; df[nk] += wk; }`
on the pair of buffers `(f, df)`. -/
def deposit (fNumCells nk : ℤ) (pv wk : F) (fd : (ℤ → F) × (ℤ → F)) : (ℤ → F) × (ℤ → F) :=
  if nk ≥ 0 ∧ nk < fNumCells then
    (Function.update fd.1 nk (fd.1 nk + pv * wk), Function.update fd.2 nk (fd.2 nk + wk))
  else fd

/-- Step 4, body of the particle loop for component `comp` on the buffers `(f, df)`. -/
def scatterParticle (particlePos particleVel : ℤ → F) (fNumX fNumY : ℤ) (hh invH : F)
    (comp i : ℤ) (fd : (ℤ → F) × (ℤ → F)) : (ℤ → F) × (ℤ → F) :=
  let fNumCells := fNumX * fNumY
  let st := stencil fNumX fNumY hh invH comp (particlePos (2 * i)) (particlePos (2 * i + 1))
  let pv := particleVel (2 * i + comp)
  deposit fNumCells st.n3 pv st.w3
    (deposit fNumCells st.n2 pv st.w2
      (deposit fNumCells st.n1 pv st.w1
        (deposit fNumCells st.n0 pv st.w0 fd)))

/-- Step 4 for one component: the loop over all particles. -/
def scatterComp (particlePos particleVel : ℤ → F) (fNumX fNumY : ℤ) (hh invH : F)
    (numParticles comp : ℤ) (fd : (ℤ → F) × (ℤ → F)) : (ℤ → F) × (ℤ → F) :=
  forRange 0 numParticles (fun i fd1 =>
    scatterParticle particlePos particleVel fNumX fNumY hh invH comp i fd1) fd

/-- Step 4: transfer particle velocities to the grid, `comp = 0` on `(u, du)` and then
`comp = 1` on `(v, dv)`. -/
def scatterAll (particlePos : ℤ → F) (fNumX fNumY : ℤ) (hh invH : F) (numParticles : ℤ)
    (st : TransferState F) : TransferState F :=
  let r0 := scatterComp particlePos st.particleVel fNumX fNumY hh invH numParticles 0
    (st.u, st.du)
  let r1 := scatterComp particlePos st.particleVel fNumX fNumY hh invH numParticles 1
    (st.v, st.dv)
  { st with u := r0.1, du := r0.2, v := r1.1, dv := r1.2 }

/-- The intrinsic `vrecpsq_f32(a, b) = 2 - a * b` (Newton-Raphson reciprocal step). -/
def vrecpsq_f32 (a b : F) : F := 2 - a * b

/-- Step 5, one lane of the vectorized normalization; `vrecpeq_f32` is the hardware
reciprocal estimate. -/
def normalizeLane (vrecpeq_f32 : F → F) (f df : F) : F :=
  let mask := decide (df > eps9)
  let divisor := if mask then df else 1
  let inv_divisor_est := vrecpeq_f32 divisor
  let inv_divisor_refined := vrecpsq_f32 divisor inv_divisor_est * inv_divisor_est
  let div_result := f * inv_divisor_refined
  if mask then div_result else 0

/-- Step 5, one 4-wide block at `i`. -/
def normalizeBlock (vrecpeq_f32 : F → F) (i : ℤ) (st : TransferState F) : TransferState F :=
  let u_result : ℤ → F := fun l => normalizeLane vrecpeq_f32 (st.u (i + l)) (st.du (i + l))
  let v_result : ℤ → F := fun l => normalizeLane vrecpeq_f32 (st.v (i + l)) (st.dv (i + l))
  { st with u := store4 st.u i u_result, v := store4 st.v i v_result }

/-- Step 5, scalar remainder at `i`. -/
def normalizeScalar (i : ℤ) (st : TransferState F) : TransferState F :=
  { st with
    u := Function.update st.u i (if st.du i > eps9 then st.u i / st.du i else 0)
    v := Function.update st.v i (if st.dv i > eps9 then st.v i / st.dv i else 0) }

/-- Step 5: normalize grid velocities. -/
def normalizeGrid (vrecpeq_f32 : F → F) (fNumCells : ℤ) (st : TransferState F) :
    TransferState F :=
  let st1 := forRange 0 (numBlocks4 fNumCells)
    (fun b st2 => normalizeBlock vrecpeq_f32 (4 * b) st2) st
  forRange (fNumCells - Int.tmod fNumCells 4) fNumCells (fun i st2 => normalizeScalar i st2)
    st1

/-- Step 6 for the cell `(i, j)`, the statement
`if (solidCurrent || solidLeft) { if (idx < fNumCells) u[idx] = prevU[idx]; }`. -/
def restoreCellU (fNumY fNumCells i j : ℤ) (st : TransferState F) : TransferState F :=
  let n := fNumY
  let idx := i * n + j
  let solidCurrent := decide (st.cellType idx = SOLID_CELL_CPP)
  let leftCellIdx := if i > 0 then (i - 1) * n + j else -1
  let solidLeft := decide (i > 0 ∧ leftCellIdx ≥ 0 ∧ leftCellIdx < fNumCells ∧
    st.cellType leftCellIdx = SOLID_CELL_CPP)
  if solidCurrent || solidLeft then
    (if idx < fNumCells then { st with u := Function.update st.u idx (st.prevU idx) } else st)
  else st

/-- Step 6 for the cell `(i, j)`, the statement
`if (solidCurrent || solidBottom) { if (idx < fNumCells) v[idx] = prevV[idx]; }`. -/
def restoreCellV (fNumY fNumCells i j : ℤ) (st : TransferState F) : TransferState F :=
  let n := fNumY
  let idx := i * n + j
  let solidCurrent := decide (st.cellType idx = SOLID_CELL_CPP)
  let bottomCellIdx := if j > 0 then i * n + (j - 1) else -1
  let solidBottom := decide (j > 0 ∧ bottomCellIdx ≥ 0 ∧ bottomCellIdx < fNumCells ∧
    st.cellType bottomCellIdx = SOLID_CELL_CPP)
  if solidCurrent || solidBottom then
    (if idx < fNumCells then { st with v := Function.update st.v idx (st.prevV idx) } else st)
  else st

/-- Step 6, body for the cell `(i, j)`: restore solid cell velocities from the snapshot
(`cellType` is not written, so `solidCurrent` has the same value in both statements). -/
def restoreCell (fNumY fNumCells i j : ℤ) (st : TransferState F) : TransferState F :=
  let n := fNumY
  let idx := i * n + j
  if idx < 0 ∨ idx ≥ fNumCells then st
  else restoreCellV fNumY fNumCells i j (restoreCellU fNumY fNumCells i j st)

/-- Step 6: the loop nest over all cells. -/
def restoreSolid (fNumX fNumY : ℤ) (st : TransferState F) : TransferState F :=
  forRange 0 fNumX (fun i st1 =>
    forRange 0 fNumY (fun j st2 => restoreCell fNumY (fNumX * fNumY) i j st2) st1) st

/-- The validity check lambda `isValidVelocitySample` of the G->P branch. -/
def isValidVelocitySample (cellType : ℤ → ℤ) (fNumCells n_stride sample_idx component : ℤ) :
    Bool :=
  if sample_idx < 0 ∨ sample_idx ≥ fNumCells then false
  else
    let neighbor_idx_offset := if component = 0 then n_stride else 1
    let neighbor_idx := sample_idx - neighbor_idx_offset
    let sample_cell_ok := decide (cellType sample_idx ≠ AIR_CELL_CPP)
    let neighbor_cell_ok := decide (neighbor_idx ≥ 0 ∧ neighbor_idx < fNumCells ∧
      cellType neighbor_idx ≠ AIR_CELL_CPP)
    sample_cell_ok || neighbor_cell_ok

/-- Validity flag `vkok` of a corner: `0`, overwritten by the lambda's answer when the
corner index is in range. -/
def cornerOk (cellType : ℤ → ℤ) (fNumCells n_stride nk comp : ℤ) : F :=
  if nk ≥ 0 ∧ nk < fNumCells then
    (if isValidVelocitySample cellType fNumCells n_stride nk comp then 1 else 0)
  else 0

/-- Guarded read `(nk >= 0 && nk < fNumCells) ? f[nk] : 0.0f`. -/
def readOrZero (f : ℤ → F) (fNumCells nk : ℤ) : F :=
  if nk ≥ 0 ∧ nk < fNumCells then f nk else 0

/-- G->P, body of the particle loop for component `comp`, reading `(f, prevF)`. -/
def gatherParticle (flipRatio : F) (f_arr prevF_arr : ℤ → F) (cellType : ℤ → ℤ)
    (particlePos : ℤ → F) (fNumX fNumY : ℤ) (hh invH : F) (comp i : ℤ)
    (particleVel : ℤ → F) : ℤ → F :=
  let n := fNumY
  let fNumCells := fNumX * fNumY
  let st := stencil fNumX fNumY hh invH comp (particlePos (2 * i)) (particlePos (2 * i + 1))
  let v0ok : F := cornerOk cellType fNumCells n st.n0 comp
  let v1ok : F := cornerOk cellType fNumCells n st.n1 comp
  let v2ok : F := cornerOk cellType fNumCells n st.n2 comp
  let v3ok : F := cornerOk cellType fNumCells n st.n3 comp
  let sumW := v0ok * st.w0 + v1ok * st.w1 + v2ok * st.w2 + v3ok * st.w3
  if sumW > eps9 then
    let f0 := readOrZero f_arr fNumCells st.n0
    let f1 := readOrZero f_arr fNumCells st.n1
    let f2 := readOrZero f_arr fNumCells st.n2
    let f3 := readOrZero f_arr fNumCells st.n3
    let pf0 := readOrZero prevF_arr fNumCells st.n0
    let pf1 := readOrZero prevF_arr fNumCells st.n1
    let pf2 := readOrZero prevF_arr fNumCells st.n2
    let pf3 := readOrZero prevF_arr fNumCells st.n3
    let picV := (v0ok * st.w0 * f0 + v1ok * st.w1 * f1 + v2ok * st.w2 * f2
      + v3ok * st.w3 * f3) / sumW
    let corr := (v0ok * st.w0 * (f0 - pf0) + v1ok * st.w1 * (f1 - pf1)
      + v2ok * st.w2 * (f2 - pf2) + v3ok * st.w3 * (f3 - pf3)) / sumW
    let flipV := particleVel (2 * i + comp) + corr
    Function.update particleVel (2 * i + comp) ((1 - flipRatio) * picV + flipRatio * flipV)
  else particleVel

/-- G->P for one component: the loop over all particles. -/
def gatherComp (flipRatio : F) (f_arr prevF_arr : ℤ → F) (cellType : ℤ → ℤ)
    (particlePos : ℤ → F) (fNumX fNumY : ℤ) (hh invH : F) (numParticles comp : ℤ)
    (particleVel : ℤ → F) : ℤ → F :=
  forRange 0 numParticles (fun i pv =>
    gatherParticle flipRatio f_arr prevF_arr cellType particlePos fNumX fNumY hh invH comp i
      pv) particleVel

/-- Steps 2 and 3 of the P->G branch: the two passes that rewrite `cellType`. -/
def classifyCells (s particlePos : ℤ → F) (fNumX fNumY : ℤ) (invH : F) (numParticles : ℤ)
    (st : TransferState F) : TransferState F :=
  let fNumCells := fNumX * fNumY
  let st2 := { st with cellType := initCellTypes s fNumCells st.cellType }
  { st2 with cellType := markFluid particlePos fNumX fNumY invH numParticles st2.cellType }

/-- Steps 1 to 5 of the P->G branch (everything before "6. Restore solid cell
velocities"). -/
def toGridSteps1to5 (vrecpeq_f32 : F → F) (st : TransferState F) (s particlePos : ℤ → F)
    (fNumX fNumY : ℤ) (hh invH : F) (numParticles : ℤ) : TransferState F :=
  let fNumCells := fNumX * fNumY
  let st1 := backupAndClear fNumCells st
  let st3 := classifyCells s particlePos fNumX fNumY invH numParticles st1
  let st4 := scatterAll particlePos fNumX fNumY hh invH numParticles st3
  normalizeGrid vrecpeq_f32 fNumCells st4

/-- The kernel `transferVelocities_native`. -/
def transferVelocities_native (vrecpeq_f32 : F → F) (toGrid : Bool) (flipRatio : F)
    (st : TransferState F) (s particlePos : ℤ → F) (fNumX fNumY : ℤ) (h invH : F)
    (numParticles : ℤ) : TransferState F :=
  let hh := h
  if toGrid then
    let st5 := toGridSteps1to5 vrecpeq_f32 st s particlePos fNumX fNumY hh invH numParticles
    restoreSolid fNumX fNumY st5
  else
    let pv0 := gatherComp flipRatio st.u st.prevU st.cellType particlePos fNumX fNumY hh invH
      numParticles 0 st.particleVel
    let pv1 := gatherComp flipRatio st.v st.prevV st.cellType particlePos fNumX fNumY hh invH
      numParticles 1 pv0
    { st with particleVel := pv1 }

/-! ## `updateParticleDensityGrid_native` -/

/-- Guarded accumulation `if (idx >= 0 && idx < fNumCells) grid[idx] += w`. -/
def addAt (fNumCells idx : ℤ) (w : F) (grid : ℤ → F) : ℤ → F :=
  if idx ≥ 0 ∧ idx < fNumCells then Function.update grid idx (grid idx + w) else grid

/-- Body of the accumulation loop of `updateParticleDensityGrid_native` for particle `i`. -/
def densityParticle (invH_param : F) (fNumX_param fNumY_param : ℤ) (h_param : F)
    (particlePos_param : ℤ → F) (i : ℤ) (grid : ℤ → F) : ℤ → F :=
  let n_stride := fNumY_param
  let fNumCells_param := fNumX_param * fNumY_param
  let hh_param := h_param
  let h2_param := (1 / 2) * hh_param
  let xa := particlePos_param (2 * i)
  let ya := particlePos_param (2 * i + 1)
  let xb := clamp_cpp xa hh_param ((((fNumX_param - 1 : ℤ) : F)) * hh_param)
  let yb := clamp_cpp ya hh_param ((((fNumY_param - 1 : ℤ) : F)) * hh_param)
  let x := xb - h2_param
  let y := yb - h2_param
  let x0 := toInt (floorf (x * invH_param))
  let y0 := toInt (floorf (y * invH_param))
  let tx := (x - (x0 : F) * hh_param) * invH_param
  let ty := (y - (y0 : F) * hh_param) * invH_param
  if x0 < 0 ∨ x0 ≥ fNumX_param - 1 ∨ y0 < 0 ∨ y0 ≥ fNumY_param - 1 then grid
  else
    let x1 := x0 + 1
    let y1 := y0 + 1
    let sx := 1 - tx
    let sy := 1 - ty
    let idx0 := x0 * n_stride + y0
    let idx1 := x1 * n_stride + y0
    let idx2 := x1 * n_stride + y1
    let idx3 := x0 * n_stride + y1
    addAt fNumCells_param idx3 (sx * ty)
      (addAt fNumCells_param idx2 (tx * ty)
        (addAt fNumCells_param idx1 (tx * sy)
          (addAt fNumCells_param idx0 (sx * sy) grid)))

/-- The kernel `updateParticleDensityGrid_native` (`particleRestDensity_param` is not
read by the source). -/
def updateParticleDensityGrid_native (numParticles : ℤ) (_particleRestDensity_param : F)
    (invH_param : F) (fNumX_param fNumY_param : ℤ) (h_param : F)
    (particlePos_param particleDensityGrid_param : ℤ → F) : ℤ → F :=
  let fNumCells_param := fNumX_param * fNumY_param
  let zeroed := forRange 0 fNumCells_param (fun i g => Function.update g i 0)
    particleDensityGrid_param
  forRange 0 numParticles (fun i g =>
    densityParticle invH_param fNumX_param fNumY_param h_param particlePos_param i g) zeroed

/-! ## `updateDynamicParticleColors_native` -/

/-- The constant `color_fade_s = 0.01f`. -/
def color_fade_s : F := 1 / 100

/-- The constant `low_density_threshold = 0.7f`. -/
def low_density_threshold : F := 7 / 10

/-- The constant `low_density_highlight_s = 0.8f`. -/
def low_density_highlight_s : F := 8 / 10

/-- The vector `fade_adjustments = {color_fade_s, color_fade_s, -color_fade_s, 0}`. -/
def fade_adjustments (l : ℤ) : F :=
  if l = 0 then color_fade_s else if l = 1 then color_fade_s
  else if l = 2 then -color_fade_s else 0

/-- The vector `highlight_color_vec = {0.8, 0.8, 1, 1}`. -/
def highlight_color_vec (l : ℤ) : F :=
  if l = 0 then low_density_highlight_s else if l = 1 then low_density_highlight_s
  else if l = 2 then 1 else if l = 3 then 1 else 0

/-- Body of the particle loop of `updateDynamicParticleColors_native` for particle `i`. -/
def colorParticle (particleRestDensity_param invH_param : F) (fNumX_param fNumY_param : ℤ)
    (particlePos_param particleDensityGrid_param : ℤ → F) (i : ℤ)
    (particleColor_param : ℤ → F) : ℤ → F :=
  let n_stride := fNumY_param
  let fNumCells_param := fNumX_param * fNumY_param
  let baseColorIdx := 4 * i
  let color_vec : ℤ → F := fun l => particleColor_param (baseColorIdx + l)
  let color_faded : ℤ → F := fun l => color_vec l - fade_adjustments l
  let color_clamped : ℤ → F := fun l => max 0 (min (color_faded l) 1)
  let col1 := store4 particleColor_param baseColorIdx color_clamped
  if particleRestDensity_param > eps9 then
    let xi := cellCoord fNumX_param invH_param (particlePos_param (2 * i))
    let yi := cellCoord fNumY_param invH_param (particlePos_param (2 * i + 1))
    let cellIdx := xi * n_stride + yi
    if cellIdx ≥ 0 ∧ cellIdx < fNumCells_param then
      let relDensity := particleDensityGrid_param cellIdx / particleRestDensity_param
      if relDensity < low_density_threshold then store4 col1 baseColorIdx highlight_color_vec
      else col1
    else col1
  else col1

/-- The kernel `updateDynamicParticleColors_native` (`h_param` is not read by the
source). -/
def updateDynamicParticleColors_native (numParticles : ℤ)
    (particleRestDensity_param invH_param : F) (fNumX_param fNumY_param : ℤ) (_h_param : F)
    (particlePos_param particleDensityGrid_param particleColor_param : ℤ → F) : ℤ → F :=
  forRange 0 numParticles (fun i col =>
    colorParticle particleRestDensity_param invH_param fNumX_param fNumY_param
      particlePos_param particleDensityGrid_param i col) particleColor_param

/-! ## `handleCollisions_native` -/

/-- The locals `px, py, pvx, pvy` of one particle. -/
structure Particle (F : Type) where
  /-- Position x. -/
  px : F
  /-- Position y. -/
  py : F
  /-- Velocity x. -/
  pvx : F
  /-- Velocity y. -/
  pvy : F

/-- The squared distance `d2Obs` of a particle from the obstacle centre. -/
def obsDistSq (obstacleX_param obstacleY_param : F) (q : Particle F) : F :=
  let dxObs := q.px - obstacleX_param
  let dyObs := q.py - obstacleY_param
  dxObs * dxObs + dyObs * dyObs

/-- The obstacle block `if (isObstacleActive_param) { ... }` of one particle. -/
def obstacleResponse (sqrtf : F → F) (particleRadius_param : F)
    (isObstacleActive_param : Bool)
    (obstacleX_param obstacleY_param obstacleRadius_param obstacleVelX_param
      obstacleVelY_param : F) (q : Particle F) : Particle F :=
  let r := particleRadius_param
  let obsInteractRadius := obstacleRadius_param + r
  let obsInteractRadiusSq := obsInteractRadius * obsInteractRadius
  if isObstacleActive_param then
    let dxObs := q.px - obstacleX_param
    let dyObs := q.py - obstacleY_param
    let d2Obs := obsDistSq obstacleX_param obstacleY_param q
    if d2Obs < obsInteractRadiusSq ∧ d2Obs > eps12 then
      let dObs := sqrtf d2Obs
      let overlapObs := obsInteractRadius - dObs
      let pushFactor : F := 1
      { px := q.px + (dxObs / dObs) * overlapObs * pushFactor
        py := q.py + (dyObs / dObs) * overlapObs * pushFactor
        pvx := obstacleVelX_param
        pvy := obstacleVelY_param }
    else q
  else q

/-- The squared distance `distSqToWallCenter` of a particle from the scene centre. -/
def wallDistSq (sceneCircleCenterX_param sceneCircleCenterY_param : F) (q : Particle F) : F :=
  let dxWall := q.px - sceneCircleCenterX_param
  let dyWall := q.py - sceneCircleCenterY_param
  dxWall * dxWall + dyWall * dyWall

/-- The wall block of one particle. -/
def wallResponse (sqrtf : F → F) (particleRadius_param sceneCircleCenterX_param
    sceneCircleCenterY_param sceneCircleRadius_param : F) (q : Particle F) : Particle F :=
  let r := particleRadius_param
  let wallCollisionRadius := sceneCircleRadius_param - r
  let dxWall := q.px - sceneCircleCenterX_param
  let dyWall := q.py - sceneCircleCenterY_param
  let distSqToWallCenter := wallDistSq sceneCircleCenterX_param sceneCircleCenterY_param q
  if distSqToWallCenter > wallCollisionRadius * wallCollisionRadius ∧
      distSqToWallCenter > eps12 then
    let distToWallCenter := sqrtf distSqToWallCenter
    let overlapWall := distToWallCenter - wallCollisionRadius
    { px := q.px - (dxWall / distToWallCenter) * overlapWall
      py := q.py - (dyWall / distToWallCenter) * overlapWall
      pvx := 0
      pvy := 0 }
  else q

/-- The two particle buffers written by `handleCollisions_native`. -/
structure ParticleBuffers (F : Type) where
  /-- Buffer `particlePos`. -/
  pos : ℤ → F
  /-- Buffer `particleVel`. -/
  vel : ℤ → F

/-- Load of particle `i` from the buffers. -/
def loadParticle (b : ParticleBuffers F) (i : ℤ) : Particle F :=
  let pIdx := 2 * i
  { px := b.pos pIdx, py := b.pos (pIdx + 1), pvx := b.vel pIdx, pvy := b.vel (pIdx + 1) }

/-- Body of the particle loop of `handleCollisions_native` for particle `i`. -/
def collideParticle (sqrtf : F → F) (particleRadius_param : F) (isObstacleActive_param : Bool)
    (obstacleX_param obstacleY_param obstacleRadius_param obstacleVelX_param
      obstacleVelY_param sceneCircleCenterX_param sceneCircleCenterY_param
      sceneCircleRadius_param : F) (i : ℤ) (b : ParticleBuffers F) : ParticleBuffers F :=
  let pIdx := 2 * i
  let q0 := loadParticle b i
  let q1 := obstacleResponse sqrtf particleRadius_param isObstacleActive_param obstacleX_param
    obstacleY_param obstacleRadius_param obstacleVelX_param obstacleVelY_param q0
  let q2 := wallResponse sqrtf particleRadius_param sceneCircleCenterX_param
    sceneCircleCenterY_param sceneCircleRadius_param q1
  { pos := Function.update (Function.update b.pos pIdx q2.px) (pIdx + 1) q2.py
    vel := Function.update (Function.update b.vel pIdx q2.pvx) (pIdx + 1) q2.pvy }

/-- The kernel `handleCollisions_native`. -/
def handleCollisions_native (sqrtf : F → F) (b : ParticleBuffers F) (numParticles : ℤ)
    (particleRadius_param : F) (isObstacleActive_param : Bool)
    (obstacleX_param obstacleY_param obstacleRadius_param obstacleVelX_param
      obstacleVelY_param sceneCircleCenterX_param sceneCircleCenterY_param
      sceneCircleRadius_param : F) : ParticleBuffers F :=
  forRange 0 numParticles (fun i b1 =>
    collideParticle sqrtf particleRadius_param isObstacleActive_param obstacleX_param
      obstacleY_param obstacleRadius_param obstacleVelX_param obstacleVelY_param
      sceneCircleCenterX_param sceneCircleCenterY_param sceneCircleRadius_param i b1) b

/-! ## Reading of `sqrtf` -/

/-- The function `sqrtf` returns an exact, non-negative square root of `x`. -/
def SqrtExactAt (sqrtf : F → F) (x : F) : Prop := 0 ≤ sqrtf x ∧ sqrtf x * sqrtf x = x

/-- The squared distance `dist2` of particles `ii` and `jj` as the pair bodies compute it
from `particlePos`. -/
def pairDistSq (particlePos : ℤ → F) (ii jj : ℤ) : F :=
  let dx_scalar := particlePos (2 * jj + 0) - particlePos (2 * ii + 0)
  let dy_scalar := particlePos (2 * jj + 1) - particlePos (2 * ii + 1)
  dx_scalar * dx_scalar + dy_scalar * dy_scalar

/-! ## Specification predicates for the P->G steps -/

/-- Step 1 has processed exactly the indices `0 ≤ idx < m` of the state `st0`. -/
def ClearedUpTo (st0 : TransferState F) (m : ℤ) (st : TransferState F) : Prop :=
  (∀ idx, st.prevU idx = if 0 ≤ idx ∧ idx < m then st0.u idx else st0.prevU idx) ∧
  (∀ idx, st.prevV idx = if 0 ≤ idx ∧ idx < m then st0.v idx else st0.prevV idx) ∧
  (∀ idx, st.du idx = if 0 ≤ idx ∧ idx < m then 0 else st0.du idx) ∧
  (∀ idx, st.dv idx = if 0 ≤ idx ∧ idx < m then 0 else st0.dv idx) ∧
  (∀ idx, st.u idx = if 0 ≤ idx ∧ idx < m then 0 else st0.u idx) ∧
  (∀ idx, st.v idx = if 0 ≤ idx ∧ idx < m then 0 else st0.v idx) ∧
  st.cellType = st0.cellType ∧ st.particleVel = st0.particleVel

/-- The scalar normalization `(df > 1e-9f) ? (f / df) : 0.0f`. -/
def normalizeValue (f df : F) : F := if df > eps9 then f / df else 0

/-- Step 5 has processed exactly the indices `0 ≤ idx < m` of the state `st0`, each with
the value of the scalar normalization. -/
def NormalizedUpTo (st0 : TransferState F) (m : ℤ) (st : TransferState F) : Prop :=
  (∀ idx, st.u idx =
    if 0 ≤ idx ∧ idx < m then normalizeValue (st0.u idx) (st0.du idx) else st0.u idx) ∧
  (∀ idx, st.v idx =
    if 0 ≤ idx ∧ idx < m then normalizeValue (st0.v idx) (st0.dv idx) else st0.v idx) ∧
  st.du = st0.du ∧ st.dv = st0.dv ∧ st.prevU = st0.prevU ∧ st.prevV = st0.prevV ∧
  st.cellType = st0.cellType ∧ st.particleVel = st0.particleVel

/-- The states `st0` and `st` agree on every buffer other than `u` and `v`. -/
def SameAux (st0 st : TransferState F) : Prop :=
  st.du = st0.du ∧ st.dv = st0.dv ∧ st.prevU = st0.prevU ∧ st.prevV = st0.prevV ∧
  st.cellType = st0.cellType ∧ st.particleVel = st0.particleVel

/-- Validity flag `v_k` of a corner sample `nk` as the G->P rule states it: `1` when the
corner is a grid index and either its cell is not AIR or its face-normal neighbour
(`nk - fNumY` for the x-component, `nk - 1` for the y-component) is a grid index whose cell
is not AIR; `0` otherwise. -/
def specValidFlag (cellType : ℤ → ℤ) (fNumCells fNumY comp nk : ℤ) : F :=
  if 0 ≤ nk ∧ nk < fNumCells ∧
      (cellType nk ≠ AIR_CELL_CPP ∨
        (0 ≤ nk - (if comp = 0 then fNumY else 1) ∧
          nk - (if comp = 0 then fNumY else 1) < fNumCells ∧
          cellType (nk - (if comp = 0 then fNumY else 1)) ≠ AIR_CELL_CPP))
  then 1 else 0

/-- The G->P update rule as stated: with `W = Σ v_k w_k`, the new component is
`(1 - flipRatio) * picV + flipRatio * (oldV + corr)` when `W > 1e-9`, where
`picV = Σ v_k w_k f[n_k] / W` and `corr = Σ v_k w_k (f[n_k] - prevF[n_k]) / W`; otherwise
it is `oldV`. -/
def specGatherValue (flipRatio : F) (f prevF : ℤ → F) (cellType : ℤ → ℤ)
    (fNumCells fNumY comp : ℤ) (sten : Stencil F) (oldV : F) : F :=
  let v0 : F := specValidFlag cellType fNumCells fNumY comp sten.n0
  let v1 : F := specValidFlag cellType fNumCells fNumY comp sten.n1
  let v2 : F := specValidFlag cellType fNumCells fNumY comp sten.n2
  let v3 : F := specValidFlag cellType fNumCells fNumY comp sten.n3
  let W := v0 * sten.w0 + v1 * sten.w1 + v2 * sten.w2 + v3 * sten.w3
  if W > eps9 then
    let picV := (v0 * sten.w0 * f sten.n0 + v1 * sten.w1 * f sten.n1
      + v2 * sten.w2 * f sten.n2 + v3 * sten.w3 * f sten.n3) / W
    let corr := (v0 * sten.w0 * (f sten.n0 - prevF sten.n0)
      + v1 * sten.w1 * (f sten.n1 - prevF sten.n1)
      + v2 * sten.w2 * (f sten.n2 - prevF sten.n2)
      + v3 * sten.w3 * (f sten.n3 - prevF sten.n3)) / W
    (1 - flipRatio) * picV + flipRatio * (oldV + corr)
  else oldV

/-! ## Specification of skipped particle bins -/

/-- Specification side of the skipped-bin property: the neighbour traversal with the bin
`skip` treated as empty, that is, the traversal of `neighbourLoop` in which the bin with
index `skip` contributes no particle, whatever its CSR range. -/
def neighbourLoopSkip {σ : Type} (skip : ℤ) (firstCellParticle cellParticleIds : ℤ → ℤ)
    (numParticles pNumX pNumY : ℤ) (pxi pyi ii : ℤ) (interact : ℤ → σ → σ) (st : σ) : σ :=
  forRange (max 0 (pxi - 1)) (min (pNumX - 1) (pxi + 1) + 1) (fun cx st1 =>
    forRange (max 0 (pyi - 1)) (min (pNumY - 1) (pyi + 1) + 1) (fun cy st2 =>
      if cx * pNumY + cy = skip then st2
      else if cx * pNumY + cy < 0 ∨ cx * pNumY + cy + 1 > pNumX * pNumY then st2
      else if firstCellParticle (cx * pNumY + cy) < 0 ∨
          firstCellParticle (cx * pNumY + cy + 1) < firstCellParticle (cx * pNumY + cy) ∨
          firstCellParticle (cx * pNumY + cy + 1) > numParticles then st2
      else
        forRange (firstCellParticle (cx * pNumY + cy))
          (firstCellParticle (cx * pNumY + cy + 1)) (fun k st3 =>
            if k < 0 ∨ k ≥ numParticles then st3
            else if cellParticleIds k = ii then st3
            else if cellParticleIds k < 0 ∨ cellParticleIds k ≥ numParticles then st3
            else interact (cellParticleIds k) st3) st2) st1) st

/-- Specification side of the skipped-bin property: `pushParticlesApart_native` with the
bin `skip` treated as empty. -/
def pushParticlesApartSkip (skip : ℤ) (sqrtf : F → F) (particlePos : ℤ → F)
    (firstCellParticle cellParticleIds : ℤ → ℤ) (numParticles pNumX pNumY : ℤ)
    (pInvSpacing : F) (numIters : ℤ) (particleRadius minDist2 : F) : ℤ → F :=
  forRange 0 numIters (fun _ pos1 =>
    forRange 0 numParticles (fun ii pos2 =>
      neighbourLoopSkip skip firstCellParticle cellParticleIds numParticles pNumX pNumY
        (binCoord pNumX pInvSpacing (pos2 (2 * ii)))
        (binCoord pNumY pInvSpacing (pos2 (2 * ii + 1))) ii
        (fun jj pos => pushPair sqrtf (2 * particleRadius) minDist2 ii jj pos) pos2) pos1)
    particlePos

/-- Specification side of the skipped-bin property: `diffuseParticleColors_native` with the
bin `skip` treated as empty. -/
def diffuseParticleColorsSkip (skip : ℤ) (particlePos particleColor_param : ℤ → F)
    (firstCellParticle cellParticleIds : ℤ → ℤ) (numParticles pNumX pNumY : ℤ)
    (pInvSpacing particleRadius : F) (enableDynamicColoring : Bool)
    (colorDiffusionCoeff_param : F) : ℤ → F :=
  if !enableDynamicColoring ∨ numParticles = 0 then particleColor_param
  else
    forRange 0 numParticles (fun ii col =>
      neighbourLoopSkip skip firstCellParticle cellParticleIds numParticles pNumX pNumY
        (binCoord pNumX pInvSpacing (particlePos (2 * ii)))
        (binCoord pNumY pInvSpacing (particlePos (2 * ii + 1))) ii
        (fun jj col1 => diffusePair particlePos
          ((2 * particleRadius) * (2 * particleRadius)) colorDiffusionCoeff_param ii jj col1)
        col) particleColor_param

/-! ## Specification predicate for the neighbour traversal -/

/-- The bins list particle `jj` in a bin of the 3 x 3 window around the bin `(pxi, pyi)`:
some bin `(cx, cy)` of the window has a grid index, a well-formed CSR range within
`[0, numParticles]`, and an entry `k` of that range with `cellParticleIds[k] = jj`. -/
def EnumeratesNeighbour (firstCellParticle cellParticleIds : ℤ → ℤ)
    (numParticles pNumX pNumY pxi pyi jj : ℤ) : Prop :=
  ∃ cx cy k : ℤ,
    (max 0 (pxi - 1) ≤ cx ∧ cx ≤ min (pNumX - 1) (pxi + 1)) ∧
    (max 0 (pyi - 1) ≤ cy ∧ cy ≤ min (pNumY - 1) (pyi + 1)) ∧
    (0 ≤ cx * pNumY + cy ∧ cx * pNumY + cy + 1 ≤ pNumX * pNumY) ∧
    (0 ≤ firstCellParticle (cx * pNumY + cy) ∧
      firstCellParticle (cx * pNumY + cy) ≤ k ∧
      k < firstCellParticle (cx * pNumY + cy + 1) ∧
      firstCellParticle (cx * pNumY + cy + 1) ≤ numParticles) ∧
    cellParticleIds k = jj

/-! ## Local quantities of the pressure loop -/

/-- The local `sumS` of the pressure loop for the cell `(i, j)`:
`s[left] + s[right] + s[bottom] + s[top]`. -/
def cellSumS (s : ℤ → F) (n i j : ℤ) : F :=
  s ((i - 1) * n + j) + s ((i + 1) * n + j) + s (i * n + (j - 1)) + s (i * n + (j + 1))

/-- The discrete divergence `(u[right] - u[idx]) + (v[top] - v[idx])` of the cell `(i, j)`,
the initial value of the local `div` of the pressure loop. -/
def cellDivergence (st : PressureState F) (n i j : ℤ) : F :=
  (st.u ((i + 1) * n + j) - st.u (i * n + j)) + (st.v (i * n + (j + 1)) - st.v (i * n + j))

/-- Body of the core pressure loop for the cell `(i, j)` with the quotient of
`-div / sumS` computed by the parameter `divide`; `gsCell` is the instance in which
`divide` is the field division. -/
def gsCellDiv (divide : F → F → F) (s : ℤ → F) (cellType : ℤ → ℤ)
    (particleDensity : ℤ → F) (n : ℤ) (cp overRelaxation particleRestDensity : F)
    (compensateDrift : Bool) (i j : ℤ) (st : PressureState F) : PressureState F :=
  let idx := i * n + j
  if cellType idx ≠ FLUID_CELL_CPP then st
  else
    let left := (i - 1) * n + j
    let right := (i + 1) * n + j
    let bottom := i * n + (j - 1)
    let top := i * n + (j + 1)
    let sx0_from_code := s left
    let sx1_from_code := s right
    let sy0_from_code := s bottom
    let sy1_from_code := s top
    let sumS := sx0_from_code + sx1_from_code + sy0_from_code + sy1_from_code
    if sumS < eps9 then st
    else
      let div0 := (st.u right - st.u idx) + (st.v top - st.v idx)
      let div :=
        if particleRestDensity > 0 ∧ compensateDrift = true then
          let comp := particleDensity idx - particleRestDensity
          if comp > 0 then div0 - comp else div0
        else div0
      let pressure_update := divide (-div) sumS * overRelaxation
      let p1 := Function.update st.p idx (st.p idx + cp * pressure_update)
      let u1 := Function.update st.u idx (st.u idx - sx0_from_code * pressure_update)
      let u2 := Function.update u1 right (u1 right + sx1_from_code * pressure_update)
      let v1 := Function.update st.v idx (st.v idx - sy0_from_code * pressure_update)
      let v2 := Function.update v1 top (v1 top + sy1_from_code * pressure_update)
      { u := u2, v := v2, p := p1 }

/-- The core pressure loop with the quotient computed by the parameter `divide`. -/
def gaussSeidelDiv (divide : F → F → F) (s : ℤ → F) (cellType : ℤ → ℤ)
    (particleDensity : ℤ → F) (fNumX fNumY numIters : ℤ)
    (cp overRelaxation particleRestDensity : F) (compensateDrift : Bool)
    (st : PressureState F) : PressureState F :=
  forRange 0 numIters (fun _ st1 =>
    forRange 1 (fNumX - 1) (fun i st2 =>
      forRange 1 (fNumY - 1) (fun j st3 =>
        gsCellDiv divide s cellType particleDensity fNumY cp overRelaxation
          particleRestDensity compensateDrift i j st3) st2) st1) st

/-! ## Sums of particle coordinates -/

/-- The sum over all particles `0 ≤ i < numParticles` of the coordinate `particlePos[2i + c]`
(`c = 0` for x, `c = 1` for y). -/
def sumCoord (particlePos : ℤ → F) (numParticles c : ℤ) : F :=
  ∑ i in Finset.Ico (0 : ℤ) numParticles, particlePos (2 * i + c)

/-! ## Specification side of the vector/scalar equivalence of boundary enforcement -/

/-- Specification side of the vector/scalar equivalence: one row of a boundary-enforcement
loop in which every face `j = 0 .. fNumY - 1` is handled by the scalar path. -/
def enforceRowScalar (scalar : ℤ → F → F) (rowBase fNumY : ℤ) (f : ℤ → F) : ℤ → F :=
  forRange 0 fNumY (fun j g => Function.update g (rowBase + j) (scalar j (g (rowBase + j)))) f

/-- Specification side of the vector/scalar equivalence: the loop "Enforce U-velocities"
with every face handled by the scalar path (`isCellStaticWall_native` /
`isCellDraggable_native`). -/
def enforceUScalar (fNumX fNumY : ℤ) (h circleCenterX circleCenterY circleRadius : F)
    (isObstacleActive : Bool) (obstacleX obstacleY obstacleRadiusCpp obstacleVelX : F)
    (u : ℤ → F) : ℤ → F :=
  forRange 0 fNumX (fun i_face g =>
    enforceRowScalar
      (fun j old => scalarValue fNumX fNumY h circleCenterX circleCenterY circleRadius
        isObstacleActive obstacleX obstacleY obstacleRadiusCpp obstacleVelX
        (i_face - 1) j i_face j old)
      (i_face * fNumY) fNumY g) u

/-- Specification side of the vector/scalar equivalence: the loop "Enforce V-velocities"
with every face handled by the scalar path. -/
def enforceVScalar (fNumX fNumY : ℤ) (h circleCenterX circleCenterY circleRadius : F)
    (isObstacleActive : Bool) (obstacleX obstacleY obstacleRadiusCpp obstacleVelY : F)
    (v : ℤ → F) : ℤ → F :=
  forRange 0 fNumX (fun i_col g =>
    enforceRowScalar
      (fun j old => scalarValue fNumX fNumY h circleCenterX circleCenterY circleRadius
        isObstacleActive obstacleX obstacleY obstacleRadiusCpp obstacleVelY
        i_col (j - 1) i_col j old)
      (i_col * fNumY) fNumY g) v

/-! ## Sums over a grid and over the particles' colour channels -/

/-- The sum of the entries `grid[0 .. fNumCells - 1]`. -/
def gridSum (grid : ℤ → F) (fNumCells : ℤ) : F :=
  ∑ x in Finset.Ico (0 : ℤ) fNumCells, grid x

/-- The sum over all particles `0 ≤ i < numParticles` of the colour channel
`particleColor[4i + l]`. -/
def sumChannel (particleColor : ℤ → F) (numParticles l : ℤ) : F :=
  ∑ i in Finset.Ico (0 : ℤ) numParticles, particleColor (4 * i + l)

/-! ## Example inputs -/

/-- Example input: a transfer state with arbitrary buffer contents and one particle of
velocity `(2, 3)`. -/
def exampleState : TransferState ℚ :=
  { u := fun _ => 7, v := fun _ => 9, du := fun _ => 5, dv := fun _ => 6,
    prevU := fun _ => 0, prevV := fun _ => 0, cellType := fun _ => 7,
    particleVel := fun m => if m = 0 then 2 else 3 }

/-- Example input: a transfer state with arbitrary buffer contents in which every particle
has velocity `(1, 1)`. -/
def uniformVelocityState : TransferState ℚ :=
  { u := fun _ => 7, v := fun _ => 9, du := fun _ => 5, dv := fun _ => 6,
    prevU := fun _ => 0, prevV := fun _ => 0, cellType := fun _ => 7,
    particleVel := fun _ => 1 }

/-- Example input: two particles, the first at `(1, 5/2)` and the second at
`(1 + 2^-23, 3/2 + 2^-23)`; all four coordinates are binary32 values. -/
def twoParticlePositions : ℤ → ℚ :=
  fun k => if k = 0 then 1 else if k = 1 then 5 / 2
    else if k = 2 then 8388609 / 8388608 else 12582913 / 8388608

/-- Example input for the parameter `vrecpeq_f32`: the exact reciprocal. -/
def exactReciprocal (d : ℚ) : ℚ := 1 / d

end Kernels

/-! # Theorems -/

section LoopLemmas

variable {σ : Type}

theorem foldl_range_induction (P : ℕ → σ → Prop) (body : ℕ → σ → σ) (st : σ) (m : ℕ)
    (h0 : P 0 st) (hstep : ∀ k s, k < m → P k s → P (k + 1) (body k s)) :
    P m ((List.range m).foldl (fun acc k => body k acc) st) := by
  induction m with
  | zero => simpa using h0
  | succ m ih =>
    rw [List.range_succ, List.foldl_append]
    simp only [List.foldl_cons, List.foldl_nil]
    apply hstep m _ (Nat.lt_succ_self m)
    exact ih (fun k s hk hP => hstep k s (Nat.lt_succ_of_lt hk) hP)

/-- Loop invariant rule for `forRange`: an invariant indexed by the loop counter. -/
theorem forRange_induction (P : ℤ → σ → Prop) (lo hi : ℤ) (body : ℤ → σ → σ) (st : σ)
    (h0 : P lo st) (hstep : ∀ k s, lo ≤ k → k < hi → P k s → P (k + 1) (body k s)) :
    P (max lo hi) (forRange lo hi body st) := by
  have key := foldl_range_induction (fun m s => P (lo + (m : ℤ)) s)
    (fun k s => body (lo + (k : ℤ)) s) st (hi - lo).toNat (by simpa using h0)
    (fun k s hk hP => by
      have hk' : (k : ℤ) < hi - lo := by
        have := Int.toNat_lt (n := k) (z := hi - lo)
        omega
      have := hstep (lo + (k : ℤ)) s (by omega) (by omega) hP
      simpa [add_assoc] using this)
  have hmax : lo + (((hi - lo).toNat : ℕ) : ℤ) = max lo hi := by
    rcases le_total lo hi with h | h
    · rw [max_eq_right h, Int.toNat_of_nonneg (by omega)]; omega
    · rw [max_eq_left h, Int.toNat_eq_zero.mpr (by omega)]; simp
  rw [← hmax]
  unfold forRange
  exact key

/-- Loop invariant rule for `forRange`: an invariant that does not mention the counter. -/
theorem forRange_preserves (P : σ → Prop) (lo hi : ℤ) (body : ℤ → σ → σ) (st : σ)
    (h0 : P st) (hstep : ∀ k s, lo ≤ k → k < hi → P s → P (body k s)) :
    P (forRange lo hi body st) :=
  forRange_induction (fun _ s => P s) lo hi body st h0 hstep

theorem forRange_empty (lo hi : ℤ) (body : ℤ → σ → σ) (st : σ) (h : hi ≤ lo) :
    forRange lo hi body st = st := by
  unfold forRange
  rw [Int.toNat_eq_zero.mpr (by omega)]
  rfl

theorem forRange_zero_four (body : ℤ → σ → σ) (st : σ) :
    forRange 0 4 body st = body 3 (body 2 (body 1 (body 0 st))) := by
  unfold forRange
  have h4 : ((4 : ℤ) - 0).toNat = 4 := by decide
  rw [h4]
  simp [List.range_succ]

theorem numBlocks4_nonneg (m : ℤ) : 0 ≤ numBlocks4 m := by
  unfold numBlocks4; omega

theorem numBlocks4_le (m : ℤ) (hm : 0 ≤ m) : 4 * numBlocks4 m ≤ m := by
  unfold numBlocks4
  rw [Int.toNat_of_nonneg (Int.ediv_nonneg hm (by norm_num))]
  omega

theorem numBlocks4_neg (m : ℤ) (hm : m < 0) : numBlocks4 m = 0 := by
  unfold numBlocks4
  rw [Int.toNat_eq_zero.mpr (by omega)]
  rfl

end LoopLemmas

section Proofs

variable {F : Type} [LinearOrderedField F]

/-! ## Boundary enforcement -/

theorem store4_apply (f : ℤ → F) (base : ℤ) (lanes : ℤ → F) (x : ℤ) :
    store4 f base lanes x = if base ≤ x ∧ x < base + 4 then lanes (x - base) else f x := by
  unfold store4
  rw [forRange_zero_four]
  simp only [Function.update_apply]
  split_ifs <;> first
    | omega
    | rfl
    | (congr 1; omega)

theorem storeBlock4_apply (lane : ℤ → F → F) (rowBase j0 : ℤ) (f : ℤ → F) (x : ℤ) :
    storeBlock4 lane rowBase j0 f x =
      if rowBase + j0 ≤ x ∧ x < rowBase + j0 + 4 then lane (x - rowBase) (f x) else f x := by
  unfold storeBlock4
  simp only [store4_apply]
  split_ifs with h
  · have e1 : j0 + (x - (rowBase + j0)) = x - rowBase := by ring
    have e2 : rowBase + j0 + (x - (rowBase + j0)) = x := by ring
    rw [e1, e2]
  · rfl

/-- The value a boundary-enforcement row leaves at every index, when the lane path and
the scalar path compute the same value. -/
theorem enforceRow_apply (lane scalar : ℤ → F → F) (hls : ∀ j old, lane j old = scalar j old)
    (rowBase fNumY : ℤ) (f : ℤ → F) (x : ℤ) :
    enforceRow lane scalar rowBase fNumY f x =
      if rowBase ≤ x ∧ x < rowBase + fNumY then scalar (x - rowBase) (f x) else f x := by
  unfold enforceRow
  have hb := forRange_induction
    (fun b g => ∀ y, g y =
      if rowBase ≤ y ∧ y < rowBase + 4 * b then scalar (y - rowBase) (f y) else f y)
    0 (numBlocks4 fNumY) (fun b g => storeBlock4 lane rowBase (4 * b) g) f
    (by intro y; rw [if_neg (by omega)])
    (by
      intro k g hk0 _ hP y
      show storeBlock4 lane rowBase (4 * k) g y = _
      rw [storeBlock4_apply, hP y, hls]
      split_ifs <;> first
        | rfl
        | omega)
  rw [max_eq_right (numBlocks4_nonneg fNumY)] at hb
  have hr := forRange_induction
    (fun j g => ∀ y, g y =
      if rowBase ≤ y ∧ y < rowBase + j then scalar (y - rowBase) (f y) else f y)
    (4 * numBlocks4 fNumY) fNumY
    (fun j g => Function.update g (rowBase + j) (scalar j (g (rowBase + j))))
    _ hb
    (by
      intro k g hk0 _ hP y
      have hk : 0 ≤ k := le_trans (by have := numBlocks4_nonneg fNumY; omega) hk0
      show Function.update g (rowBase + k) (scalar k (g (rowBase + k))) y = _
      rw [Function.update_apply, hP y, hP (rowBase + k)]
      split_ifs <;> first
        | rfl
        | omega
        | (subst_vars; simp))
  rcases lt_or_le fNumY 0 with hneg | hpos
  · rw [numBlocks4_neg fNumY hneg] at hr ⊢
    rw [hr x, max_eq_left (by omega)]
    split_ifs <;> first
      | rfl
      | omega
  · rw [max_eq_right (numBlocks4_le fNumY hpos)] at hr
    exact hr x

/-- The value a boundary-enforcement loop nest leaves at the face `(i, j)`. -/
theorem enforceGrid_apply (lane scalar : ℤ → ℤ → F → F)
    (hls : ∀ i j old, lane i j old = scalar i j old) (fNumX fNumY : ℤ) (f : ℤ → F)
    (i j : ℤ) (hi0 : 0 ≤ i) (hi1 : i < fNumX) (hj0 : 0 ≤ j) (hj1 : j < fNumY) :
    forRange 0 fNumX (fun i_face g =>
        enforceRow (lane i_face) (scalar i_face) (i_face * fNumY) fNumY g) f
      (i * fNumY + j) = scalar i j (f (i * fNumY + j)) := by
  have h := forRange_induction
    (fun k g => g (i * fNumY + j) =
      if i < k then scalar i j (f (i * fNumY + j)) else f (i * fNumY + j))
    0 fNumX (fun i_face g =>
        enforceRow (lane i_face) (scalar i_face) (i_face * fNumY) fNumY g) f
    (by simp [not_lt.mpr hi0])
    (by
      intro k g hk0 _ hP
      show enforceRow (lane k) (scalar k) (k * fNumY) fNumY g (i * fNumY + j) = _
      rw [enforceRow_apply _ _ (hls k), hP]
      rcases lt_trichotomy i k with hlt | heq | hgt
      · have h1 : (i + 1) * fNumY ≤ k * fNumY :=
          mul_le_mul_of_nonneg_right (by omega) (by omega)
        have h2 : ¬ (k * fNumY ≤ i * fNumY + j ∧ i * fNumY + j < k * fNumY + fNumY) := by
          intro hc; nlinarith [hc.1]
        rw [if_neg h2, if_pos hlt, if_pos (by omega)]
      · subst heq
        have h2 : (i * fNumY ≤ i * fNumY + j ∧ i * fNumY + j < i * fNumY + fNumY) := by
          constructor <;> omega
        rw [if_pos h2, if_neg (lt_irrefl _), if_pos (by omega)]
        congr 1
        ring
      · have h1 : (k + 1) * fNumY ≤ i * fNumY :=
          mul_le_mul_of_nonneg_right (by omega) (by omega)
        have h2 : ¬ (k * fNumY ≤ i * fNumY + j ∧ i * fNumY + j < k * fNumY + fNumY) := by
          intro hc; nlinarith [hc.2]
        rw [if_neg h2, if_neg (by omega), if_neg (by omega)])
  rw [max_eq_right (by omega)] at h
  rw [h, if_pos hi1]

theorem laneStatic_eq (ix iy fNumX fNumY : ℤ) (h cx cy cr : F) :
    laneStatic ix iy fNumX fNumY h cx cy (cr * cr) =
      isCellStaticWall_native ix iy fNumX fNumY h cx cy cr := by
  unfold laneStatic isCellStaticWall_native
  by_cases hd : ix < 0 ∨ ix ≥ fNumX ∨ iy < 0 ∨ iy ≥ fNumY
  · rw [if_pos hd]
    rcases hd with h1 | h1 | h1 | h1 <;> simp [h1]
  · rw [if_neg hd]
    push_neg at hd
    obtain ⟨h1, h2, h3, h4⟩ := hd
    simp [not_lt.mpr h1, not_le.mpr h2, not_lt.mpr h3, not_le.mpr h4]

theorem laneDraggable_eq (ix iy fNumX fNumY : ℤ) (h : F) (act : Bool) (ox oy orad : F) :
    laneDraggable ix iy fNumX fNumY h act ox oy (orad * orad) =
      isCellDraggable_native ix iy fNumX fNumY h act ox oy orad := by
  unfold laneDraggable isCellDraggable_native
  cases act
  · simp
  · by_cases hd : ix < 0 ∨ ix ≥ fNumX ∨ iy < 0 ∨ iy ≥ fNumY
    · simp only [if_true, Bool.not_true, if_pos hd]
      rcases hd with h1 | h1 | h1 | h1 <;> simp [h1]
    · simp only [if_true, Bool.not_true, if_neg hd]
      push_neg at hd
      obtain ⟨h1, h2, h3, h4⟩ := hd
      simp [not_lt.mpr h1, not_le.mpr h2, not_lt.mpr h3, not_le.mpr h4]

/-- The 4-wide masked lane computes the value of the scalar remainder path. -/
theorem laneValue_eq_scalarValue (fNumX fNumY : ℤ) (h cx cy cr : F) (act : Bool)
    (ox oy orad ovel : F) (ax ay bx by_ : ℤ) (old : F) :
    laneValue fNumX fNumY h cx cy cr act ox oy orad ovel ax ay bx by_ old =
      scalarValue fNumX fNumY h cx cy cr act ox oy orad ovel ax ay bx by_ old := by
  unfold laneValue scalarValue laneSelect
  simp only [laneStatic_eq, laneDraggable_eq, Bool.false_or]
  cases isCellStaticWall_native ax ay fNumX fNumY h cx cy cr <;>
    cases isCellStaticWall_native bx by_ fNumX fNumY h cx cy cr <;>
    cases isCellDraggable_native ax ay fNumX fNumY h act ox oy orad <;>
    cases isCellDraggable_native bx by_ fNumX fNumY h act ox oy orad <;> simp

theorem enforceU_apply (fNumX fNumY : ℤ) (h cx cy cr : F) (act : Bool) (ox oy orad ovel : F)
    (u : ℤ → F) (i j : ℤ) (hi0 : 0 ≤ i) (hi1 : i < fNumX) (hj0 : 0 ≤ j) (hj1 : j < fNumY) :
    enforceU fNumX fNumY h cx cy cr act ox oy orad ovel u (i * fNumY + j) =
      scalarValue fNumX fNumY h cx cy cr act ox oy orad ovel (i - 1) j i j
        (u (i * fNumY + j)) := by
  unfold enforceU
  exact enforceGrid_apply
    (fun i_face j old => laneValue fNumX fNumY h cx cy cr act ox oy orad ovel
      (i_face - 1) j i_face j old)
    (fun i_face j old => scalarValue fNumX fNumY h cx cy cr act ox oy orad ovel
      (i_face - 1) j i_face j old)
    (fun i_face j old => laneValue_eq_scalarValue _ _ _ _ _ _ _ _ _ _ _ _ _ _ _ _)
    fNumX fNumY u i j hi0 hi1 hj0 hj1

theorem enforceV_apply (fNumX fNumY : ℤ) (h cx cy cr : F) (act : Bool) (ox oy orad ovel : F)
    (v : ℤ → F) (i j : ℤ) (hi0 : 0 ≤ i) (hi1 : i < fNumX) (hj0 : 0 ≤ j) (hj1 : j < fNumY) :
    enforceV fNumX fNumY h cx cy cr act ox oy orad ovel v (i * fNumY + j) =
      scalarValue fNumX fNumY h cx cy cr act ox oy orad ovel i (j - 1) i j
        (v (i * fNumY + j)) := by
  unfold enforceV
  exact enforceGrid_apply
    (fun i_col j old => laneValue fNumX fNumY h cx cy cr act ox oy orad ovel
      i_col (j - 1) i_col j old)
    (fun i_col j old => scalarValue fNumX fNumY h cx cy cr act ox oy orad ovel
      i_col (j - 1) i_col j old)
    (fun i_col j old => laneValue_eq_scalarValue _ _ _ _ _ _ _ _ _ _ _ _ _ _ _ _)
    fNumX fNumY v i j hi0 hi1 hj0 hj1

/-! ## C1, C2: boundary enforcement at static-wall and draggable-obstacle faces -/

/-- C1: after `solveIncompressibility_native` returns, for every face index `(i, j)` with
`0 ≤ i < fNumX` and `0 ≤ j < fNumY`: if cell `(i-1, j)` or cell `(i, j)` is a static-wall
cell then `u[i*fNumY + j] = 0`, and if cell `(i, j-1)` or cell `(i, j)` is a static-wall
cell then `v[i*fNumY + j] = 0`; this holds for either value of `isObstacleActive` and
whatever the pressure loop produced. -/
theorem C1_static_wall_faces_are_zero (st : PressureState F) (s : ℤ → F) (cellType : ℤ → ℤ)
    (particleDensity : ℤ → F) (fNumX fNumY numIters : ℤ)
    (h dt density overRelaxation particleRestDensity : F) (compensateDrift : Bool)
    (circleCenterX circleCenterY circleRadius : F) (isObstacleActive : Bool)
    (obstacleX obstacleY obstacleRadiusCpp obstacleVelX obstacleVelY : F)
    (i j : ℤ) (hi0 : 0 ≤ i) (hi1 : i < fNumX) (hj0 : 0 ≤ j) (hj1 : j < fNumY) :
    ((isCellStaticWall_native (i - 1) j fNumX fNumY h circleCenterX circleCenterY
          circleRadius = true ∨
        isCellStaticWall_native i j fNumX fNumY h circleCenterX circleCenterY
          circleRadius = true) →
      (solveIncompressibility_native st s cellType particleDensity fNumX fNumY numIters h dt
        density overRelaxation particleRestDensity compensateDrift circleCenterX
        circleCenterY circleRadius isObstacleActive obstacleX obstacleY obstacleRadiusCpp
        obstacleVelX obstacleVelY).u (i * fNumY + j) = 0) ∧
    ((isCellStaticWall_native i (j - 1) fNumX fNumY h circleCenterX circleCenterY
          circleRadius = true ∨
        isCellStaticWall_native i j fNumX fNumY h circleCenterX circleCenterY
          circleRadius = true) →
      (solveIncompressibility_native st s cellType particleDensity fNumX fNumY numIters h dt
        density overRelaxation particleRestDensity compensateDrift circleCenterX
        circleCenterY circleRadius isObstacleActive obstacleX obstacleY obstacleRadiusCpp
        obstacleVelX obstacleVelY).v (i * fNumY + j) = 0) := by
  unfold solveIncompressibility_native
  constructor
  · intro hs
    show enforceU _ _ _ _ _ _ _ _ _ _ _ _ (i * fNumY + j) = 0
    rw [enforceU_apply _ _ _ _ _ _ _ _ _ _ _ _ i j hi0 hi1 hj0 hj1]
    unfold scalarValue
    rcases hs with hs | hs <;> simp [hs]
  · intro hs
    show enforceV _ _ _ _ _ _ _ _ _ _ _ _ (i * fNumY + j) = 0
    rw [enforceV_apply _ _ _ _ _ _ _ _ _ _ _ _ i j hi0 hi1 hj0 hj1]
    unfold scalarValue
    rcases hs with hs | hs <;> simp [hs]

/-- Witness for C1: a 5×5 grid with `h = 1`, scene circle of radius 2 around `(5/2, 5/2)`,
obstacle active; face `(1, 0)` adjoins the static cell `(0, 0)` (outside the circle) and
the out-of-range cell `(1, -1)`. -/
theorem C1_static_wall_faces_are_zero_witness :
    ((0 : ℤ) ≤ 1 ∧ (1 : ℤ) < 5 ∧ (0 : ℤ) ≤ 0 ∧ (0 : ℤ) < 5) ∧
    isCellStaticWall_native (1 - 1) 0 5 5 (1 : ℚ) (5 / 2) (5 / 2) 2 = true ∧
    isCellStaticWall_native 1 (0 - 1) 5 5 (1 : ℚ) (5 / 2) (5 / 2) 2 = true ∧
    (solveIncompressibility_native (F := ℚ)
        { u := fun _ => 7, v := fun _ => 9, p := fun _ => 0 } (fun _ => 1) (fun _ => 0)
        (fun _ => 0) 5 5 2 1 1 1 (19 / 10) 0 false (5 / 2) (5 / 2) 2 true (5 / 2) (5 / 2) 1
        3 4).u (1 * 5 + 0) = 0 ∧
    (solveIncompressibility_native (F := ℚ)
        { u := fun _ => 7, v := fun _ => 9, p := fun _ => 0 } (fun _ => 1) (fun _ => 0)
        (fun _ => 0) 5 5 2 1 1 1 (19 / 10) 0 false (5 / 2) (5 / 2) 2 true (5 / 2) (5 / 2) 1
        3 4).v (1 * 5 + 0) = 0 := by
  have hu : isCellStaticWall_native (1 - 1) 0 5 5 (1 : ℚ) (5 / 2) (5 / 2) 2 = true := by
    norm_num [isCellStaticWall_native]
  have hv : isCellStaticWall_native 1 (0 - 1) 5 5 (1 : ℚ) (5 / 2) (5 / 2) 2 = true := by
    norm_num [isCellStaticWall_native]
  have key := C1_static_wall_faces_are_zero (F := ℚ)
    { u := fun _ => 7, v := fun _ => 9, p := fun _ => 0 } (fun _ => 1) (fun _ => 0)
    (fun _ => 0) 5 5 2 1 1 1 (19 / 10) 0 false (5 / 2) (5 / 2) 2 true (5 / 2) (5 / 2) 1
    3 4 1 0 (by norm_num) (by norm_num) (by norm_num) (by norm_num)
  exact ⟨by norm_num, hu, hv, key.1 (Or.inl hu), key.2 (Or.inl hv)⟩

/-- C2: after `solveIncompressibility_native` with the obstacle active, for every in-range
face `(i, j)` neither of whose two adjacent cells is a static-wall cell: if cell `(i-1, j)`
or `(i, j)` is a draggable-obstacle cell then `u[i*fNumY + j] = obstacleVelX`, and if cell
`(i, j-1)` or `(i, j)` is a draggable-obstacle cell then `v[i*fNumY + j] = obstacleVelY`. -/
theorem C2_obstacle_faces_take_obstacle_velocity (st : PressureState F) (s : ℤ → F)
    (cellType : ℤ → ℤ) (particleDensity : ℤ → F) (fNumX fNumY numIters : ℤ)
    (h dt density overRelaxation particleRestDensity : F) (compensateDrift : Bool)
    (circleCenterX circleCenterY circleRadius : F)
    (obstacleX obstacleY obstacleRadiusCpp obstacleVelX obstacleVelY : F)
    (i j : ℤ) (hi0 : 0 ≤ i) (hi1 : i < fNumX) (hj0 : 0 ≤ j) (hj1 : j < fNumY) :
    (isCellStaticWall_native (i - 1) j fNumX fNumY h circleCenterX circleCenterY
          circleRadius = false →
      isCellStaticWall_native i j fNumX fNumY h circleCenterX circleCenterY
          circleRadius = false →
      (isCellDraggable_native (i - 1) j fNumX fNumY h true obstacleX obstacleY
          obstacleRadiusCpp = true ∨
        isCellDraggable_native i j fNumX fNumY h true obstacleX obstacleY
          obstacleRadiusCpp = true) →
      (solveIncompressibility_native st s cellType particleDensity fNumX fNumY numIters h dt
        density overRelaxation particleRestDensity compensateDrift circleCenterX
        circleCenterY circleRadius true obstacleX obstacleY obstacleRadiusCpp
        obstacleVelX obstacleVelY).u (i * fNumY + j) = obstacleVelX) ∧
    (isCellStaticWall_native i (j - 1) fNumX fNumY h circleCenterX circleCenterY
          circleRadius = false →
      isCellStaticWall_native i j fNumX fNumY h circleCenterX circleCenterY
          circleRadius = false →
      (isCellDraggable_native i (j - 1) fNumX fNumY h true obstacleX obstacleY
          obstacleRadiusCpp = true ∨
        isCellDraggable_native i j fNumX fNumY h true obstacleX obstacleY
          obstacleRadiusCpp = true) →
      (solveIncompressibility_native st s cellType particleDensity fNumX fNumY numIters h dt
        density overRelaxation particleRestDensity compensateDrift circleCenterX
        circleCenterY circleRadius true obstacleX obstacleY obstacleRadiusCpp
        obstacleVelX obstacleVelY).v (i * fNumY + j) = obstacleVelY) := by
  unfold solveIncompressibility_native
  constructor
  · intro hs1 hs2 hd
    show enforceU _ _ _ _ _ _ _ _ _ _ _ _ (i * fNumY + j) = obstacleVelX
    rw [enforceU_apply _ _ _ _ _ _ _ _ _ _ _ _ i j hi0 hi1 hj0 hj1]
    unfold scalarValue
    rcases hd with hd | hd <;> simp [hs1, hs2, hd]
  · intro hs1 hs2 hd
    show enforceV _ _ _ _ _ _ _ _ _ _ _ _ (i * fNumY + j) = obstacleVelY
    rw [enforceV_apply _ _ _ _ _ _ _ _ _ _ _ _ i j hi0 hi1 hj0 hj1]
    unfold scalarValue
    rcases hd with hd | hd <;> simp [hs1, hs2, hd]

/-- Witness for C2: a 5×5 grid with `h = 1`, scene circle of radius 10 (no static cell in
the grid), obstacle of radius 1 at `(5/2, 5/2)` moving with velocity `(3, 4)`; the cell
`(2, 2)` is a draggable cell, so both faces at `(2, 2)` take the obstacle velocity. -/
theorem C2_obstacle_faces_take_obstacle_velocity_witness :
    ((0 : ℤ) ≤ 2 ∧ (2 : ℤ) < 5) ∧
    isCellStaticWall_native (2 - 1) 2 5 5 (1 : ℚ) (5 / 2) (5 / 2) 10 = false ∧
    isCellStaticWall_native 2 (2 - 1) 5 5 (1 : ℚ) (5 / 2) (5 / 2) 10 = false ∧
    isCellStaticWall_native 2 2 5 5 (1 : ℚ) (5 / 2) (5 / 2) 10 = false ∧
    isCellDraggable_native 2 2 5 5 (1 : ℚ) true (5 / 2) (5 / 2) 1 = true ∧
    (solveIncompressibility_native (F := ℚ)
        { u := fun _ => 7, v := fun _ => 9, p := fun _ => 0 } (fun _ => 1) (fun _ => 0)
        (fun _ => 0) 5 5 2 1 1 1 (19 / 10) 0 false (5 / 2) (5 / 2) 10 true (5 / 2) (5 / 2) 1
        3 4).u (2 * 5 + 2) = 3 ∧
    (solveIncompressibility_native (F := ℚ)
        { u := fun _ => 7, v := fun _ => 9, p := fun _ => 0 } (fun _ => 1) (fun _ => 0)
        (fun _ => 0) 5 5 2 1 1 1 (19 / 10) 0 false (5 / 2) (5 / 2) 10 true (5 / 2) (5 / 2) 1
        3 4).v (2 * 5 + 2) = 4 := by
  have ha : isCellStaticWall_native (2 - 1) 2 5 5 (1 : ℚ) (5 / 2) (5 / 2) 10 = false := by
    norm_num [isCellStaticWall_native]
  have hb : isCellStaticWall_native 2 (2 - 1) 5 5 (1 : ℚ) (5 / 2) (5 / 2) 10 = false := by
    norm_num [isCellStaticWall_native]
  have hc : isCellStaticWall_native 2 2 5 5 (1 : ℚ) (5 / 2) (5 / 2) 10 = false := by
    norm_num [isCellStaticWall_native]
  have hd : isCellDraggable_native 2 2 5 5 (1 : ℚ) true (5 / 2) (5 / 2) 1 = true := by
    norm_num [isCellDraggable_native]
  have key := C2_obstacle_faces_take_obstacle_velocity (F := ℚ)
    { u := fun _ => 7, v := fun _ => 9, p := fun _ => 0 } (fun _ => 1) (fun _ => 0)
    (fun _ => 0) 5 5 2 1 1 1 (19 / 10) 0 false (5 / 2) (5 / 2) 10 (5 / 2) (5 / 2) 1
    3 4 2 2 (by norm_num) (by norm_num) (by norm_num) (by norm_num)
  exact ⟨by norm_num, ha, hb, hc, hd, key.1 ha hc (Or.inr hd), key.2 hb hc (Or.inr hd)⟩

/-! ## C3, C4: `handleCollisions_native` -/

theorem loadParticle_collideParticle_self (sqrtf : F → F) (r : F) (act : Bool)
    (ox oy orad ovx ovy cx cy cR : F) (i : ℤ) (b : ParticleBuffers F) :
    loadParticle (collideParticle sqrtf r act ox oy orad ovx ovy cx cy cR i b) i =
      wallResponse sqrtf r cx cy cR
        (obstacleResponse sqrtf r act ox oy orad ovx ovy (loadParticle b i)) := by
  unfold collideParticle
  simp [loadParticle, Function.update_apply]

theorem loadParticle_collideParticle_other (sqrtf : F → F) (r : F) (act : Bool)
    (ox oy orad ovx ovy cx cy cR : F) (i k : ℤ) (hik : i ≠ k) (b : ParticleBuffers F) :
    loadParticle (collideParticle sqrtf r act ox oy orad ovx ovy cx cy cR k b) i =
      loadParticle b i := by
  unfold collideParticle
  have h1 : (2 * i = 2 * k) = False := by simp; omega
  have h2 : (2 * i = 2 * k + 1) = False := by simp; omega
  have h3 : (2 * i + 1 = 2 * k + 1) = False := by simp; omega
  have h4 : (2 * i + 1 = 2 * k) = False := by simp; omega
  simp only [loadParticle, Function.update_apply, h1, h2, h3, h4, if_false]

/-- Each in-range particle leaves `handleCollisions_native` as the wall response of the
obstacle response of its state on entry. -/
theorem handleCollisions_apply (sqrtf : F → F) (b : ParticleBuffers F) (numParticles : ℤ)
    (r : F) (act : Bool) (ox oy orad ovx ovy cx cy cR : F) (i : ℤ) (hi0 : 0 ≤ i)
    (hi1 : i < numParticles) :
    loadParticle
        (handleCollisions_native sqrtf b numParticles r act ox oy orad ovx ovy cx cy cR) i =
      wallResponse sqrtf r cx cy cR
        (obstacleResponse sqrtf r act ox oy orad ovx ovy (loadParticle b i)) := by
  unfold handleCollisions_native
  have h := forRange_induction
    (fun k b1 => loadParticle b1 i =
      if i < k then wallResponse sqrtf r cx cy cR
        (obstacleResponse sqrtf r act ox oy orad ovx ovy (loadParticle b i))
      else loadParticle b i)
    0 numParticles
    (fun k b1 => collideParticle sqrtf r act ox oy orad ovx ovy cx cy cR k b1) b
    (by simp [not_lt.mpr hi0])
    (by
      intro k b1 _ _ hP
      show loadParticle (collideParticle sqrtf r act ox oy orad ovx ovy cx cy cR k b1) i = _
      rcases lt_trichotomy i k with hlt | heq | hgt
      · rw [loadParticle_collideParticle_other _ _ _ _ _ _ _ _ _ _ _ i k (by omega), hP,
          if_pos hlt, if_pos (by omega)]
      · subst heq
        rw [loadParticle_collideParticle_self, if_pos (by omega)]
        rw [if_neg (lt_irrefl _)] at hP
        rw [hP]
      · rw [loadParticle_collideParticle_other _ _ _ _ _ _ _ _ _ _ _ i k (by omega), hP,
          if_neg (by omega), if_neg (by omega)])
  rw [max_eq_right (by omega)] at h
  rw [h, if_pos hi1]

/-- The wall response leaves a particle at squared distance at most
`(sceneRadius - particleRadius)^2` from the scene centre, when the `1e-12` guard does not
skip a particle that is outside and `sqrtf` is exact at the particle's squared distance. -/
theorem wallResponse_inside (sqrtf : F → F) (r cx cy cR : F) (q : Particle F)
    (hguard : wallDistSq cx cy q ≤ (cR - r) * (cR - r) ∨ eps12 < wallDistSq cx cy q)
    (hsqrt : SqrtExactAt sqrtf (wallDistSq cx cy q)) :
    wallDistSq cx cy (wallResponse sqrtf r cx cy cR q) ≤ (cR - r) * (cR - r) := by
  unfold wallResponse
  by_cases hc : wallDistSq cx cy q > (cR - r) * (cR - r) ∧ wallDistSq cx cy q > eps12
  · simp only [if_pos hc]
    obtain ⟨hd0, hd2⟩ := hsqrt
    set d := sqrtf (wallDistSq cx cy q) with hd
    have hDpos : 0 < wallDistSq cx cy q := lt_of_le_of_lt (mul_self_nonneg _) hc.1
    have hdne : d ≠ 0 := by
      intro h0
      rw [h0, mul_zero] at hd2
      exact absurd hd2.symm (ne_of_gt hDpos)
    have hD : wallDistSq cx cy q = (q.px - cx) * (q.px - cx) + (q.py - cy) * (q.py - cy) :=
      rfl
    have key : wallDistSq cx cy
        { px := q.px - (q.px - cx) / d * (d - (cR - r))
          py := q.py - (q.py - cy) / d * (d - (cR - r))
          pvx := 0, pvy := 0 } = (cR - r) * (cR - r) := by
      unfold wallDistSq
      simp only []
      have e1 : q.px - (q.px - cx) / d * (d - (cR - r)) - cx = (q.px - cx) * ((cR - r) / d) := by
        field_simp
        ring
      have e2 : q.py - (q.py - cy) / d * (d - (cR - r)) - cy = (q.py - cy) * ((cR - r) / d) := by
        field_simp
        ring
      rw [e1, e2]
      have e3 : (q.px - cx) * ((cR - r) / d) * ((q.px - cx) * ((cR - r) / d)) +
          (q.py - cy) * ((cR - r) / d) * ((q.py - cy) * ((cR - r) / d)) =
          ((q.px - cx) * (q.px - cx) + (q.py - cy) * (q.py - cy)) * ((cR - r) * (cR - r))
            / (d * d) := by
        field_simp
        ring
      rw [e3, ← hD, hd2]
      field_simp
    exact le_of_eq key
  · simp only [if_neg hc]
    rcases hguard with hg | hg
    · exact hg
    · by_contra hcon
      exact hc ⟨lt_of_not_le hcon, hg⟩

theorem obstacleResponse_outside (sqrtf : F → F) (r ox oy orad ovx ovy : F) (q : Particle F)
    (hguard : (orad + r) * (orad + r) ≤ obsDistSq ox oy q ∨ eps12 < obsDistSq ox oy q)
    (hsqrt : SqrtExactAt sqrtf (obsDistSq ox oy q)) :
    (orad + r) * (orad + r) ≤
      obsDistSq ox oy (obstacleResponse sqrtf r true ox oy orad ovx ovy q) := by
  unfold obstacleResponse
  simp only [if_true]
  by_cases hc : obsDistSq ox oy q < (orad + r) * (orad + r) ∧ obsDistSq ox oy q > eps12
  · simp only [if_pos hc]
    obtain ⟨_, hd2⟩ := hsqrt
    set d := sqrtf (obsDistSq ox oy q) with hd
    have heps : (0 : F) < eps12 := by unfold eps12; norm_num
    have hDpos : 0 < obsDistSq ox oy q := lt_trans heps hc.2
    have hdne : d ≠ 0 := by
      intro h0
      rw [h0, mul_zero] at hd2
      exact absurd hd2.symm (ne_of_gt hDpos)
    have hD : obsDistSq ox oy q = (q.px - ox) * (q.px - ox) + (q.py - oy) * (q.py - oy) := rfl
    have key : obsDistSq ox oy
        { px := q.px + (q.px - ox) / d * (orad + r - d) * 1
          py := q.py + (q.py - oy) / d * (orad + r - d) * 1
          pvx := ovx, pvy := ovy } = (orad + r) * (orad + r) := by
      unfold obsDistSq
      simp only []
      have e1 : q.px + (q.px - ox) / d * (orad + r - d) * 1 - ox =
          (q.px - ox) * ((orad + r) / d) := by
        field_simp
        ring
      have e2 : q.py + (q.py - oy) / d * (orad + r - d) * 1 - oy =
          (q.py - oy) * ((orad + r) / d) := by
        field_simp
        ring
      rw [e1, e2]
      have e3 : (q.px - ox) * ((orad + r) / d) * ((q.px - ox) * ((orad + r) / d)) +
          (q.py - oy) * ((orad + r) / d) * ((q.py - oy) * ((orad + r) / d)) =
          ((q.px - ox) * (q.px - ox) + (q.py - oy) * (q.py - oy)) * ((orad + r) * (orad + r))
            / (d * d) := by
        field_simp
        ring
      rw [e3, ← hD, hd2]
      field_simp
    exact le_of_eq key.symm
  · simp only [if_neg hc]
    rcases hguard with hg | hg
    · exact hg
    · by_contra hcon
      exact hc ⟨lt_of_not_le hcon, hg⟩

theorem ratSqrt_mul_self (q : ℚ) (hq : 0 ≤ q) : Rat.sqrt (q * q) = q := by
  rw [Rat.sqrt_eq, abs_of_nonneg hq]

/-- C3 (as amended): after `handleCollisions_native`, every in-range particle `i` is within
`sceneRadius - particleRadius` of the scene centre (its squared distance is at most the
square of that radius, and every non-negative root of the squared distance is at most that
radius), provided `sceneRadius - particleRadius ≥ 0`, the particle's squared distance `D`
from the scene centre after the obstacle response is not in the skipped band
`(sceneRadius - particleRadius)^2 < D ≤ 1e-12`, and `sqrtf` is exact at `D`. -/
theorem C3_particles_inside_wall_radius (sqrtf : F → F) (b : ParticleBuffers F)
    (numParticles : ℤ) (particleRadius : F) (isObstacleActive : Bool)
    (obstacleX obstacleY obstacleRadius obstacleVelX obstacleVelY sceneCenterX sceneCenterY
      sceneRadius : F) (i : ℤ) (hi0 : 0 ≤ i) (hi1 : i < numParticles)
    (hR : 0 ≤ sceneRadius - particleRadius)
    (hguard :
      wallDistSq sceneCenterX sceneCenterY
          (obstacleResponse sqrtf particleRadius isObstacleActive obstacleX obstacleY
            obstacleRadius obstacleVelX obstacleVelY (loadParticle b i)) ≤
        (sceneRadius - particleRadius) * (sceneRadius - particleRadius) ∨
      eps12 < wallDistSq sceneCenterX sceneCenterY
          (obstacleResponse sqrtf particleRadius isObstacleActive obstacleX obstacleY
            obstacleRadius obstacleVelX obstacleVelY (loadParticle b i)))
    (hsqrt : SqrtExactAt sqrtf
      (wallDistSq sceneCenterX sceneCenterY
        (obstacleResponse sqrtf particleRadius isObstacleActive obstacleX obstacleY
          obstacleRadius obstacleVelX obstacleVelY (loadParticle b i)))) :
    wallDistSq sceneCenterX sceneCenterY
        (loadParticle
          (handleCollisions_native sqrtf b numParticles particleRadius isObstacleActive
            obstacleX obstacleY obstacleRadius obstacleVelX obstacleVelY sceneCenterX
            sceneCenterY sceneRadius) i) ≤
      (sceneRadius - particleRadius) * (sceneRadius - particleRadius) ∧
    ∀ d : F, 0 ≤ d →
      d * d = wallDistSq sceneCenterX sceneCenterY
        (loadParticle
          (handleCollisions_native sqrtf b numParticles particleRadius isObstacleActive
            obstacleX obstacleY obstacleRadius obstacleVelX obstacleVelY sceneCenterX
            sceneCenterY sceneRadius) i) →
      d ≤ sceneRadius - particleRadius := by
  have main : wallDistSq sceneCenterX sceneCenterY
        (loadParticle
          (handleCollisions_native sqrtf b numParticles particleRadius isObstacleActive
            obstacleX obstacleY obstacleRadius obstacleVelX obstacleVelY sceneCenterX
            sceneCenterY sceneRadius) i) ≤
      (sceneRadius - particleRadius) * (sceneRadius - particleRadius) := by
    rw [handleCollisions_apply sqrtf b numParticles _ _ _ _ _ _ _ _ _ _ i hi0 hi1]
    exact wallResponse_inside sqrtf _ _ _ _ _ hguard hsqrt
  refine ⟨main, fun d hd0 hdd => ?_⟩
  rw [← hdd] at main
  exact (mul_self_le_mul_self_iff hd0 hR).mpr main

/-- Witness for C3 (as amended): scene circle of radius 6 around the origin, particle radius
1, obstacle active but far away; the particle at `(6, 8)` (distance 10) is projected back
to `(3, 4)`, at distance `5 = 6 - 1`. -/
theorem C3_particles_inside_wall_radius_witness :
    ((0 : ℤ) ≤ 0 ∧ (0 : ℤ) < 1 ∧ (0 : ℚ) ≤ 6 - 1) ∧
    wallDistSq (0 : ℚ) 0
        (loadParticle
          (handleCollisions_native Rat.sqrt
            { pos := fun k => if k = 0 then 6 else 8, vel := fun _ => 1 } 1 1 true
            100 100 1 2 3 0 0 6) 0) ≤ (6 - 1) * (6 - 1) := by
  have hq : obstacleResponse Rat.sqrt (1 : ℚ) true 100 100 1 2 3
      (loadParticle { pos := fun k => if k = 0 then 6 else 8, vel := fun _ => 1 } 0) =
      { px := 6, py := 8, pvx := 1, pvy := 1 } := by
    norm_num [obstacleResponse, loadParticle, obsDistSq, eps12]
  have hD : wallDistSq (0 : ℚ) 0 { px := 6, py := 8, pvx := 1, pvy := 1 } = 10 * 10 := by
    norm_num [wallDistSq]
  have hs : SqrtExactAt Rat.sqrt (10 * 10 : ℚ) := by
    unfold SqrtExactAt
    rw [ratSqrt_mul_self 10 (by norm_num)]
    norm_num
  have key := C3_particles_inside_wall_radius Rat.sqrt
    { pos := fun k => if k = 0 then 6 else 8, vel := fun _ => 1 } 1 1 true
    100 100 1 2 3 0 0 6 0 (by norm_num) (by norm_num) (by norm_num)
    (by rw [hq, hD]; right; norm_num [eps12])
    (by rw [hq, hD]; exact hs)
  exact ⟨by norm_num, key.1⟩

/-- Counterexample to C3 as stated: scene circle of radius 1 around the origin, particle
radius `1 - 1e-7` (so `sceneRadius - particleRadius = 1e-7 ≥ 0`), no obstacle; the particle
at `(5e-7, 0)` has squared distance `2.5e-13`, which exceeds `(1e-7)^2` but not `1e-12`, so
the wall block is skipped and the particle stays at distance `5e-7 > 1e-7`. -/
theorem C3_counterexample :
    (0 : ℚ) ≤ 1 - 9999999 / 10000000 ∧
    ¬ (wallDistSq (0 : ℚ) 0
        (loadParticle
          (handleCollisions_native Rat.sqrt
            { pos := fun k => if k = 0 then 5 / 10000000 else 0, vel := fun _ => 0 } 1
            (9999999 / 10000000) false 0 0 0 0 0 0 0 1) 0) ≤
      (1 - 9999999 / 10000000) * (1 - 9999999 / 10000000)) := by
  refine ⟨by norm_num, ?_⟩
  rw [handleCollisions_apply _ _ _ _ _ _ _ _ _ _ _ _ _ 0 (by norm_num) (by norm_num)]
  norm_num [wallResponse, obstacleResponse, loadParticle, wallDistSq, eps12]

/-- C4 (as amended): after `handleCollisions_native` with an active obstacle, an in-range
particle `i` is not strictly inside the obstacle circle expanded by `particleRadius`
(its squared distance from the obstacle centre is at least
`(obstacleRadius + particleRadius)^2`), provided its squared distance `d2` from the obstacle
centre on entry is not in the skipped band `d2 ≤ 1e-12` while inside, `sqrtf` is exact at
`d2`, and the wall block does not fire on the particle after the obstacle response. -/
theorem C4_particles_outside_obstacle (sqrtf : F → F) (b : ParticleBuffers F)
    (numParticles : ℤ) (particleRadius : F)
    (obstacleX obstacleY obstacleRadius obstacleVelX obstacleVelY sceneCenterX sceneCenterY
      sceneRadius : F) (i : ℤ) (hi0 : 0 ≤ i) (hi1 : i < numParticles)
    (hguard :
      (obstacleRadius + particleRadius) * (obstacleRadius + particleRadius) ≤
          obsDistSq obstacleX obstacleY (loadParticle b i) ∨
        eps12 < obsDistSq obstacleX obstacleY (loadParticle b i))
    (hsqrt : SqrtExactAt sqrtf (obsDistSq obstacleX obstacleY (loadParticle b i)))
    (hwall : ¬ (wallDistSq sceneCenterX sceneCenterY
          (obstacleResponse sqrtf particleRadius true obstacleX obstacleY
            obstacleRadius obstacleVelX obstacleVelY (loadParticle b i)) >
        (sceneRadius - particleRadius) * (sceneRadius - particleRadius) ∧
      wallDistSq sceneCenterX sceneCenterY
          (obstacleResponse sqrtf particleRadius true obstacleX obstacleY
            obstacleRadius obstacleVelX obstacleVelY (loadParticle b i)) > eps12)) :
    (obstacleRadius + particleRadius) * (obstacleRadius + particleRadius) ≤
      obsDistSq obstacleX obstacleY
        (loadParticle
          (handleCollisions_native sqrtf b numParticles particleRadius true
            obstacleX obstacleY obstacleRadius obstacleVelX obstacleVelY sceneCenterX
            sceneCenterY sceneRadius) i) := by
  rw [handleCollisions_apply sqrtf b numParticles _ _ _ _ _ _ _ _ _ _ i hi0 hi1]
  have hw : wallResponse sqrtf particleRadius sceneCenterX sceneCenterY sceneRadius
      (obstacleResponse sqrtf particleRadius true obstacleX obstacleY
        obstacleRadius obstacleVelX obstacleVelY (loadParticle b i)) =
      obstacleResponse sqrtf particleRadius true obstacleX obstacleY
        obstacleRadius obstacleVelX obstacleVelY (loadParticle b i) := by
    unfold wallResponse
    simp only [if_neg hwall]
  rw [hw]
  exact obstacleResponse_outside sqrtf _ _ _ _ _ _ _ hguard hsqrt

/-- Witness for C4 (as amended): obstacle of radius 4 at the origin, particle radius 1,
scene circle of radius 100; the particle at `(3/5, 4/5)` (distance 1) is pushed out to
`(3, 4)`, at distance `5 = 4 + 1` from the obstacle centre. -/
theorem C4_particles_outside_obstacle_witness :
    ((0 : ℤ) ≤ 0 ∧ (0 : ℤ) < 1) ∧
    ((4 : ℚ) + 1) * (4 + 1) ≤
      obsDistSq (0 : ℚ) 0
        (loadParticle
          (handleCollisions_native Rat.sqrt
            { pos := fun k => if k = 0 then 3 / 5 else 4 / 5, vel := fun _ => 1 } 1 1 true
            0 0 4 2 3 0 0 100) 0) := by
  have hD : obsDistSq (0 : ℚ) 0
      (loadParticle { pos := fun k => if k = 0 then 3 / 5 else 4 / 5, vel := fun _ => 1 } 0) =
      1 * 1 := by
    norm_num [loadParticle, obsDistSq]
  have h1 : Rat.sqrt (1 * 1) = 1 := ratSqrt_mul_self 1 (by norm_num)
  have hs : SqrtExactAt Rat.sqrt (1 * 1 : ℚ) := by
    unfold SqrtExactAt
    rw [h1]
    norm_num
  have hq : obstacleResponse Rat.sqrt (1 : ℚ) true 0 0 4 2 3
      (loadParticle { pos := fun k => if k = 0 then 3 / 5 else 4 / 5, vel := fun _ => 1 } 0) =
      { px := 3, py := 4, pvx := 2, pvy := 3 } := by
    unfold obstacleResponse
    simp only [hD, h1]
    norm_num [loadParticle, eps12]
  have key := C4_particles_outside_obstacle Rat.sqrt
    { pos := fun k => if k = 0 then 3 / 5 else 4 / 5, vel := fun _ => 1 } 1 1
    0 0 4 2 3 0 0 100 0 (by norm_num) (by norm_num)
    (by rw [hD]; right; norm_num [eps12])
    (by rw [hD]; exact hs)
    (by rw [hq]; norm_num [wallDistSq])
  exact ⟨by norm_num, key⟩

/-- Counterexample to C4 as stated, at two inputs.  (a) Obstacle of radius 1 at the origin,
particle radius 1/10, particle exactly at the obstacle centre: `d2Obs = 0` fails the
`d2Obs > 1e-12` guard, the particle is not moved and stays strictly inside.  (b) Scene
circle of radius 9 around the origin, particle radius 1, obstacle of radius 4 at `(6, 0)`:
the particle at `(7, 0)` is pushed by the obstacle block to `(11, 0)` and then by the wall
block back to `(8, 0)`, at distance 2 from the obstacle centre, inside the expanded radius
5. -/
theorem C4_counterexample :
    ¬ (((1 : ℚ) + 1 / 10) * (1 + 1 / 10) ≤
      obsDistSq (0 : ℚ) 0
        (loadParticle
          (handleCollisions_native Rat.sqrt
            { pos := fun _ => 0, vel := fun _ => 0 } 1 (1 / 10) true
            0 0 1 0 0 0 0 10) 0)) ∧
    ¬ (((4 : ℚ) + 1) * (4 + 1) ≤
      obsDistSq (6 : ℚ) 0
        (loadParticle
          (handleCollisions_native Rat.sqrt
            { pos := fun k => if k = 0 then 7 else 0, vel := fun _ => 0 } 1 1 true
            6 0 4 0 0 0 0 9) 0)) := by
  constructor
  · rw [handleCollisions_apply _ _ _ _ _ _ _ _ _ _ _ _ _ 0 (by norm_num) (by norm_num)]
    norm_num [wallResponse, obstacleResponse, loadParticle, wallDistSq, obsDistSq, eps12]
  · rw [handleCollisions_apply _ _ _ _ _ _ _ _ _ _ _ _ _ 0 (by norm_num) (by norm_num)]
    have h1 : Rat.sqrt 1 = 1 := by norm_num
    have h121 : Rat.sqrt 121 = 11 := by norm_num
    have hq : obstacleResponse Rat.sqrt (1 : ℚ) true 6 0 4 0 0
        (loadParticle { pos := fun k => if k = 0 then 7 else 0, vel := fun _ => 0 } 0) =
        { px := 11, py := 0, pvx := 0, pvy := 0 } := by
      norm_num [obstacleResponse, loadParticle, obsDistSq, eps12, h1]
    rw [hq]
    norm_num [wallResponse, wallDistSq, obsDistSq, eps12, h121]

/-! ## C5: G->P with `flipRatio = 1` on an unchanged grid -/

theorem readOrZero_congr (f g : ℤ → F) (fNumCells nk : ℤ)
    (hfg : ∀ idx, 0 ≤ idx → idx < fNumCells → f idx = g idx) :
    readOrZero f fNumCells nk = readOrZero g fNumCells nk := by
  unfold readOrZero
  split_ifs with hc
  · exact hfg nk hc.1 hc.2
  · rfl

/-- With `flipRatio = 1` and `f = prevF` on the grid, the G->P body leaves `particleVel`
as it is. -/
theorem gatherParticle_flip_one [FloorRing F] (f_arr prevF_arr : ℤ → F) (cellType : ℤ → ℤ)
    (particlePos : ℤ → F) (fNumX fNumY : ℤ) (hh invH : F) (comp i : ℤ) (particleVel : ℤ → F)
    (hfg : ∀ idx, 0 ≤ idx → idx < fNumX * fNumY → f_arr idx = prevF_arr idx) :
    gatherParticle 1 f_arr prevF_arr cellType particlePos fNumX fNumY hh invH comp i
      particleVel = particleVel := by
  unfold gatherParticle
  simp only [readOrZero_congr f_arr prevF_arr (fNumX * fNumY) _ hfg]
  split_ifs with hc
  · simp only [sub_self, mul_zero, add_zero, zero_div, zero_mul, one_mul, zero_add]
    exact Function.update_eq_self _ _
  · rfl

theorem gatherComp_flip_one [FloorRing F] (f_arr prevF_arr : ℤ → F) (cellType : ℤ → ℤ)
    (particlePos : ℤ → F) (fNumX fNumY : ℤ) (hh invH : F) (numParticles comp : ℤ)
    (particleVel : ℤ → F)
    (hfg : ∀ idx, 0 ≤ idx → idx < fNumX * fNumY → f_arr idx = prevF_arr idx) :
    gatherComp 1 f_arr prevF_arr cellType particlePos fNumX fNumY hh invH numParticles comp
      particleVel = particleVel := by
  unfold gatherComp
  apply forRange_preserves (fun pv => pv = particleVel)
  · rfl
  · intro k pv _ _ hP
    show gatherParticle 1 f_arr prevF_arr cellType particlePos fNumX fNumY hh invH comp k pv
      = particleVel
    rw [hP]
    exact gatherParticle_flip_one _ _ _ _ _ _ _ _ _ _ _ hfg

/-- C5: if `u = prevU` and `v = prevV` at every grid index, then
`transferVelocities_native` with `toGrid = false` and `flipRatio = 1` leaves every entry of
`particleVel` unchanged, for every particle position and every `cellType` array. -/
theorem C5_gather_flip_one_identity [FloorRing F] (vrecpeq_f32 : F → F)
    (st : TransferState F) (s particlePos : ℤ → F) (fNumX fNumY : ℤ) (h invH : F)
    (numParticles : ℤ)
    (hu : ∀ idx, 0 ≤ idx → idx < fNumX * fNumY → st.u idx = st.prevU idx)
    (hv : ∀ idx, 0 ≤ idx → idx < fNumX * fNumY → st.v idx = st.prevV idx) (k : ℤ) :
    (transferVelocities_native vrecpeq_f32 false 1 st s particlePos fNumX fNumY h invH
      numParticles).particleVel k = st.particleVel k := by
  unfold transferVelocities_native
  simp only [Bool.false_eq_true, if_false]
  rw [gatherComp_flip_one _ _ _ _ _ _ _ _ _ _ _ hv, gatherComp_flip_one _ _ _ _ _ _ _ _ _ _ _ hu]

/-- Witness for C5: a 4×4 grid with `h = 1`, every cell FLUID, `u = prevU` and `v = prevV`
non-constant, one particle at `(3/2, 7/4)` with velocity `(2, 3)`. -/
theorem C5_gather_flip_one_identity_witness :
    (transferVelocities_native (F := ℚ) (fun d => 1 / d) false 1
      { u := fun idx => (idx : ℚ), v := fun idx => 2 * (idx : ℚ), du := fun _ => 0,
        dv := fun _ => 0, prevU := fun idx => (idx : ℚ), prevV := fun idx => 2 * (idx : ℚ),
        cellType := fun _ => 0, particleVel := fun k => if k = 0 then 2 else 3 }
      (fun _ => 1) (fun k => if k = 0 then 3 / 2 else 7 / 4) 4 4 1 1 1).particleVel 0 = 2 :=
  C5_gather_flip_one_identity (F := ℚ) (fun d => 1 / d)
    { u := fun idx => (idx : ℚ), v := fun idx => 2 * (idx : ℚ), du := fun _ => 0,
      dv := fun _ => 0, prevU := fun idx => (idx : ℚ), prevV := fun idx => 2 * (idx : ℚ),
      cellType := fun _ => 0, particleVel := fun k => if k = 0 then 2 else 3 }
    (fun _ => 1) (fun k => if k = 0 then 3 / 2 else 7 / 4) 4 4 1 1 1
    (fun _ _ _ => rfl) (fun _ _ _ => rfl) 0

/-! ## P->G, step 1: snapshot and clear -/

theorem tmod_four_nonpos (a : ℤ) (h : a < 0) : Int.tmod a 4 ≤ 0 := by
  have h1 := Int.tmod_nonneg (a := -a) 4 (by omega)
  have h2 : Int.tmod a 4 = -Int.tmod (-a) 4 := by
    rw [Int.tmod_def, Int.tmod_def, Int.neg_tdiv]
    ring
  omega

theorem remainderStart_eq (N : ℤ) (h : 0 ≤ N) : N - Int.tmod N 4 = 4 * numBlocks4 N := by
  rw [Int.tmod_eq_emod h (by norm_num)]
  unfold numBlocks4
  rw [Int.toNat_of_nonneg (Int.ediv_nonneg h (by norm_num))]
  omega

theorem clearedUpTo_refl (st : TransferState F) (m : ℤ) (hm : m ≤ 0) :
    ClearedUpTo st m st := by
  unfold ClearedUpTo
  refine ⟨?_, ?_, ?_, ?_, ?_, ?_, rfl, rfl⟩ <;>
    (intro idx; rw [if_neg (by omega)])

theorem backupScalar_step (st0 st : TransferState F) (m : ℤ) (hm : 0 ≤ m)
    (hP : ClearedUpTo st0 m st) : ClearedUpTo st0 (m + 1) (backupScalar m st) := by
  obtain ⟨h1, h2, h3, h4, h5, h6, h7, h8⟩ := hP
  unfold backupScalar
  refine ⟨?_, ?_, ?_, ?_, ?_, ?_, h7, h8⟩
  · intro idx
    show Function.update st.prevU m (st.u m) idx = _
    rw [Function.update_apply, h1 idx, h5 m]
    split_ifs <;> first
      | rfl
      | omega
      | (subst_vars; rfl)
  · intro idx
    show Function.update st.prevV m (st.v m) idx = _
    rw [Function.update_apply, h2 idx, h6 m]
    split_ifs <;> first
      | rfl
      | omega
      | (subst_vars; rfl)
  · intro idx
    show Function.update st.du m 0 idx = _
    rw [Function.update_apply, h3 idx]
    split_ifs <;> first
      | rfl
      | omega
  · intro idx
    show Function.update st.dv m 0 idx = _
    rw [Function.update_apply, h4 idx]
    split_ifs <;> first
      | rfl
      | omega
  · intro idx
    show Function.update st.u m 0 idx = _
    rw [Function.update_apply, h5 idx]
    split_ifs <;> first
      | rfl
      | omega
  · intro idx
    show Function.update st.v m 0 idx = _
    rw [Function.update_apply, h6 idx]
    split_ifs <;> first
      | rfl
      | omega

theorem backupBlock_step (st0 st : TransferState F) (m : ℤ) (hm : 0 ≤ m)
    (hP : ClearedUpTo st0 m st) : ClearedUpTo st0 (m + 4) (backupBlock m st) := by
  obtain ⟨h1, h2, h3, h4, h5, h6, h7, h8⟩ := hP
  unfold backupBlock
  refine ⟨?_, ?_, ?_, ?_, ?_, ?_, h7, h8⟩
  · intro idx
    show store4 st.prevU m (fun l => st.u (m + l)) idx = _
    rw [store4_apply, h1 idx]
    split_ifs <;> first
      | rfl
      | omega
      | (rw [h5, if_neg (by omega)]; congr 1; omega)
  · intro idx
    show store4 st.prevV m (fun l => st.v (m + l)) idx = _
    rw [store4_apply, h2 idx]
    split_ifs <;> first
      | rfl
      | omega
      | (rw [h6, if_neg (by omega)]; congr 1; omega)
  · intro idx
    show store4 st.du m (fun _ => 0) idx = _
    rw [store4_apply, h3 idx]
    split_ifs <;> first
      | rfl
      | omega
  · intro idx
    show store4 st.dv m (fun _ => 0) idx = _
    rw [store4_apply, h4 idx]
    split_ifs <;> first
      | rfl
      | omega
  · intro idx
    show store4 st.u m (fun _ => 0) idx = _
    rw [store4_apply, h5 idx]
    split_ifs <;> first
      | rfl
      | omega
  · intro idx
    show store4 st.v m (fun _ => 0) idx = _
    rw [store4_apply, h6 idx]
    split_ifs <;> first
      | rfl
      | omega

/-- Step 1 snapshots `u`, `v` into `prevU`, `prevV` and zeroes `u`, `v`, `du`, `dv` at
exactly the indices `0 ≤ idx < fNumCells`. -/
theorem backupAndClear_spec (N : ℤ) (st : TransferState F) :
    ClearedUpTo st N (backupAndClear N st) := by
  unfold backupAndClear
  rcases lt_or_le N 0 with hneg | hpos
  · rw [numBlocks4_neg N hneg, forRange_empty 0 0 _ _ le_rfl,
      forRange_empty _ _ _ _ (by have := tmod_four_nonpos N hneg; omega)]
    exact clearedUpTo_refl st N (le_of_lt hneg)
  · have hb := forRange_induction (fun b s => ClearedUpTo st (4 * b) s)
      0 (numBlocks4 N) (fun b st2 => backupBlock (4 * b) st2) st
      (clearedUpTo_refl st _ (by norm_num))
      (by
        intro k s hk0 _ hP
        have := backupBlock_step st s (4 * k) (by omega) hP
        have e : 4 * (k + 1) = 4 * k + 4 := by ring
        rw [e]
        exact this)
    rw [max_eq_right (numBlocks4_nonneg N)] at hb
    have hr := forRange_induction (fun j s => ClearedUpTo st j s)
      (4 * numBlocks4 N) N (fun i st2 => backupScalar i st2) _ hb
      (by
        intro k s hk0 _ hP
        exact backupScalar_step st s k
          (le_trans (by have := numBlocks4_nonneg N; omega) hk0) hP)
    rw [max_eq_right (numBlocks4_le N hpos)] at hr
    rw [remainderStart_eq N hpos]
    exact hr

/-! ## P->G, steps 2 and 3: cell classification -/

theorem initCellTypes_apply (s : ℤ → F) (N : ℤ) (ct : ℤ → ℤ) (idx : ℤ) :
    initCellTypes s N ct idx =
      if 0 ≤ idx ∧ idx < N then (if s idx = 0 then SOLID_CELL_CPP else AIR_CELL_CPP)
      else ct idx := by
  unfold initCellTypes
  have h := forRange_induction
    (fun m c => ∀ x, c x =
      if 0 ≤ x ∧ x < m then (if s x = 0 then SOLID_CELL_CPP else AIR_CELL_CPP) else ct x)
    0 N (fun i c => Function.update c i (if s i = 0 then SOLID_CELL_CPP else AIR_CELL_CPP)) ct
    (by intro x; rw [if_neg (by omega)])
    (by
      intro k c hk0 _ hP x
      show Function.update c k _ x = _
      rw [Function.update_apply, hP x]
      by_cases hx : x = k
      · subst hx
        rw [if_pos rfl, if_pos (show 0 ≤ x ∧ x < x + 1 by omega)]
      · rw [if_neg hx]
        by_cases hx2 : 0 ≤ x ∧ x < k
        · rw [if_pos hx2, if_pos (show 0 ≤ x ∧ x < k + 1 by omega)]
        · rw [if_neg hx2, if_neg (show ¬ (0 ≤ x ∧ x < k + 1) by omega)])
  rw [h idx]
  rcases le_total 0 N with hN | hN
  · rw [max_eq_right hN]
  · rw [max_eq_left hN, if_neg (show ¬ (0 ≤ idx ∧ idx < 0) by omega),
      if_neg (show ¬ (0 ≤ idx ∧ idx < N) by omega)]

/-- Step 3 turns a cell into FLUID exactly when it is an in-range AIR cell that contains a
particle, and leaves every other entry as it is. -/
theorem markFluid_spec [FloorRing F] (particlePos : ℤ → F) (fNumX fNumY : ℤ) (invH : F)
    (numParticles : ℤ) (ct : ℤ → ℤ) (idx : ℤ) :
    ((0 ≤ idx ∧ idx < fNumX * fNumY ∧ ct idx = AIR_CELL_CPP ∧
        ∃ k, 0 ≤ k ∧ k < numParticles ∧
          particleCellIndex particlePos fNumX fNumY invH k = idx) →
      markFluid particlePos fNumX fNumY invH numParticles ct idx = FLUID_CELL_CPP) ∧
    (¬ (0 ≤ idx ∧ idx < fNumX * fNumY ∧ ct idx = AIR_CELL_CPP ∧
        ∃ k, 0 ≤ k ∧ k < numParticles ∧
          particleCellIndex particlePos fNumX fNumY invH k = idx) →
      markFluid particlePos fNumX fNumY invH numParticles ct idx = ct idx) := by
  unfold markFluid
  have h := forRange_induction
    (fun m c =>
      ((0 ≤ idx ∧ idx < fNumX * fNumY ∧ ct idx = AIR_CELL_CPP ∧
          ∃ k, 0 ≤ k ∧ k < m ∧ particleCellIndex particlePos fNumX fNumY invH k = idx) →
        c idx = FLUID_CELL_CPP) ∧
      (¬ (0 ≤ idx ∧ idx < fNumX * fNumY ∧ ct idx = AIR_CELL_CPP ∧
          ∃ k, 0 ≤ k ∧ k < m ∧ particleCellIndex particlePos fNumX fNumY invH k = idx) →
        c idx = ct idx))
    0 numParticles
    (fun i c =>
      if particleCellIndex particlePos fNumX fNumY invH i ≥ 0 ∧
          particleCellIndex particlePos fNumX fNumY invH i < fNumX * fNumY ∧
          c (particleCellIndex particlePos fNumX fNumY invH i) = AIR_CELL_CPP then
        Function.update c (particleCellIndex particlePos fNumX fNumY invH i) FLUID_CELL_CPP
      else c) ct
    (by
      constructor
      · rintro ⟨_, _, _, k, hk0, hk1, _⟩
        omega
      · intro _
        rfl)
    (by
      intro m c hm0 _ hP
      obtain ⟨hP1, hP2⟩ := hP
      have hAF : AIR_CELL_CPP ≠ FLUID_CELL_CPP := by decide
      constructor
      · rintro ⟨hx0, hx1, hxa, k, hk0, hk1, hk⟩
        by_cases hold : ∃ k, 0 ≤ k ∧ k < m ∧
            particleCellIndex particlePos fNumX fNumY invH k = idx
        · have hc := hP1 ⟨hx0, hx1, hxa, hold⟩
          show (ite _ _ _ : ℤ → ℤ) idx = _
          split_ifs with hcond
          · rw [Function.update_apply]
            split_ifs
            · rfl
            · exact hc
          · exact hc
        · have hkm : k = m := by
            by_contra hne
            exact hold ⟨k, hk0, by omega, hk⟩
          subst hkm
          have hc := hP2 (fun hh => hold hh.2.2.2)
          show (ite _ _ _ : ℤ → ℤ) idx = _
          rw [hk, hc, if_pos ⟨hx0, hx1, hxa⟩, Function.update_same]
      · intro hnot
        have hnot' : ¬ (0 ≤ idx ∧ idx < fNumX * fNumY ∧ ct idx = AIR_CELL_CPP ∧
            ∃ k, 0 ≤ k ∧ k < m ∧
              particleCellIndex particlePos fNumX fNumY invH k = idx) := by
          rintro ⟨hx0, hx1, hxa, k, hk0, hk1, hk⟩
          exact hnot ⟨hx0, hx1, hxa, k, hk0, by omega, hk⟩
        have hc := hP2 hnot'
        show (ite _ _ _ : ℤ → ℤ) idx = _
        split_ifs with hcond
        · rw [Function.update_apply]
          split_ifs with he
          · exfalso
            apply hnot
            rw [he]
            refine ⟨hcond.1, hcond.2.1, ?_, m, hm0, by omega, rfl⟩
            rw [← he, ← hc, he]
            exact hcond.2.2
          · exact hc
        · exact hc)
  rcases le_total 0 numParticles with hN | hN
  · rw [max_eq_right hN] at h
    exact h
  · rw [max_eq_left hN] at h
    constructor
    · rintro ⟨_, _, _, k, hk0, hk1, _⟩
      omega
    · intro _
      exact h.2 (by rintro ⟨_, _, _, k, hk0, hk1, _⟩; omega)

/-! ## P->G, frame of steps 4, 5 and 6 -/

theorem sameAux_refl (st : TransferState F) : SameAux st st :=
  ⟨rfl, rfl, rfl, rfl, rfl, rfl⟩

theorem sameAux_trans (a b c : TransferState F) (h1 : SameAux a b) (h2 : SameAux b c) :
    SameAux a c := by
  unfold SameAux at h1 h2 ⊢
  rw [h2.1, h2.2.1, h2.2.2.1, h2.2.2.2.1, h2.2.2.2.2.1, h2.2.2.2.2.2]
  exact h1

theorem normalizeGrid_sameAux (vrecpeq_f32 : F → F) (N : ℤ) (st : TransferState F) :
    SameAux st (normalizeGrid vrecpeq_f32 N st) := by
  unfold normalizeGrid
  apply forRange_preserves (fun s => SameAux st s)
  · apply forRange_preserves (fun s => SameAux st s)
    · exact sameAux_refl st
    · intro k s _ _ hP
      exact sameAux_trans _ _ _ hP ⟨rfl, rfl, rfl, rfl, rfl, rfl⟩
  · intro k s _ _ hP
    exact sameAux_trans _ _ _ hP ⟨rfl, rfl, rfl, rfl, rfl, rfl⟩

theorem restoreCellU_sameAux (fNumY N i j : ℤ) (st : TransferState F) :
    SameAux st (restoreCellU fNumY N i j st) := by
  unfold restoreCellU
  simp only []
  split_ifs <;> exact ⟨rfl, rfl, rfl, rfl, rfl, rfl⟩

theorem restoreCellV_sameAux (fNumY N i j : ℤ) (st : TransferState F) :
    SameAux st (restoreCellV fNumY N i j st) := by
  unfold restoreCellV
  simp only []
  split_ifs <;> exact ⟨rfl, rfl, rfl, rfl, rfl, rfl⟩

theorem restoreCell_sameAux (fNumY N i j : ℤ) (st : TransferState F) :
    SameAux st (restoreCell fNumY N i j st) := by
  unfold restoreCell
  simp only []
  split_ifs
  · exact sameAux_refl st
  · exact sameAux_trans _ _ _ (restoreCellU_sameAux _ _ _ _ _) (restoreCellV_sameAux _ _ _ _ _)

theorem restoreSolid_sameAux (fNumX fNumY : ℤ) (st : TransferState F) :
    SameAux st (restoreSolid fNumX fNumY st) := by
  unfold restoreSolid
  apply forRange_preserves (fun s => SameAux st s)
  · exact sameAux_refl st
  · intro i s _ _ hP
    apply forRange_preserves (fun s => SameAux st s)
    · exact hP
    · intro j s2 _ _ hP2
      exact sameAux_trans _ _ _ hP2 (restoreCell_sameAux _ _ _ _ _)

/-- The cell types on return from the P->G branch are those computed by steps 2 and 3 from
`s` and the particle positions. -/
theorem transfer_toGrid_cellType [FloorRing F] (vrecpeq_f32 : F → F) (flipRatio : F)
    (st : TransferState F) (s particlePos : ℤ → F) (fNumX fNumY : ℤ) (h invH : F)
    (numParticles : ℤ) :
    (transferVelocities_native vrecpeq_f32 true flipRatio st s particlePos fNumX fNumY h invH
      numParticles).cellType =
      markFluid particlePos fNumX fNumY invH numParticles
        (initCellTypes s (fNumX * fNumY) st.cellType) := by
  unfold transferVelocities_native toGridSteps1to5
  simp only [if_true]
  rw [(restoreSolid_sameAux _ _ _).2.2.2.2.1, (normalizeGrid_sameAux _ _ _).2.2.2.2.1]
  show markFluid _ _ _ _ _ (initCellTypes s _ (backupAndClear (fNumX * fNumY) st).cellType) = _
  rw [(backupAndClear_spec (fNumX * fNumY) st).2.2.2.2.2.2.1]

/-! ## C9: cell classification after the P->G transfer -/

/-- C9: after `transferVelocities_native` with `toGrid = true`, for every cell index
`0 ≤ c < fNumX*fNumY`: `cellType[c] = SOLID` iff `s[c] = 0`; `cellType[c] = FLUID` iff
`s[c] ≠ 0` and some particle `k` in `[0, numParticles)` has containing-cell index `c`
(`particleCellIndex`: the clamped floors of `px*invH`, `py*invH`, combined as
`xi*fNumY + yi`); `cellType[c] = AIR` iff `s[c] ≠ 0` and no particle has; and the result is
the same for any other previous contents `ct` of `cellType`. -/
theorem C9_cell_classification [FloorRing F] (vrecpeq_f32 : F → F) (flipRatio : F)
    (st : TransferState F) (s particlePos : ℤ → F) (fNumX fNumY : ℤ) (h invH : F)
    (numParticles : ℤ) (c : ℤ) (hc0 : 0 ≤ c) (hc1 : c < fNumX * fNumY) :
    ((transferVelocities_native vrecpeq_f32 true flipRatio st s particlePos fNumX fNumY h
        invH numParticles).cellType c = SOLID_CELL_CPP ↔ s c = 0) ∧
    ((transferVelocities_native vrecpeq_f32 true flipRatio st s particlePos fNumX fNumY h
        invH numParticles).cellType c = FLUID_CELL_CPP ↔
      (s c ≠ 0 ∧ ∃ k, 0 ≤ k ∧ k < numParticles ∧
        particleCellIndex particlePos fNumX fNumY invH k = c)) ∧
    ((transferVelocities_native vrecpeq_f32 true flipRatio st s particlePos fNumX fNumY h
        invH numParticles).cellType c = AIR_CELL_CPP ↔
      (s c ≠ 0 ∧ ¬ ∃ k, 0 ≤ k ∧ k < numParticles ∧
        particleCellIndex particlePos fNumX fNumY invH k = c)) ∧
    (∀ ct : ℤ → ℤ,
      (transferVelocities_native vrecpeq_f32 true flipRatio { st with cellType := ct } s
        particlePos fNumX fNumY h invH numParticles).cellType c =
      (transferVelocities_native vrecpeq_f32 true flipRatio st s particlePos fNumX fNumY h
        invH numParticles).cellType c) := by
  have hSA : SOLID_CELL_CPP ≠ AIR_CELL_CPP := by decide
  have hSF : SOLID_CELL_CPP ≠ FLUID_CELL_CPP := by decide
  have hAF : AIR_CELL_CPP ≠ FLUID_CELL_CPP := by decide
  have key : ∀ ct0 : ℤ → ℤ,
      (s c = 0 → markFluid particlePos fNumX fNumY invH numParticles
        (initCellTypes s (fNumX * fNumY) ct0) c = SOLID_CELL_CPP) ∧
      (s c ≠ 0 → (∃ k, 0 ≤ k ∧ k < numParticles ∧
          particleCellIndex particlePos fNumX fNumY invH k = c) →
        markFluid particlePos fNumX fNumY invH numParticles
          (initCellTypes s (fNumX * fNumY) ct0) c = FLUID_CELL_CPP) ∧
      (s c ≠ 0 → (¬ ∃ k, 0 ≤ k ∧ k < numParticles ∧
          particleCellIndex particlePos fNumX fNumY invH k = c) →
        markFluid particlePos fNumX fNumY invH numParticles
          (initCellTypes s (fNumX * fNumY) ct0) c = AIR_CELL_CPP) := by
    intro ct0
    have hm := markFluid_spec particlePos fNumX fNumY invH numParticles
      (initCellTypes s (fNumX * fNumY) ct0) c
    have hi := initCellTypes_apply s (fNumX * fNumY) ct0 c
    rw [if_pos ⟨hc0, hc1⟩] at hi
    refine ⟨fun hs => ?_, fun hs hex => ?_, fun hs hex => ?_⟩
    · rw [if_pos hs] at hi
      rw [hm.2 (fun hh => hSA (hi ▸ hh.2.2.1)), hi]
    · rw [if_neg hs] at hi
      exact hm.1 ⟨hc0, hc1, hi, hex⟩
    · rw [if_neg hs] at hi
      rw [hm.2 (fun hh => hex hh.2.2.2), hi]
  have hst := transfer_toGrid_cellType vrecpeq_f32 flipRatio st s particlePos fNumX fNumY h
    invH numParticles
  obtain ⟨k1, k2, k3⟩ := key st.cellType
  refine ⟨?_, ?_, ?_, ?_⟩
  · rw [hst]
    constructor
    · intro hval
      by_contra hs
      by_cases hex : ∃ k, 0 ≤ k ∧ k < numParticles ∧
          particleCellIndex particlePos fNumX fNumY invH k = c
      · exact hSF (hval ▸ k2 hs hex)
      · exact hSA (hval ▸ k3 hs hex)
    · exact k1
  · rw [hst]
    constructor
    · intro hval
      have hs : s c ≠ 0 := fun hs => hSF ((k1 hs) ▸ hval)
      refine ⟨hs, ?_⟩
      by_contra hex
      exact hAF ((k3 hs hex) ▸ hval)
    · rintro ⟨hs, hex⟩
      exact k2 hs hex
  · rw [hst]
    constructor
    · intro hval
      have hs : s c ≠ 0 := fun hs => hSA ((k1 hs) ▸ hval)
      refine ⟨hs, ?_⟩
      intro hex
      exact hAF (hval ▸ k2 hs hex)
    · rintro ⟨hs, hex⟩
      exact k3 hs hex
  · intro ct
    rw [hst, transfer_toGrid_cellType]
    obtain ⟨j1, j2, j3⟩ := key ct
    by_cases hs : s c = 0
    · rw [k1 hs]
      exact j1 hs
    · by_cases hex : ∃ k, 0 ≤ k ∧ k < numParticles ∧
          particleCellIndex particlePos fNumX fNumY invH k = c
      · rw [k2 hs hex]
        exact j2 hs hex
      · rw [k3 hs hex]
        exact j3 hs hex

/-- Witness for C9: a 4×4 grid with `invH = 1`, cell 0 solid (`s[0] = 0`), one particle at
`(3/2, 7/4)`, whose containing cell is `(1, 1)`, index 5: cell 5 is FLUID, starting from a
`cellType` buffer filled with 7. -/
theorem C9_cell_classification_witness :
    ((0 : ℤ) ≤ 5 ∧ (5 : ℤ) < 4 * 4) ∧
    (transferVelocities_native (F := ℚ) (fun d => 1 / d) true 0
      { u := fun _ => 1, v := fun _ => 1, du := fun _ => 0, dv := fun _ => 0,
        prevU := fun _ => 0, prevV := fun _ => 0, cellType := fun _ => 7,
        particleVel := fun _ => 1 }
      (fun idx => if idx = 0 then 0 else 1) (fun k => if k = 0 then 3 / 2 else 7 / 4)
      4 4 1 1 1).cellType 5 = FLUID_CELL_CPP := by
  have f1 : ⌊(3 / 2 : ℚ)⌋ = 1 := by norm_num
  have f2 : ⌊(7 / 4 : ℚ)⌋ = 1 := by norm_num
  have hcell : particleCellIndex (fun k => if k = 0 then (3 / 2 : ℚ) else 7 / 4) 4 4 1 0 = 5 := by
    norm_num [particleCellIndex, cellCoord, floorf, clamp_cpp, toInt, f1, f2]
  have key := C9_cell_classification (F := ℚ) (fun d => 1 / d) 0
    { u := fun _ => 1, v := fun _ => 1, du := fun _ => 0, dv := fun _ => 0,
      prevU := fun _ => 0, prevV := fun _ => 0, cellType := fun _ => 7,
      particleVel := fun _ => 1 }
    (fun idx => if idx = 0 then 0 else 1) (fun k => if k = 0 then 3 / 2 else 7 / 4)
    4 4 1 1 1 5 (by norm_num) (by norm_num)
  exact ⟨by norm_num, key.2.1.mpr ⟨by norm_num, 0, le_refl 0, by norm_num, hcell⟩⟩

/-! ## C10: colour range after `updateDynamicParticleColors_native` -/

theorem clamp01_mem (x : F) : 0 ≤ max 0 (min x 1) ∧ max 0 (min x 1) ≤ 1 :=
  ⟨le_max_left _ _, max_le zero_le_one (min_le_right _ _)⟩

theorem highlight_color_vec_mem (l : ℤ) :
    (0 : F) ≤ highlight_color_vec l ∧ (highlight_color_vec l : F) ≤ 1 := by
  unfold highlight_color_vec low_density_highlight_s
  split_ifs <;> constructor <;> norm_num

theorem colorParticle_other [FloorRing F] (rest invH : F) (fNumX fNumY : ℤ)
    (pos dens : ℤ → F) (i : ℤ) (col : ℤ → F) (x : ℤ) (hx : x < 4 * i ∨ 4 * i + 4 ≤ x) :
    colorParticle rest invH fNumX fNumY pos dens i col x = col x := by
  unfold colorParticle
  simp only []
  split_ifs <;> simp only [store4_apply] <;>
    rw [if_neg (by omega)] <;> try rw [if_neg (by omega)]

theorem colorParticle_range [FloorRing F] (rest invH : F) (fNumX fNumY : ℤ)
    (pos dens : ℤ → F) (i : ℤ) (col : ℤ → F) (x : ℤ) (hx0 : 4 * i ≤ x) (hx1 : x < 4 * i + 4) :
    0 ≤ colorParticle rest invH fNumX fNumY pos dens i col x ∧
      colorParticle rest invH fNumX fNumY pos dens i col x ≤ 1 := by
  unfold colorParticle
  simp only []
  split_ifs <;> simp only [store4_apply] <;> rw [if_pos ⟨hx0, hx1⟩]
  · exact highlight_color_vec_mem _
  all_goals exact clamp01_mem _

/-- C10: after `updateDynamicParticleColors_native`, each of the four colour components of
every particle `i` in `[0, numParticles)` lies in `[0, 1]`, for every input colour buffer,
every density grid, every rest density and every position. -/
theorem C10_colors_in_unit_interval [FloorRing F] (numParticles : ℤ)
    (particleRestDensity invH : F) (fNumX fNumY : ℤ) (h : F)
    (particlePos particleDensityGrid particleColor : ℤ → F) (i l : ℤ)
    (hi0 : 0 ≤ i) (hi1 : i < numParticles) (hl0 : 0 ≤ l) (hl1 : l < 4) :
    0 ≤ updateDynamicParticleColors_native numParticles particleRestDensity invH fNumX fNumY
        h particlePos particleDensityGrid particleColor (4 * i + l) ∧
      updateDynamicParticleColors_native numParticles particleRestDensity invH fNumX fNumY
        h particlePos particleDensityGrid particleColor (4 * i + l) ≤ 1 := by
  unfold updateDynamicParticleColors_native
  have hloop := forRange_induction
    (fun m col => i < m → (0 ≤ col (4 * i + l) ∧ col (4 * i + l) ≤ 1))
    0 numParticles
    (fun k col => colorParticle particleRestDensity invH fNumX fNumY particlePos
      particleDensityGrid k col) particleColor
    (by intro hlt; omega)
    (by
      intro k col _ _ hP hlt
      show 0 ≤ colorParticle particleRestDensity invH fNumX fNumY particlePos
          particleDensityGrid k col (4 * i + l) ∧
        colorParticle particleRestDensity invH fNumX fNumY particlePos
          particleDensityGrid k col (4 * i + l) ≤ 1
      by_cases hik : i = k
      · subst hik
        exact colorParticle_range _ _ _ _ _ _ _ _ _ (by omega) (by omega)
      · rw [colorParticle_other _ _ _ _ _ _ _ _ _ (by omega)]
        exact hP (by omega))
  rw [max_eq_right (by omega)] at hloop
  exact hloop hi1

/-- Witness for C10: two particles whose colours start outside `[0, 1]`; the green
component (index 1) of particle 1 is in `[0, 1]` on return. -/
theorem C10_colors_in_unit_interval_witness :
    ((0 : ℤ) ≤ 1 ∧ (1 : ℤ) < 2 ∧ (0 : ℤ) ≤ 1 ∧ (1 : ℤ) < 4) ∧
    (0 ≤ updateDynamicParticleColors_native (F := ℚ) 2 1 1 4 4 1
        (fun _ => 3 / 2) (fun _ => 1) (fun k => (k : ℚ) - 3) (4 * 1 + 1) ∧
      updateDynamicParticleColors_native (F := ℚ) 2 1 1 4 4 1
        (fun _ => 3 / 2) (fun _ => 1) (fun k => (k : ℚ) - 3) (4 * 1 + 1) ≤ 1) :=
  ⟨by norm_num,
    C10_colors_in_unit_interval (F := ℚ) 2 1 1 4 4 1 (fun _ => 3 / 2) (fun _ => 1)
      (fun k => (k : ℚ) - 3) 1 1 (by norm_num) (by norm_num) (by norm_num) (by norm_num)⟩

/-! ## C8: `pushParticlesApart_native` on a separated particle set -/

/-- Invariant rule for the neighbour traversal: a property preserved by the pair body at
every enumerated neighbour (`jj ≠ ii`, `0 ≤ jj < numParticles`) is preserved by the whole
traversal. -/
theorem neighbourLoop_preserves {σ : Type} (P : σ → Prop)
    (firstCellParticle cellParticleIds : ℤ → ℤ) (numParticles pNumX pNumY pxi pyi ii : ℤ)
    (interact : ℤ → σ → σ) (st : σ) (h0 : P st)
    (hstep : ∀ jj s, jj ≠ ii → 0 ≤ jj → jj < numParticles → P s → P (interact jj s)) :
    P (neighbourLoop firstCellParticle cellParticleIds numParticles pNumX pNumY pxi pyi ii
      interact st) := by
  unfold neighbourLoop
  simp only []
  apply forRange_preserves P _ _ _ _ h0
  intro cx s1 _ _ h1
  apply forRange_preserves P _ _ _ _ h1
  intro cy s2 _ _ h2
  split_ifs with hA hB
  · exact h2
  · exact h2
  · apply forRange_preserves P _ _ _ _ h2
    intro k s3 _ _ h3
    split_ifs with hC hD hE
    · exact h3
    · exact h3
    · exact h3
    · exact hstep _ s3 hD (by omega) (by omega) h3

theorem pushPair_far (sqrtf : F → F) (minDist minDist2 : F) (ii jj : ℤ) (pos : ℤ → F)
    (hfar : minDist2 < pairDistSq pos ii jj) :
    pushPair sqrtf minDist minDist2 ii jj pos = pos := by
  unfold pushPair
  unfold pairDistSq at hfar
  simp only [] at hfar ⊢
  rw [if_pos (Or.inl hfar)]

/-- C8: `pushParticlesApart_native` leaves all positions unchanged when every pair of
distinct particles is farther apart than `minDist = 2*particleRadius` (stated on squares:
the pair's squared distance exceeds `minDist^2`, which for a radius `particleRadius ≥ 0` is
the same) and the passed `minDist2` equals `minDist^2`, for every `numIters` and every bin
structure. -/
theorem C8_push_apart_noop_when_separated [FloorRing F] (sqrtf : F → F)
    (particlePos : ℤ → F) (firstCellParticle cellParticleIds : ℤ → ℤ)
    (numParticles pNumX pNumY : ℤ) (pInvSpacing : F) (numIters : ℤ)
    (particleRadius minDist2 : F)
    (hm : minDist2 = (2 * particleRadius) * (2 * particleRadius))
    (hfar : ∀ i j, 0 ≤ i → i < numParticles → 0 ≤ j → j < numParticles → i ≠ j →
      (2 * particleRadius) * (2 * particleRadius) < pairDistSq particlePos i j) :
    pushParticlesApart_native sqrtf particlePos firstCellParticle cellParticleIds
      numParticles pNumX pNumY pInvSpacing numIters particleRadius minDist2 = particlePos := by
  unfold pushParticlesApart_native
  simp only []
  apply forRange_preserves (fun pos => pos = particlePos) _ _ _ _ rfl
  intro _ pos1 _ _ h1
  apply forRange_preserves (fun pos => pos = particlePos) _ _ _ _ h1
  intro ii pos2 hii0 hii1 h2
  unfold pushParticle
  simp only []
  apply neighbourLoop_preserves (fun pos => pos = particlePos) _ _ _ _ _ _ _ _ _ _ h2
  intro jj pos3 hne hj0 hj1 h3
  rw [h3]
  apply pushPair_far
  rw [hm]
  exact hfar ii jj hii0 hii1 hj0 hj1 (Ne.symm hne)

/-- Witness for C8: two particles at `(0, 0)` and `(3, 4)` (distance 5), radius 1,
`minDist2 = 4`, one bin listing both particles, two iterations. -/
theorem C8_push_apart_noop_when_separated_witness :
    (4 : ℚ) = (2 * 1) * (2 * 1) ∧
    pushParticlesApart_native (F := ℚ) Rat.sqrt
      (fun k => if k = 2 then 3 else if k = 3 then 4 else 0)
      (fun c => if c = 0 then 0 else 2) (fun k => k) 2 1 1 1 2 1 4 =
      (fun k => if k = 2 then 3 else if k = 3 then 4 else 0) := by
  refine ⟨by norm_num, ?_⟩
  apply C8_push_apart_noop_when_separated
  · norm_num
  · intro i j hi0 hi1 hj0 hj1 hij
    have hi : i = 0 ∨ i = 1 := by omega
    have hj : j = 0 ∨ j = 1 := by omega
    rcases hi with hi | hi <;> rcases hj with hj | hj <;> subst hi <;> subst hj
    · exact absurd rfl hij
    · norm_num [pairDistSq]
    · norm_num [pairDistSq]
    · exact absurd rfl hij

/-! ## P->G, step 4: accumulation of a uniform velocity field -/

theorem deposit_uniform (N nk : ℤ) (a w : F) (fd : (ℤ → F) × (ℤ → F))
    (h : ∀ idx, 0 ≤ idx → idx < N → fd.1 idx = a * fd.2 idx) :
    ∀ idx, 0 ≤ idx → idx < N →
      (deposit N nk a w fd).1 idx = a * (deposit N nk a w fd).2 idx := by
  intro idx h0 h1
  unfold deposit
  split_ifs with hc
  · simp only [Function.update_apply]
    split_ifs with he
    · rw [h nk hc.1 hc.2]
      ring
    · exact h idx h0 h1
  · exact h idx h0 h1

/-- If every particle carries the value `a` in component `comp`, the accumulated field is
`a` times the accumulated weight at every grid index. -/
theorem scatterComp_uniform [FloorRing F] (particlePos particleVel : ℤ → F)
    (fNumX fNumY : ℤ) (hh invH : F) (numParticles comp : ℤ) (a : F)
    (fd : (ℤ → F) × (ℤ → F))
    (hvel : ∀ k, 0 ≤ k → k < numParticles → particleVel (2 * k + comp) = a)
    (h : ∀ idx, 0 ≤ idx → idx < fNumX * fNumY → fd.1 idx = a * fd.2 idx) :
    ∀ idx, 0 ≤ idx → idx < fNumX * fNumY →
      (scatterComp particlePos particleVel fNumX fNumY hh invH numParticles comp fd).1 idx =
        a * (scatterComp particlePos particleVel fNumX fNumY hh invH numParticles comp
          fd).2 idx := by
  unfold scatterComp
  apply forRange_preserves
    (fun r : (ℤ → F) × (ℤ → F) =>
      ∀ idx, 0 ≤ idx → idx < fNumX * fNumY → r.1 idx = a * r.2 idx) _ _ _ _ h
  intro k r hk0 hk1 hP
  show ∀ idx, 0 ≤ idx → idx < fNumX * fNumY →
    (scatterParticle particlePos particleVel fNumX fNumY hh invH comp k r).1 idx =
      a * (scatterParticle particlePos particleVel fNumX fNumY hh invH comp k r).2 idx
  unfold scatterParticle
  simp only [hvel k hk0 hk1]
  exact deposit_uniform _ _ _ _ _ (deposit_uniform _ _ _ _ _
    (deposit_uniform _ _ _ _ _ (deposit_uniform _ _ _ _ _ hP)))

/-! ## P->G, step 5: normalization -/

/-- With an exact reciprocal estimate, a lane of the vectorized normalization computes the
scalar normalization. -/
theorem normalizeLane_eq (vrecpeq_f32 : F → F)
    (hrecip : ∀ d, eps9 < d → vrecpeq_f32 d = 1 / d) (f df : F) :
    normalizeLane vrecpeq_f32 f df = normalizeValue f df := by
  unfold normalizeLane normalizeValue vrecpsq_f32
  by_cases hd : df > eps9
  · have heps : (0 : F) < eps9 := by unfold eps9; norm_num
    have hne : df ≠ 0 := ne_of_gt (lt_trans heps hd)
    simp only [hd, decide_True, if_true]
    rw [hrecip df hd]
    field_simp
    ring
  · simp only [hd, decide_False, if_false, Bool.false_eq_true]

theorem normalizedUpTo_refl (st : TransferState F) (m : ℤ) (hm : m ≤ 0) :
    NormalizedUpTo st m st := by
  unfold NormalizedUpTo
  refine ⟨?_, ?_, rfl, rfl, rfl, rfl, rfl, rfl⟩ <;>
    (intro idx; rw [if_neg (by omega)])

theorem normalizeScalar_step (st0 st : TransferState F) (m : ℤ) (hm : 0 ≤ m)
    (hP : NormalizedUpTo st0 m st) : NormalizedUpTo st0 (m + 1) (normalizeScalar m st) := by
  obtain ⟨h1, h2, h3, h4, h5, h6, h7, h8⟩ := hP
  unfold normalizeScalar
  refine ⟨?_, ?_, h3, h4, h5, h6, h7, h8⟩
  · intro idx
    show Function.update st.u m (if st.du m > eps9 then st.u m / st.du m else 0) idx = _
    rw [Function.update_apply, h1 idx, h1 m, h3, if_neg (show ¬ (0 ≤ m ∧ m < m) by omega)]
    by_cases he : idx = m
    · subst he
      rw [if_pos rfl, if_pos (show 0 ≤ idx ∧ idx < idx + 1 by omega)]
      rfl
    · rw [if_neg he]
      by_cases hr : 0 ≤ idx ∧ idx < m
      · rw [if_pos hr, if_pos (show 0 ≤ idx ∧ idx < m + 1 by omega)]
      · rw [if_neg hr, if_neg (show ¬ (0 ≤ idx ∧ idx < m + 1) by omega)]
  · intro idx
    show Function.update st.v m (if st.dv m > eps9 then st.v m / st.dv m else 0) idx = _
    rw [Function.update_apply, h2 idx, h2 m, h4, if_neg (show ¬ (0 ≤ m ∧ m < m) by omega)]
    by_cases he : idx = m
    · subst he
      rw [if_pos rfl, if_pos (show 0 ≤ idx ∧ idx < idx + 1 by omega)]
      rfl
    · rw [if_neg he]
      by_cases hr : 0 ≤ idx ∧ idx < m
      · rw [if_pos hr, if_pos (show 0 ≤ idx ∧ idx < m + 1 by omega)]
      · rw [if_neg hr, if_neg (show ¬ (0 ≤ idx ∧ idx < m + 1) by omega)]

theorem normalizeBlock_step (vrecpeq_f32 : F → F)
    (hlane : ∀ f df, normalizeLane vrecpeq_f32 f df = normalizeValue f df)
    (st0 st : TransferState F) (m : ℤ) (hm : 0 ≤ m)
    (hP : NormalizedUpTo st0 m st) :
    NormalizedUpTo st0 (m + 4) (normalizeBlock vrecpeq_f32 m st) := by
  obtain ⟨h1, h2, h3, h4, h5, h6, h7, h8⟩ := hP
  unfold normalizeBlock
  refine ⟨?_, ?_, h3, h4, h5, h6, h7, h8⟩
  · intro idx
    show store4 st.u m (fun l => normalizeLane vrecpeq_f32 (st.u (m + l)) (st.du (m + l)))
      idx = _
    rw [store4_apply, h1 idx]
    by_cases hb : m ≤ idx ∧ idx < m + 4
    · rw [if_pos hb, if_pos (show 0 ≤ idx ∧ idx < m + 4 by omega), hlane]
      have e : m + (idx - m) = idx := by ring
      rw [e, h1 idx, if_neg (show ¬ (0 ≤ idx ∧ idx < m) by omega), h3]
    · rw [if_neg hb]
      by_cases hr : 0 ≤ idx ∧ idx < m
      · rw [if_pos hr, if_pos (show 0 ≤ idx ∧ idx < m + 4 by omega)]
      · rw [if_neg hr, if_neg (show ¬ (0 ≤ idx ∧ idx < m + 4) by omega)]
  · intro idx
    show store4 st.v m (fun l => normalizeLane vrecpeq_f32 (st.v (m + l)) (st.dv (m + l)))
      idx = _
    rw [store4_apply, h2 idx]
    by_cases hb : m ≤ idx ∧ idx < m + 4
    · rw [if_pos hb, if_pos (show 0 ≤ idx ∧ idx < m + 4 by omega), hlane]
      have e : m + (idx - m) = idx := by ring
      rw [e, h2 idx, if_neg (show ¬ (0 ≤ idx ∧ idx < m) by omega), h4]
    · rw [if_neg hb]
      by_cases hr : 0 ≤ idx ∧ idx < m
      · rw [if_pos hr, if_pos (show 0 ≤ idx ∧ idx < m + 4 by omega)]
      · rw [if_neg hr, if_neg (show ¬ (0 ≤ idx ∧ idx < m + 4) by omega)]

/-- Step 5 replaces `u`, `v` at exactly the indices `0 ≤ idx < fNumCells` by the scalar
normalization, when every lane of the vectorized path computes that value. -/
theorem normalizeGrid_spec (vrecpeq_f32 : F → F)
    (hlane : ∀ f df, normalizeLane vrecpeq_f32 f df = normalizeValue f df)
    (N : ℤ) (st : TransferState F) :
    NormalizedUpTo st N (normalizeGrid vrecpeq_f32 N st) := by
  unfold normalizeGrid
  rcases lt_or_le N 0 with hneg | hpos
  · rw [numBlocks4_neg N hneg, forRange_empty 0 0 _ _ le_rfl,
      forRange_empty _ _ _ _ (by have := tmod_four_nonpos N hneg; omega)]
    exact normalizedUpTo_refl st N (le_of_lt hneg)
  · have hb := forRange_induction (fun b s => NormalizedUpTo st (4 * b) s)
      0 (numBlocks4 N) (fun b st2 => normalizeBlock vrecpeq_f32 (4 * b) st2) st
      (normalizedUpTo_refl st _ (by norm_num))
      (by
        intro k s hk0 _ hP
        have := normalizeBlock_step vrecpeq_f32 hlane st s (4 * k) (by omega) hP
        have e : 4 * (k + 1) = 4 * k + 4 := by ring
        rw [e]
        exact this)
    rw [max_eq_right (numBlocks4_nonneg N)] at hb
    have hr := forRange_induction (fun j s => NormalizedUpTo st j s)
      (4 * numBlocks4 N) N (fun i st2 => normalizeScalar i st2) _ hb
      (by
        intro k s hk0 _ hP
        exact normalizeScalar_step st s k
          (le_trans (by have := numBlocks4_nonneg N; omega) hk0) hP)
    rw [max_eq_right (numBlocks4_le N hpos)] at hr
    rw [remainderStart_eq N hpos]
    exact hr

/-! ## P->G, step 6: restore of solid faces -/

theorem cellIndex_inj (n i j i' j' : ℤ) (hj0 : 0 ≤ j) (hj1 : j < n) (hj0' : 0 ≤ j')
    (hj1' : j' < n) (h : i' * n + j' = i * n + j) : i' = i ∧ j' = j := by
  have hi : i' = i := by
    rcases lt_trichotomy i' i with hlt | heq | hgt
    · have h1 : (i' + 1) * n ≤ i * n := mul_le_mul_of_nonneg_right (by omega) (by omega)
      nlinarith
    · exact heq
    · have h1 : (i + 1) * n ≤ i' * n := mul_le_mul_of_nonneg_right (by omega) (by omega)
      nlinarith
  subst hi
  exact ⟨rfl, by omega⟩

theorem restoreCellU_v (fNumY N i j : ℤ) (st : TransferState F) :
    (restoreCellU fNumY N i j st).v = st.v := by
  unfold restoreCellU
  simp only []
  split_ifs <;> rfl

theorem restoreCellV_u (fNumY N i j : ℤ) (st : TransferState F) :
    (restoreCellV fNumY N i j st).u = st.u := by
  unfold restoreCellV
  simp only []
  split_ifs <;> rfl

/-- The statement for `u` leaves `u[x]` as it is unless `x` is the cell's own index and
the cell or its left neighbour is SOLID. -/
theorem restoreCellU_u_unchanged (fNumY N i j : ℤ) (st : TransferState F) (x : ℤ)
    (h : x = i * fNumY + j → (st.cellType x ≠ SOLID_CELL_CPP ∧
      (0 < i → st.cellType ((i - 1) * fNumY + j) ≠ SOLID_CELL_CPP))) :
    (restoreCellU fNumY N i j st).u x = st.u x := by
  unfold restoreCellU
  simp only []
  by_cases hx : x = i * fNumY + j
  · obtain ⟨ha, hb⟩ := h hx
    have hc : (decide (st.cellType (i * fNumY + j) = SOLID_CELL_CPP) ||
        decide (i > 0 ∧ (if i > 0 then (i - 1) * fNumY + j else -1) ≥ 0 ∧
          (if i > 0 then (i - 1) * fNumY + j else -1) < N ∧
          st.cellType (if i > 0 then (i - 1) * fNumY + j else -1) = SOLID_CELL_CPP)) =
        false := by
      simp only [Bool.or_eq_false_iff, decide_eq_false_iff_not]
      refine ⟨hx ▸ ha, ?_⟩
      rintro ⟨hi, _, _, h4⟩
      rw [if_pos hi] at h4
      exact hb hi h4
    rw [hc]
    rfl
  · have aux : ∀ (c : Bool) (d : Prop) [Decidable d],
        (if c = true then
          (if d then
            ({ st with u := Function.update st.u (i * fNumY + j) (st.prevU (i * fNumY + j)) } :
              TransferState F)
          else st)
        else st).u x = st.u x := by
      intro c d _
      split_ifs
      · show Function.update st.u (i * fNumY + j) (st.prevU (i * fNumY + j)) x = _
        rw [Function.update_apply, if_neg hx]
      · rfl
      · rfl
    exact aux _ _

/-- The statement for `v` leaves `v[x]` as it is unless `x` is the cell's own index and
the cell or its bottom neighbour is SOLID. -/
theorem restoreCellV_v_unchanged (fNumY N i j : ℤ) (st : TransferState F) (x : ℤ)
    (h : x = i * fNumY + j → (st.cellType x ≠ SOLID_CELL_CPP ∧
      (0 < j → st.cellType (i * fNumY + (j - 1)) ≠ SOLID_CELL_CPP))) :
    (restoreCellV fNumY N i j st).v x = st.v x := by
  unfold restoreCellV
  simp only []
  by_cases hx : x = i * fNumY + j
  · obtain ⟨ha, hb⟩ := h hx
    have hc : (decide (st.cellType (i * fNumY + j) = SOLID_CELL_CPP) ||
        decide (j > 0 ∧ (if j > 0 then i * fNumY + (j - 1) else -1) ≥ 0 ∧
          (if j > 0 then i * fNumY + (j - 1) else -1) < N ∧
          st.cellType (if j > 0 then i * fNumY + (j - 1) else -1) = SOLID_CELL_CPP)) =
        false := by
      simp only [Bool.or_eq_false_iff, decide_eq_false_iff_not]
      refine ⟨hx ▸ ha, ?_⟩
      rintro ⟨hj, _, _, h4⟩
      rw [if_pos hj] at h4
      exact hb hj h4
    rw [hc]
    rfl
  · have aux : ∀ (c : Bool) (d : Prop) [Decidable d],
        (if c = true then
          (if d then
            ({ st with v := Function.update st.v (i * fNumY + j) (st.prevV (i * fNumY + j)) } :
              TransferState F)
          else st)
        else st).v x = st.v x := by
      intro c d _
      split_ifs
      · show Function.update st.v (i * fNumY + j) (st.prevV (i * fNumY + j)) x = _
        rw [Function.update_apply, if_neg hx]
      · rfl
      · rfl
    exact aux _ _

theorem restoreCell_u_unchanged (fNumY N i j : ℤ) (st : TransferState F) (x : ℤ)
    (h : x = i * fNumY + j → (st.cellType x ≠ SOLID_CELL_CPP ∧
      (0 < i → st.cellType ((i - 1) * fNumY + j) ≠ SOLID_CELL_CPP))) :
    (restoreCell fNumY N i j st).u x = st.u x := by
  unfold restoreCell
  simp only []
  split_ifs
  · rfl
  · rw [restoreCellV_u, restoreCellU_u_unchanged _ _ _ _ _ _ h]

theorem restoreCell_v_unchanged (fNumY N i j : ℤ) (st : TransferState F) (x : ℤ)
    (h : x = i * fNumY + j → (st.cellType x ≠ SOLID_CELL_CPP ∧
      (0 < j → st.cellType (i * fNumY + (j - 1)) ≠ SOLID_CELL_CPP))) :
    (restoreCell fNumY N i j st).v x = st.v x := by
  unfold restoreCell
  simp only []
  split_ifs
  · rfl
  · rw [restoreCellV_v_unchanged, restoreCellU_v]
    rw [(restoreCellU_sameAux _ _ _ _ _).2.2.2.2.1]
    exact h

/-- Step 6 leaves `u[i*fNumY + j]` as it is when neither the cell `(i, j)` nor its left
neighbour is SOLID, and `v[i*fNumY + j]` when neither the cell nor its bottom neighbour
is. -/
theorem restoreSolid_unchanged (fNumX fNumY : ℤ) (st : TransferState F) (i j : ℤ)
    (hj0 : 0 ≤ j) (hj1 : j < fNumY) :
    ((st.cellType (i * fNumY + j) ≠ SOLID_CELL_CPP ∧
        (0 < i → st.cellType ((i - 1) * fNumY + j) ≠ SOLID_CELL_CPP)) →
      (restoreSolid fNumX fNumY st).u (i * fNumY + j) = st.u (i * fNumY + j)) ∧
    ((st.cellType (i * fNumY + j) ≠ SOLID_CELL_CPP ∧
        (0 < j → st.cellType (i * fNumY + (j - 1)) ≠ SOLID_CELL_CPP)) →
      (restoreSolid fNumX fNumY st).v (i * fNumY + j) = st.v (i * fNumY + j)) := by
  unfold restoreSolid
  constructor
  · intro hns
    have key := forRange_preserves
      (fun s : TransferState F => SameAux st s ∧ s.u (i * fNumY + j) = st.u (i * fNumY + j))
      0 fNumX (fun i' st1 => forRange 0 fNumY
        (fun j' st2 => restoreCell fNumY (fNumX * fNumY) i' j' st2) st1) st
      ⟨sameAux_refl st, rfl⟩
      (by
        intro i' s1 _ _ hP1
        apply forRange_preserves
          (fun s : TransferState F =>
            SameAux st s ∧ s.u (i * fNumY + j) = st.u (i * fNumY + j)) _ _ _ _ hP1
        intro j' s2 hj0' hj1' hP2
        refine ⟨sameAux_trans _ _ _ hP2.1 (restoreCell_sameAux _ _ _ _ _), ?_⟩
        show (restoreCell fNumY (fNumX * fNumY) i' j' s2).u (i * fNumY + j) = _
        rw [restoreCell_u_unchanged, hP2.2]
        intro hx
        obtain ⟨e1, e2⟩ := cellIndex_inj fNumY i' j' i j hj0' hj1' hj0 hj1 hx
        subst e1
        subst e2
        rw [hP2.1.2.2.2.2.1]
        exact hns)
    exact key.2
  · intro hns
    have key := forRange_preserves
      (fun s : TransferState F => SameAux st s ∧ s.v (i * fNumY + j) = st.v (i * fNumY + j))
      0 fNumX (fun i' st1 => forRange 0 fNumY
        (fun j' st2 => restoreCell fNumY (fNumX * fNumY) i' j' st2) st1) st
      ⟨sameAux_refl st, rfl⟩
      (by
        intro i' s1 _ _ hP1
        apply forRange_preserves
          (fun s : TransferState F =>
            SameAux st s ∧ s.v (i * fNumY + j) = st.v (i * fNumY + j)) _ _ _ _ hP1
        intro j' s2 hj0' hj1' hP2
        refine ⟨sameAux_trans _ _ _ hP2.1 (restoreCell_sameAux _ _ _ _ _), ?_⟩
        show (restoreCell fNumY (fNumX * fNumY) i' j' s2).v (i * fNumY + j) = _
        rw [restoreCell_v_unchanged, hP2.2]
        intro hx
        obtain ⟨e1, e2⟩ := cellIndex_inj fNumY i' j' i j hj0' hj1' hj0 hj1 hx
        subst e1
        subst e2
        rw [hP2.1.2.2.2.2.1]
        exact hns)
    exact key.2

theorem restoreCell_noSolid (fNumY N i j : ℤ) (st : TransferState F)
    (hns : ∀ idx, 0 ≤ idx → idx < N → st.cellType idx ≠ SOLID_CELL_CPP) :
    restoreCell fNumY N i j st = st := by
  unfold restoreCell
  simp only []
  by_cases hr : i * fNumY + j < 0 ∨ i * fNumY + j ≥ N
  · rw [if_pos hr]
  · rw [if_neg hr]
    push_neg at hr
    have hU : restoreCellU fNumY N i j st = st := by
      unfold restoreCellU
      simp only []
      have hc : (decide (st.cellType (i * fNumY + j) = SOLID_CELL_CPP) ||
          decide (i > 0 ∧ (if i > 0 then (i - 1) * fNumY + j else -1) ≥ 0 ∧
            (if i > 0 then (i - 1) * fNumY + j else -1) < N ∧
            st.cellType (if i > 0 then (i - 1) * fNumY + j else -1) = SOLID_CELL_CPP)) =
          false := by
        simp only [Bool.or_eq_false_iff, decide_eq_false_iff_not]
        refine ⟨hns _ hr.1 hr.2, ?_⟩
        rintro ⟨_, h2, h3, h4⟩
        exact hns _ h2 h3 h4
      rw [hc]
      rfl
    have hV : restoreCellV fNumY N i j st = st := by
      unfold restoreCellV
      simp only []
      have hc : (decide (st.cellType (i * fNumY + j) = SOLID_CELL_CPP) ||
          decide (j > 0 ∧ (if j > 0 then i * fNumY + (j - 1) else -1) ≥ 0 ∧
            (if j > 0 then i * fNumY + (j - 1) else -1) < N ∧
            st.cellType (if j > 0 then i * fNumY + (j - 1) else -1) = SOLID_CELL_CPP)) =
          false := by
        simp only [Bool.or_eq_false_iff, decide_eq_false_iff_not]
        refine ⟨hns _ hr.1 hr.2, ?_⟩
        rintro ⟨_, h2, h3, h4⟩
        exact hns _ h2 h3 h4
      rw [hc]
      rfl
    rw [hU, hV]

/-- Step 6 changes nothing when no in-range cell is SOLID. -/
theorem restoreSolid_noSolid (fNumX fNumY : ℤ) (st : TransferState F)
    (hns : ∀ idx, 0 ≤ idx → idx < fNumX * fNumY → st.cellType idx ≠ SOLID_CELL_CPP) :
    restoreSolid fNumX fNumY st = st := by
  unfold restoreSolid
  apply forRange_preserves (fun s => s = st) _ _ _ _ rfl
  intro i s1 _ _ h1
  apply forRange_preserves (fun s => s = st) _ _ _ _ h1
  intro j s2 _ _ h2
  rw [h2]
  exact restoreCell_noSolid _ _ _ _ _ hns

/-! ## P->G, steps 1 to 5 together -/

/-- Frame of steps 1 to 5: the cell types are those of steps 2 and 3, `particleVel` is not
written, and `prevU`, `prevV` hold the entry values of `u`, `v` on the grid. -/
theorem toGridSteps1to5_frame [FloorRing F] (vrecpeq_f32 : F → F) (st : TransferState F)
    (s particlePos : ℤ → F) (fNumX fNumY : ℤ) (hh invH : F) (numParticles : ℤ) :
    (toGridSteps1to5 vrecpeq_f32 st s particlePos fNumX fNumY hh invH numParticles).cellType =
      markFluid particlePos fNumX fNumY invH numParticles
        (initCellTypes s (fNumX * fNumY) st.cellType) ∧
    (toGridSteps1to5 vrecpeq_f32 st s particlePos fNumX fNumY hh invH
      numParticles).particleVel = st.particleVel ∧
    (∀ idx, 0 ≤ idx → idx < fNumX * fNumY →
      (toGridSteps1to5 vrecpeq_f32 st s particlePos fNumX fNumY hh invH numParticles).prevU
        idx = st.u idx) ∧
    (∀ idx, 0 ≤ idx → idx < fNumX * fNumY →
      (toGridSteps1to5 vrecpeq_f32 st s particlePos fNumX fNumY hh invH numParticles).prevV
        idx = st.v idx) := by
  unfold toGridSteps1to5
  simp only []
  obtain ⟨n1, n2, n3, n4, n5, n6⟩ := normalizeGrid_sameAux vrecpeq_f32 (fNumX * fNumY)
    (scatterAll particlePos fNumX fNumY hh invH numParticles
      (classifyCells s particlePos fNumX fNumY invH numParticles
        (backupAndClear (fNumX * fNumY) st)))
  obtain ⟨c1, c2, c3, c4, c5, c6, c7, c8⟩ := backupAndClear_spec (fNumX * fNumY) st
  refine ⟨?_, ?_, ?_, ?_⟩
  · rw [n5]
    show markFluid _ _ _ _ _ (initCellTypes s _ (backupAndClear (fNumX * fNumY) st).cellType)
      = _
    rw [c7]
  · rw [n6]
    exact c8
  · intro idx h0 h1
    rw [n3]
    show (backupAndClear (fNumX * fNumY) st).prevU idx = _
    rw [c1 idx, if_pos ⟨h0, h1⟩]
  · intro idx h0 h1
    rw [n4]
    show (backupAndClear (fNumX * fNumY) st).prevV idx = _
    rw [c2 idx, if_pos ⟨h0, h1⟩]

/-- The accumulated weights and the normalized values after steps 1 to 5, in terms of the
accumulation of step 4 started from cleared buffers. -/
theorem toGridSteps1to5_values [FloorRing F] (vrecpeq_f32 : F → F)
    (hrecip : ∀ d, eps9 < d → vrecpeq_f32 d = 1 / d) (st : TransferState F)
    (s particlePos : ℤ → F) (fNumX fNumY : ℤ) (hh invH : F) (numParticles : ℤ) :
    (toGridSteps1to5 vrecpeq_f32 st s particlePos fNumX fNumY hh invH numParticles).du =
      (scatterComp particlePos st.particleVel fNumX fNumY hh invH numParticles 0
        ((backupAndClear (fNumX * fNumY) st).u, (backupAndClear (fNumX * fNumY) st).du)).2 ∧
    (toGridSteps1to5 vrecpeq_f32 st s particlePos fNumX fNumY hh invH numParticles).dv =
      (scatterComp particlePos st.particleVel fNumX fNumY hh invH numParticles 1
        ((backupAndClear (fNumX * fNumY) st).v, (backupAndClear (fNumX * fNumY) st).dv)).2 ∧
    (∀ idx, 0 ≤ idx → idx < fNumX * fNumY →
      (toGridSteps1to5 vrecpeq_f32 st s particlePos fNumX fNumY hh invH numParticles).u idx =
        normalizeValue
          ((scatterComp particlePos st.particleVel fNumX fNumY hh invH numParticles 0
            ((backupAndClear (fNumX * fNumY) st).u,
              (backupAndClear (fNumX * fNumY) st).du)).1 idx)
          ((scatterComp particlePos st.particleVel fNumX fNumY hh invH numParticles 0
            ((backupAndClear (fNumX * fNumY) st).u,
              (backupAndClear (fNumX * fNumY) st).du)).2 idx)) ∧
    (∀ idx, 0 ≤ idx → idx < fNumX * fNumY →
      (toGridSteps1to5 vrecpeq_f32 st s particlePos fNumX fNumY hh invH numParticles).v idx =
        normalizeValue
          ((scatterComp particlePos st.particleVel fNumX fNumY hh invH numParticles 1
            ((backupAndClear (fNumX * fNumY) st).v,
              (backupAndClear (fNumX * fNumY) st).dv)).1 idx)
          ((scatterComp particlePos st.particleVel fNumX fNumY hh invH numParticles 1
            ((backupAndClear (fNumX * fNumY) st).v,
              (backupAndClear (fNumX * fNumY) st).dv)).2 idx)) := by
  unfold toGridSteps1to5
  simp only []
  obtain ⟨m1, m2, m3, m4, _, _, _, _⟩ := normalizeGrid_spec vrecpeq_f32
    (normalizeLane_eq vrecpeq_f32 hrecip) (fNumX * fNumY)
    (scatterAll particlePos fNumX fNumY hh invH numParticles
      (classifyCells s particlePos fNumX fNumY invH numParticles
        (backupAndClear (fNumX * fNumY) st)))
  have hpv : (classifyCells s particlePos fNumX fNumY invH numParticles
      (backupAndClear (fNumX * fNumY) st)).particleVel = st.particleVel :=
    (backupAndClear_spec (fNumX * fNumY) st).2.2.2.2.2.2.2
  refine ⟨?_, ?_, ?_, ?_⟩
  · rw [m3]
    show (scatterComp _ (classifyCells s particlePos fNumX fNumY invH numParticles
      (backupAndClear (fNumX * fNumY) st)).particleVel _ _ _ _ _ _ _).2 = _
    rw [hpv]
    rfl
  · rw [m4]
    show (scatterComp _ (classifyCells s particlePos fNumX fNumY invH numParticles
      (backupAndClear (fNumX * fNumY) st)).particleVel _ _ _ _ _ _ _).2 = _
    rw [hpv]
    rfl
  · intro idx h0 h1
    rw [m1 idx, if_pos ⟨h0, h1⟩]
    show normalizeValue ((scatterComp _ (classifyCells s particlePos fNumX fNumY invH
      numParticles (backupAndClear (fNumX * fNumY) st)).particleVel _ _ _ _ _ _ _).1 idx)
      ((scatterComp _ (classifyCells s particlePos fNumX fNumY invH
      numParticles (backupAndClear (fNumX * fNumY) st)).particleVel _ _ _ _ _ _ _).2 idx) = _
    rw [hpv]
    rfl
  · intro idx h0 h1
    rw [m2 idx, if_pos ⟨h0, h1⟩]
    show normalizeValue ((scatterComp _ (classifyCells s particlePos fNumX fNumY invH
      numParticles (backupAndClear (fNumX * fNumY) st)).particleVel _ _ _ _ _ _ _).1 idx)
      ((scatterComp _ (classifyCells s particlePos fNumX fNumY invH
      numParticles (backupAndClear (fNumX * fNumY) st)).particleVel _ _ _ _ _ _ _).2 idx) = _
    rw [hpv]
    rfl

/-- After steps 1 to 5 on particles that all carry the velocity `(a, b)`, every grid face
whose accumulated weight exceeds `1e-9` holds `a` (for `u`) resp. `b` (for `v`). -/
theorem toGridSteps1to5_uniform [FloorRing F] (vrecpeq_f32 : F → F)
    (hrecip : ∀ d, eps9 < d → vrecpeq_f32 d = 1 / d) (st : TransferState F)
    (s particlePos : ℤ → F) (fNumX fNumY : ℤ) (hh invH : F) (numParticles : ℤ) (a b : F)
    (hvel : ∀ k, 0 ≤ k → k < numParticles →
      st.particleVel (2 * k) = a ∧ st.particleVel (2 * k + 1) = b)
    (idx : ℤ) (h0 : 0 ≤ idx) (h1 : idx < fNumX * fNumY) :
    (eps9 < (toGridSteps1to5 vrecpeq_f32 st s particlePos fNumX fNumY hh invH
        numParticles).du idx →
      (toGridSteps1to5 vrecpeq_f32 st s particlePos fNumX fNumY hh invH numParticles).u idx
        = a) ∧
    (eps9 < (toGridSteps1to5 vrecpeq_f32 st s particlePos fNumX fNumY hh invH
        numParticles).dv idx →
      (toGridSteps1to5 vrecpeq_f32 st s particlePos fNumX fNumY hh invH numParticles).v idx
        = b) := by
  obtain ⟨v1, v2, v3, v4⟩ := toGridSteps1to5_values vrecpeq_f32 hrecip st s particlePos
    fNumX fNumY hh invH numParticles
  obtain ⟨_, _, c3, c4, c5, c6, _, _⟩ := backupAndClear_spec (fNumX * fNumY) st
  have heps : (0 : F) < eps9 := by unfold eps9; norm_num
  constructor
  · intro hd
    rw [v3 idx h0 h1]
    rw [v1] at hd
    have hu := scatterComp_uniform particlePos st.particleVel fNumX fNumY hh invH numParticles
      0 a ((backupAndClear (fNumX * fNumY) st).u, (backupAndClear (fNumX * fNumY) st).du)
      (fun k hk0 hk1 => by have := (hvel k hk0 hk1).1; simpa using this)
      (fun x hx0 hx1 => by
        show (backupAndClear (fNumX * fNumY) st).u x = a * (backupAndClear (fNumX * fNumY) st).du x
        rw [c5 x, c3 x, if_pos ⟨hx0, hx1⟩, if_pos ⟨hx0, hx1⟩, mul_zero])
      idx h0 h1
    unfold normalizeValue
    rw [if_pos hd, hu]
    field_simp [ne_of_gt (lt_trans heps hd)]
  · intro hd
    rw [v4 idx h0 h1]
    rw [v2] at hd
    have hv := scatterComp_uniform particlePos st.particleVel fNumX fNumY hh invH numParticles
      1 b ((backupAndClear (fNumX * fNumY) st).v, (backupAndClear (fNumX * fNumY) st).dv)
      (fun k hk0 hk1 => (hvel k hk0 hk1).2)
      (fun x hx0 hx1 => by
        show (backupAndClear (fNumX * fNumY) st).v x = b * (backupAndClear (fNumX * fNumY) st).dv x
        rw [c6 x, c4 x, if_pos ⟨hx0, hx1⟩, if_pos ⟨hx0, hx1⟩, mul_zero])
      idx h0 h1
    unfold normalizeValue
    rw [if_pos hd, hv]
    field_simp [ne_of_gt (lt_trans heps hd)]

theorem cellIndex_inRange (fNumX fNumY i j : ℤ) (hi0 : 0 ≤ i) (hi1 : i < fNumX) (hj0 : 0 ≤ j)
    (hj1 : j < fNumY) : 0 ≤ i * fNumY + j ∧ i * fNumY + j < fNumX * fNumY := by
  have h1 : 0 ≤ i * fNumY := mul_nonneg hi0 (by omega)
  have h2 : (i + 1) * fNumY ≤ fNumX * fNumY := mul_le_mul_of_nonneg_right (by omega) (by omega)
  constructor
  · omega
  · nlinarith

/-! ## Evaluation lemmas for the accumulation -/

theorem forRange_zero_one {σ : Type} (body : ℤ → σ → σ) (st : σ) :
    forRange 0 1 body st = body 0 st := by
  unfold forRange
  have h1 : ((1 : ℤ) - 0).toNat = 1 := by decide
  rw [h1]
  simp [List.range_succ]

theorem deposit_fst_apply (N nk : ℤ) (pv w : F) (fd : (ℤ → F) × (ℤ → F)) (x : ℤ) :
    (deposit N nk pv w fd).1 x =
      fd.1 x + (if nk = x ∧ 0 ≤ nk ∧ nk < N then pv * w else 0) := by
  unfold deposit
  by_cases hc : nk ≥ 0 ∧ nk < N
  · rw [if_pos hc]
    show Function.update fd.1 nk (fd.1 nk + pv * w) x = _
    rw [Function.update_apply]
    by_cases hx : x = nk
    · subst hx
      rw [if_pos rfl, if_pos ⟨rfl, hc.1, hc.2⟩]
    · rw [if_neg hx, if_neg (fun h => hx h.1.symm), add_zero]
  · rw [if_neg hc, if_neg (fun h => hc ⟨h.2.1, h.2.2⟩), add_zero]

theorem deposit_snd_apply (N nk : ℤ) (pv w : F) (fd : (ℤ → F) × (ℤ → F)) (x : ℤ) :
    (deposit N nk pv w fd).2 x =
      fd.2 x + (if nk = x ∧ 0 ≤ nk ∧ nk < N then w else 0) := by
  unfold deposit
  by_cases hc : nk ≥ 0 ∧ nk < N
  · rw [if_pos hc]
    show Function.update fd.2 nk (fd.2 nk + w) x = _
    rw [Function.update_apply]
    by_cases hx : x = nk
    · subst hx
      rw [if_pos rfl, if_pos ⟨rfl, hc.1, hc.2⟩]
    · rw [if_neg hx, if_neg (fun h => hx h.1.symm), add_zero]
  · rw [if_neg hc, if_neg (fun h => hc ⟨h.2.1, h.2.2⟩), add_zero]

/-- The accumulated value and weight at `x` after the deposits of one particle whose
stencil is `sten`. -/
theorem scatterParticle_apply [FloorRing F] (particlePos particleVel : ℤ → F)
    (fNumX fNumY : ℤ) (hh invH : F) (comp i : ℤ) (fd : (ℤ → F) × (ℤ → F)) (x : ℤ)
    (sten : Stencil F)
    (hsten : stencil fNumX fNumY hh invH comp (particlePos (2 * i))
      (particlePos (2 * i + 1)) = sten) :
    (scatterParticle particlePos particleVel fNumX fNumY hh invH comp i fd).1 x =
      fd.1 x
        + (if sten.n0 = x ∧ 0 ≤ sten.n0 ∧ sten.n0 < fNumX * fNumY
            then particleVel (2 * i + comp) * sten.w0 else 0)
        + (if sten.n1 = x ∧ 0 ≤ sten.n1 ∧ sten.n1 < fNumX * fNumY
            then particleVel (2 * i + comp) * sten.w1 else 0)
        + (if sten.n2 = x ∧ 0 ≤ sten.n2 ∧ sten.n2 < fNumX * fNumY
            then particleVel (2 * i + comp) * sten.w2 else 0)
        + (if sten.n3 = x ∧ 0 ≤ sten.n3 ∧ sten.n3 < fNumX * fNumY
            then particleVel (2 * i + comp) * sten.w3 else 0) ∧
    (scatterParticle particlePos particleVel fNumX fNumY hh invH comp i fd).2 x =
      fd.2 x
        + (if sten.n0 = x ∧ 0 ≤ sten.n0 ∧ sten.n0 < fNumX * fNumY then sten.w0 else 0)
        + (if sten.n1 = x ∧ 0 ≤ sten.n1 ∧ sten.n1 < fNumX * fNumY then sten.w1 else 0)
        + (if sten.n2 = x ∧ 0 ≤ sten.n2 ∧ sten.n2 < fNumX * fNumY then sten.w2 else 0)
        + (if sten.n3 = x ∧ 0 ≤ sten.n3 ∧ sten.n3 < fNumX * fNumY then sten.w3 else 0) := by
  unfold scatterParticle
  simp only [hsten]
  constructor
  · rw [deposit_fst_apply, deposit_fst_apply, deposit_fst_apply, deposit_fst_apply]
  · rw [deposit_snd_apply, deposit_snd_apply, deposit_snd_apply, deposit_snd_apply]

/-- Cell types on return from the P->G branch, by cases on `s[c]` and particle occupancy. -/
theorem toGrid_cellType_cases [FloorRing F] (s particlePos : ℤ → F) (fNumX fNumY : ℤ)
    (invH : F) (numParticles : ℤ) (ct0 : ℤ → ℤ) (c : ℤ) (hc0 : 0 ≤ c)
    (hc1 : c < fNumX * fNumY) :
    (s c = 0 → markFluid particlePos fNumX fNumY invH numParticles
      (initCellTypes s (fNumX * fNumY) ct0) c = SOLID_CELL_CPP) ∧
    (s c ≠ 0 → (∃ k, 0 ≤ k ∧ k < numParticles ∧
        particleCellIndex particlePos fNumX fNumY invH k = c) →
      markFluid particlePos fNumX fNumY invH numParticles
        (initCellTypes s (fNumX * fNumY) ct0) c = FLUID_CELL_CPP) ∧
    (s c ≠ 0 → (¬ ∃ k, 0 ≤ k ∧ k < numParticles ∧
        particleCellIndex particlePos fNumX fNumY invH k = c) →
      markFluid particlePos fNumX fNumY invH numParticles
        (initCellTypes s (fNumX * fNumY) ct0) c = AIR_CELL_CPP) := by
  have hSA : SOLID_CELL_CPP ≠ AIR_CELL_CPP := by decide
  have hm := markFluid_spec particlePos fNumX fNumY invH numParticles
    (initCellTypes s (fNumX * fNumY) ct0) c
  have hi := initCellTypes_apply s (fNumX * fNumY) ct0 c
  rw [if_pos ⟨hc0, hc1⟩] at hi
  refine ⟨fun hs => ?_, fun hs hex => ?_, fun hs hex => ?_⟩
  · rw [if_pos hs] at hi
    rw [hm.2 (fun hh => hSA (hi ▸ hh.2.2.1)), hi]
  · rw [if_neg hs] at hi
    exact hm.1 ⟨hc0, hc1, hi, hex⟩
  · rw [if_neg hs] at hi
    rw [hm.2 (fun hh => hex hh.2.2.2), hi]

theorem toGrid_cellType_ne_solid [FloorRing F] (s particlePos : ℤ → F) (fNumX fNumY : ℤ)
    (invH : F) (numParticles : ℤ) (ct0 : ℤ → ℤ) (c : ℤ) (hc0 : 0 ≤ c)
    (hc1 : c < fNumX * fNumY) (hs : s c ≠ 0) :
    markFluid particlePos fNumX fNumY invH numParticles
      (initCellTypes s (fNumX * fNumY) ct0) c ≠ SOLID_CELL_CPP := by
  obtain ⟨_, k2, k3⟩ := toGrid_cellType_cases s particlePos fNumX fNumY invH numParticles ct0
    c hc0 hc1
  by_cases hex : ∃ k, 0 ≤ k ∧ k < numParticles ∧
      particleCellIndex particlePos fNumX fNumY invH k = c
  · rw [k2 hs hex]
    decide
  · rw [k3 hs hex]
    decide

/-! ## C7: P->G of a uniform velocity field -/

/-- C7: if every particle has x-velocity `a` and y-velocity `b`, then after
`transferVelocities_native` with `toGrid = true` (the reciprocal estimate of the
vectorized normalization read as the exact reciprocal), every in-range u-face `(i, j)`
whose accumulated weight `du` exceeds `1e-9` and which is not restored from the snapshot
(the cell and its left neighbour are not SOLID) equals `a`, and every such v-face (cell and
bottom neighbour not SOLID, `dv > 1e-9`) equals `b`. -/
theorem C7_uniform_field_to_grid [FloorRing F] (vrecpeq_f32 : F → F)
    (hrecip : ∀ d, eps9 < d → vrecpeq_f32 d = 1 / d) (flipRatio : F)
    (st : TransferState F) (s particlePos : ℤ → F) (fNumX fNumY : ℤ) (h invH : F)
    (numParticles : ℤ) (a b : F)
    (hvel : ∀ k, 0 ≤ k → k < numParticles →
      st.particleVel (2 * k) = a ∧ st.particleVel (2 * k + 1) = b)
    (i j : ℤ) (hi0 : 0 ≤ i) (hi1 : i < fNumX) (hj0 : 0 ≤ j) (hj1 : j < fNumY) :
    (eps9 < (transferVelocities_native vrecpeq_f32 true flipRatio st s particlePos fNumX
        fNumY h invH numParticles).du (i * fNumY + j) →
      (transferVelocities_native vrecpeq_f32 true flipRatio st s particlePos fNumX
        fNumY h invH numParticles).cellType (i * fNumY + j) ≠ SOLID_CELL_CPP →
      (0 < i → (transferVelocities_native vrecpeq_f32 true flipRatio st s particlePos fNumX
        fNumY h invH numParticles).cellType ((i - 1) * fNumY + j) ≠ SOLID_CELL_CPP) →
      (transferVelocities_native vrecpeq_f32 true flipRatio st s particlePos fNumX
        fNumY h invH numParticles).u (i * fNumY + j) = a) ∧
    (eps9 < (transferVelocities_native vrecpeq_f32 true flipRatio st s particlePos fNumX
        fNumY h invH numParticles).dv (i * fNumY + j) →
      (transferVelocities_native vrecpeq_f32 true flipRatio st s particlePos fNumX
        fNumY h invH numParticles).cellType (i * fNumY + j) ≠ SOLID_CELL_CPP →
      (0 < j → (transferVelocities_native vrecpeq_f32 true flipRatio st s particlePos fNumX
        fNumY h invH numParticles).cellType (i * fNumY + (j - 1)) ≠ SOLID_CELL_CPP) →
      (transferVelocities_native vrecpeq_f32 true flipRatio st s particlePos fNumX
        fNumY h invH numParticles).v (i * fNumY + j) = b) := by
  have hres : transferVelocities_native vrecpeq_f32 true flipRatio st s particlePos fNumX
      fNumY h invH numParticles =
      restoreSolid fNumX fNumY
        (toGridSteps1to5 vrecpeq_f32 st s particlePos fNumX fNumY h invH numParticles) := by
    unfold transferVelocities_native
    simp only [if_true]
  rw [hres]
  obtain ⟨r1, r2, _, _, r5, _⟩ := restoreSolid_sameAux fNumX fNumY
    (toGridSteps1to5 vrecpeq_f32 st s particlePos fNumX fNumY h invH numParticles)
  obtain ⟨hin0, hin1⟩ := cellIndex_inRange fNumX fNumY i j hi0 hi1 hj0 hj1
  obtain ⟨u1, u2⟩ := toGridSteps1to5_uniform vrecpeq_f32 hrecip st s particlePos fNumX fNumY
    h invH numParticles a b hvel (i * fNumY + j) hin0 hin1
  obtain ⟨q1, q2⟩ := restoreSolid_unchanged fNumX fNumY
    (toGridSteps1to5 vrecpeq_f32 st s particlePos fNumX fNumY h invH numParticles) i j hj0 hj1
  rw [r1, r2, r5]
  constructor
  · intro hd hc hl
    rw [q1 ⟨hc, hl⟩]
    exact u1 hd
  · intro hd hc hl
    rw [q2 ⟨hc, hl⟩]
    exact u2 hd

theorem transfer_toGrid_eq [FloorRing F] (vrecpeq_f32 : F → F) (flipRatio : F)
    (st : TransferState F) (s particlePos : ℤ → F) (fNumX fNumY : ℤ) (h invH : F)
    (numParticles : ℤ) :
    transferVelocities_native vrecpeq_f32 true flipRatio st s particlePos fNumX fNumY h invH
        numParticles =
      restoreSolid fNumX fNumY
        (toGridSteps1to5 vrecpeq_f32 st s particlePos fNumX fNumY h invH numParticles) := by
  unfold transferVelocities_native
  simp only [if_true]

/-- The accumulated weights on return from the P->G branch with a single particle whose
stencils are `sten0` (component 0) and `sten1` (component 1). -/
theorem toGrid_weights_single [FloorRing F] (vrecpeq_f32 : F → F)
    (hrecip : ∀ d, eps9 < d → vrecpeq_f32 d = 1 / d) (flipRatio : F)
    (st : TransferState F) (s particlePos : ℤ → F) (fNumX fNumY : ℤ) (h invH : F)
    (sten0 sten1 : Stencil F)
    (h0 : stencil fNumX fNumY h invH 0 (particlePos (2 * 0)) (particlePos (2 * 0 + 1)) = sten0)
    (h1 : stencil fNumX fNumY h invH 1 (particlePos (2 * 0)) (particlePos (2 * 0 + 1)) = sten1)
    (x : ℤ) (hx0 : 0 ≤ x) (hx1 : x < fNumX * fNumY) :
    (transferVelocities_native vrecpeq_f32 true flipRatio st s particlePos fNumX fNumY h invH
        1).du x =
      0 + (if sten0.n0 = x ∧ 0 ≤ sten0.n0 ∧ sten0.n0 < fNumX * fNumY then sten0.w0 else 0)
        + (if sten0.n1 = x ∧ 0 ≤ sten0.n1 ∧ sten0.n1 < fNumX * fNumY then sten0.w1 else 0)
        + (if sten0.n2 = x ∧ 0 ≤ sten0.n2 ∧ sten0.n2 < fNumX * fNumY then sten0.w2 else 0)
        + (if sten0.n3 = x ∧ 0 ≤ sten0.n3 ∧ sten0.n3 < fNumX * fNumY then sten0.w3 else 0) ∧
    (transferVelocities_native vrecpeq_f32 true flipRatio st s particlePos fNumX fNumY h invH
        1).dv x =
      0 + (if sten1.n0 = x ∧ 0 ≤ sten1.n0 ∧ sten1.n0 < fNumX * fNumY then sten1.w0 else 0)
        + (if sten1.n1 = x ∧ 0 ≤ sten1.n1 ∧ sten1.n1 < fNumX * fNumY then sten1.w1 else 0)
        + (if sten1.n2 = x ∧ 0 ≤ sten1.n2 ∧ sten1.n2 < fNumX * fNumY then sten1.w2 else 0)
        + (if sten1.n3 = x ∧ 0 ≤ sten1.n3 ∧ sten1.n3 < fNumX * fNumY then sten1.w3 else 0) := by
  rw [transfer_toGrid_eq]
  obtain ⟨r1, r2, _, _, _, _⟩ := restoreSolid_sameAux fNumX fNumY
    (toGridSteps1to5 vrecpeq_f32 st s particlePos fNumX fNumY h invH 1)
  obtain ⟨v1, v2, _, _⟩ := toGridSteps1to5_values vrecpeq_f32 hrecip st s particlePos
    fNumX fNumY h invH 1
  obtain ⟨_, _, c3, c4, _, _, _, _⟩ := backupAndClear_spec (fNumX * fNumY) st
  rw [r1, r2, v1, v2]
  unfold scatterComp
  rw [forRange_zero_one, forRange_zero_one,
    (scatterParticle_apply _ _ _ _ _ _ _ _ _ x sten0 h0).2,
    (scatterParticle_apply _ _ _ _ _ _ _ _ _ x sten1 h1).2]
  have e3 : (backupAndClear (fNumX * fNumY) st).du x = 0 := by
    rw [c3 x, if_pos ⟨hx0, hx1⟩]
  have e4 : (backupAndClear (fNumX * fNumY) st).dv x = 0 := by
    rw [c4 x, if_pos ⟨hx0, hx1⟩]
  constructor
  · show (backupAndClear (fNumX * fNumY) st).du x + _ + _ + _ + _ = _
    rw [e3]
  · show (backupAndClear (fNumX * fNumY) st).dv x + _ + _ + _ + _ = _
    rw [e4]

/-- Witness for C7: a 4×4 grid with `h = invH = 1`, no solid cell, one particle at
`(7/4, 7/4)` with velocity `(2, 3)`; the faces at `(1, 1)` (index 5) receive the weight
`3/16` in both components and hold `2` resp. `3` on return. -/
theorem C7_uniform_field_to_grid_witness :
    ((0 : ℤ) ≤ 1 ∧ (1 : ℤ) < 4) ∧
    (transferVelocities_native (fun d => 1 / d) true 0 exampleState
      (fun _ => 1) (fun _ => 7 / 4) 4 4 1 1 1).u (1 * 4 + 1) = 2 ∧
    (transferVelocities_native (fun d => 1 / d) true 0 exampleState
      (fun _ => 1) (fun _ => 7 / 4) 4 4 1 1 1).v (1 * 4 + 1) = 3 := by
  have f1 : ⌊(7 / 4 : ℚ)⌋ = 1 := by norm_num
  have f2 : ⌊(5 / 4 : ℚ)⌋ = 1 := by norm_num
  have hs0 : stencil 4 4 (1 : ℚ) 1 0 (7 / 4) (7 / 4) =
      { w0 := 3 / 16, w1 := 9 / 16, w2 := 3 / 16, w3 := 1 / 16,
        n0 := 5, n1 := 9, n2 := 10, n3 := 6 } := by
    norm_num [stencil, floorf, toInt, f1, f2]
  have hs1 : stencil 4 4 (1 : ℚ) 1 1 (7 / 4) (7 / 4) =
      { w0 := 3 / 16, w1 := 1 / 16, w2 := 3 / 16, w3 := 9 / 16,
        n0 := 5, n1 := 9, n2 := 10, n3 := 6 } := by
    norm_num [stencil, floorf, toInt, f1, f2]
  have hrecip : ∀ d : ℚ, eps9 < d → (fun d => 1 / d) d = 1 / d := fun _ _ => rfl
  have hw := toGrid_weights_single (F := ℚ) (fun d => 1 / d) hrecip 0 exampleState
    (fun _ => 1) (fun _ => 7 / 4) 4 4 1 1 _ _ hs0 hs1 (1 * 4 + 1) (by norm_num) (by norm_num)
  have hns : ∀ c : ℤ, 0 ≤ c → c < 4 * 4 →
      (transferVelocities_native (fun d => 1 / d) true 0 exampleState
        (fun _ => (1 : ℚ)) (fun _ => 7 / 4) 4 4 1 1 1).cellType c ≠ SOLID_CELL_CPP := by
    intro c hc0 hc1
    rw [transfer_toGrid_cellType]
    exact toGrid_cellType_ne_solid _ _ _ _ _ _ _ c hc0 hc1 (by norm_num)
  have key := C7_uniform_field_to_grid (F := ℚ) (fun d => 1 / d) hrecip 0 exampleState
      (fun _ => 1) (fun _ => 7 / 4) 4 4 1 1 1 2 3
      (by
        intro k hk0 hk1
        have hk : k = 0 := by omega
        subst hk
        exact ⟨rfl, rfl⟩)
      1 1 (by norm_num) (by norm_num) (by norm_num) (by norm_num)
  refine ⟨by norm_num, key.1 ?_ (hns _ (by norm_num) (by norm_num))
      (fun _ => hns _ (by norm_num) (by norm_num)),
    key.2 ?_ (hns _ (by norm_num) (by norm_num))
      (fun _ => hns _ (by norm_num) (by norm_num))⟩
  · rw [hw.1]
    norm_num [eps9]
  · rw [hw.2]
    norm_num [eps9]

/-! ## G->P: per-particle reading of the result -/

theorem gatherParticle_other [FloorRing F] (flipRatio : F) (f_arr prevF_arr : ℤ → F)
    (cellType : ℤ → ℤ) (particlePos : ℤ → F) (fNumX fNumY : ℤ) (hh invH : F) (comp i : ℤ)
    (pv : ℤ → F) (x : ℤ) (hx : x ≠ 2 * i + comp) :
    gatherParticle flipRatio f_arr prevF_arr cellType particlePos fNumX fNumY hh invH comp i
      pv x = pv x := by
  unfold gatherParticle
  simp only []
  split_ifs
  · rw [Function.update_apply, if_neg hx]
  · rfl

theorem gatherParticle_self_congr [FloorRing F] (flipRatio : F) (f_arr prevF_arr : ℤ → F)
    (cellType : ℤ → ℤ) (particlePos : ℤ → F) (fNumX fNumY : ℤ) (hh invH : F) (comp i : ℤ)
    (pv1 pv2 : ℤ → F) (h : pv1 (2 * i + comp) = pv2 (2 * i + comp)) :
    gatherParticle flipRatio f_arr prevF_arr cellType particlePos fNumX fNumY hh invH comp i
      pv1 (2 * i + comp) =
    gatherParticle flipRatio f_arr prevF_arr cellType particlePos fNumX fNumY hh invH comp i
      pv2 (2 * i + comp) := by
  unfold gatherParticle
  simp only []
  split_ifs
  · rw [Function.update_same, Function.update_same, h]
  · exact h

/-- The entry `2*i + comp` of `particleVel` after the G->P loop of component `comp` is the
one written by the loop body of particle `i` on the entry buffer. -/
theorem gatherComp_apply [FloorRing F] (flipRatio : F) (f_arr prevF_arr : ℤ → F)
    (cellType : ℤ → ℤ) (particlePos : ℤ → F) (fNumX fNumY : ℤ) (hh invH : F)
    (numParticles comp : ℤ) (pv : ℤ → F) (i : ℤ) (hi0 : 0 ≤ i) (hi1 : i < numParticles) :
    gatherComp flipRatio f_arr prevF_arr cellType particlePos fNumX fNumY hh invH
      numParticles comp pv (2 * i + comp) =
    gatherParticle flipRatio f_arr prevF_arr cellType particlePos fNumX fNumY hh invH comp i
      pv (2 * i + comp) := by
  unfold gatherComp
  have h := forRange_induction
    (fun m q => q (2 * i + comp) =
      if i < m then gatherParticle flipRatio f_arr prevF_arr cellType particlePos fNumX fNumY
        hh invH comp i pv (2 * i + comp) else pv (2 * i + comp))
    0 numParticles
    (fun k q => gatherParticle flipRatio f_arr prevF_arr cellType particlePos fNumX fNumY
      hh invH comp k q) pv
    (by simp [not_lt.mpr hi0])
    (by
      intro k q _ _ hP
      show gatherParticle flipRatio f_arr prevF_arr cellType particlePos fNumX fNumY
        hh invH comp k q (2 * i + comp) = _
      rcases lt_trichotomy i k with hlt | heq | hgt
      · rw [gatherParticle_other _ _ _ _ _ _ _ _ _ _ _ _ _ (by omega), hP, if_pos hlt,
          if_pos (by omega)]
      · subst heq
        rw [if_neg (lt_irrefl _)] at hP
        rw [if_pos (by omega)]
        exact gatherParticle_self_congr _ _ _ _ _ _ _ _ _ _ _ _ _ hP
      · rw [gatherParticle_other _ _ _ _ _ _ _ _ _ _ _ _ _ (by omega), hP, if_neg (by omega),
          if_neg (by omega)])
  rw [max_eq_right (by omega)] at h
  rw [h, if_pos hi1]

theorem gatherComp_other [FloorRing F] (flipRatio : F) (f_arr prevF_arr : ℤ → F)
    (cellType : ℤ → ℤ) (particlePos : ℤ → F) (fNumX fNumY : ℤ) (hh invH : F)
    (numParticles comp : ℤ) (pv : ℤ → F) (x : ℤ) (hx : ∀ k, x ≠ 2 * k + comp) :
    gatherComp flipRatio f_arr prevF_arr cellType particlePos fNumX fNumY hh invH
      numParticles comp pv x = pv x := by
  unfold gatherComp
  exact forRange_preserves (fun q : ℤ → F => q x = pv x) _ _ _ _ rfl
    (fun k q _ _ hP => by
      show gatherParticle flipRatio f_arr prevF_arr cellType particlePos fNumX fNumY
        hh invH comp k q x = _
      rw [gatherParticle_other _ _ _ _ _ _ _ _ _ _ _ _ _ (hx k), hP])

/-- Both velocity components of an in-range particle on return from the G->P branch. -/
theorem transfer_toParticles_apply [FloorRing F] (vrecpeq_f32 : F → F) (flipRatio : F)
    (st : TransferState F) (s particlePos : ℤ → F) (fNumX fNumY : ℤ) (h invH : F)
    (numParticles : ℤ) (i : ℤ) (hi0 : 0 ≤ i) (hi1 : i < numParticles) :
    (transferVelocities_native vrecpeq_f32 false flipRatio st s particlePos fNumX fNumY h
        invH numParticles).particleVel (2 * i) =
      gatherParticle flipRatio st.u st.prevU st.cellType particlePos fNumX fNumY h invH 0 i
        st.particleVel (2 * i + 0) ∧
    (transferVelocities_native vrecpeq_f32 false flipRatio st s particlePos fNumX fNumY h
        invH numParticles).particleVel (2 * i + 1) =
      gatherParticle flipRatio st.v st.prevV st.cellType particlePos fNumX fNumY h invH 1 i
        st.particleVel (2 * i + 1) := by
  unfold transferVelocities_native
  simp only [Bool.false_eq_true, if_false]
  constructor
  · rw [gatherComp_other _ _ _ _ _ _ _ _ _ _ _ _ (2 * i) (by intro k; omega)]
    have := gatherComp_apply flipRatio st.u st.prevU st.cellType particlePos fNumX fNumY h
      invH numParticles 0 st.particleVel i hi0 hi1
    rw [add_zero] at this
    rw [this, add_zero]
  · rw [gatherComp_apply _ _ _ _ _ _ _ _ _ _ _ _ i hi0 hi1]
    apply gatherParticle_self_congr
    exact gatherComp_other _ _ _ _ _ _ _ _ _ _ _ _ (2 * i + 1) (by intro k; omega)

/-- With `flipRatio = 0` the G->P body writes the PIC value `picV` when `sumW > 1e-9`. -/
theorem gatherParticle_flip_zero [FloorRing F] (f_arr prevF_arr : ℤ → F)
    (cellType : ℤ → ℤ) (particlePos : ℤ → F) (fNumX fNumY : ℤ) (hh invH : F) (comp i : ℤ)
    (pv : ℤ → F) (sten : Stencil F)
    (hsten : stencil fNumX fNumY hh invH comp (particlePos (2 * i))
      (particlePos (2 * i + 1)) = sten) :
    gatherParticle 0 f_arr prevF_arr cellType particlePos fNumX fNumY hh invH comp i pv
      (2 * i + comp) =
    if cornerOk cellType (fNumX * fNumY) fNumY sten.n0 comp * sten.w0
        + cornerOk cellType (fNumX * fNumY) fNumY sten.n1 comp * sten.w1
        + cornerOk cellType (fNumX * fNumY) fNumY sten.n2 comp * sten.w2
        + cornerOk cellType (fNumX * fNumY) fNumY sten.n3 comp * sten.w3 > eps9
    then
      (cornerOk cellType (fNumX * fNumY) fNumY sten.n0 comp * sten.w0
          * readOrZero f_arr (fNumX * fNumY) sten.n0
        + cornerOk cellType (fNumX * fNumY) fNumY sten.n1 comp * sten.w1
          * readOrZero f_arr (fNumX * fNumY) sten.n1
        + cornerOk cellType (fNumX * fNumY) fNumY sten.n2 comp * sten.w2
          * readOrZero f_arr (fNumX * fNumY) sten.n2
        + cornerOk cellType (fNumX * fNumY) fNumY sten.n3 comp * sten.w3
          * readOrZero f_arr (fNumX * fNumY) sten.n3) /
      (cornerOk cellType (fNumX * fNumY) fNumY sten.n0 comp * sten.w0
        + cornerOk cellType (fNumX * fNumY) fNumY sten.n1 comp * sten.w1
        + cornerOk cellType (fNumX * fNumY) fNumY sten.n2 comp * sten.w2
        + cornerOk cellType (fNumX * fNumY) fNumY sten.n3 comp * sten.w3)
    else pv (2 * i + comp) := by
  unfold gatherParticle
  simp only [hsten]
  split_ifs with hsum
  · rw [Function.update_same]
    ring
  · rfl

/-- One pair blend keeps an entry that is in `[0, 1]` in `[0, 1]`: it is either not written
or written with a clamped value. -/
theorem diffusePair_mem (particlePos : ℤ → F) (minDist2 coeff : F) (ii jj : ℤ)
    (col : ℤ → F) (x : ℤ) (hx : 0 ≤ col x ∧ col x ≤ 1) :
    0 ≤ diffusePair particlePos minDist2 coeff ii jj col x ∧
      diffusePair particlePos minDist2 coeff ii jj col x ≤ 1 := by
  unfold diffusePair
  simp only []
  split_ifs with hc
  · simp only [store4_apply]
    split_ifs
    · exact clamp01_mem _
    · exact clamp01_mem _
    · exact hx
  · exact hx

/-- The whole kernel keeps an entry that is in `[0, 1]` in `[0, 1]`. -/
theorem diffuseParticleColors_mem [FloorRing F] (particlePos particleColor : ℤ → F)
    (firstCellParticle cellParticleIds : ℤ → ℤ) (numParticles pNumX pNumY : ℤ)
    (pInvSpacing particleRadius : F) (enableDynamicColoring : Bool) (coeff : F) (x : ℤ)
    (hx : 0 ≤ particleColor x ∧ particleColor x ≤ 1) :
    0 ≤ diffuseParticleColors_native particlePos particleColor firstCellParticle
        cellParticleIds numParticles pNumX pNumY pInvSpacing particleRadius
        enableDynamicColoring coeff x ∧
      diffuseParticleColors_native particlePos particleColor firstCellParticle
        cellParticleIds numParticles pNumX pNumY pInvSpacing particleRadius
        enableDynamicColoring coeff x ≤ 1 := by
  unfold diffuseParticleColors_native
  split_ifs with hret
  · exact hx
  · simp only []
    apply forRange_preserves (fun col : ℤ → F => 0 ≤ col x ∧ col x ≤ 1) _ _ _ _ hx
    intro ii col _ _ hP
    apply neighbourLoop_preserves (fun col : ℤ → F => 0 ≤ col x ∧ col x ≤ 1) _ _ _ _ _ _ _ _
      _ _ hP
    intro jj c _ _ _ hc
    exact diffusePair_mem _ _ _ _ _ _ _ hc

/-- C11: if every colour component of every particle `i` in `[0, numParticles)` is in
`[0, 1]` on entry to `diffuseParticleColors_native`, then every colour component of every
such particle is in `[0, 1]` on return, for every `coeff`, every position set and every bin
structure. -/
theorem C11_diffuse_preserves_color_range [FloorRing F] (particlePos particleColor : ℤ → F)
    (firstCellParticle cellParticleIds : ℤ → ℤ) (numParticles pNumX pNumY : ℤ)
    (pInvSpacing particleRadius : F) (enableDynamicColoring : Bool) (coeff : F)
    (hin : ∀ i l, 0 ≤ i → i < numParticles → 0 ≤ l → l < 4 →
      0 ≤ particleColor (4 * i + l) ∧ particleColor (4 * i + l) ≤ 1) :
    ∀ i l, 0 ≤ i → i < numParticles → 0 ≤ l → l < 4 →
      0 ≤ diffuseParticleColors_native particlePos particleColor firstCellParticle
          cellParticleIds numParticles pNumX pNumY pInvSpacing particleRadius
          enableDynamicColoring coeff (4 * i + l) ∧
        diffuseParticleColors_native particlePos particleColor firstCellParticle
          cellParticleIds numParticles pNumX pNumY pInvSpacing particleRadius
          enableDynamicColoring coeff (4 * i + l) ≤ 1 := by
  intro i l hi0 hi1 hl0 hl1
  exact diffuseParticleColors_mem _ _ _ _ _ _ _ _ _ _ _ _ (hin i l hi0 hi1 hl0 hl1)

/-- Witness for C11: two particles at `(0, 0)` and `(1, 0)` with radius 1 (so they are
closer than `minDist = 2`), listed in one bin, colours `(1, 0, 1/2, 1)` and
`(0, 1, 1/2, 1)`, `coeff = 3` (outside `[0, 1]`, so the clamp is exercised). -/
theorem C11_diffuse_preserves_color_range_witness :
    ((0 : ℤ) ≤ 1 ∧ (1 : ℤ) < 2 ∧ (0 : ℤ) ≤ 1 ∧ (1 : ℤ) < 4) ∧
    (0 ≤ diffuseParticleColors_native (F := ℚ) (fun k => if k = 2 then 1 else 0)
        (fun k => if k = 0 ∨ k = 5 ∨ k = 3 ∨ k = 7 then 1
          else if k = 2 ∨ k = 6 then 1 / 2 else 0)
        (fun c => if c = 0 then 0 else 2) (fun k => k) 2 1 1 1 1 true 3 (4 * 1 + 1) ∧
      diffuseParticleColors_native (F := ℚ) (fun k => if k = 2 then 1 else 0)
        (fun k => if k = 0 ∨ k = 5 ∨ k = 3 ∨ k = 7 then 1
          else if k = 2 ∨ k = 6 then 1 / 2 else 0)
        (fun c => if c = 0 then 0 else 2) (fun k => k) 2 1 1 1 1 true 3 (4 * 1 + 1) ≤ 1) :=
  ⟨by norm_num,
    C11_diffuse_preserves_color_range (F := ℚ) (fun k => if k = 2 then 1 else 0)
      (fun k => if k = 0 ∨ k = 5 ∨ k = 3 ∨ k = 7 then 1
        else if k = 2 ∨ k = 6 then 1 / 2 else 0)
      (fun c => if c = 0 then 0 else 2) (fun k => k) 2 1 1 1 1 true 3
      (by
        intro i l _ _ _ _
        show (0 : ℚ) ≤ (if _ then 1 else if _ then 1 / 2 else 0) ∧
          (if _ then 1 else if _ then 1 / 2 else 0) ≤ (1 : ℚ)
        constructor <;> split_ifs <;> norm_num)
      1 1 (by norm_num) (by norm_num) (by norm_num) (by norm_num)⟩

/-! ## C13: frame of the boundary enforcement -/

theorem scalarValue_untouched (fNumX fNumY : ℤ) (h cx cy cr : F) (act : Bool)
    (ox oy orad ovel : F) (ax ay bx by_ : ℤ) (old : F)
    (hsa : isCellStaticWall_native ax ay fNumX fNumY h cx cy cr = false)
    (hsb : isCellStaticWall_native bx by_ fNumX fNumY h cx cy cr = false)
    (hda : isCellDraggable_native ax ay fNumX fNumY h act ox oy orad = false)
    (hdb : isCellDraggable_native bx by_ fNumX fNumY h act ox oy orad = false) :
    scalarValue fNumX fNumY h cx cy cr act ox oy orad ovel ax ay bx by_ old = old := by
  unfold scalarValue
  simp [hsa, hsb, hda, hdb]

theorem isCellDraggable_inactive (ix iy fNumX fNumY : ℤ) (h ox oy orad : F) :
    isCellDraggable_native ix iy fNumX fNumY h false ox oy orad = false := by
  unfold isCellDraggable_native
  simp

/-- C13: for every in-range face `(i, j)` whose two adjacent cells are neither static-wall
cells nor draggable-obstacle cells, `u[i*fNumY + j]` (resp. `v[i*fNumY + j]`) on return
from `solveIncompressibility_native` is exactly the value produced by the pressure loop
(`gaussSeidel`); in particular with `isObstacleActive = false` this holds for every face
whose adjacent cells are not static, whatever the obstacle position, radius and velocity. -/
theorem C13_enforcement_frame (st : PressureState F) (s : ℤ → F) (cellType : ℤ → ℤ)
    (particleDensity : ℤ → F) (fNumX fNumY numIters : ℤ)
    (h dt density overRelaxation particleRestDensity : F) (compensateDrift : Bool)
    (circleCenterX circleCenterY circleRadius : F) (isObstacleActive : Bool)
    (obstacleX obstacleY obstacleRadiusCpp obstacleVelX obstacleVelY : F)
    (i j : ℤ) (hi0 : 0 ≤ i) (hi1 : i < fNumX) (hj0 : 0 ≤ j) (hj1 : j < fNumY) :
    (isCellStaticWall_native (i - 1) j fNumX fNumY h circleCenterX circleCenterY
          circleRadius = false →
      isCellStaticWall_native i j fNumX fNumY h circleCenterX circleCenterY
          circleRadius = false →
      isCellDraggable_native (i - 1) j fNumX fNumY h isObstacleActive obstacleX obstacleY
          obstacleRadiusCpp = false →
      isCellDraggable_native i j fNumX fNumY h isObstacleActive obstacleX obstacleY
          obstacleRadiusCpp = false →
      (solveIncompressibility_native st s cellType particleDensity fNumX fNumY numIters h dt
        density overRelaxation particleRestDensity compensateDrift circleCenterX
        circleCenterY circleRadius isObstacleActive obstacleX obstacleY obstacleRadiusCpp
        obstacleVelX obstacleVelY).u (i * fNumY + j) =
      (gaussSeidel s cellType particleDensity fNumX fNumY numIters (density * h / dt)
        overRelaxation particleRestDensity compensateDrift st).u (i * fNumY + j)) ∧
    (isCellStaticWall_native i (j - 1) fNumX fNumY h circleCenterX circleCenterY
          circleRadius = false →
      isCellStaticWall_native i j fNumX fNumY h circleCenterX circleCenterY
          circleRadius = false →
      isCellDraggable_native i (j - 1) fNumX fNumY h isObstacleActive obstacleX obstacleY
          obstacleRadiusCpp = false →
      isCellDraggable_native i j fNumX fNumY h isObstacleActive obstacleX obstacleY
          obstacleRadiusCpp = false →
      (solveIncompressibility_native st s cellType particleDensity fNumX fNumY numIters h dt
        density overRelaxation particleRestDensity compensateDrift circleCenterX
        circleCenterY circleRadius isObstacleActive obstacleX obstacleY obstacleRadiusCpp
        obstacleVelX obstacleVelY).v (i * fNumY + j) =
      (gaussSeidel s cellType particleDensity fNumX fNumY numIters (density * h / dt)
        overRelaxation particleRestDensity compensateDrift st).v (i * fNumY + j)) ∧
    (isCellStaticWall_native (i - 1) j fNumX fNumY h circleCenterX circleCenterY
          circleRadius = false →
      isCellStaticWall_native i j fNumX fNumY h circleCenterX circleCenterY
          circleRadius = false →
      (solveIncompressibility_native st s cellType particleDensity fNumX fNumY numIters h dt
        density overRelaxation particleRestDensity compensateDrift circleCenterX
        circleCenterY circleRadius false obstacleX obstacleY obstacleRadiusCpp
        obstacleVelX obstacleVelY).u (i * fNumY + j) =
      (gaussSeidel s cellType particleDensity fNumX fNumY numIters (density * h / dt)
        overRelaxation particleRestDensity compensateDrift st).u (i * fNumY + j)) ∧
    (isCellStaticWall_native i (j - 1) fNumX fNumY h circleCenterX circleCenterY
          circleRadius = false →
      isCellStaticWall_native i j fNumX fNumY h circleCenterX circleCenterY
          circleRadius = false →
      (solveIncompressibility_native st s cellType particleDensity fNumX fNumY numIters h dt
        density overRelaxation particleRestDensity compensateDrift circleCenterX
        circleCenterY circleRadius false obstacleX obstacleY obstacleRadiusCpp
        obstacleVelX obstacleVelY).v (i * fNumY + j) =
      (gaussSeidel s cellType particleDensity fNumX fNumY numIters (density * h / dt)
        overRelaxation particleRestDensity compensateDrift st).v (i * fNumY + j)) := by
  unfold solveIncompressibility_native
  refine ⟨?_, ?_, ?_, ?_⟩
  · intro h1 h2 h3 h4
    show enforceU _ _ _ _ _ _ _ _ _ _ _ _ (i * fNumY + j) = _
    rw [enforceU_apply _ _ _ _ _ _ _ _ _ _ _ _ i j hi0 hi1 hj0 hj1]
    exact scalarValue_untouched _ _ _ _ _ _ _ _ _ _ _ _ _ _ _ _ h1 h2 h3 h4
  · intro h1 h2 h3 h4
    show enforceV _ _ _ _ _ _ _ _ _ _ _ _ (i * fNumY + j) = _
    rw [enforceV_apply _ _ _ _ _ _ _ _ _ _ _ _ i j hi0 hi1 hj0 hj1]
    exact scalarValue_untouched _ _ _ _ _ _ _ _ _ _ _ _ _ _ _ _ h1 h2 h3 h4
  · intro h1 h2
    show enforceU _ _ _ _ _ _ _ _ _ _ _ _ (i * fNumY + j) = _
    rw [enforceU_apply _ _ _ _ _ _ _ _ _ _ _ _ i j hi0 hi1 hj0 hj1]
    exact scalarValue_untouched _ _ _ _ _ _ _ _ _ _ _ _ _ _ _ _ h1 h2
      (isCellDraggable_inactive _ _ _ _ _ _ _ _) (isCellDraggable_inactive _ _ _ _ _ _ _ _)
  · intro h1 h2
    show enforceV _ _ _ _ _ _ _ _ _ _ _ _ (i * fNumY + j) = _
    rw [enforceV_apply _ _ _ _ _ _ _ _ _ _ _ _ i j hi0 hi1 hj0 hj1]
    exact scalarValue_untouched _ _ _ _ _ _ _ _ _ _ _ _ _ _ _ _ h1 h2
      (isCellDraggable_inactive _ _ _ _ _ _ _ _) (isCellDraggable_inactive _ _ _ _ _ _ _ _)

/-- Witness for C13: a 5×5 grid with `h = 1`, scene circle of radius 10 (no static cell in
the grid), an inactive obstacle of radius 1 at `(5/2, 5/2)` with velocity `(3, 4)`; both
faces at `(2, 2)`, which adjoin the cell inside the obstacle circle, keep the value of the
pressure loop. -/
theorem C13_enforcement_frame_witness :
    ((0 : ℤ) ≤ 2 ∧ (2 : ℤ) < 5) ∧
    isCellStaticWall_native (2 - 1) 2 5 5 (1 : ℚ) (5 / 2) (5 / 2) 10 = false ∧
    isCellStaticWall_native 2 (2 - 1) 5 5 (1 : ℚ) (5 / 2) (5 / 2) 10 = false ∧
    isCellStaticWall_native 2 2 5 5 (1 : ℚ) (5 / 2) (5 / 2) 10 = false ∧
    (solveIncompressibility_native (F := ℚ)
        { u := fun k => (k : ℚ), v := fun _ => 9, p := fun _ => 0 } (fun _ => 1) (fun _ => 0)
        (fun _ => 0) 5 5 2 1 1 1 (19 / 10) 0 false (5 / 2) (5 / 2) 10 false (5 / 2) (5 / 2) 1
        3 4).u (2 * 5 + 2) =
      (gaussSeidel (F := ℚ) (fun _ => 1) (fun _ => 0) (fun _ => 0) 5 5 2 (1 * 1 / 1)
        (19 / 10) 0 false { u := fun k => (k : ℚ), v := fun _ => 9, p := fun _ => 0 }).u
        (2 * 5 + 2) ∧
    (solveIncompressibility_native (F := ℚ)
        { u := fun k => (k : ℚ), v := fun _ => 9, p := fun _ => 0 } (fun _ => 1) (fun _ => 0)
        (fun _ => 0) 5 5 2 1 1 1 (19 / 10) 0 false (5 / 2) (5 / 2) 10 false (5 / 2) (5 / 2) 1
        3 4).v (2 * 5 + 2) =
      (gaussSeidel (F := ℚ) (fun _ => 1) (fun _ => 0) (fun _ => 0) 5 5 2 (1 * 1 / 1)
        (19 / 10) 0 false { u := fun k => (k : ℚ), v := fun _ => 9, p := fun _ => 0 }).v
        (2 * 5 + 2) := by
  have ha : isCellStaticWall_native (2 - 1) 2 5 5 (1 : ℚ) (5 / 2) (5 / 2) 10 = false := by
    norm_num [isCellStaticWall_native]
  have hb : isCellStaticWall_native 2 (2 - 1) 5 5 (1 : ℚ) (5 / 2) (5 / 2) 10 = false := by
    norm_num [isCellStaticWall_native]
  have hc : isCellStaticWall_native 2 2 5 5 (1 : ℚ) (5 / 2) (5 / 2) 10 = false := by
    norm_num [isCellStaticWall_native]
  have key := C13_enforcement_frame (F := ℚ)
    { u := fun k => (k : ℚ), v := fun _ => 9, p := fun _ => 0 } (fun _ => 1) (fun _ => 0)
    (fun _ => 0) 5 5 2 1 1 1 (19 / 10) 0 false (5 / 2) (5 / 2) 10 false (5 / 2) (5 / 2) 1
    3 4 2 2 (by norm_num) (by norm_num) (by norm_num) (by norm_num)
  exact ⟨by norm_num, ha, hb, hc, key.2.2.1 ha hc, key.2.2.2 hb hc⟩

/-! ## The pressure loop on a divergence-free field -/

/-- The cell update of the pressure loop leaves the state unchanged when the cell's
divergence is zero and drift compensation contributes nothing there. -/
theorem gsCell_fixed (s : ℤ → F) (cellType : ℤ → ℤ) (particleDensity : ℤ → F) (n : ℤ)
    (cp overRelaxation particleRestDensity : F) (compensateDrift : Bool) (i j : ℤ)
    (st : PressureState F)
    (hdiv : cellType (i * n + j) = FLUID_CELL_CPP →
      (st.u ((i + 1) * n + j) - st.u (i * n + j)) +
        (st.v (i * n + (j + 1)) - st.v (i * n + j)) = 0)
    (hcomp : cellType (i * n + j) = FLUID_CELL_CPP →
      ¬ (particleRestDensity > 0 ∧ compensateDrift = true ∧
        particleDensity (i * n + j) - particleRestDensity > 0)) :
    gsCell s cellType particleDensity n cp overRelaxation particleRestDensity compensateDrift
      i j st = st := by
  unfold gsCell
  simp only []
  by_cases hct : cellType (i * n + j) ≠ FLUID_CELL_CPP
  · rw [if_pos hct]
  · rw [if_neg hct]
    have hfl : cellType (i * n + j) = FLUID_CELL_CPP := not_not.mp hct
    by_cases hsum : s ((i - 1) * n + j) + s ((i + 1) * n + j) + s (i * n + (j - 1)) +
        s (i * n + (j + 1)) < eps9
    · rw [if_pos hsum]
    · rw [if_neg hsum]
      have hd : (if particleRestDensity > 0 ∧ compensateDrift = true then
            if particleDensity (i * n + j) - particleRestDensity > 0 then
              (st.u ((i + 1) * n + j) - st.u (i * n + j)) +
                (st.v (i * n + (j + 1)) - st.v (i * n + j)) -
                (particleDensity (i * n + j) - particleRestDensity)
            else (st.u ((i + 1) * n + j) - st.u (i * n + j)) +
                (st.v (i * n + (j + 1)) - st.v (i * n + j))
          else (st.u ((i + 1) * n + j) - st.u (i * n + j)) +
                (st.v (i * n + (j + 1)) - st.v (i * n + j))) = 0 := by
        by_cases hc : particleRestDensity > 0 ∧ compensateDrift = true
        · rw [if_pos hc, if_neg (fun hpos => hcomp hfl ⟨hc.1, hc.2, hpos⟩)]
          exact hdiv hfl
        · rw [if_neg hc]
          exact hdiv hfl
      rw [hd]
      simp only [neg_zero, zero_div, zero_mul, mul_zero, sub_zero, add_zero,
        Function.update_eq_self]

/-- The pressure loop leaves `u`, `v` and `p` unchanged when, on entry, the discrete
divergence is zero at every interior FLUID cell and drift compensation contributes nothing
at any of them. -/
theorem gaussSeidel_fixed (s : ℤ → F) (cellType : ℤ → ℤ) (particleDensity : ℤ → F)
    (fNumX fNumY numIters : ℤ) (cp overRelaxation particleRestDensity : F)
    (compensateDrift : Bool) (st : PressureState F)
    (hdiv : ∀ i j, 1 ≤ i → i < fNumX - 1 → 1 ≤ j → j < fNumY - 1 →
      cellType (i * fNumY + j) = FLUID_CELL_CPP →
      (st.u ((i + 1) * fNumY + j) - st.u (i * fNumY + j)) +
        (st.v (i * fNumY + (j + 1)) - st.v (i * fNumY + j)) = 0)
    (hcomp : ∀ i j, 1 ≤ i → i < fNumX - 1 → 1 ≤ j → j < fNumY - 1 →
      cellType (i * fNumY + j) = FLUID_CELL_CPP →
      ¬ (particleRestDensity > 0 ∧ compensateDrift = true ∧
        particleDensity (i * fNumY + j) - particleRestDensity > 0)) :
    gaussSeidel s cellType particleDensity fNumX fNumY numIters cp overRelaxation
      particleRestDensity compensateDrift st = st := by
  unfold gaussSeidel
  refine forRange_preserves (fun t : PressureState F => t = st) _ _ _ _ rfl ?_
  intro _ t1 _ _ ht1
  refine forRange_preserves (fun t : PressureState F => t = st) _ _ _ _ ht1 ?_
  intro i t2 hi0 hi1 ht2
  refine forRange_preserves (fun t : PressureState F => t = st) _ _ _ _ ht2 ?_
  intro j t3 hj0 hj1 ht3
  show gsCell s cellType particleDensity fNumY cp overRelaxation particleRestDensity
    compensateDrift i j t3 = st
  rw [ht3]
  exact gsCell_fixed s cellType particleDensity fNumY cp overRelaxation particleRestDensity
    compensateDrift i j st (hdiv i j hi0 hi1 hj0 hj1) (hcomp i j hi0 hi1 hj0 hj1)

theorem scalarValue_static (fNumX fNumY : ℤ) (h cx cy cr : F) (act : Bool)
    (ox oy orad ovel : F) (ax ay bx by_ : ℤ) (old : F)
    (hs : isCellStaticWall_native ax ay fNumX fNumY h cx cy cr = true ∨
      isCellStaticWall_native bx by_ fNumX fNumY h cx cy cr = true) :
    scalarValue fNumX fNumY h cx cy cr act ox oy orad ovel ax ay bx by_ old = 0 := by
  unfold scalarValue
  rcases hs with hs | hs <;> simp [hs]

theorem scalarValue_not_draggable (fNumX fNumY : ℤ) (h cx cy cr : F) (act : Bool)
    (ox oy orad ovel : F) (ax ay bx by_ : ℤ)
    (hda : isCellDraggable_native ax ay fNumX fNumY h act ox oy orad = false)
    (hdb : isCellDraggable_native bx by_ fNumX fNumY h act ox oy orad = false) :
    scalarValue fNumX fNumY h cx cy cr act ox oy orad ovel ax ay bx by_ 0 = 0 := by
  unfold scalarValue
  simp [hda, hdb]

/-! ## C12: uniform flow through the pressure solve -/

/-- C12 (as stated, refuted): on a 3 x 3 grid with `s = 1`, `cellType = FLUID`, `u = 1`,
`v = 0`, `particleRestDensity = 0`, `numIters = 1`, a scene circle of radius 10 around the
grid centre and no active obstacle, the face `u[0, 1]` is `0` on return, not `1`: its left
neighbour cell `(-1, 1)` lies outside the grid, so boundary enforcement zeroes the face. -/
theorem C12_counterexample :
    (solveIncompressibility_native (F := ℚ)
        { u := fun _ => 1, v := fun _ => 0, p := fun _ => 0 } (fun _ => 1)
        (fun _ => FLUID_CELL_CPP) (fun _ => 0) 3 3 1 1 1 1 (19 / 10) 0 false (3 / 2) (3 / 2)
        10 false 0 0 0 0 0).u (0 * 3 + 1) = 0 ∧
    (1 : ℚ) ≠ 0 := by
  constructor
  · unfold solveIncompressibility_native
    show enforceU _ _ _ _ _ _ _ _ _ _ _ _ (0 * 3 + 1) = _
    rw [enforceU_apply _ _ _ _ _ _ _ _ _ _ _ _ 0 1 (by norm_num) (by norm_num) (by norm_num)
      (by norm_num)]
    exact scalarValue_static _ _ _ _ _ _ _ _ _ _ _ _ _ _ _ _
      (Or.inl (by norm_num [isCellStaticWall_native]))
  · norm_num

/-- C12 (amended): if `u = 1` and `v = 0` at every index `0 ≤ idx < fNumX*fNumY` and
`particleRestDensity = 0` (in particular on the uniform grid with `s = 1` and
`cellType = FLUID` everywhere), then in one call of `solveIncompressibility_native` with
`numIters = 1` the pressure loop leaves `u`, `v` and `p` unchanged, and on return `p` is
unchanged, every in-range face `(i, j)` whose two adjacent cells are neither static-wall
nor draggable-obstacle cells has `u = 1`, and every in-range face whose two adjacent cells
are not draggable-obstacle cells has `v = 0`. -/
theorem C12_uniform_flow_unchanged (st : PressureState F) (s : ℤ → F) (cellType : ℤ → ℤ)
    (particleDensity : ℤ → F) (fNumX fNumY : ℤ)
    (h dt density overRelaxation : F) (compensateDrift : Bool)
    (circleCenterX circleCenterY circleRadius : F) (isObstacleActive : Bool)
    (obstacleX obstacleY obstacleRadiusCpp obstacleVelX obstacleVelY : F)
    (hu : ∀ idx, 0 ≤ idx → idx < fNumX * fNumY → st.u idx = 1)
    (hv : ∀ idx, 0 ≤ idx → idx < fNumX * fNumY → st.v idx = 0) :
    gaussSeidel s cellType particleDensity fNumX fNumY 1 (density * h / dt) overRelaxation 0
      compensateDrift st = st ∧
    (solveIncompressibility_native st s cellType particleDensity fNumX fNumY 1 h dt
      density overRelaxation 0 compensateDrift circleCenterX circleCenterY circleRadius
      isObstacleActive obstacleX obstacleY obstacleRadiusCpp obstacleVelX obstacleVelY).p =
      st.p ∧
    ∀ i j, 0 ≤ i → i < fNumX → 0 ≤ j → j < fNumY →
      (isCellStaticWall_native (i - 1) j fNumX fNumY h circleCenterX circleCenterY
            circleRadius = false →
        isCellStaticWall_native i j fNumX fNumY h circleCenterX circleCenterY
            circleRadius = false →
        isCellDraggable_native (i - 1) j fNumX fNumY h isObstacleActive obstacleX obstacleY
            obstacleRadiusCpp = false →
        isCellDraggable_native i j fNumX fNumY h isObstacleActive obstacleX obstacleY
            obstacleRadiusCpp = false →
        (solveIncompressibility_native st s cellType particleDensity fNumX fNumY 1 h dt
          density overRelaxation 0 compensateDrift circleCenterX circleCenterY circleRadius
          isObstacleActive obstacleX obstacleY obstacleRadiusCpp obstacleVelX
          obstacleVelY).u (i * fNumY + j) = 1) ∧
      (isCellDraggable_native i (j - 1) fNumX fNumY h isObstacleActive obstacleX obstacleY
            obstacleRadiusCpp = false →
        isCellDraggable_native i j fNumX fNumY h isObstacleActive obstacleX obstacleY
            obstacleRadiusCpp = false →
        (solveIncompressibility_native st s cellType particleDensity fNumX fNumY 1 h dt
          density overRelaxation 0 compensateDrift circleCenterX circleCenterY circleRadius
          isObstacleActive obstacleX obstacleY obstacleRadiusCpp obstacleVelX
          obstacleVelY).v (i * fNumY + j) = 0) := by
  have hgs : gaussSeidel s cellType particleDensity fNumX fNumY 1 (density * h / dt)
      overRelaxation 0 compensateDrift st = st := by
    apply gaussSeidel_fixed
    · intro i j hi0 hi1 hj0 hj1 _
      obtain ⟨a0, a1⟩ := cellIndex_inRange fNumX fNumY i j (by omega) (by omega) (by omega)
        (by omega)
      obtain ⟨b0, b1⟩ := cellIndex_inRange fNumX fNumY (i + 1) j (by omega) (by omega)
        (by omega) (by omega)
      obtain ⟨c0, c1⟩ := cellIndex_inRange fNumX fNumY i (j + 1) (by omega) (by omega)
        (by omega) (by omega)
      rw [hu _ a0 a1, hu _ b0 b1, hv _ a0 a1, hv _ c0 c1]
      norm_num
    · intro i j _ _ _ _ _ hc
      exact lt_irrefl _ hc.1
  unfold solveIncompressibility_native
  simp only []
  rw [hgs]
  refine ⟨rfl, rfl, ?_⟩
  intro i j hi0 hi1 hj0 hj1
  obtain ⟨a0, a1⟩ := cellIndex_inRange fNumX fNumY i j hi0 hi1 hj0 hj1
  constructor
  · intro h1 h2 h3 h4
    show enforceU _ _ _ _ _ _ _ _ _ _ _ _ (i * fNumY + j) = _
    rw [enforceU_apply _ _ _ _ _ _ _ _ _ _ _ _ i j hi0 hi1 hj0 hj1,
      scalarValue_untouched _ _ _ _ _ _ _ _ _ _ _ _ _ _ _ _ h1 h2 h3 h4, hu _ a0 a1]
  · intro h3 h4
    show enforceV _ _ _ _ _ _ _ _ _ _ _ _ (i * fNumY + j) = _
    rw [enforceV_apply _ _ _ _ _ _ _ _ _ _ _ _ i j hi0 hi1 hj0 hj1, hv _ a0 a1]
    exact scalarValue_not_draggable _ _ _ _ _ _ _ _ _ _ _ _ _ _ _ h3 h4

/-- Witness for C12 on a 5 x 5 grid with `h = 1`, a scene circle of radius 10 around the
grid centre and no active obstacle: the faces at `(2, 2)` hold `u = 1` and `v = 0` on
return. -/
theorem C12_uniform_flow_unchanged_witness :
    (solveIncompressibility_native (F := ℚ)
        { u := fun _ => 1, v := fun _ => 0, p := fun _ => 0 } (fun _ => 1)
        (fun _ => FLUID_CELL_CPP) (fun _ => 0) 5 5 1 1 1 1 (19 / 10) 0 false (5 / 2) (5 / 2)
        10 false 0 0 0 0 0).u (2 * 5 + 2) = 1 ∧
    (solveIncompressibility_native (F := ℚ)
        { u := fun _ => 1, v := fun _ => 0, p := fun _ => 0 } (fun _ => 1)
        (fun _ => FLUID_CELL_CPP) (fun _ => 0) 5 5 1 1 1 1 (19 / 10) 0 false (5 / 2) (5 / 2)
        10 false 0 0 0 0 0).v (2 * 5 + 2) = 0 := by
  have ha : isCellStaticWall_native (2 - 1) 2 5 5 (1 : ℚ) (5 / 2) (5 / 2) 10 = false := by
    norm_num [isCellStaticWall_native]
  have hc : isCellStaticWall_native 2 2 5 5 (1 : ℚ) (5 / 2) (5 / 2) 10 = false := by
    norm_num [isCellStaticWall_native]
  have key := (C12_uniform_flow_unchanged (F := ℚ)
    { u := fun _ => 1, v := fun _ => 0, p := fun _ => 0 } (fun _ => 1)
    (fun _ => FLUID_CELL_CPP) (fun _ => 0) 5 5 1 1 1 (19 / 10) false (5 / 2) (5 / 2) 10
    false 0 0 0 0 0 (fun _ _ _ => rfl) (fun _ _ _ => rfl)).2.2 2 2
    (by norm_num) (by norm_num) (by norm_num) (by norm_num)
  exact ⟨key.1 ha hc (isCellDraggable_inactive _ _ _ _ _ _ _ _)
      (isCellDraggable_inactive _ _ _ _ _ _ _ _),
    key.2 (isCellDraggable_inactive _ _ _ _ _ _ _ _)
      (isCellDraggable_inactive _ _ _ _ _ _ _ _)⟩

/-! ## C17: the G->P update rule -/

/-- The validity flag computed by the source equals the flag of the stated rule. -/
theorem cornerOk_eq_specValidFlag (cellType : ℤ → ℤ) (fNumCells fNumY nk comp : ℤ) :
    (cornerOk cellType fNumCells fNumY nk comp : F) =
      specValidFlag cellType fNumCells fNumY comp nk := by
  unfold cornerOk specValidFlag isValidVelocitySample
  by_cases hin : nk ≥ 0 ∧ nk < fNumCells
  · have hnot : ¬ (nk < 0 ∨ nk ≥ fNumCells) := by omega
    simp only [if_pos hin, if_neg hnot, Bool.or_eq_true, decide_eq_true_eq, ge_iff_le]
    by_cases hv : cellType nk ≠ AIR_CELL_CPP ∨
        (0 ≤ nk - (if comp = 0 then fNumY else 1) ∧
          nk - (if comp = 0 then fNumY else 1) < fNumCells ∧
          cellType (nk - (if comp = 0 then fNumY else 1)) ≠ AIR_CELL_CPP)
    · rw [if_pos hv, if_pos ⟨hin.1, hin.2, hv⟩]
    · rw [if_neg hv, if_neg (fun hh => hv hh.2.2)]
  · rw [if_neg hin, if_neg (fun hh => hin ⟨hh.1, hh.2.1⟩)]

/-- A corner's contribution reads `f[nk]` directly: the guarded read differs only where the
validity flag is zero. -/
theorem specValidFlag_mul_read (cellType : ℤ → ℤ) (fNumCells fNumY comp nk : ℤ) (w : F)
    (f : ℤ → F) :
    (specValidFlag cellType fNumCells fNumY comp nk : F) * w * readOrZero f fNumCells nk =
      specValidFlag cellType fNumCells fNumY comp nk * w * f nk := by
  unfold readOrZero
  by_cases hin : nk ≥ 0 ∧ nk < fNumCells
  · rw [if_pos hin]
  · unfold specValidFlag
    rw [if_neg (fun hh => hin ⟨hh.1, hh.2.1⟩), zero_mul, zero_mul, zero_mul]

theorem specValidFlag_mul_read_sub (cellType : ℤ → ℤ) (fNumCells fNumY comp nk : ℤ) (w : F)
    (f g : ℤ → F) :
    (specValidFlag cellType fNumCells fNumY comp nk : F) * w *
        (readOrZero f fNumCells nk - readOrZero g fNumCells nk) =
      specValidFlag cellType fNumCells fNumY comp nk * w * (f nk - g nk) := by
  unfold readOrZero
  by_cases hin : nk ≥ 0 ∧ nk < fNumCells
  · rw [if_pos hin, if_pos hin]
  · unfold specValidFlag
    rw [if_neg (fun hh => hin ⟨hh.1, hh.2.1⟩), zero_mul, zero_mul, zero_mul]

/-- The entry written by the G->P body of particle `i` is the value of the stated rule. -/
theorem gatherParticle_eq_spec [FloorRing F] (flipRatio : F) (f_arr prevF_arr : ℤ → F)
    (cellType : ℤ → ℤ) (particlePos : ℤ → F) (fNumX fNumY : ℤ) (hh invH : F) (comp i : ℤ)
    (pv : ℤ → F) :
    gatherParticle flipRatio f_arr prevF_arr cellType particlePos fNumX fNumY hh invH comp i
      pv (2 * i + comp) =
    specGatherValue flipRatio f_arr prevF_arr cellType (fNumX * fNumY) fNumY comp
      (stencil fNumX fNumY hh invH comp (particlePos (2 * i)) (particlePos (2 * i + 1)))
      (pv (2 * i + comp)) := by
  unfold gatherParticle specGatherValue
  simp only [cornerOk_eq_specValidFlag, specValidFlag_mul_read, specValidFlag_mul_read_sub]
  split_ifs with hsum
  · rw [Function.update_same]
  · rfl

/-- C17: in `transferVelocities_native` with `toGrid = false`, for every particle `i` in
`[0, numParticles)` and each component, the new velocity component is the value of the
stated update rule `specGatherValue` (weights and corners of the particle's stencil,
validity flags `specValidFlag`, `W = Σ v_k w_k`; `(1 - flipRatio)*picV + flipRatio*(oldV +
corr)` when `W > 1e-9`, the prior component otherwise), read on `u`, `prevU` for the
x-component and on `v`, `prevV` for the y-component. -/
theorem C17_gather_update_rule [FloorRing F] (vrecpeq_f32 : F → F) (flipRatio : F)
    (st : TransferState F) (s particlePos : ℤ → F) (fNumX fNumY : ℤ) (h invH : F)
    (numParticles : ℤ) (i : ℤ) (hi0 : 0 ≤ i) (hi1 : i < numParticles) :
    (transferVelocities_native vrecpeq_f32 false flipRatio st s particlePos fNumX fNumY h
        invH numParticles).particleVel (2 * i) =
      specGatherValue flipRatio st.u st.prevU st.cellType (fNumX * fNumY) fNumY 0
        (stencil fNumX fNumY h invH 0 (particlePos (2 * i)) (particlePos (2 * i + 1)))
        (st.particleVel (2 * i)) ∧
    (transferVelocities_native vrecpeq_f32 false flipRatio st s particlePos fNumX fNumY h
        invH numParticles).particleVel (2 * i + 1) =
      specGatherValue flipRatio st.v st.prevV st.cellType (fNumX * fNumY) fNumY 1
        (stencil fNumX fNumY h invH 1 (particlePos (2 * i)) (particlePos (2 * i + 1)))
        (st.particleVel (2 * i + 1)) := by
  obtain ⟨t1, t2⟩ := transfer_toParticles_apply vrecpeq_f32 flipRatio st s particlePos fNumX
    fNumY h invH numParticles i hi0 hi1
  rw [t1, t2, gatherParticle_eq_spec, gatherParticle_eq_spec, add_zero]
  exact ⟨rfl, rfl⟩

/-- Witness for C17: a 4×4 grid with `h = invH = 1`, every cell FLUID, `u[k] = k`,
`prevU = 0`, one particle at `(7/4, 7/4)` with velocity `(2, 3)`, `flipRatio = 1/2`; the
x-stencil has weights `3/16, 9/16, 3/16, 1/16` at faces `5, 9, 10, 6`, so `picV = corr =
33/4` and the new x-velocity is `(1/2)*(33/4) + (1/2)*(2 + 33/4) = 37/4`. -/
theorem C17_gather_update_rule_witness :
    ((0 : ℤ) ≤ 0 ∧ (0 : ℤ) < 1) ∧
    (transferVelocities_native (F := ℚ) exactReciprocal false (1 / 2)
      { u := fun idx => (idx : ℚ), v := fun _ => 5, du := fun _ => 0,
        dv := fun _ => 0, prevU := fun _ => 0, prevV := fun _ => 5,
        cellType := fun _ => 0, particleVel := fun k => if k = 0 then 2 else 3 }
      (fun _ => 1) (fun _ => 7 / 4) 4 4 1 1 1).particleVel (2 * 0) = 37 / 4 := by
  have f1 : ⌊(7 / 4 : ℚ)⌋ = 1 := by norm_num
  have f2 : ⌊(5 / 4 : ℚ)⌋ = 1 := by norm_num
  have hs0 : stencil 4 4 (1 : ℚ) 1 0 (7 / 4) (7 / 4) =
      { w0 := 3 / 16, w1 := 9 / 16, w2 := 3 / 16, w3 := 1 / 16,
        n0 := 5, n1 := 9, n2 := 10, n3 := 6 } := by
    norm_num [stencil, floorf, toInt, f1, f2]
  have key := (C17_gather_update_rule (F := ℚ) exactReciprocal (1 / 2)
      { u := fun idx => (idx : ℚ), v := fun _ => 5, du := fun _ => 0,
        dv := fun _ => 0, prevU := fun _ => 0, prevV := fun _ => 5,
        cellType := fun _ => 0, particleVel := fun k => if k = 0 then 2 else 3 }
      (fun _ => 1) (fun _ => 7 / 4) 4 4 1 1 1 0 (by norm_num) (by norm_num)).1
  refine ⟨by norm_num, ?_⟩
  rw [key]
  show specGatherValue (1 / 2 : ℚ) (fun idx => (idx : ℚ)) (fun _ => 0) (fun _ => 0) (4 * 4) 4 0
    (stencil 4 4 (1 : ℚ) 1 0 (7 / 4) (7 / 4)) 2 = 37 / 4
  rw [hs0]
  norm_num [specGatherValue, specValidFlag, eps9, AIR_CELL_CPP]

/-! ## A loop rule for "some iteration establishes the property" -/

/-- If `I` holds on entry and is kept by the iterations before `k0`, iteration `k0` turns
`I` into `Q`, and the iterations after `k0` keep `Q`, then `Q` holds on exit. -/
theorem forRange_reach {σ : Type} (I Q : σ → Prop) (lo hi k0 : ℤ) (hk0 : lo ≤ k0)
    (hk1 : k0 < hi) (body : ℤ → σ → σ) (st : σ) (hI0 : I st)
    (hI : ∀ k s, lo ≤ k → k < k0 → I s → I (body k s))
    (hhit : ∀ s, I s → Q (body k0 s))
    (hQ : ∀ k s, k0 < k → k < hi → Q s → Q (body k s)) :
    Q (forRange lo hi body st) := by
  have h := forRange_induction (fun m s => (m ≤ k0 → I s) ∧ (k0 < m → Q s)) lo hi body st
    ⟨fun _ => hI0, fun hlt => absurd hlt (by omega)⟩
    (by
      intro k s hlo hhi hP
      refine ⟨fun hle => hI k s hlo (by omega) (hP.1 (by omega)), fun hlt => ?_⟩
      by_cases hk : k = k0
      · subst hk
        exact hhit s (hP.1 le_rfl)
      · exact hQ k s (by omega) hhi (hP.2 (by omega)))
  rw [max_eq_right (by omega)] at h
  exact h.2 hk1

/-! ## P->G, step 6: faces that are restored -/

theorem restoreCellU_u_restored (fNumY N i j : ℤ) (st : TransferState F)
    (hlt : i * fNumY + j < N)
    (hs : st.cellType (i * fNumY + j) = SOLID_CELL_CPP ∨
      (0 < i ∧ 0 ≤ (i - 1) * fNumY + j ∧ (i - 1) * fNumY + j < N ∧
        st.cellType ((i - 1) * fNumY + j) = SOLID_CELL_CPP)) :
    (restoreCellU fNumY N i j st).u (i * fNumY + j) = st.prevU (i * fNumY + j) := by
  unfold restoreCellU
  simp only []
  have hc : (decide (st.cellType (i * fNumY + j) = SOLID_CELL_CPP) ||
      decide (i > 0 ∧ (if i > 0 then (i - 1) * fNumY + j else -1) ≥ 0 ∧
        (if i > 0 then (i - 1) * fNumY + j else -1) < N ∧
        st.cellType (if i > 0 then (i - 1) * fNumY + j else -1) = SOLID_CELL_CPP)) =
      true := by
    simp only [Bool.or_eq_true, decide_eq_true_eq]
    rcases hs with hs | ⟨hi, h0, h1, h2⟩
    · exact Or.inl hs
    · right
      rw [if_pos hi]
      exact ⟨hi, h0, h1, h2⟩
  rw [hc]
  simp only [if_true, if_pos hlt]
  exact Function.update_same _ _ _

theorem restoreCellV_v_restored (fNumY N i j : ℤ) (st : TransferState F)
    (hlt : i * fNumY + j < N)
    (hs : st.cellType (i * fNumY + j) = SOLID_CELL_CPP ∨
      (0 < j ∧ 0 ≤ i * fNumY + (j - 1) ∧ i * fNumY + (j - 1) < N ∧
        st.cellType (i * fNumY + (j - 1)) = SOLID_CELL_CPP)) :
    (restoreCellV fNumY N i j st).v (i * fNumY + j) = st.prevV (i * fNumY + j) := by
  unfold restoreCellV
  simp only []
  have hc : (decide (st.cellType (i * fNumY + j) = SOLID_CELL_CPP) ||
      decide (j > 0 ∧ (if j > 0 then i * fNumY + (j - 1) else -1) ≥ 0 ∧
        (if j > 0 then i * fNumY + (j - 1) else -1) < N ∧
        st.cellType (if j > 0 then i * fNumY + (j - 1) else -1) = SOLID_CELL_CPP)) =
      true := by
    simp only [Bool.or_eq_true, decide_eq_true_eq]
    rcases hs with hs | ⟨hj, h0, h1, h2⟩
    · exact Or.inl hs
    · right
      rw [if_pos hj]
      exact ⟨hj, h0, h1, h2⟩
  rw [hc]
  simp only [if_true, if_pos hlt]
  exact Function.update_same _ _ _

theorem restoreCell_u_restored (fNumY N i j : ℤ) (st : TransferState F)
    (h0 : 0 ≤ i * fNumY + j) (hlt : i * fNumY + j < N)
    (hs : st.cellType (i * fNumY + j) = SOLID_CELL_CPP ∨
      (0 < i ∧ 0 ≤ (i - 1) * fNumY + j ∧ (i - 1) * fNumY + j < N ∧
        st.cellType ((i - 1) * fNumY + j) = SOLID_CELL_CPP)) :
    (restoreCell fNumY N i j st).u (i * fNumY + j) = st.prevU (i * fNumY + j) := by
  unfold restoreCell
  simp only []
  rw [if_neg (by omega), restoreCellV_u, restoreCellU_u_restored _ _ _ _ _ hlt hs]

theorem restoreCell_v_restored (fNumY N i j : ℤ) (st : TransferState F)
    (h0 : 0 ≤ i * fNumY + j) (hlt : i * fNumY + j < N)
    (hs : st.cellType (i * fNumY + j) = SOLID_CELL_CPP ∨
      (0 < j ∧ 0 ≤ i * fNumY + (j - 1) ∧ i * fNumY + (j - 1) < N ∧
        st.cellType (i * fNumY + (j - 1)) = SOLID_CELL_CPP)) :
    (restoreCell fNumY N i j st).v (i * fNumY + j) = st.prevV (i * fNumY + j) := by
  unfold restoreCell
  simp only []
  rw [if_neg (by omega)]
  have hsa := restoreCellU_sameAux fNumY N i j st
  rw [restoreCellV_v_restored _ _ _ _ _ hlt (by rw [hsa.2.2.2.2.1]; exact hs), hsa.2.2.2.1]

/-- A per-cell property of the state that step 6 establishes at the cell `(i, j)` and no
other cell's iteration destroys holds on return from step 6. -/
theorem restoreSolid_reach (fNumX fNumY : ℤ) (st : TransferState F) (i j : ℤ)
    (hi0 : 0 ≤ i) (hi1 : i < fNumX) (hj0 : 0 ≤ j) (hj1 : j < fNumY)
    (Q : TransferState F → Prop)
    (hhit : ∀ s, SameAux st s → Q (restoreCell fNumY (fNumX * fNumY) i j s))
    (hkeep : ∀ i' j' s, 0 ≤ j' → j' < fNumY → (i' ≠ i ∨ j' ≠ j) → SameAux st s → Q s →
      Q (restoreCell fNumY (fNumX * fNumY) i' j' s)) :
    Q (restoreSolid fNumX fNumY st) ∧ SameAux st (restoreSolid fNumX fNumY st) := by
  unfold restoreSolid
  have hrowI : ∀ i' s, SameAux st s →
      SameAux st (forRange 0 fNumY
        (fun j' st2 => restoreCell fNumY (fNumX * fNumY) i' j' st2) s) := by
    intro i' s hs
    exact forRange_preserves (fun t => SameAux st t) _ _ _ _ hs
      (fun j' t _ _ ht => sameAux_trans _ _ _ ht (restoreCell_sameAux _ _ _ _ _))
  have hrowQ : ∀ i' s, i' ≠ i → (SameAux st s ∧ Q s) →
      (SameAux st (forRange 0 fNumY
        (fun j' st2 => restoreCell fNumY (fNumX * fNumY) i' j' st2) s) ∧
       Q (forRange 0 fNumY
        (fun j' st2 => restoreCell fNumY (fNumX * fNumY) i' j' st2) s)) := by
    intro i' s hne hs
    exact forRange_preserves (fun t => SameAux st t ∧ Q t) _ _ _ _ hs
      (fun j' t hj0' hj1' ht =>
        ⟨sameAux_trans _ _ _ ht.1 (restoreCell_sameAux _ _ _ _ _),
          hkeep i' j' t hj0' hj1' (Or.inl hne) ht.1 ht.2⟩)
  have key := forRange_reach (fun t => SameAux st t) (fun t => SameAux st t ∧ Q t)
    0 fNumX i hi0 hi1
    (fun i' st1 => forRange 0 fNumY
      (fun j' st2 => restoreCell fNumY (fNumX * fNumY) i' j' st2) st1) st
    (sameAux_refl st)
    (fun i' s _ _ hs => hrowI i' s hs)
    (fun s hs =>
      forRange_reach (fun t => SameAux st t) (fun t => SameAux st t ∧ Q t)
        0 fNumY j hj0 hj1
        (fun j' st2 => restoreCell fNumY (fNumX * fNumY) i j' st2) s hs
        (fun j' t _ _ ht => sameAux_trans _ _ _ ht (restoreCell_sameAux _ _ _ _ _))
        (fun t ht => ⟨sameAux_trans _ _ _ ht (restoreCell_sameAux _ _ _ _ _), hhit t ht⟩)
        (fun j' t hlt hj1' ht =>
          ⟨sameAux_trans _ _ _ ht.1 (restoreCell_sameAux _ _ _ _ _),
            hkeep i j' t (by omega) hj1' (Or.inr (by omega)) ht.1 ht.2⟩))
    (fun i' s hlt _ hs => hrowQ i' s (by omega) hs)
  exact ⟨key.2, key.1⟩

/-- Step 6 leaves the snapshot value in `u[i*fNumY + j]` when the cell `(i, j)` or its left
neighbour is SOLID, and in `v[i*fNumY + j]` when the cell or its bottom neighbour is. -/
theorem restoreSolid_restored (fNumX fNumY : ℤ) (st : TransferState F) (i j : ℤ)
    (hi0 : 0 ≤ i) (hi1 : i < fNumX) (hj0 : 0 ≤ j) (hj1 : j < fNumY) :
    ((st.cellType (i * fNumY + j) = SOLID_CELL_CPP ∨
        (0 < i ∧ st.cellType ((i - 1) * fNumY + j) = SOLID_CELL_CPP)) →
      (restoreSolid fNumX fNumY st).u (i * fNumY + j) = st.prevU (i * fNumY + j)) ∧
    ((st.cellType (i * fNumY + j) = SOLID_CELL_CPP ∨
        (0 < j ∧ st.cellType (i * fNumY + (j - 1)) = SOLID_CELL_CPP)) →
      (restoreSolid fNumX fNumY st).v (i * fNumY + j) = st.prevV (i * fNumY + j)) := by
  obtain ⟨hin0, hin1⟩ := cellIndex_inRange fNumX fNumY i j hi0 hi1 hj0 hj1
  constructor
  · intro hs
    refine (restoreSolid_reach fNumX fNumY st i j hi0 hi1 hj0 hj1
      (fun s => s.u (i * fNumY + j) = st.prevU (i * fNumY + j)) ?_ ?_).1
    · intro s hsa
      show (restoreCell fNumY (fNumX * fNumY) i j s).u (i * fNumY + j) = _
      rw [restoreCell_u_restored _ _ _ _ _ hin0 hin1, hsa.2.2.1]
      rw [hsa.2.2.2.2.1]
      rcases hs with hs | ⟨hi, hl⟩
      · exact Or.inl hs
      · obtain ⟨l0, l1⟩ := cellIndex_inRange fNumX fNumY (i - 1) j (by omega) (by omega)
          hj0 hj1
        exact Or.inr ⟨hi, l0, l1, hl⟩
    · intro i' j' s hj0' hj1' hne _ hQ
      show (restoreCell fNumY (fNumX * fNumY) i' j' s).u (i * fNumY + j) = _
      rw [restoreCell_u_unchanged, hQ]
      intro hx
      obtain ⟨e1, e2⟩ := cellIndex_inj fNumY i' j' i j hj0' hj1' hj0 hj1 hx
      omega
  · intro hs
    refine (restoreSolid_reach fNumX fNumY st i j hi0 hi1 hj0 hj1
      (fun s => s.v (i * fNumY + j) = st.prevV (i * fNumY + j)) ?_ ?_).1
    · intro s hsa
      show (restoreCell fNumY (fNumX * fNumY) i j s).v (i * fNumY + j) = _
      rw [restoreCell_v_restored _ _ _ _ _ hin0 hin1, hsa.2.2.2.1]
      rw [hsa.2.2.2.2.1]
      rcases hs with hs | ⟨hj, hl⟩
      · exact Or.inl hs
      · obtain ⟨l0, l1⟩ := cellIndex_inRange fNumX fNumY i (j - 1) hi0 hi1 (by omega)
          (by omega)
        exact Or.inr ⟨hj, l0, l1, hl⟩
    · intro i' j' s hj0' hj1' hne _ hQ
      show (restoreCell fNumY (fNumX * fNumY) i' j' s).v (i * fNumY + j) = _
      rw [restoreCell_v_unchanged, hQ]
      intro hx
      obtain ⟨e1, e2⟩ := cellIndex_inj fNumY i' j' i j hj0' hj1' hj0 hj1 hx
      omega

/-- On return from the P->G branch, a face whose cell or left (resp. bottom) neighbour is
SOLID holds the value it had on entry. -/
theorem toGrid_solid_faces [FloorRing F] (vrecpeq_f32 : F → F) (flipRatio : F)
    (st : TransferState F) (s particlePos : ℤ → F) (fNumX fNumY : ℤ) (h invH : F)
    (numParticles : ℤ) (i j : ℤ) (hi0 : 0 ≤ i) (hi1 : i < fNumX) (hj0 : 0 ≤ j)
    (hj1 : j < fNumY) :
    (((transferVelocities_native vrecpeq_f32 true flipRatio st s particlePos fNumX fNumY h
          invH numParticles).cellType (i * fNumY + j) = SOLID_CELL_CPP ∨
        (0 < i ∧ (transferVelocities_native vrecpeq_f32 true flipRatio st s particlePos fNumX
          fNumY h invH numParticles).cellType ((i - 1) * fNumY + j) = SOLID_CELL_CPP)) →
      (transferVelocities_native vrecpeq_f32 true flipRatio st s particlePos fNumX fNumY h
        invH numParticles).u (i * fNumY + j) = st.u (i * fNumY + j)) ∧
    (((transferVelocities_native vrecpeq_f32 true flipRatio st s particlePos fNumX fNumY h
          invH numParticles).cellType (i * fNumY + j) = SOLID_CELL_CPP ∨
        (0 < j ∧ (transferVelocities_native vrecpeq_f32 true flipRatio st s particlePos fNumX
          fNumY h invH numParticles).cellType (i * fNumY + (j - 1)) = SOLID_CELL_CPP)) →
      (transferVelocities_native vrecpeq_f32 true flipRatio st s particlePos fNumX fNumY h
        invH numParticles).v (i * fNumY + j) = st.v (i * fNumY + j)) := by
  rw [transfer_toGrid_eq]
  obtain ⟨_, _, _, _, r5, _⟩ := restoreSolid_sameAux fNumX fNumY
    (toGridSteps1to5 vrecpeq_f32 st s particlePos fNumX fNumY h invH numParticles)
  obtain ⟨_, _, g3, g4⟩ := toGridSteps1to5_frame vrecpeq_f32 st s particlePos fNumX fNumY h
    invH numParticles
  obtain ⟨q1, q2⟩ := restoreSolid_restored fNumX fNumY
    (toGridSteps1to5 vrecpeq_f32 st s particlePos fNumX fNumY h invH numParticles)
    i j hi0 hi1 hj0 hj1
  obtain ⟨hin0, hin1⟩ := cellIndex_inRange fNumX fNumY i j hi0 hi1 hj0 hj1
  rw [r5]
  constructor
  · intro hs
    rw [q1 hs, g3 _ hin0 hin1]
  · intro hs
    rw [q2 hs, g4 _ hin0 hin1]

/-! ## C19: P->G preserves solid-face velocities -/

/-- C19: after `transferVelocities_native` with `toGrid = true`, for every in-range cell
`(i, j)` that is SOLID or whose x-neighbour `(i-1, j)` (with `i > 0`) is SOLID,
`u[i*fNumY + j]` equals its value on entry; and for every in-range cell that is SOLID or
whose y-neighbour `(i, j-1)` (with `j > 0`) is SOLID, `v[i*fNumY + j]` equals its value on
entry, whatever the particles deposited there. -/
theorem C19_solid_faces_preserved [FloorRing F] (vrecpeq_f32 : F → F) (flipRatio : F)
    (st : TransferState F) (s particlePos : ℤ → F) (fNumX fNumY : ℤ) (h invH : F)
    (numParticles : ℤ) (i j : ℤ) (hi0 : 0 ≤ i) (hi1 : i < fNumX) (hj0 : 0 ≤ j)
    (hj1 : j < fNumY) :
    (((transferVelocities_native vrecpeq_f32 true flipRatio st s particlePos fNumX fNumY h
          invH numParticles).cellType (i * fNumY + j) = SOLID_CELL_CPP ∨
        (0 < i ∧ (transferVelocities_native vrecpeq_f32 true flipRatio st s particlePos fNumX
          fNumY h invH numParticles).cellType ((i - 1) * fNumY + j) = SOLID_CELL_CPP)) →
      (transferVelocities_native vrecpeq_f32 true flipRatio st s particlePos fNumX fNumY h
        invH numParticles).u (i * fNumY + j) = st.u (i * fNumY + j)) ∧
    (((transferVelocities_native vrecpeq_f32 true flipRatio st s particlePos fNumX fNumY h
          invH numParticles).cellType (i * fNumY + j) = SOLID_CELL_CPP ∨
        (0 < j ∧ (transferVelocities_native vrecpeq_f32 true flipRatio st s particlePos fNumX
          fNumY h invH numParticles).cellType (i * fNumY + (j - 1)) = SOLID_CELL_CPP)) →
      (transferVelocities_native vrecpeq_f32 true flipRatio st s particlePos fNumX fNumY h
        invH numParticles).v (i * fNumY + j) = st.v (i * fNumY + j)) :=
  toGrid_solid_faces vrecpeq_f32 flipRatio st s particlePos fNumX fNumY h invH numParticles
    i j hi0 hi1 hj0 hj1

/-- Witness for C19 on a 4 x 4 grid whose column `i = 0` is solid, with one particle at
`(7/4, 7/4)` depositing into the face `(1, 1)`: the face keeps its value on entry. -/
theorem C19_solid_faces_preserved_witness :
    (transferVelocities_native (fun d => 1 / d) true 0 exampleState
      (fun c => if c < 4 then 0 else 1) (fun _ => 7 / 4) 4 4 1 1 1).u (1 * 4 + 1) =
      exampleState.u (1 * 4 + 1) := by
  refine (C19_solid_faces_preserved (F := ℚ) (fun d => 1 / d) 0 exampleState
    (fun c => if c < 4 then 0 else 1) (fun _ => 7 / 4) 4 4 1 1 1 1 1
    (by norm_num) (by norm_num) (by norm_num) (by norm_num)).1 (Or.inr ⟨by norm_num, ?_⟩)
  rw [transfer_toGrid_cellType]
  exact (toGrid_cellType_cases _ _ _ _ _ _ _ ((1 - 1) * 4 + 1) (by norm_num)
    (by norm_num)).1 (by norm_num)

/-! ## P->G, step 5: faces with no accumulated weight -/

theorem normalizeLane_small (vrecpeq_f32 : F → F) (f df : F) (hd : df ≤ eps9) :
    normalizeLane vrecpeq_f32 f df = 0 := by
  unfold normalizeLane
  simp only []
  have hm : decide (df > eps9) = false := decide_eq_false (not_lt.mpr hd)
  rw [hm]
  rfl

/-- Step 5 writes `0` to every in-range face whose accumulated weight is at most `1e-9`,
whatever the reciprocal estimate returns. -/
theorem normalizeGrid_small (vrecpeq_f32 : F → F) (N : ℤ) (st : TransferState F) (x : ℤ)
    (hx0 : 0 ≤ x) (hx1 : x < N) :
    (st.du x ≤ eps9 → (normalizeGrid vrecpeq_f32 N st).u x = 0) ∧
    (st.dv x ≤ eps9 → (normalizeGrid vrecpeq_f32 N st).v x = 0) := by
  have hpos : 0 ≤ N := by omega
  have hb := forRange_induction
    (fun b s => SameAux st s ∧ (x < 4 * b → (st.du x ≤ eps9 → s.u x = 0) ∧
      (st.dv x ≤ eps9 → s.v x = 0)))
    0 (numBlocks4 N) (fun b st2 => normalizeBlock vrecpeq_f32 (4 * b) st2) st
    ⟨sameAux_refl st, fun hlt => absurd hlt (by omega)⟩
    (by
      intro k s hk0 _ hP
      refine ⟨sameAux_trans _ _ _ hP.1 ⟨rfl, rfl, rfl, rfl, rfl, rfl⟩, fun hlt => ?_⟩
      constructor
      · intro hd
        show store4 s.u (4 * k)
          (fun l => normalizeLane vrecpeq_f32 (s.u (4 * k + l)) (s.du (4 * k + l))) x = 0
        rw [store4_apply]
        by_cases hin : 4 * k ≤ x ∧ x < 4 * k + 4
        · rw [if_pos hin]
          have e : 4 * k + (x - 4 * k) = x := by ring
          rw [e, hP.1.1]
          exact normalizeLane_small _ _ _ hd
        · rw [if_neg hin]
          exact (hP.2 (by omega)).1 hd
      · intro hd
        show store4 s.v (4 * k)
          (fun l => normalizeLane vrecpeq_f32 (s.v (4 * k + l)) (s.dv (4 * k + l))) x = 0
        rw [store4_apply]
        by_cases hin : 4 * k ≤ x ∧ x < 4 * k + 4
        · rw [if_pos hin]
          have e : 4 * k + (x - 4 * k) = x := by ring
          rw [e, hP.1.2.1]
          exact normalizeLane_small _ _ _ hd
        · rw [if_neg hin]
          exact (hP.2 (by omega)).2 hd)
  rw [max_eq_right (numBlocks4_nonneg N)] at hb
  have hr := forRange_induction
    (fun m s => SameAux st s ∧ (x < m → (st.du x ≤ eps9 → s.u x = 0) ∧
      (st.dv x ≤ eps9 → s.v x = 0)))
    (4 * numBlocks4 N) N (fun i st2 => normalizeScalar i st2) _ hb
    (by
      intro k s hk0 _ hP
      refine ⟨sameAux_trans _ _ _ hP.1 ⟨rfl, rfl, rfl, rfl, rfl, rfl⟩, fun hlt => ?_⟩
      constructor
      · intro hd
        show Function.update s.u k (if s.du k > eps9 then s.u k / s.du k else 0) x = 0
        rw [Function.update_apply]
        by_cases he : x = k
        · rw [if_pos he, ← he, hP.1.1, if_neg (not_lt.mpr hd)]
        · rw [if_neg he]
          exact (hP.2 (by omega)).1 hd
      · intro hd
        show Function.update s.v k (if s.dv k > eps9 then s.v k / s.dv k else 0) x = 0
        rw [Function.update_apply]
        by_cases he : x = k
        · rw [if_pos he, ← he, hP.1.2.1, if_neg (not_lt.mpr hd)]
        · rw [if_neg he]
          exact (hP.2 (by omega)).2 hd)
  rw [max_eq_right (numBlocks4_le N hpos)] at hr
  unfold normalizeGrid
  rw [remainderStart_eq N hpos]
  exact hr.2 hx1

/-- On return from the P->G branch, an in-range face that step 6 does not restore and whose
accumulated weight is at most `1e-9` is zero. -/
theorem toGrid_small_weight [FloorRing F] (vrecpeq_f32 : F → F) (flipRatio : F)
    (st : TransferState F) (s particlePos : ℤ → F) (fNumX fNumY : ℤ) (h invH : F)
    (numParticles : ℤ) (i j : ℤ) (hi0 : 0 ≤ i) (hi1 : i < fNumX) (hj0 : 0 ≤ j)
    (hj1 : j < fNumY) :
    ((transferVelocities_native vrecpeq_f32 true flipRatio st s particlePos fNumX fNumY h
          invH numParticles).du (i * fNumY + j) ≤ eps9 →
      (transferVelocities_native vrecpeq_f32 true flipRatio st s particlePos fNumX fNumY h
          invH numParticles).cellType (i * fNumY + j) ≠ SOLID_CELL_CPP →
      (0 < i → (transferVelocities_native vrecpeq_f32 true flipRatio st s particlePos fNumX
          fNumY h invH numParticles).cellType ((i - 1) * fNumY + j) ≠ SOLID_CELL_CPP) →
      (transferVelocities_native vrecpeq_f32 true flipRatio st s particlePos fNumX fNumY h
        invH numParticles).u (i * fNumY + j) = 0) ∧
    ((transferVelocities_native vrecpeq_f32 true flipRatio st s particlePos fNumX fNumY h
          invH numParticles).dv (i * fNumY + j) ≤ eps9 →
      (transferVelocities_native vrecpeq_f32 true flipRatio st s particlePos fNumX fNumY h
          invH numParticles).cellType (i * fNumY + j) ≠ SOLID_CELL_CPP →
      (0 < j → (transferVelocities_native vrecpeq_f32 true flipRatio st s particlePos fNumX
          fNumY h invH numParticles).cellType (i * fNumY + (j - 1)) ≠ SOLID_CELL_CPP) →
      (transferVelocities_native vrecpeq_f32 true flipRatio st s particlePos fNumX fNumY h
        invH numParticles).v (i * fNumY + j) = 0) := by
  rw [transfer_toGrid_eq]
  obtain ⟨r1, r2, _, _, r5, _⟩ := restoreSolid_sameAux fNumX fNumY
    (toGridSteps1to5 vrecpeq_f32 st s particlePos fNumX fNumY h invH numParticles)
  obtain ⟨q1, q2⟩ := restoreSolid_unchanged fNumX fNumY
    (toGridSteps1to5 vrecpeq_f32 st s particlePos fNumX fNumY h invH numParticles)
    i j hj0 hj1
  obtain ⟨hin0, hin1⟩ := cellIndex_inRange fNumX fNumY i j hi0 hi1 hj0 hj1
  rw [r1, r2, r5]
  have hz : ∀ t : TransferState F,
      (normalizeGrid vrecpeq_f32 (fNumX * fNumY) t).du = t.du ∧
      (normalizeGrid vrecpeq_f32 (fNumX * fNumY) t).dv = t.dv := fun t =>
    ⟨(normalizeGrid_sameAux vrecpeq_f32 _ t).1, (normalizeGrid_sameAux vrecpeq_f32 _ t).2.1⟩
  constructor
  · intro hd hc hl
    rw [q1 ⟨hc, hl⟩]
    unfold toGridSteps1to5 at hd ⊢
    simp only [] at hd ⊢
    rw [(hz _).1] at hd
    exact (normalizeGrid_small vrecpeq_f32 _ _ _ hin0 hin1).1 hd
  · intro hd hc hl
    rw [q2 ⟨hc, hl⟩]
    unfold toGridSteps1to5 at hd ⊢
    simp only [] at hd ⊢
    rw [(hz _).2] at hd
    exact (normalizeGrid_small vrecpeq_f32 _ _ _ hin0 hin1).2 hd

/-! ## C18: empty faces after the P->G transfer -/

/-- C18 (as stated, refuted): on a 4 x 4 grid whose cells are all solid (`s = 0`), with
`u = 7` everywhere on entry and one particle at `(7/4, 7/4)`, the face `(3, 3)` receives no
weight (`du = 0 ≤ 1e-9`), yet `u` there is `7` on return, not `0`: step 6 restores it from
the snapshot. -/
theorem C18_counterexample :
    (transferVelocities_native (fun d => 1 / d) true 0 exampleState
      (fun _ => 0) (fun _ => 7 / 4) 4 4 1 1 1).du (3 * 4 + 3) ≤ eps9 ∧
    (transferVelocities_native (fun d => 1 / d) true 0 exampleState
      (fun _ => 0) (fun _ => 7 / 4) 4 4 1 1 1).u (3 * 4 + 3) = 7 := by
  have f1 : ⌊(7 / 4 : ℚ)⌋ = 1 := by norm_num
  have f2 : ⌊(5 / 4 : ℚ)⌋ = 1 := by norm_num
  have hs0 : stencil 4 4 (1 : ℚ) 1 0 (7 / 4) (7 / 4) =
      { w0 := 3 / 16, w1 := 9 / 16, w2 := 3 / 16, w3 := 1 / 16,
        n0 := 5, n1 := 9, n2 := 10, n3 := 6 } := by
    norm_num [stencil, floorf, toInt, f1, f2]
  have hs1 : stencil 4 4 (1 : ℚ) 1 1 (7 / 4) (7 / 4) =
      { w0 := 3 / 16, w1 := 1 / 16, w2 := 3 / 16, w3 := 9 / 16,
        n0 := 5, n1 := 9, n2 := 10, n3 := 6 } := by
    norm_num [stencil, floorf, toInt, f1, f2]
  have hrecip : ∀ d : ℚ, eps9 < d → (fun d => 1 / d) d = 1 / d := fun _ _ => rfl
  have hw := toGrid_weights_single (F := ℚ) (fun d => 1 / d) hrecip 0 exampleState
    (fun _ => 0) (fun _ => 7 / 4) 4 4 1 1 _ _ hs0 hs1 (3 * 4 + 3) (by norm_num) (by norm_num)
  constructor
  · rw [hw.1]
    norm_num [eps9]
  · have hsol := (toGrid_solid_faces (F := ℚ) (fun d => 1 / d) 0 exampleState
      (fun _ => 0) (fun _ => 7 / 4) 4 4 1 1 1 3 3
      (by norm_num) (by norm_num) (by norm_num) (by norm_num)).1
    rw [hsol (Or.inl ?_)]
    · rfl
    · rw [transfer_toGrid_cellType]
      exact (toGrid_cellType_cases _ _ _ _ _ _ _ (3 * 4 + 3) (by norm_num)
        (by norm_num)).1 rfl

/-- C18 (amended): after `transferVelocities_native` with `toGrid = true`, an in-range face
`(i, j)` that is not restored from the snapshot (the cell and, for `i > 0`, its left
neighbour are not SOLID) and into which no particle deposited weight (`du ≤ 1e-9` after
accumulation) has `u = 0`; likewise `v = 0` where `dv ≤ 1e-9` and the cell and, for `j > 0`,
its bottom neighbour are not SOLID. -/
theorem C18_empty_faces_are_zero [FloorRing F] (vrecpeq_f32 : F → F) (flipRatio : F)
    (st : TransferState F) (s particlePos : ℤ → F) (fNumX fNumY : ℤ) (h invH : F)
    (numParticles : ℤ) (i j : ℤ) (hi0 : 0 ≤ i) (hi1 : i < fNumX) (hj0 : 0 ≤ j)
    (hj1 : j < fNumY) :
    ((transferVelocities_native vrecpeq_f32 true flipRatio st s particlePos fNumX fNumY h
          invH numParticles).du (i * fNumY + j) ≤ eps9 →
      (transferVelocities_native vrecpeq_f32 true flipRatio st s particlePos fNumX fNumY h
          invH numParticles).cellType (i * fNumY + j) ≠ SOLID_CELL_CPP →
      (0 < i → (transferVelocities_native vrecpeq_f32 true flipRatio st s particlePos fNumX
          fNumY h invH numParticles).cellType ((i - 1) * fNumY + j) ≠ SOLID_CELL_CPP) →
      (transferVelocities_native vrecpeq_f32 true flipRatio st s particlePos fNumX fNumY h
        invH numParticles).u (i * fNumY + j) = 0) ∧
    ((transferVelocities_native vrecpeq_f32 true flipRatio st s particlePos fNumX fNumY h
          invH numParticles).dv (i * fNumY + j) ≤ eps9 →
      (transferVelocities_native vrecpeq_f32 true flipRatio st s particlePos fNumX fNumY h
          invH numParticles).cellType (i * fNumY + j) ≠ SOLID_CELL_CPP →
      (0 < j → (transferVelocities_native vrecpeq_f32 true flipRatio st s particlePos fNumX
          fNumY h invH numParticles).cellType (i * fNumY + (j - 1)) ≠ SOLID_CELL_CPP) →
      (transferVelocities_native vrecpeq_f32 true flipRatio st s particlePos fNumX fNumY h
        invH numParticles).v (i * fNumY + j) = 0) :=
  toGrid_small_weight vrecpeq_f32 flipRatio st s particlePos fNumX fNumY h invH numParticles
    i j hi0 hi1 hj0 hj1

/-- Witness for C18 on a 4 x 4 grid without solid cells and one particle at `(7/4, 7/4)`:
the face `(3, 3)` receives no weight and `u` there is `0` on return, although it was `7` on
entry. -/
theorem C18_empty_faces_are_zero_witness :
    (transferVelocities_native (fun d => 1 / d) true 0 exampleState
      (fun _ => 1) (fun _ => 7 / 4) 4 4 1 1 1).u (3 * 4 + 3) = 0 ∧
    exampleState.u (3 * 4 + 3) = 7 := by
  have f1 : ⌊(7 / 4 : ℚ)⌋ = 1 := by norm_num
  have f2 : ⌊(5 / 4 : ℚ)⌋ = 1 := by norm_num
  have hs0 : stencil 4 4 (1 : ℚ) 1 0 (7 / 4) (7 / 4) =
      { w0 := 3 / 16, w1 := 9 / 16, w2 := 3 / 16, w3 := 1 / 16,
        n0 := 5, n1 := 9, n2 := 10, n3 := 6 } := by
    norm_num [stencil, floorf, toInt, f1, f2]
  have hs1 : stencil 4 4 (1 : ℚ) 1 1 (7 / 4) (7 / 4) =
      { w0 := 3 / 16, w1 := 1 / 16, w2 := 3 / 16, w3 := 9 / 16,
        n0 := 5, n1 := 9, n2 := 10, n3 := 6 } := by
    norm_num [stencil, floorf, toInt, f1, f2]
  have hrecip : ∀ d : ℚ, eps9 < d → (fun d => 1 / d) d = 1 / d := fun _ _ => rfl
  have hw := toGrid_weights_single (F := ℚ) (fun d => 1 / d) hrecip 0 exampleState
    (fun _ => 1) (fun _ => 7 / 4) 4 4 1 1 _ _ hs0 hs1 (3 * 4 + 3) (by norm_num) (by norm_num)
  have hns : ∀ c : ℤ, 0 ≤ c → c < 4 * 4 →
      (transferVelocities_native (fun d => 1 / d) true 0 exampleState
        (fun _ => (1 : ℚ)) (fun _ => 7 / 4) 4 4 1 1 1).cellType c ≠ SOLID_CELL_CPP := by
    intro c hc0 hc1
    rw [transfer_toGrid_cellType]
    exact toGrid_cellType_ne_solid _ _ _ _ _ _ _ c hc0 hc1 (by norm_num)
  refine ⟨(C18_empty_faces_are_zero (F := ℚ) (fun d => 1 / d) 0 exampleState
    (fun _ => 1) (fun _ => 7 / 4) 4 4 1 1 1 3 3
    (by norm_num) (by norm_num) (by norm_num) (by norm_num)).1 ?_
    (hns _ (by norm_num) (by norm_num)) (fun _ => hns _ (by norm_num) (by norm_num)), rfl⟩
  rw [hw.1]
  norm_num [eps9]

/-! ## C14: a particle overlapping the wall is projected onto the wall circle -/

theorem sqrtExactAt_mul_self (sqrtf : F → F) (e : F) (he : 0 ≤ e)
    (hs : SqrtExactAt sqrtf (e * e)) : sqrtf (e * e) = e :=
  (mul_self_inj hs.1 he).mp hs.2

theorem obstacleResponse_inactive (sqrtf : F → F) (r ox oy orad ovx ovy : F)
    (q : Particle F) : obstacleResponse sqrtf r false ox oy orad ovx ovy q = q := by
  unfold obstacleResponse
  simp

/-- C14 (as stated, refuted): with scene radius `cR = 1e-7` around the origin, particle
radius `r = 5e-8` (`0 < r < cR`) and no active obstacle, the particle at
`(cR - r/2, 0) = (7.5e-8, 0)` with velocity `(1, 0)` has squared distance `5.625e-15` from
the centre, which is not above `1e-12`: the wall block is skipped, and the particle keeps
its position and its velocity `(1, 0)`. -/
theorem C14_counterexample :
    (0 : ℚ) < 5 / 100000000 ∧ (5 / 100000000 : ℚ) < 1 / 10000000 ∧
    loadParticle
      (handleCollisions_native Rat.sqrt
        { pos := fun k => if k = 0 then 0 + 1 / 10000000 - 5 / 100000000 / 2 else 0,
          vel := fun k => if k = 0 then 1 else 0 } 1
        (5 / 100000000) false 0 0 0 0 0 0 0 (1 / 10000000)) 0 =
      { px := 0 + 1 / 10000000 - 5 / 100000000 / 2, py := 0, pvx := 1, pvy := 0 } := by
  refine ⟨by norm_num, by norm_num, ?_⟩
  rw [handleCollisions_apply _ _ _ _ _ _ _ _ _ _ _ _ _ 0 (by norm_num) (by norm_num)]
  norm_num [wallResponse, obstacleResponse, loadParticle, wallDistSq, eps12]

/-- C14 (amended): with the obstacle inactive and `0 < r < cR`, an in-range particle at
`(cCx + cR - r/2, cCy)` with velocity `(1, 0)` is, after `handleCollisions_native`, at
`(cCx + cR - r, cCy)` with velocity `(0, 0)`, at squared distance `(cR - r)^2` from the
scene centre, provided its squared distance `(cR - r/2)^2` from the scene centre exceeds
`1e-12` and `sqrtf` is exact at it. -/
theorem C14_wall_projection (sqrtf : F → F) (b : ParticleBuffers F) (numParticles : ℤ)
    (r obstacleX obstacleY obstacleRadius obstacleVelX obstacleVelY cCx cCy cR : F)
    (i : ℤ) (hi0 : 0 ≤ i) (hi1 : i < numParticles) (hr0 : 0 < r) (hr1 : r < cR)
    (hq : loadParticle b i = { px := cCx + cR - r / 2, py := cCy, pvx := 1, pvy := 0 })
    (heps : eps12 < (cR - r / 2) * (cR - r / 2))
    (hsqrt : SqrtExactAt sqrtf ((cR - r / 2) * (cR - r / 2))) :
    loadParticle
        (handleCollisions_native sqrtf b numParticles r false obstacleX obstacleY
          obstacleRadius obstacleVelX obstacleVelY cCx cCy cR) i =
      { px := cCx + cR - r, py := cCy, pvx := 0, pvy := 0 } ∧
    wallDistSq cCx cCy
        (loadParticle
          (handleCollisions_native sqrtf b numParticles r false obstacleX obstacleY
            obstacleRadius obstacleVelX obstacleVelY cCx cCy cR) i) =
      (cR - r) * (cR - r) := by
  have he : 0 < cR - r / 2 := by linarith
  have hroot := sqrtExactAt_mul_self sqrtf (cR - r / 2) (le_of_lt he) hsqrt
  have hD : wallDistSq cCx cCy
      ({ px := cCx + cR - r / 2, py := cCy, pvx := 1, pvy := 0 } : Particle F) =
      (cR - r / 2) * (cR - r / 2) := by
    unfold wallDistSq
    simp only []
    ring
  have hres : loadParticle
        (handleCollisions_native sqrtf b numParticles r false obstacleX obstacleY
          obstacleRadius obstacleVelX obstacleVelY cCx cCy cR) i =
      { px := cCx + cR - r, py := cCy, pvx := 0, pvy := 0 } := by
    rw [handleCollisions_apply _ _ _ _ _ _ _ _ _ _ _ _ _ i hi0 hi1, hq,
      obstacleResponse_inactive]
    unfold wallResponse
    simp only []
    rw [hD, if_pos ⟨by nlinarith, heps⟩, hroot]
    have hne : cR - r / 2 ≠ 0 := ne_of_gt he
    have e1 : cCx + cR - r / 2 - cCx = cR - r / 2 := by ring
    congr 1
    · show cCx + cR - r / 2 - (cCx + cR - r / 2 - cCx) / (cR - r / 2) *
        (cR - r / 2 - (cR - r)) = cCx + cR - r
      rw [e1, div_self hne]
      ring
    · show cCy - (cCy - cCy) / (cR - r / 2) * (cR - r / 2 - (cR - r)) = cCy
      rw [sub_self, zero_div, zero_mul, sub_zero]
  refine ⟨hres, ?_⟩
  rw [hres]
  unfold wallDistSq
  simp only []
  ring

/-- Witness for C14 with scene circle of radius 10 around `(1, 2)`, particle radius 2 and
`sqrtf = Rat.sqrt`: the particle at `(10, 2)` with velocity `(1, 0)` ends at `(9, 2)` with
velocity `(0, 0)`. -/
theorem C14_wall_projection_witness :
    loadParticle
        (handleCollisions_native Rat.sqrt
          { pos := fun k => if k = 0 then 1 + 10 - 2 / 2 else 2,
            vel := fun k => if k = 0 then 1 else 0 } 1 2 false 0 0 0 0 0 1 2 10) 0 =
      { px := 1 + 10 - 2, py := 2, pvx := 0, pvy := 0 } :=
  (C14_wall_projection Rat.sqrt
    { pos := fun k => if k = 0 then 1 + 10 - 2 / 2 else 2,
      vel := fun k => if k = 0 then 1 else 0 } 1 2 0 0 0 0 0 1 2 10 0
    (by norm_num) (by norm_num) (by norm_num) (by norm_num)
    (by norm_num [loadParticle])
    (by norm_num [eps12])
    ⟨Rat.sqrt_nonneg _, by
      have h9 : ((10 : ℚ) - 2 / 2) * (10 - 2 / 2) = 9 * 9 := by norm_num
      rw [h9, ratSqrt_mul_self 9 (by norm_num)]⟩).1

/-! ## C20: malformed particle bins are skipped -/

/-- Two loops over the same range whose bodies agree at every counter of the range are
equal. -/
theorem forRange_congr {σ : Type} (lo hi : ℤ) (body1 body2 : ℤ → σ → σ) (st : σ)
    (h : ∀ k s, lo ≤ k → k < hi → body1 k s = body2 k s) :
    forRange lo hi body1 st = forRange lo hi body2 st := by
  unfold forRange
  apply List.foldl_ext
  intro a b hb
  have hb1 : b < (hi - lo).toNat := List.mem_range.mp hb
  have hb2 : (b : ℤ) < hi - lo := by
    have := Int.toNat_lt (n := b) (z := hi - lo)
    omega
  exact h _ a (by omega) (by omega)

/-- The source traversal equals the traversal that treats the bin `c` as empty, when the
CSR range of `c` is negative or inverted. -/
theorem neighbourLoop_eq_skip {σ : Type} (firstCellParticle cellParticleIds : ℤ → ℤ)
    (c : ℤ) (hbad : firstCellParticle c < 0 ∨ firstCellParticle (c + 1) < firstCellParticle c)
    (numParticles pNumX pNumY pxi pyi ii : ℤ) (interact : ℤ → σ → σ) (st : σ) :
    neighbourLoop firstCellParticle cellParticleIds numParticles pNumX pNumY pxi pyi ii
        interact st =
      neighbourLoopSkip c firstCellParticle cellParticleIds numParticles pNumX pNumY pxi pyi
        ii interact st := by
  unfold neighbourLoop neighbourLoopSkip
  simp only []
  apply forRange_congr
  intro cx s1 _ _
  apply forRange_congr
  intro cy s2 _ _
  by_cases hc : cx * pNumY + cy = c
  · rw [if_pos hc, hc]
    by_cases hA : c < 0 ∨ c + 1 > pNumX * pNumY
    · rw [if_pos hA]
    · rw [if_neg hA, if_pos]
      rcases hbad with hb | hb
      · exact Or.inl hb
      · exact Or.inr (Or.inl hb)
  · rw [if_neg hc]

/-- C20: in `pushParticlesApart_native` and `diffuseParticleColors_native`, a bin `c` whose
CSR range is negative or inverted (`firstCellParticle[c] < 0` or
`firstCellParticle[c+1] < firstCellParticle[c]`) contributes no pair interaction: the result
equals the result obtained with that bin treated as empty (`pushParticlesApartSkip c`,
`diffuseParticleColorsSkip c`). -/
theorem C20_malformed_bins_skipped [FloorRing F] (sqrtf : F → F)
    (particlePos particleColor : ℤ → F) (firstCellParticle cellParticleIds : ℤ → ℤ)
    (numParticles pNumX pNumY : ℤ) (pInvSpacing : F) (numIters : ℤ)
    (particleRadius minDist2 : F) (enableDynamicColoring : Bool) (colorDiffusionCoeff : F)
    (c : ℤ)
    (hbad : firstCellParticle c < 0 ∨ firstCellParticle (c + 1) < firstCellParticle c) :
    pushParticlesApart_native sqrtf particlePos firstCellParticle cellParticleIds
        numParticles pNumX pNumY pInvSpacing numIters particleRadius minDist2 =
      pushParticlesApartSkip c sqrtf particlePos firstCellParticle cellParticleIds
        numParticles pNumX pNumY pInvSpacing numIters particleRadius minDist2 ∧
    diffuseParticleColors_native particlePos particleColor firstCellParticle cellParticleIds
        numParticles pNumX pNumY pInvSpacing particleRadius enableDynamicColoring
        colorDiffusionCoeff =
      diffuseParticleColorsSkip c particlePos particleColor firstCellParticle
        cellParticleIds numParticles pNumX pNumY pInvSpacing particleRadius
        enableDynamicColoring colorDiffusionCoeff := by
  constructor
  · unfold pushParticlesApart_native pushParticlesApartSkip pushParticle
    simp only [neighbourLoop_eq_skip firstCellParticle cellParticleIds c hbad]
  · unfold diffuseParticleColors_native diffuseParticleColorsSkip
    simp only [neighbourLoop_eq_skip firstCellParticle cellParticleIds c hbad]

/-- Witness for C20 with two particles at `(0, 0)` and `(1/2, 0)` in a single bin whose CSR
range starts at `-1`. -/
theorem C20_malformed_bins_skipped_witness :
    pushParticlesApart_native Rat.sqrt (fun k => if k = 2 then 1 / 2 else 0)
        (fun k => if k = 0 then -1 else 2) (fun k => k) 2 1 1 1 1 1 4 =
      pushParticlesApartSkip 0 Rat.sqrt (fun k => if k = 2 then 1 / 2 else 0)
        (fun k => if k = 0 then -1 else 2) (fun k => k) 2 1 1 1 1 1 4 ∧
    diffuseParticleColors_native (fun k => if k = 2 then (1 / 2 : ℚ) else 0) (fun _ => 1 / 2)
        (fun k => if k = 0 then -1 else 2) (fun k => k) 2 1 1 1 1 true (1 / 2) =
      diffuseParticleColorsSkip 0 (fun k => if k = 2 then (1 / 2 : ℚ) else 0)
        (fun _ => 1 / 2) (fun k => if k = 0 then -1 else 2) (fun k => k) 2 1 1 1 1 true
        (1 / 2) :=
  C20_malformed_bins_skipped Rat.sqrt (fun k => if k = 2 then 1 / 2 else 0) (fun _ => 1 / 2)
    (fun k => if k = 0 then -1 else 2) (fun k => k) 2 1 1 1 1 1 4 true (1 / 2) 0
    (Or.inl (by norm_num))

/-! ## `updateParticleDensityGrid_native`: per-cell reading of the result -/

/-- The zeroing loop sets exactly the indices `0 ≤ x < N` to zero. -/
theorem zeroGrid_apply (N : ℤ) (grid : ℤ → F) (x : ℤ) :
    forRange 0 N (fun i g => Function.update g i 0) grid x =
      if 0 ≤ x ∧ x < N then 0 else grid x := by
  have key := forRange_induction
    (fun m (g : ℤ → F) => ∀ y, g y = if 0 ≤ y ∧ y < m then 0 else grid y) 0 N
    (fun i g => Function.update g i 0) grid
    (fun y => by rw [if_neg (by omega)])
    (by
      intro k g hk0 _ hP y
      show Function.update g k 0 y = _
      rw [Function.update_apply, hP y]
      by_cases he : y = k
      · rw [if_pos he, if_pos (by omega)]
      · rw [if_neg he]
        by_cases hr : 0 ≤ y ∧ y < k
        · rw [if_pos hr, if_pos (by omega)]
        · rw [if_neg hr, if_neg (by omega)])
  rw [key x]
  by_cases hr : 0 ≤ x ∧ x < N
  · rw [if_pos hr, if_pos ⟨hr.1, lt_of_lt_of_le hr.2 (le_max_right 0 N)⟩]
  · rw [if_neg hr, if_neg]
    intro hm
    rcases le_total 0 N with hN | hN
    · rw [max_eq_right hN] at hm
      exact hr hm
    · rw [max_eq_left hN] at hm
      omega

theorem addAt_apply (N idx : ℤ) (w : F) (grid : ℤ → F) (x : ℤ) :
    addAt N idx w grid x = grid x + (if idx = x ∧ 0 ≤ idx ∧ idx < N then w else 0) := by
  unfold addAt
  by_cases hc : idx ≥ 0 ∧ idx < N
  · rw [if_pos hc, Function.update_apply]
    by_cases hx : x = idx
    · subst hx
      rw [if_pos rfl, if_pos ⟨rfl, hc.1, hc.2⟩]
    · rw [if_neg hx, if_neg (fun hh => hx hh.1.symm), add_zero]
  · rw [if_neg hc, if_neg (fun hh => hc ⟨hh.2.1, hh.2.2⟩), add_zero]

/-- The accumulation of one particle whose lower-left stencil cell is `(x0, y0)`, inside
the grid, with fractional offsets `tx`, `ty`. -/
theorem densityParticle_eval [FloorRing F] (invH : F) (fNumX fNumY : ℤ) (h : F)
    (pos : ℤ → F) (i : ℤ) (grid : ℤ → F) (x0 y0 : ℤ) (tx ty : F)
    (hx0 : toInt (floorf ((clamp_cpp (pos (2 * i)) h (((fNumX - 1 : ℤ) : F) * h)
      - 1 / 2 * h) * invH)) = x0)
    (hy0 : toInt (floorf ((clamp_cpp (pos (2 * i + 1)) h (((fNumY - 1 : ℤ) : F) * h)
      - 1 / 2 * h) * invH)) = y0)
    (htx : (clamp_cpp (pos (2 * i)) h (((fNumX - 1 : ℤ) : F) * h) - 1 / 2 * h
      - (x0 : F) * h) * invH = tx)
    (hty : (clamp_cpp (pos (2 * i + 1)) h (((fNumY - 1 : ℤ) : F) * h) - 1 / 2 * h
      - (y0 : F) * h) * invH = ty)
    (hin : 0 ≤ x0 ∧ x0 < fNumX - 1 ∧ 0 ≤ y0 ∧ y0 < fNumY - 1) :
    densityParticle invH fNumX fNumY h pos i grid =
      addAt (fNumX * fNumY) (x0 * fNumY + (y0 + 1)) ((1 - tx) * ty)
        (addAt (fNumX * fNumY) ((x0 + 1) * fNumY + (y0 + 1)) (tx * ty)
          (addAt (fNumX * fNumY) ((x0 + 1) * fNumY + y0) (tx * (1 - ty))
            (addAt (fNumX * fNumY) (x0 * fNumY + y0) ((1 - tx) * (1 - ty)) grid))) := by
  unfold densityParticle
  simp only []
  rw [hx0, hy0, htx, hty, if_neg (by omega)]

/-- The density grid after one call with a single particle whose lower-left stencil cell
is `(x0, y0)`, inside the grid, with fractional offsets `tx`, `ty`. -/
theorem density_single [FloorRing F] (rest invH : F) (fNumX fNumY : ℤ) (h : F)
    (pos grid : ℤ → F) (x0 y0 : ℤ) (tx ty : F)
    (hx0 : toInt (floorf ((clamp_cpp (pos (2 * 0)) h (((fNumX - 1 : ℤ) : F) * h)
      - 1 / 2 * h) * invH)) = x0)
    (hy0 : toInt (floorf ((clamp_cpp (pos (2 * 0 + 1)) h (((fNumY - 1 : ℤ) : F) * h)
      - 1 / 2 * h) * invH)) = y0)
    (htx : (clamp_cpp (pos (2 * 0)) h (((fNumX - 1 : ℤ) : F) * h) - 1 / 2 * h
      - (x0 : F) * h) * invH = tx)
    (hty : (clamp_cpp (pos (2 * 0 + 1)) h (((fNumY - 1 : ℤ) : F) * h) - 1 / 2 * h
      - (y0 : F) * h) * invH = ty)
    (hin : 0 ≤ x0 ∧ x0 < fNumX - 1 ∧ 0 ≤ y0 ∧ y0 < fNumY - 1)
    (x : ℤ) (hx : 0 ≤ x ∧ x < fNumX * fNumY) :
    updateParticleDensityGrid_native 1 rest invH fNumX fNumY h pos grid x =
      (if x = x0 * fNumY + y0 then (1 - tx) * (1 - ty) else 0)
        + (if x = (x0 + 1) * fNumY + y0 then tx * (1 - ty) else 0)
        + (if x = (x0 + 1) * fNumY + (y0 + 1) then tx * ty else 0)
        + (if x = x0 * fNumY + (y0 + 1) then (1 - tx) * ty else 0) := by
  unfold updateParticleDensityGrid_native
  rw [forRange_zero_one,
    densityParticle_eval invH fNumX fNumY h pos 0 _ x0 y0 tx ty hx0 hy0 htx hty hin,
    addAt_apply, addAt_apply, addAt_apply, addAt_apply, zeroGrid_apply, if_pos hx, zero_add]
  obtain ⟨a0, a1⟩ := cellIndex_inRange fNumX fNumY x0 y0 (by omega) (by omega) (by omega)
    (by omega)
  obtain ⟨b0, b1⟩ := cellIndex_inRange fNumX fNumY (x0 + 1) y0 (by omega) (by omega)
    (by omega) (by omega)
  obtain ⟨c0, c1⟩ := cellIndex_inRange fNumX fNumY (x0 + 1) (y0 + 1) (by omega) (by omega)
    (by omega) (by omega)
  obtain ⟨d0, d1⟩ := cellIndex_inRange fNumX fNumY x0 (y0 + 1) (by omega) (by omega)
    (by omega) (by omega)
  have e0 : (x0 * fNumY + y0 = x ∧ 0 ≤ x0 * fNumY + y0 ∧ x0 * fNumY + y0 < fNumX * fNumY) ↔
      x = x0 * fNumY + y0 := ⟨fun hh => hh.1.symm, fun hh => ⟨hh.symm, a0, a1⟩⟩
  have e1 : ((x0 + 1) * fNumY + y0 = x ∧ 0 ≤ (x0 + 1) * fNumY + y0 ∧
      (x0 + 1) * fNumY + y0 < fNumX * fNumY) ↔ x = (x0 + 1) * fNumY + y0 :=
    ⟨fun hh => hh.1.symm, fun hh => ⟨hh.symm, b0, b1⟩⟩
  have e2 : ((x0 + 1) * fNumY + (y0 + 1) = x ∧ 0 ≤ (x0 + 1) * fNumY + (y0 + 1) ∧
      (x0 + 1) * fNumY + (y0 + 1) < fNumX * fNumY) ↔ x = (x0 + 1) * fNumY + (y0 + 1) :=
    ⟨fun hh => hh.1.symm, fun hh => ⟨hh.symm, c0, c1⟩⟩
  have e3 : (x0 * fNumY + (y0 + 1) = x ∧ 0 ≤ x0 * fNumY + (y0 + 1) ∧
      x0 * fNumY + (y0 + 1) < fNumX * fNumY) ↔ x = x0 * fNumY + (y0 + 1) :=
    ⟨fun hh => hh.1.symm, fun hh => ⟨hh.symm, d0, d1⟩⟩
  simp only [e0, e1, e2, e3]

/-! ## C16: a single particle at the centre of the grid -/

/-- One axis of the stencil of a particle at the centre `(2a)·h/2` of an axis with `2a`
cells: the lower cell is `a - 1` and the fractional offset is `1/2`. -/
theorem centre_axis [FloorRing F] (h : F) (a : ℤ) (ha : 1 ≤ a) (hh : 0 < h) :
    toInt (floorf ((clamp_cpp (((2 * a : ℤ) : F) * h / 2) h (((2 * a - 1 : ℤ) : F) * h)
      - 1 / 2 * h) * (1 / h))) = a - 1 ∧
    (clamp_cpp (((2 * a : ℤ) : F) * h / 2) h (((2 * a - 1 : ℤ) : F) * h) - 1 / 2 * h
      - ((a - 1 : ℤ) : F) * h) * (1 / h) = 1 / 2 := by
  have haF : (1 : F) ≤ (a : F) := by exact_mod_cast ha
  have hne : h ≠ 0 := ne_of_gt hh
  have hcl : clamp_cpp (((2 * a : ℤ) : F) * h / 2) h (((2 * a - 1 : ℤ) : F) * h) =
      (a : F) * h := by
    unfold clamp_cpp
    push_cast
    have e : 2 * (a : F) * h / 2 = (a : F) * h := by ring
    rw [e, min_eq_left (by nlinarith), max_eq_right (by nlinarith)]
  have hval : ((a : F) * h - 1 / 2 * h) * (1 / h) = (a : F) - 1 / 2 := by
    field_simp
    ring
  have hfl : ⌊(a : F) - 1 / 2⌋ = a - 1 := by
    rw [Int.floor_eq_iff]
    push_cast
    constructor <;> linarith
  rw [hcl]
  constructor
  · rw [hval]
    unfold floorf toInt
    rw [hfl, if_pos (by push_cast; linarith), Int.floor_intCast]
  · push_cast
    field_simp
    ring

/-- The density grid of a 5 x 5 grid with `h = 1` after one call with a single particle at
`(5/2, 5/2)`. -/
theorem density_odd_grid_centre (x : ℤ) (hx : 0 ≤ x ∧ x < 5 * 5) :
    updateParticleDensityGrid_native 1 (0 : ℚ) (1 / 1) 5 5 1 (fun _ => 5 / 2) (fun _ => 7) x
      = if x = 12 then 1 else 0 := by
  have f2 : ⌊(2 : ℚ)⌋ = 2 := by norm_num
  rw [density_single (F := ℚ) 0 (1 / 1) 5 5 1 (fun _ => 5 / 2) (fun _ => 7) 2 2 0 0
    (by norm_num [clamp_cpp, floorf, toInt, f2]) (by norm_num [clamp_cpp, floorf, toInt, f2])
    (by norm_num [clamp_cpp]) (by norm_num [clamp_cpp]) (by norm_num) x hx]
  have e : (2 : ℤ) * 5 + 2 = 12 := by norm_num
  rw [e]
  by_cases h12 : x = 12
  · rw [if_pos h12, if_pos h12]
    norm_num
  · rw [if_neg h12, if_neg h12]
    norm_num

/-- C16 (as stated, refuted): on a 5 x 5 grid with `h = 1`, `invH = 1/h`, a single particle
at the domain centre `(5/2, 5/2)` sits on the centre of cell `(2, 2)`; the density grid
(listed here by index `0 .. 24`) then has the value `1` at index 12 and `0` at every other
index, so one non-zero cell, not four. -/
theorem C16_counterexample :
    (List.range 25).map (fun k : ℕ =>
        updateParticleDensityGrid_native 1 (0 : ℚ) (1 / 1) 5 5 1 (fun _ => 5 / 2)
          (fun _ => 7) (k : ℤ)) =
      [0, 0, 0, 0, 0, 0, 0, 0, 0, 0, 0, 0, 1, 0, 0, 0, 0, 0, 0, 0, 0, 0, 0, 0, 0] := by
  have hcongr : (List.range 25).map (fun k : ℕ =>
        updateParticleDensityGrid_native 1 (0 : ℚ) (1 / 1) 5 5 1 (fun _ => 5 / 2)
          (fun _ => 7) (k : ℤ)) =
      (List.range 25).map (fun k : ℕ => if (k : ℤ) = 12 then (1 : ℚ) else 0) := by
    apply List.map_congr_left
    intro k hk
    have hk1 : k < 25 := List.mem_range.mp hk
    exact density_odd_grid_centre (k : ℤ) ⟨by omega, by omega⟩
  rw [hcongr]
  decide

/-- C16 (amended): for a grid with an even number of cells in both directions
(`fNumX = 2a`, `fNumY = 2b`, `a, b ≥ 1`), `h > 0`, `invH = 1/h` and a single particle at the
domain centre `(fNumX·h/2, fNumY·h/2)`, `updateParticleDensityGrid_native` produces a grid
whose four cells `(a-1, b-1)`, `(a, b-1)`, `(a, b)`, `(a-1, b)` (distinct and in range) hold
`1/4` each, summing to `1`, and whose every other cell in range is `0`, whatever the grid
held before. -/
theorem C16_centre_particle_density [FloorRing F] (rest h : F) (a b : ℤ)
    (pos grid : ℤ → F) (ha : 1 ≤ a) (hb : 1 ≤ b) (hh : 0 < h)
    (hpx : pos (2 * 0) = ((2 * a : ℤ) : F) * h / 2)
    (hpy : pos (2 * 0 + 1) = ((2 * b : ℤ) : F) * h / 2) :
    (∀ x, 0 ≤ x ∧ x < (2 * a) * (2 * b) →
      updateParticleDensityGrid_native 1 rest (1 / h) (2 * a) (2 * b) h pos grid x =
        if x = (a - 1) * (2 * b) + (b - 1) ∨ x = a * (2 * b) + (b - 1) ∨
            x = a * (2 * b) + b ∨ x = (a - 1) * (2 * b) + b
          then 1 / 4 else 0) ∧
    (0 ≤ (a - 1) * (2 * b) + (b - 1) ∧
      (a - 1) * (2 * b) + (b - 1) < (a - 1) * (2 * b) + b ∧
      (a - 1) * (2 * b) + b < a * (2 * b) + (b - 1) ∧
      a * (2 * b) + (b - 1) < a * (2 * b) + b ∧
      a * (2 * b) + b < (2 * a) * (2 * b)) ∧
    updateParticleDensityGrid_native 1 rest (1 / h) (2 * a) (2 * b) h pos grid
        ((a - 1) * (2 * b) + (b - 1))
      + updateParticleDensityGrid_native 1 rest (1 / h) (2 * a) (2 * b) h pos grid
        (a * (2 * b) + (b - 1))
      + updateParticleDensityGrid_native 1 rest (1 / h) (2 * a) (2 * b) h pos grid
        (a * (2 * b) + b)
      + updateParticleDensityGrid_native 1 rest (1 / h) (2 * a) (2 * b) h pos grid
        ((a - 1) * (2 * b) + b) = 1 := by
  obtain ⟨hx0, htx⟩ := centre_axis (F := F) h a ha hh
  obtain ⟨hy0, hty⟩ := centre_axis (F := F) h b hb hh
  have r1 : (a - 1) * (2 * b) = a * (2 * b) - 2 * b := by ring
  have r2 : (2 * a) * (2 * b) = 2 * (a * (2 * b)) := by ring
  have hab : 2 * b ≤ a * (2 * b) := by nlinarith
  have hord : 0 ≤ (a - 1) * (2 * b) + (b - 1) ∧
      (a - 1) * (2 * b) + (b - 1) < (a - 1) * (2 * b) + b ∧
      (a - 1) * (2 * b) + b < a * (2 * b) + (b - 1) ∧
      a * (2 * b) + (b - 1) < a * (2 * b) + b ∧
      a * (2 * b) + b < (2 * a) * (2 * b) := by
    refine ⟨by omega, by omega, by omega, by omega, by omega⟩
  have hval : ∀ x, 0 ≤ x ∧ x < (2 * a) * (2 * b) →
      updateParticleDensityGrid_native 1 rest (1 / h) (2 * a) (2 * b) h pos grid x =
        if x = (a - 1) * (2 * b) + (b - 1) ∨ x = a * (2 * b) + (b - 1) ∨
            x = a * (2 * b) + b ∨ x = (a - 1) * (2 * b) + b
          then 1 / 4 else 0 := by
    intro x hx
    rw [density_single (F := F) rest (1 / h) (2 * a) (2 * b) h pos grid (a - 1) (b - 1)
      (1 / 2) (1 / 2) (by rw [hpx]; exact hx0) (by rw [hpy]; exact hy0)
      (by rw [hpx]; exact htx) (by rw [hpy]; exact hty) (by omega) x hx]
    simp only [sub_add_cancel]
    split_ifs <;> first | (exfalso; omega) | norm_num
  refine ⟨hval, hord, ?_⟩
  rw [hval _ (by omega), hval _ (by omega), hval _ (by omega), hval _ (by omega)]
  simp only [true_or, or_true, if_true]
  norm_num

/-- Witness for C16 on a 4 x 4 grid with `h = 1`: the particle at `(2, 2)` gives `1/4` in
the cell `(1, 1)` (index 5) and `0` in the cell `(0, 0)`. -/
theorem C16_centre_particle_density_witness :
    updateParticleDensityGrid_native 1 (0 : ℚ) (1 / 1) (2 * 2) (2 * 2) 1 (fun _ => 2)
        (fun _ => 7) 5 = 1 / 4 ∧
    updateParticleDensityGrid_native 1 (0 : ℚ) (1 / 1) (2 * 2) (2 * 2) 1 (fun _ => 2)
        (fun _ => 7) 0 = 0 := by
  have key := (C16_centre_particle_density (F := ℚ) 0 1 2 2 (fun _ => 2) (fun _ => 7)
    (by norm_num) (by norm_num) (by norm_num) (by norm_num) (by norm_num)).1
  constructor
  · rw [key 5 (by norm_num)]
    norm_num
  · rw [key 0 (by norm_num)]
    norm_num

/-! ## The neighbour traversal reaches every listed particle -/

/-- If the bins list the particle `jj ≠ ii` in the window of `ii`, a property `I` holds on
entry and is kept by every pair body, the pair body at `jj` turns `I` into `Q`, and every
pair body keeps `Q`, then `Q` holds after the traversal. -/
theorem neighbourLoop_reach {σ : Type} (I Q : σ → Prop)
    (firstCellParticle cellParticleIds : ℤ → ℤ) (numParticles pNumX pNumY pxi pyi ii jj : ℤ)
    (interact : ℤ → σ → σ) (st : σ)
    (hlist : EnumeratesNeighbour firstCellParticle cellParticleIds numParticles pNumX pNumY
      pxi pyi jj)
    (hjj : jj ≠ ii) (hjj0 : 0 ≤ jj) (hjj1 : jj < numParticles) (hI0 : I st)
    (hI : ∀ j s, j ≠ ii → 0 ≤ j → j < numParticles → I s → I (interact j s))
    (hhit : ∀ s, I s → Q (interact jj s))
    (hQ : ∀ j s, j ≠ ii → 0 ≤ j → j < numParticles → Q s → Q (interact j s)) :
    Q (neighbourLoop firstCellParticle cellParticleIds numParticles pNumX pNumY pxi pyi ii
      interact st) := by
  obtain ⟨cx, cy, k, ⟨hx0, hx1⟩, ⟨hy0, hy1⟩, ⟨hc0, hc1⟩, ⟨hs0, hs1, hs2, hs3⟩, hk⟩ := hlist
  have hentry : ∀ (P : σ → Prop),
      (∀ j s, j ≠ ii → 0 ≤ j → j < numParticles → P s → P (interact j s)) →
      ∀ (m : ℤ) (s : σ), P s →
        P (if m < 0 ∨ m ≥ numParticles then s
          else if cellParticleIds m = ii then s
          else if cellParticleIds m < 0 ∨ cellParticleIds m ≥ numParticles then s
          else interact (cellParticleIds m) s) := by
    intro P hP m s hs
    split_ifs with hA hB hC
    · exact hs
    · exact hs
    · exact hs
    · exact hP _ s hB (by omega) (by omega) hs
  have hcell : ∀ (P : σ → Prop),
      (∀ j s, j ≠ ii → 0 ≤ j → j < numParticles → P s → P (interact j s)) →
      ∀ (x y : ℤ) (s : σ), P s →
        P (if x * pNumY + y < 0 ∨ x * pNumY + y + 1 > pNumX * pNumY then s
          else if firstCellParticle (x * pNumY + y) < 0 ∨
              firstCellParticle (x * pNumY + y + 1) < firstCellParticle (x * pNumY + y) ∨
              firstCellParticle (x * pNumY + y + 1) > numParticles then s
          else forRange (firstCellParticle (x * pNumY + y))
            (firstCellParticle (x * pNumY + y + 1)) (fun m st3 =>
              if m < 0 ∨ m ≥ numParticles then st3
              else if cellParticleIds m = ii then st3
              else if cellParticleIds m < 0 ∨ cellParticleIds m ≥ numParticles then st3
              else interact (cellParticleIds m) st3) s) := by
    intro P hP x y s hs
    split_ifs with hA hB
    · exact hs
    · exact hs
    · exact forRange_preserves P _ _ _ _ hs (fun m t _ _ ht => hentry P hP m t ht)
  have hrow : ∀ (P : σ → Prop),
      (∀ j s, j ≠ ii → 0 ≤ j → j < numParticles → P s → P (interact j s)) →
      ∀ (x : ℤ) (s : σ), P s →
        P (forRange (max 0 (pyi - 1)) (min (pNumY - 1) (pyi + 1) + 1) (fun y st2 =>
          if x * pNumY + y < 0 ∨ x * pNumY + y + 1 > pNumX * pNumY then st2
          else if firstCellParticle (x * pNumY + y) < 0 ∨
              firstCellParticle (x * pNumY + y + 1) < firstCellParticle (x * pNumY + y) ∨
              firstCellParticle (x * pNumY + y + 1) > numParticles then st2
          else forRange (firstCellParticle (x * pNumY + y))
            (firstCellParticle (x * pNumY + y + 1)) (fun m st3 =>
              if m < 0 ∨ m ≥ numParticles then st3
              else if cellParticleIds m = ii then st3
              else if cellParticleIds m < 0 ∨ cellParticleIds m ≥ numParticles then st3
              else interact (cellParticleIds m) st3) st2) s) := by
    intro P hP x s hs
    exact forRange_preserves P _ _ _ _ hs (fun y t _ _ ht => hcell P hP x y t ht)
  unfold neighbourLoop
  simp only []
  refine forRange_reach I Q _ _ cx hx0 (by omega) _ st hI0
    (fun x s _ _ hs => hrow I hI x s hs) ?_ (fun x s _ _ hs => hrow Q hQ x s hs)
  intro t1 ht1
  refine forRange_reach I Q _ _ cy hy0 (by omega) _ t1 ht1
    (fun y s _ _ hs => hcell I hI cx y s hs) ?_ (fun y s _ _ hs => hcell Q hQ cx y s hs)
  intro t2 ht2
  rw [if_neg (by omega), if_neg (by omega)]
  refine forRange_reach I Q _ _ k hs1 hs2 _ t2 ht2
    (fun m s _ _ hs => hentry I hI m s hs) ?_ (fun m s _ _ hs => hentry Q hQ m s hs)
  intro t3 ht3
  show Q (if k < 0 ∨ k ≥ numParticles then t3
    else if cellParticleIds k = ii then t3
    else if cellParticleIds k < 0 ∨ cellParticleIds k ≥ numParticles then t3
    else interact (cellParticleIds k) t3)
  rw [if_neg (by omega), hk, if_neg hjj, if_neg (by omega)]
  exact hhit t3 ht3

/-! ## The pair body of `pushParticlesApart_native` when it displaces -/

/-- The four coordinates written by the pair body for `ii ≠ jj` when the pair is neither
farther apart than `minDist2` nor closer than `1e-12` (squared) and the root `d` of its
squared distance exceeds `1e-9`. -/
theorem pushPair_apply (sqrtf : F → F) (minDist minDist2 : F) (ii jj : ℤ) (pos : ℤ → F)
    (d : F) (hne : ii ≠ jj)
    (hcond : ¬ (pairDistSq pos ii jj > minDist2 ∨ pairDistSq pos ii jj < eps12))
    (hd : sqrtf (pairDistSq pos ii jj) = d) (hd9 : d > eps9) :
    pushPair sqrtf minDist minDist2 ii jj pos (2 * ii) =
        pos (2 * ii) - (pos (2 * jj) - pos (2 * ii)) * ((1 / 2) * (minDist - d) / d) ∧
    pushPair sqrtf minDist minDist2 ii jj pos (2 * ii + 1) =
        pos (2 * ii + 1) -
          (pos (2 * jj + 1) - pos (2 * ii + 1)) * ((1 / 2) * (minDist - d) / d) ∧
    pushPair sqrtf minDist minDist2 ii jj pos (2 * jj) =
        pos (2 * jj) + (pos (2 * jj) - pos (2 * ii)) * ((1 / 2) * (minDist - d) / d) ∧
    pushPair sqrtf minDist minDist2 ii jj pos (2 * jj + 1) =
        pos (2 * jj + 1) +
          (pos (2 * jj + 1) - pos (2 * ii + 1)) * ((1 / 2) * (minDist - d) / d) := by
  unfold pushPair
  unfold pairDistSq at hcond hd
  simp only [add_zero] at hcond hd ⊢
  rw [if_neg hcond, hd, if_pos hd9]
  refine ⟨?_, ?_, ?_, ?_⟩
  · rw [Function.update_noteq (by omega), Function.update_noteq (by omega),
      Function.update_noteq (by omega), Function.update_same]
  · rw [Function.update_noteq (by omega), Function.update_noteq (by omega),
      Function.update_same]
  · rw [Function.update_noteq (by omega), Function.update_same]
  · rw [Function.update_same]

/-! ## C15: two overlapping particles are pushed to distance `2r` -/

theorem eps9_lt_of_eps12_le_sq (r : F) (hr : 0 < r) (heps : eps12 ≤ r * r) : eps9 < r := by
  by_contra hle
  have h1 : r * r ≤ eps9 * eps9 := mul_self_le_mul_self (le_of_lt hr) (not_lt.mp hle)
  have h2 : (eps9 : F) * eps9 < eps12 := by
    unfold eps9 eps12
    norm_num
  exact absurd (lt_of_le_of_lt h1 h2) (not_lt.mpr heps)

/-- The first displacement of the pair `(0, 1)`: from `(c, c)`, `(c + r, c)` to
`(c - r/2, c)`, `(c + r + r/2, c)`. -/
theorem pushPair_overlapping (sqrtf : F → F) (r c : F) (s : ℤ → F) (hr : 0 < r)
    (heps : eps12 ≤ r * r) (hsq : SqrtExactAt sqrtf (r * r))
    (hs : s (2 * 0) = c ∧ s (2 * 0 + 1) = c ∧ s (2 * 1) = c + r ∧ s (2 * 1 + 1) = c) :
    pushPair sqrtf (2 * r) ((2 * r) * (2 * r)) 0 1 s (2 * 0) = c - r / 2 ∧
    pushPair sqrtf (2 * r) ((2 * r) * (2 * r)) 0 1 s (2 * 0 + 1) = c ∧
    pushPair sqrtf (2 * r) ((2 * r) * (2 * r)) 0 1 s (2 * 1) = c + r + r / 2 ∧
    pushPair sqrtf (2 * r) ((2 * r) * (2 * r)) 0 1 s (2 * 1 + 1) = c := by
  obtain ⟨s0, s1, s2, s3⟩ := hs
  have hD : pairDistSq s 0 1 = r * r := by
    unfold pairDistSq
    simp only [add_zero]
    rw [s0, s1, s2, s3]
    ring
  have hne : r ≠ 0 := ne_of_gt hr
  obtain ⟨a0, a1, a2, a3⟩ := pushPair_apply sqrtf (2 * r) ((2 * r) * (2 * r)) 0 1 s r
    (by norm_num)
    (by
      rw [hD]
      intro hc
      rcases hc with hc | hc
      · nlinarith
      · exact absurd hc (not_lt.mpr heps))
    (by rw [hD]; exact sqrtExactAt_mul_self sqrtf r (le_of_lt hr) hsq)
    (eps9_lt_of_eps12_le_sq r hr heps)
  rw [a0, a1, a2, a3, s0, s1, s2, s3]
  refine ⟨?_, ?_, ?_, ?_⟩
  · field_simp
    ring
  · ring
  · field_simp
    ring
  · ring

/-- Once the two particles are at `(c - r/2, c)`, `(c + r + r/2, c)`, exactly `2r` apart,
the pair body for `(0, 1)` or `(1, 0)` leaves the four coordinates as they are. -/
theorem pushPair_settled (sqrtf : F → F) (r c : F) (s : ℤ → F) (ii jj : ℤ)
    (hij : (ii = 0 ∧ jj = 1) ∨ (ii = 1 ∧ jj = 0)) (hr : 0 < r)
    (heps : eps12 ≤ r * r) (hsq : SqrtExactAt sqrtf ((2 * r) * (2 * r)))
    (hs : s (2 * 0) = c - r / 2 ∧ s (2 * 0 + 1) = c ∧ s (2 * 1) = c + r + r / 2 ∧
      s (2 * 1 + 1) = c) :
    pushPair sqrtf (2 * r) ((2 * r) * (2 * r)) ii jj s (2 * 0) = c - r / 2 ∧
    pushPair sqrtf (2 * r) ((2 * r) * (2 * r)) ii jj s (2 * 0 + 1) = c ∧
    pushPair sqrtf (2 * r) ((2 * r) * (2 * r)) ii jj s (2 * 1) = c + r + r / 2 ∧
    pushPair sqrtf (2 * r) ((2 * r) * (2 * r)) ii jj s (2 * 1 + 1) = c := by
  obtain ⟨s0, s1, s2, s3⟩ := hs
  have h9 := eps9_lt_of_eps12_le_sq r hr heps
  have h29 : eps9 < 2 * r := by linarith
  have hroot := sqrtExactAt_mul_self sqrtf (2 * r) (by linarith) hsq
  have hguard : ¬ ((2 * r) * (2 * r) > (2 * r) * (2 * r) ∨ (2 * r) * (2 * r) < eps12) := by
    intro hc
    rcases hc with hc | hc
    · exact lt_irrefl _ hc
    · nlinarith
  rcases hij with ⟨hi, hj⟩ | ⟨hi, hj⟩
  · subst hi
    subst hj
    have hD : pairDistSq s 0 1 = (2 * r) * (2 * r) := by
      unfold pairDistSq
      simp only [add_zero]
      rw [s0, s1, s2, s3]
      ring
    obtain ⟨a0, a1, a2, a3⟩ := pushPair_apply sqrtf (2 * r) ((2 * r) * (2 * r)) 0 1 s
      (2 * r) (by norm_num) (by rw [hD]; exact hguard) (by rw [hD]; exact hroot) h29
    rw [a0, a1, a2, a3, s0, s1, s2, s3]
    simp only [sub_self, mul_zero, zero_div, sub_zero, add_zero, and_self]
  · subst hi
    subst hj
    have hD : pairDistSq s 1 0 = (2 * r) * (2 * r) := by
      unfold pairDistSq
      simp only [add_zero]
      rw [s0, s1, s2, s3]
      ring
    obtain ⟨a0, a1, a2, a3⟩ := pushPair_apply sqrtf (2 * r) ((2 * r) * (2 * r)) 1 0 s
      (2 * r) (by norm_num) (by rw [hD]; exact hguard) (by rw [hD]; exact hroot) h29
    rw [a0, a1, a2, a3, s0, s1, s2, s3]
    simp only [sub_self, mul_zero, zero_div, sub_zero, add_zero, and_self]

theorem forRange_zero_two {σ : Type} (body : ℤ → σ → σ) (st : σ) :
    forRange 0 2 body st = body 1 (body 0 st) := by
  unfold forRange
  have h2 : ((2 : ℤ) - 0).toNat = 2 := by decide
  rw [h2]
  simp [List.range_succ]

theorem pushPair_close (sqrtf : F → F) (minDist minDist2 : F) (ii jj : ℤ) (pos : ℤ → F)
    (hclose : pairDistSq pos ii jj < eps12) :
    pushPair sqrtf minDist minDist2 ii jj pos = pos := by
  unfold pushPair
  unfold pairDistSq at hclose
  simp only [] at hclose ⊢
  rw [if_pos (Or.inr hclose)]

/-- C15 (as stated, refuted): with `r = particleRadius = 1e-7`, `minDist2 = (2r)^2`, two
particles at `(0, 0)` and `(r, 0)` listed in the same (single) bin and `numIters = 1`, the
pair's squared distance `1e-14` is below `1e-12`, so the pair is skipped: the particles
stay where they are, their x-coordinates `r < 2r` apart. -/
theorem C15_counterexample :
    (0 : ℚ) < 1 / 10000000 ∧
    EnumeratesNeighbour (fun k => if k = 0 then 0 else 2) (fun k => k) 2 1 1
      (binCoord 1 (1 : ℚ) 0) (binCoord 1 (1 : ℚ) 0) 1 ∧
    pushParticlesApart_native Rat.sqrt (fun k => if k = 2 then 0 + 1 / 10000000 else 0)
        (fun k => if k = 0 then 0 else 2) (fun k => k) 2 1 1 1 1 (1 / 10000000)
        ((2 * (1 / 10000000)) * (2 * (1 / 10000000))) (2 * 1)
      - pushParticlesApart_native Rat.sqrt (fun k => if k = 2 then 0 + 1 / 10000000 else 0)
        (fun k => if k = 0 then 0 else 2) (fun k => k) 2 1 1 1 1 (1 / 10000000)
        ((2 * (1 / 10000000)) * (2 * (1 / 10000000))) (2 * 0)
      < 2 * (1 / 10000000) := by
  have hfix : pushParticlesApart_native Rat.sqrt
      (fun k => if k = 2 then 0 + 1 / 10000000 else 0)
      (fun k => if k = 0 then 0 else 2) (fun k => k) 2 1 1 1 1 (1 / 10000000)
      ((2 * (1 / 10000000)) * (2 * (1 / 10000000))) =
      (fun k => if k = 2 then 0 + 1 / 10000000 else (0 : ℚ)) := by
    unfold pushParticlesApart_native
    simp only []
    apply forRange_preserves
      (fun pos => pos = (fun k : ℤ => if k = 2 then 0 + 1 / 10000000 else (0 : ℚ))) _ _ _ _ rfl
    intro _ pos1 _ _ h1
    apply forRange_preserves
      (fun pos => pos = (fun k : ℤ => if k = 2 then 0 + 1 / 10000000 else (0 : ℚ))) _ _ _ _ h1
    intro ii pos2 hii0 hii1 h2
    unfold pushParticle
    simp only []
    apply neighbourLoop_preserves
      (fun pos => pos = (fun k : ℤ => if k = 2 then 0 + 1 / 10000000 else (0 : ℚ)))
      _ _ _ _ _ _ _ _ _ _ h2
    intro jj pos3 hne hj0 hj1 h3
    rw [h3]
    apply pushPair_close
    have hi : ii = 0 ∨ ii = 1 := by omega
    have hj : jj = 0 ∨ jj = 1 := by omega
    rcases hi with hi | hi <;> rcases hj with hj | hj <;> subst hi <;> subst hj
    · exact absurd rfl hne
    · norm_num [pairDistSq, eps12]
    · norm_num [pairDistSq, eps12]
    · exact absurd rfl hne
  refine ⟨by norm_num, ⟨0, 0, 1, ?_⟩, ?_⟩
  · have f0 : ⌊(0 : ℚ)⌋ = 0 := by norm_num
    norm_num [binCoord, floorf, toInt, f0]
  · rw [hfix]
    norm_num

/-- C15 (amended): for two particles at `(c, c)` and `(c + r, c)` with
`r = particleRadius > 0`, `r^2 ≥ 1e-12` (so that the pair is not skipped by the guard
`dist2 < 1e-12f`), `minDist2 = (2r)^2`, `sqrtf` exact at `r^2` and `(2r)^2`, and bins that
list particle 1 in the 3 x 3 window of particle 0, one pass of
`pushParticlesApart_native` (`numIters = 1`) leaves them at `(c - r/2, c)` and
`(c + r + r/2, c)`: equal y-coordinates and x-coordinates `2r` apart. -/
theorem C15_two_particles_pushed_apart [FloorRing F] (sqrtf : F → F) (pos : ℤ → F)
    (firstCellParticle cellParticleIds : ℤ → ℤ) (pNumX pNumY : ℤ) (pInvSpacing r c : F)
    (hr : 0 < r) (heps : eps12 ≤ r * r)
    (hsq1 : SqrtExactAt sqrtf (r * r)) (hsq2 : SqrtExactAt sqrtf ((2 * r) * (2 * r)))
    (hpos : pos (2 * 0) = c ∧ pos (2 * 0 + 1) = c ∧ pos (2 * 1) = c + r ∧
      pos (2 * 1 + 1) = c)
    (hlist : EnumeratesNeighbour firstCellParticle cellParticleIds 2 pNumX pNumY
      (binCoord pNumX pInvSpacing c) (binCoord pNumY pInvSpacing c) 1) :
    (pushParticlesApart_native sqrtf pos firstCellParticle cellParticleIds 2 pNumX pNumY
        pInvSpacing 1 r ((2 * r) * (2 * r)) (2 * 0) = c - r / 2 ∧
      pushParticlesApart_native sqrtf pos firstCellParticle cellParticleIds 2 pNumX pNumY
        pInvSpacing 1 r ((2 * r) * (2 * r)) (2 * 0 + 1) = c ∧
      pushParticlesApart_native sqrtf pos firstCellParticle cellParticleIds 2 pNumX pNumY
        pInvSpacing 1 r ((2 * r) * (2 * r)) (2 * 1) = c + r + r / 2 ∧
      pushParticlesApart_native sqrtf pos firstCellParticle cellParticleIds 2 pNumX pNumY
        pInvSpacing 1 r ((2 * r) * (2 * r)) (2 * 1 + 1) = c) ∧
    pushParticlesApart_native sqrtf pos firstCellParticle cellParticleIds 2 pNumX pNumY
        pInvSpacing 1 r ((2 * r) * (2 * r)) (2 * 0 + 1) =
      pushParticlesApart_native sqrtf pos firstCellParticle cellParticleIds 2 pNumX pNumY
        pInvSpacing 1 r ((2 * r) * (2 * r)) (2 * 1 + 1) ∧
    2 * r ≤
      pushParticlesApart_native sqrtf pos firstCellParticle cellParticleIds 2 pNumX pNumY
          pInvSpacing 1 r ((2 * r) * (2 * r)) (2 * 1)
        - pushParticlesApart_native sqrtf pos firstCellParticle cellParticleIds 2 pNumX pNumY
          pInvSpacing 1 r ((2 * r) * (2 * r)) (2 * 0) := by
  have hstep0 :
      (fun s : ℤ → F => s (2 * 0) = c - r / 2 ∧ s (2 * 0 + 1) = c ∧
        s (2 * 1) = c + r + r / 2 ∧ s (2 * 1 + 1) = c)
      (pushParticle sqrtf firstCellParticle cellParticleIds 2 pNumX pNumY pInvSpacing
        (2 * r) ((2 * r) * (2 * r)) 0 pos) := by
    unfold pushParticle
    simp only []
    rw [hpos.1, hpos.2.1]
    refine neighbourLoop_reach
      (fun s : ℤ → F =>
        (s (2 * 0) = c ∧ s (2 * 0 + 1) = c ∧ s (2 * 1) = c + r ∧ s (2 * 1 + 1) = c) ∨
        (s (2 * 0) = c - r / 2 ∧ s (2 * 0 + 1) = c ∧ s (2 * 1) = c + r + r / 2 ∧
          s (2 * 1 + 1) = c))
      (fun s : ℤ → F => s (2 * 0) = c - r / 2 ∧ s (2 * 0 + 1) = c ∧
        s (2 * 1) = c + r + r / 2 ∧ s (2 * 1 + 1) = c)
      _ _ _ _ _ _ _ 0 1 _ pos hlist (by norm_num) (by norm_num) (by norm_num)
      (Or.inl hpos) ?_ ?_ ?_
    · intro j s hj hj0 hj1 hs
      have hj' : j = 1 := by omega
      subst hj'
      rcases hs with hs | hs
      · exact Or.inr (pushPair_overlapping sqrtf r c s hr heps hsq1 hs)
      · exact Or.inr (pushPair_settled sqrtf r c s 0 1 (Or.inl ⟨rfl, rfl⟩) hr heps hsq2 hs)
    · intro s hs
      rcases hs with hs | hs
      · exact pushPair_overlapping sqrtf r c s hr heps hsq1 hs
      · exact pushPair_settled sqrtf r c s 0 1 (Or.inl ⟨rfl, rfl⟩) hr heps hsq2 hs
    · intro j s hj hj0 hj1 hs
      have hj' : j = 1 := by omega
      subst hj'
      exact pushPair_settled sqrtf r c s 0 1 (Or.inl ⟨rfl, rfl⟩) hr heps hsq2 hs
  have hstep1 :
      (fun s : ℤ → F => s (2 * 0) = c - r / 2 ∧ s (2 * 0 + 1) = c ∧
        s (2 * 1) = c + r + r / 2 ∧ s (2 * 1 + 1) = c)
      (pushParticle sqrtf firstCellParticle cellParticleIds 2 pNumX pNumY pInvSpacing
        (2 * r) ((2 * r) * (2 * r)) 1
        (pushParticle sqrtf firstCellParticle cellParticleIds 2 pNumX pNumY pInvSpacing
          (2 * r) ((2 * r) * (2 * r)) 0 pos)) := by
    unfold pushParticle at hstep0 ⊢
    simp only [] at hstep0 ⊢
    refine neighbourLoop_preserves
      (fun s : ℤ → F => s (2 * 0) = c - r / 2 ∧ s (2 * 0 + 1) = c ∧
        s (2 * 1) = c + r + r / 2 ∧ s (2 * 1 + 1) = c)
      _ _ _ _ _ _ _ _ _ _ hstep0 ?_
    intro j s hj hj0 hj1 hs
    have hj' : j = 0 := by omega
    subst hj'
    exact pushPair_settled sqrtf r c s 1 0 (Or.inr ⟨rfl, rfl⟩) hr heps hsq2 hs
  have hres : pushParticlesApart_native sqrtf pos firstCellParticle cellParticleIds 2 pNumX
      pNumY pInvSpacing 1 r ((2 * r) * (2 * r)) =
      pushParticle sqrtf firstCellParticle cellParticleIds 2 pNumX pNumY pInvSpacing
        (2 * r) ((2 * r) * (2 * r)) 1
        (pushParticle sqrtf firstCellParticle cellParticleIds 2 pNumX pNumY pInvSpacing
          (2 * r) ((2 * r) * (2 * r)) 0 pos) := by
    unfold pushParticlesApart_native
    simp only []
    rw [forRange_zero_one, forRange_zero_two]
  rw [hres]
  obtain ⟨q0, q1, q2, q3⟩ := hstep1
  refine ⟨⟨q0, q1, q2, q3⟩, ?_, ?_⟩
  · rw [q1, q3]
  · rw [q0, q2]
    linarith

/-- Witness for C15 with `r = 1`, `c = 0`, `sqrtf = Rat.sqrt` and a single bin listing both
particles: the particles at `(0, 0)` and `(1, 0)` end at `(-1/2, 0)` and `(3/2, 0)`. -/
theorem C15_two_particles_pushed_apart_witness :
    pushParticlesApart_native Rat.sqrt (fun k => if k = 2 then (0 : ℚ) + 1 else 0)
        (fun k => if k = 0 then 0 else 2) (fun k => k) 2 1 1 1 1 1 ((2 * 1) * (2 * 1))
        (2 * 0) = 0 - 1 / 2 ∧
    pushParticlesApart_native Rat.sqrt (fun k => if k = 2 then (0 : ℚ) + 1 else 0)
        (fun k => if k = 0 then 0 else 2) (fun k => k) 2 1 1 1 1 1 ((2 * 1) * (2 * 1))
        (2 * 0 + 1) = 0 ∧
    pushParticlesApart_native Rat.sqrt (fun k => if k = 2 then (0 : ℚ) + 1 else 0)
        (fun k => if k = 0 then 0 else 2) (fun k => k) 2 1 1 1 1 1 ((2 * 1) * (2 * 1))
        (2 * 1) = 0 + 1 + 1 / 2 ∧
    pushParticlesApart_native Rat.sqrt (fun k => if k = 2 then (0 : ℚ) + 1 else 0)
        (fun k => if k = 0 then 0 else 2) (fun k => k) 2 1 1 1 1 1 ((2 * 1) * (2 * 1))
        (2 * 1 + 1) = 0 :=
  (C15_two_particles_pushed_apart (F := ℚ) Rat.sqrt
    (fun k => if k = 2 then (0 : ℚ) + 1 else 0) (fun k => if k = 0 then 0 else 2)
    (fun k => k) 1 1 1 1 0 (by norm_num) (by norm_num [eps12])
    ⟨Rat.sqrt_nonneg _, by rw [ratSqrt_mul_self 1 (by norm_num)]⟩
    ⟨Rat.sqrt_nonneg _, by rw [ratSqrt_mul_self (2 * 1) (by norm_num)]⟩
    (by norm_num)
    ⟨0, 0, 1, by
      have f0 : ⌊(0 : ℚ)⌋ = 0 := by norm_num
      norm_num [binCoord, floorf, toInt, f0]⟩).1

/-! ## The cell update of the pressure loop -/

/-- The cell update is skipped on a non-FLUID cell and on a cell with `sumS < 1e-9`. -/
theorem gsCell_skip (s : ℤ → F) (cellType : ℤ → ℤ) (particleDensity : ℤ → F) (n : ℤ)
    (cp overRelaxation particleRestDensity : F) (compensateDrift : Bool) (i j : ℤ)
    (st : PressureState F)
    (h : cellType (i * n + j) ≠ FLUID_CELL_CPP ∨ cellSumS s n i j < eps9) :
    gsCell s cellType particleDensity n cp overRelaxation particleRestDensity compensateDrift
      i j st = st := by
  unfold gsCell
  unfold cellSumS at h
  simp only []
  by_cases hct : cellType (i * n + j) ≠ FLUID_CELL_CPP
  · rw [if_pos hct]
  · rw [if_neg hct]
    rcases h with h | h
    · exact absurd h hct
    · rw [if_pos h]

/-- The three buffers after the cell update, in terms of the local `pressure_update`
(`pu`, zero when the cell is skipped). -/
theorem gsCell_exists_update (s : ℤ → F) (cellType : ℤ → ℤ) (particleDensity : ℤ → F)
    (n : ℤ) (cp overRelaxation particleRestDensity : F) (compensateDrift : Bool) (i j : ℤ)
    (st : PressureState F) :
    ∃ pu : F,
      (gsCell s cellType particleDensity n cp overRelaxation particleRestDensity
          compensateDrift i j st).p =
        Function.update st.p (i * n + j) (st.p (i * n + j) + cp * pu) ∧
      (gsCell s cellType particleDensity n cp overRelaxation particleRestDensity
          compensateDrift i j st).u =
        Function.update
          (Function.update st.u (i * n + j) (st.u (i * n + j) - s ((i - 1) * n + j) * pu))
          ((i + 1) * n + j)
          (Function.update st.u (i * n + j) (st.u (i * n + j) - s ((i - 1) * n + j) * pu)
            ((i + 1) * n + j) + s ((i + 1) * n + j) * pu) ∧
      (gsCell s cellType particleDensity n cp overRelaxation particleRestDensity
          compensateDrift i j st).v =
        Function.update
          (Function.update st.v (i * n + j) (st.v (i * n + j) - s (i * n + (j - 1)) * pu))
          (i * n + (j + 1))
          (Function.update st.v (i * n + j) (st.v (i * n + j) - s (i * n + (j - 1)) * pu)
            (i * n + (j + 1)) + s (i * n + (j + 1)) * pu) ∧
      ((cellType (i * n + j) ≠ FLUID_CELL_CPP ∨ cellSumS s n i j < eps9) → pu = 0) ∧
      (cellType (i * n + j) = FLUID_CELL_CPP → eps9 ≤ cellSumS s n i j →
        ¬ (particleRestDensity > 0 ∧ compensateDrift = true ∧
          particleDensity (i * n + j) - particleRestDensity > 0) →
        pu = -cellDivergence st n i j / cellSumS s n i j * overRelaxation) := by
  by_cases hskip : cellType (i * n + j) ≠ FLUID_CELL_CPP ∨ cellSumS s n i j < eps9
  · refine ⟨0, ?_, ?_, ?_, fun _ => rfl, ?_⟩
    · rw [gsCell_skip _ _ _ _ _ _ _ _ _ _ _ hskip]
      simp only [mul_zero, add_zero, Function.update_eq_self]
    · rw [gsCell_skip _ _ _ _ _ _ _ _ _ _ _ hskip]
      simp only [mul_zero, add_zero, sub_zero, Function.update_eq_self]
    · rw [gsCell_skip _ _ _ _ _ _ _ _ _ _ _ hskip]
      simp only [mul_zero, add_zero, sub_zero, Function.update_eq_self]
    · intro hfl hsum _
      rcases hskip with h | h
      · exact absurd hfl h
      · exact absurd h (not_lt.mpr hsum)
  · have hfl : ¬ cellType (i * n + j) ≠ FLUID_CELL_CPP := fun h => hskip (Or.inl h)
    have hsum : ¬ cellSumS s n i j < eps9 := fun h => hskip (Or.inr h)
    unfold cellSumS at hsum
    unfold gsCell
    simp only []
    rw [if_neg hfl, if_neg hsum]
    refine ⟨_, rfl, rfl, rfl, fun h => absurd h hskip, ?_⟩
    intro _ _ hnc
    unfold cellDivergence cellSumS
    by_cases hc : particleRestDensity > 0 ∧ compensateDrift = true
    · rw [if_pos hc, if_neg (fun hpos => hnc ⟨hc.1, hc.2, hpos⟩)]
    · rw [if_neg hc]

/-! ## C29: single-cell relaxation -/

/-- C29: when the pressure loop updates a FLUID cell `(i, j)` with `1 ≤ j ≤ fNumY - 2` (in
particular an interior cell) with `sumS ≥ 1e-9` and no drift compensation, the cell's
divergence
`(u[i+1,j] - u[i,j]) + (v[i,j+1] - v[i,j])` immediately after the update equals
`(1 - overRelaxation)` times its divergence before the update; in particular it is zero for
`overRelaxation = 1`. -/
theorem C29_single_cell_relaxation (s : ℤ → F) (cellType : ℤ → ℤ)
    (particleDensity : ℤ → F) (fNumY : ℤ)
    (cp overRelaxation particleRestDensity : F) (compensateDrift : Bool) (i j : ℤ)
    (st : PressureState F) (hj0 : 1 ≤ j) (hj1 : j ≤ fNumY - 2)
    (hfl : cellType (i * fNumY + j) = FLUID_CELL_CPP)
    (hsum : eps9 ≤ cellSumS s fNumY i j)
    (hnc : ¬ (particleRestDensity > 0 ∧ compensateDrift = true)) :
    cellDivergence
        (gsCell s cellType particleDensity fNumY cp overRelaxation particleRestDensity
          compensateDrift i j st) fNumY i j =
      (1 - overRelaxation) * cellDivergence st fNumY i j ∧
    (overRelaxation = 1 →
      cellDivergence
        (gsCell s cellType particleDensity fNumY cp overRelaxation particleRestDensity
          compensateDrift i j st) fNumY i j = 0) := by
  obtain ⟨pu, _, hu, hv, _, hpu⟩ := gsCell_exists_update s cellType particleDensity fNumY cp
    overRelaxation particleRestDensity compensateDrift i j st
  have hpu2 := hpu hfl hsum (fun hc => hnc ⟨hc.1, hc.2.1⟩)
  have hpos : (0 : F) < cellSumS s fNumY i j :=
    lt_of_lt_of_le (by unfold eps9; norm_num) hsum
  have hr : (i + 1) * fNumY + j ≠ i * fNumY + j := by
    intro he
    have : (i + 1) * fNumY = i * fNumY + fNumY := by ring
    omega
  have ht : i * fNumY + (j + 1) ≠ i * fNumY + j := by omega
  have key : cellDivergence
      (gsCell s cellType particleDensity fNumY cp overRelaxation particleRestDensity
        compensateDrift i j st) fNumY i j =
      (1 - overRelaxation) * cellDivergence st fNumY i j := by
    have hsumS : cellSumS s fNumY i j * pu = -cellDivergence st fNumY i j * overRelaxation := by
      rw [hpu2]
      field_simp
      ring
    unfold cellDivergence at hsumS ⊢
    unfold cellSumS at hsumS
    rw [hu, hv]
    rw [Function.update_same, Function.update_noteq hr.symm, Function.update_same,
      Function.update_noteq hr, Function.update_same, Function.update_noteq ht.symm,
      Function.update_same, Function.update_noteq ht]
    linear_combination hsumS
  refine ⟨key, fun h1 => ?_⟩
  rw [key, h1, sub_self, zero_mul]

/-- Witness for C29 on a 3 x 3 grid with `s = 1`, `u[k] = k`, `v = 0` and
`overRelaxation = 19/10`: the divergence `3` of the cell `(1, 1)` becomes `-27/10`. -/
theorem C29_single_cell_relaxation_witness :
    cellDivergence
        (gsCell (F := ℚ) (fun _ => 1) (fun _ => FLUID_CELL_CPP) (fun _ => 0) 3 1 (19 / 10) 0
          false 1 1 { u := fun k => (k : ℚ), v := fun _ => 0, p := fun _ => 0 }) 3 1 1 =
      (1 - 19 / 10) *
        cellDivergence (F := ℚ) { u := fun k => (k : ℚ), v := fun _ => 0, p := fun _ => 0 }
          3 1 1 :=
  (C29_single_cell_relaxation (F := ℚ) (fun _ => 1) (fun _ => FLUID_CELL_CPP) (fun _ => 0)
    3 1 (19 / 10) 0 false 1 1 { u := fun k => (k : ℚ), v := fun _ => 0, p := fun _ => 0 }
    (by norm_num) (by norm_num) rfl
    (by norm_num [cellSumS, eps9]) (by norm_num)).1

/-! ## Frames of the pressure loop -/

/-- A property of the state kept by every cell update of the interior is kept by the whole
pressure loop. -/
theorem gaussSeidel_preserves (P : PressureState F → Prop) (s : ℤ → F) (cellType : ℤ → ℤ)
    (particleDensity : ℤ → F) (fNumX fNumY numIters : ℤ)
    (cp overRelaxation particleRestDensity : F) (compensateDrift : Bool)
    (st : PressureState F) (h0 : P st)
    (hstep : ∀ i j t, 1 ≤ i → i < fNumX - 1 → 1 ≤ j → j < fNumY - 1 → P t →
      P (gsCell s cellType particleDensity fNumY cp overRelaxation particleRestDensity
        compensateDrift i j t)) :
    P (gaussSeidel s cellType particleDensity fNumX fNumY numIters cp overRelaxation
      particleRestDensity compensateDrift st) := by
  unfold gaussSeidel
  refine forRange_preserves P _ _ _ _ h0 ?_
  intro _ t1 _ _ ht1
  refine forRange_preserves P _ _ _ _ ht1 ?_
  intro i t2 hi0 hi1 ht2
  refine forRange_preserves P _ _ _ _ ht2 ?_
  intro j t3 hj0 hj1 ht3
  exact hstep i j t3 hi0 hi1 hj0 hj1 ht3

/-- The cell update leaves `p[x]` unchanged unless `x` is the updated cell, the cell is
FLUID and its `sumS` is at least `1e-9`. -/
theorem gsCell_p_unchanged (s : ℤ → F) (cellType : ℤ → ℤ) (particleDensity : ℤ → F) (n : ℤ)
    (cp overRelaxation particleRestDensity : F) (compensateDrift : Bool) (i j : ℤ)
    (st : PressureState F) (x : ℤ)
    (hx : ¬ (x = i * n + j ∧ cellType (i * n + j) = FLUID_CELL_CPP ∧
      eps9 ≤ cellSumS s n i j)) :
    (gsCell s cellType particleDensity n cp overRelaxation particleRestDensity compensateDrift
      i j st).p x = st.p x := by
  obtain ⟨pu, hp, _, _, hz, _⟩ := gsCell_exists_update s cellType particleDensity n cp
    overRelaxation particleRestDensity compensateDrift i j st
  rw [hp, Function.update_apply]
  by_cases he : x = i * n + j
  · rw [if_pos he]
    have hskip : cellType (i * n + j) ≠ FLUID_CELL_CPP ∨ cellSumS s n i j < eps9 := by
      by_cases hfl : cellType (i * n + j) = FLUID_CELL_CPP
      · right
        by_contra hge
        exact hx ⟨he, hfl, not_lt.mp hge⟩
      · exact Or.inl hfl
    rw [hz hskip, mul_zero, add_zero, he]
  · rw [if_neg he]

/-- The cell update leaves `u[x]` unchanged when, in case the cell is FLUID, `s[left] = 0`
if `x` is the cell's own index and `s[right] = 0` if `x` is the index of its right
neighbour. -/
theorem gsCell_u_unchanged (s : ℤ → F) (cellType : ℤ → ℤ) (particleDensity : ℤ → F) (n : ℤ)
    (cp overRelaxation particleRestDensity : F) (compensateDrift : Bool) (i j : ℤ)
    (st : PressureState F) (x : ℤ)
    (hx : cellType (i * n + j) = FLUID_CELL_CPP →
      (x = i * n + j → s ((i - 1) * n + j) = 0) ∧
      (x = (i + 1) * n + j → s ((i + 1) * n + j) = 0)) :
    (gsCell s cellType particleDensity n cp overRelaxation particleRestDensity compensateDrift
      i j st).u x = st.u x := by
  by_cases hfl : cellType (i * n + j) = FLUID_CELL_CPP
  · obtain ⟨pu, _, hu, _, _, _⟩ := gsCell_exists_update s cellType particleDensity n cp
      overRelaxation particleRestDensity compensateDrift i j st
    obtain ⟨h1, h2⟩ := hx hfl
    have hinner : Function.update st.u (i * n + j)
        (st.u (i * n + j) - s ((i - 1) * n + j) * pu) x = st.u x := by
      rw [Function.update_apply]
      by_cases he : x = i * n + j
      · rw [if_pos he, h1 he, zero_mul, sub_zero, he]
      · rw [if_neg he]
    rw [hu, Function.update_apply]
    by_cases hr : x = (i + 1) * n + j
    · rw [if_pos hr, h2 hr, zero_mul, add_zero, ← hr]
      exact hinner
    · rw [if_neg hr]
      exact hinner
  · rw [gsCell_skip _ _ _ _ _ _ _ _ _ _ _ (Or.inl hfl)]

/-- The cell update leaves `v[x]` unchanged when, in case the cell is FLUID, `s[bottom] = 0`
if `x` is the cell's own index and `s[top] = 0` if `x` is the index of its top neighbour. -/
theorem gsCell_v_unchanged (s : ℤ → F) (cellType : ℤ → ℤ) (particleDensity : ℤ → F) (n : ℤ)
    (cp overRelaxation particleRestDensity : F) (compensateDrift : Bool) (i j : ℤ)
    (st : PressureState F) (x : ℤ)
    (hx : cellType (i * n + j) = FLUID_CELL_CPP →
      (x = i * n + j → s (i * n + (j - 1)) = 0) ∧
      (x = i * n + (j + 1) → s (i * n + (j + 1)) = 0)) :
    (gsCell s cellType particleDensity n cp overRelaxation particleRestDensity compensateDrift
      i j st).v x = st.v x := by
  by_cases hfl : cellType (i * n + j) = FLUID_CELL_CPP
  · obtain ⟨pu, _, _, hv, _, _⟩ := gsCell_exists_update s cellType particleDensity n cp
      overRelaxation particleRestDensity compensateDrift i j st
    obtain ⟨h1, h2⟩ := hx hfl
    have hinner : Function.update st.v (i * n + j)
        (st.v (i * n + j) - s (i * n + (j - 1)) * pu) x = st.v x := by
      rw [Function.update_apply]
      by_cases he : x = i * n + j
      · rw [if_pos he, h1 he, zero_mul, sub_zero, he]
      · rw [if_neg he]
    rw [hv, Function.update_apply]
    by_cases hr : x = i * n + (j + 1)
    · rw [if_pos hr, h2 hr, zero_mul, add_zero, ← hr]
      exact hinner
    · rw [if_neg hr]
      exact hinner
  · rw [gsCell_skip _ _ _ _ _ _ _ _ _ _ _ (Or.inl hfl)]

/-! ## C30: solid faces are untouched by the pressure sweep -/

/-- C30: if every cell with `s = 0` has `cellType ≠ FLUID`, then for a face `(i, j)` with
`0 ≤ j < fNumY` the pressure loop (`gaussSeidel`) of `solveIncompressibility_native`
leaves `u[i*fNumY + j]` unchanged whenever `s[i-1, j] = 0` or `s[i, j] = 0`, and leaves
`v[i*fNumY + j]` unchanged whenever `s[i, j-1] = 0` or `s[i, j] = 0`, for every
`numIters`. -/
theorem C30_solid_faces_untouched (s : ℤ → F) (cellType : ℤ → ℤ)
    (particleDensity : ℤ → F) (fNumX fNumY numIters : ℤ)
    (cp overRelaxation particleRestDensity : F) (compensateDrift : Bool)
    (st : PressureState F) (i j : ℤ) (hj0 : 0 ≤ j) (hj1 : j < fNumY)
    (hsolid : ∀ idx, s idx = 0 → cellType idx ≠ FLUID_CELL_CPP) :
    ((s ((i - 1) * fNumY + j) = 0 ∨ s (i * fNumY + j) = 0) →
      (gaussSeidel s cellType particleDensity fNumX fNumY numIters cp overRelaxation
        particleRestDensity compensateDrift st).u (i * fNumY + j) = st.u (i * fNumY + j)) ∧
    ((s (i * fNumY + (j - 1)) = 0 ∨ s (i * fNumY + j) = 0) →
      (gaussSeidel s cellType particleDensity fNumX fNumY numIters cp overRelaxation
        particleRestDensity compensateDrift st).v (i * fNumY + j) = st.v (i * fNumY + j)) := by
  constructor
  · intro hs
    refine gaussSeidel_preserves (fun t => t.u (i * fNumY + j) = st.u (i * fNumY + j))
      s cellType particleDensity fNumX fNumY numIters cp overRelaxation particleRestDensity
      compensateDrift st rfl ?_
    intro i' j' t _ _ hj0' hj1' ht
    show (gsCell s cellType particleDensity fNumY cp overRelaxation particleRestDensity
      compensateDrift i' j' t).u (i * fNumY + j) = st.u (i * fNumY + j)
    rw [gsCell_u_unchanged, ht]
    intro hfl
    constructor
    · intro he
      obtain ⟨e1, e2⟩ := cellIndex_inj fNumY i j i' j' hj0 hj1 (by omega) (by omega) he.symm
      subst e1
      subst e2
      rcases hs with hs | hs
      · exact hs
      · exact absurd hfl (hsolid _ hs)
    · intro he
      obtain ⟨e1, e2⟩ := cellIndex_inj fNumY i j (i' + 1) j' hj0 hj1 (by omega) (by omega)
        he.symm
      rcases hs with hs | hs
      · have hidx : i' * fNumY + j' = (i - 1) * fNumY + j := by
          rw [← e1, ← e2]
          ring
        rw [hidx] at hfl
        exact absurd hfl (hsolid _ hs)
      · rw [← he]
        exact hs
  · intro hs
    refine gaussSeidel_preserves (fun t => t.v (i * fNumY + j) = st.v (i * fNumY + j))
      s cellType particleDensity fNumX fNumY numIters cp overRelaxation particleRestDensity
      compensateDrift st rfl ?_
    intro i' j' t _ _ hj0' hj1' ht
    show (gsCell s cellType particleDensity fNumY cp overRelaxation particleRestDensity
      compensateDrift i' j' t).v (i * fNumY + j) = st.v (i * fNumY + j)
    rw [gsCell_v_unchanged, ht]
    intro hfl
    constructor
    · intro he
      obtain ⟨e1, e2⟩ := cellIndex_inj fNumY i j i' j' hj0 hj1 (by omega) (by omega) he.symm
      subst e1
      subst e2
      rcases hs with hs | hs
      · exact hs
      · exact absurd hfl (hsolid _ hs)
    · intro he
      obtain ⟨e1, e2⟩ := cellIndex_inj fNumY i j i' (j' + 1) hj0 hj1 (by omega) (by omega)
        he.symm
      rcases hs with hs | hs
      · have hidx : i' * fNumY + j' = i * fNumY + (j - 1) := by
          rw [← e1, ← e2]
          ring
        rw [hidx] at hfl
        exact absurd hfl (hsolid _ hs)
      · rw [← he]
        exact hs

/-- Witness for C30 on a 3 x 3 grid whose cell `(0, 1)` is solid (`s = 0`, not FLUID): the
face `u[1, 1]`, whose left neighbour is that cell, keeps its value through two sweeps. -/
theorem C30_solid_faces_untouched_witness :
    (gaussSeidel (F := ℚ) (fun k => if k = 1 then 0 else 1)
        (fun k => if k = 1 then SOLID_CELL_CPP else FLUID_CELL_CPP) (fun _ => 0) 3 3 2 1
        (19 / 10) 0 false { u := fun k => (k : ℚ), v := fun _ => 0, p := fun _ => 0 }).u
        (1 * 3 + 1) =
      (({ u := fun k => (k : ℚ), v := fun _ => 0, p := fun _ => 0 } : PressureState ℚ).u
        (1 * 3 + 1)) :=
  (C30_solid_faces_untouched (F := ℚ) (fun k => if k = 1 then 0 else 1)
    (fun k => if k = 1 then SOLID_CELL_CPP else FLUID_CELL_CPP) (fun _ => 0) 3 3 2 1
    (19 / 10) 0 false { u := fun k => (k : ℚ), v := fun _ => 0, p := fun _ => 0 } 1 1
    (by norm_num) (by norm_num)
    (by
      intro idx hidx
      have hidx2 : (if idx = 1 then (0 : ℚ) else 1) = 0 := hidx
      show (if idx = 1 then SOLID_CELL_CPP else FLUID_CELL_CPP) ≠ FLUID_CELL_CPP
      by_cases h1 : idx = 1
      · rw [if_pos h1]
        decide
      · rw [if_neg h1] at hidx2
        exact absurd hidx2 one_ne_zero)).1 (Or.inl (by norm_num))

/-! ## C27: frame of the pressure buffer and guarded division -/

theorem gsCellDiv_eq (divide : F → F → F)
    (hdiv : ∀ a b, eps9 ≤ b → divide a b = a / b) (s : ℤ → F) (cellType : ℤ → ℤ)
    (particleDensity : ℤ → F) (n : ℤ) (cp overRelaxation particleRestDensity : F)
    (compensateDrift : Bool) (i j : ℤ) (st : PressureState F) :
    gsCellDiv divide s cellType particleDensity n cp overRelaxation particleRestDensity
        compensateDrift i j st =
      gsCell s cellType particleDensity n cp overRelaxation particleRestDensity
        compensateDrift i j st := by
  unfold gsCellDiv gsCell
  simp only []
  by_cases hct : cellType (i * n + j) ≠ FLUID_CELL_CPP
  · rw [if_pos hct, if_pos hct]
  · rw [if_neg hct, if_neg hct]
    by_cases hsum : s ((i - 1) * n + j) + s ((i + 1) * n + j) + s (i * n + (j - 1)) +
        s (i * n + (j + 1)) < eps9
    · rw [if_pos hsum, if_pos hsum]
    · rw [if_neg hsum, if_neg hsum, hdiv _ _ (not_lt.mp hsum)]

/-- The pressure loop computed with any quotient operator that agrees with the division on
denominators `≥ 1e-9` is the pressure loop: no quotient by a `sumS < 1e-9` is used. -/
theorem gaussSeidelDiv_eq (divide : F → F → F)
    (hdiv : ∀ a b, eps9 ≤ b → divide a b = a / b) (s : ℤ → F) (cellType : ℤ → ℤ)
    (particleDensity : ℤ → F) (fNumX fNumY numIters : ℤ)
    (cp overRelaxation particleRestDensity : F) (compensateDrift : Bool)
    (st : PressureState F) :
    gaussSeidelDiv divide s cellType particleDensity fNumX fNumY numIters cp overRelaxation
        particleRestDensity compensateDrift st =
      gaussSeidel s cellType particleDensity fNumX fNumY numIters cp overRelaxation
        particleRestDensity compensateDrift st := by
  unfold gaussSeidelDiv gaussSeidel
  simp only [gsCellDiv_eq divide hdiv]

/-- C27: `solveIncompressibility_native` changes `p[x]` only if `x` is the index of an
interior cell (`1 ≤ i ≤ fNumX-2`, `1 ≤ j ≤ fNumY-2`) whose `cellType` is FLUID and whose
neighbour sum `sumS` is at least `1e-9`: every other entry of `p` is unchanged; and the
division by `sumS` is never executed with `sumS < 1e-9`: the pressure loop computed with
any quotient operator `divide` that agrees with the division on denominators `≥ 1e-9`
(and is arbitrary below) is the pressure loop of the kernel. -/
theorem C27_pressure_frame (st : PressureState F) (s : ℤ → F) (cellType : ℤ → ℤ)
    (particleDensity : ℤ → F) (fNumX fNumY numIters : ℤ)
    (h dt density overRelaxation particleRestDensity : F) (compensateDrift : Bool)
    (circleCenterX circleCenterY circleRadius : F) (isObstacleActive : Bool)
    (obstacleX obstacleY obstacleRadiusCpp obstacleVelX obstacleVelY : F) :
    (∀ x : ℤ,
      (¬ ∃ i j : ℤ, 1 ≤ i ∧ i ≤ fNumX - 2 ∧ 1 ≤ j ∧ j ≤ fNumY - 2 ∧ x = i * fNumY + j ∧
        cellType (i * fNumY + j) = FLUID_CELL_CPP ∧ eps9 ≤ cellSumS s fNumY i j) →
      (solveIncompressibility_native st s cellType particleDensity fNumX fNumY numIters h dt
        density overRelaxation particleRestDensity compensateDrift circleCenterX
        circleCenterY circleRadius isObstacleActive obstacleX obstacleY obstacleRadiusCpp
        obstacleVelX obstacleVelY).p x = st.p x) ∧
    (∀ divide : F → F → F, (∀ a b, eps9 ≤ b → divide a b = a / b) →
      gaussSeidelDiv divide s cellType particleDensity fNumX fNumY numIters
          (density * h / dt) overRelaxation particleRestDensity compensateDrift st =
        gaussSeidel s cellType particleDensity fNumX fNumY numIters (density * h / dt)
          overRelaxation particleRestDensity compensateDrift st) := by
  constructor
  · intro x hx
    unfold solveIncompressibility_native
    simp only []
    refine gaussSeidel_preserves (fun t => t.p x = st.p x)
      s cellType particleDensity fNumX fNumY numIters _ overRelaxation particleRestDensity
      compensateDrift st rfl ?_
    intro i j t hi0 hi1 hj0 hj1 ht
    show (gsCell s cellType particleDensity fNumY _ overRelaxation particleRestDensity
      compensateDrift i j t).p x = st.p x
    rw [gsCell_p_unchanged, ht]
    intro hc
    exact hx ⟨i, j, hi0, by omega, hj0, by omega, hc.1, hc.2.1, hc.2.2⟩
  · intro divide hdiv
    exact gaussSeidelDiv_eq divide hdiv _ _ _ _ _ _ _ _ _ _ _

/-- Witness for C27 on a 3 x 3 grid with `s = 0` everywhere (`sumS = 0 < 1e-9` at the only
interior cell): `p[4]` is unchanged, and the pressure loop computed with a quotient
operator that returns `7` for denominators below `1e-9` is the pressure loop. -/
theorem C27_pressure_frame_witness :
    (solveIncompressibility_native (F := ℚ)
        { u := fun k => (k : ℚ), v := fun _ => 0, p := fun _ => 3 } (fun _ => 0)
        (fun _ => FLUID_CELL_CPP) (fun _ => 0) 3 3 2 1 1 1 (19 / 10) 0 false (3 / 2) (3 / 2)
        10 false 0 0 0 0 0).p 4 = 3 ∧
    gaussSeidelDiv (F := ℚ) (fun a b => if eps9 ≤ b then a / b else 7) (fun _ => 0)
        (fun _ => FLUID_CELL_CPP) (fun _ => 0) 3 3 2 (1 * 1 / 1) (19 / 10) 0 false
        { u := fun k => (k : ℚ), v := fun _ => 0, p := fun _ => 3 } =
      gaussSeidel (F := ℚ) (fun _ => 0) (fun _ => FLUID_CELL_CPP) (fun _ => 0) 3 3 2
        (1 * 1 / 1) (19 / 10) 0 false
        { u := fun k => (k : ℚ), v := fun _ => 0, p := fun _ => 3 } := by
  have key := C27_pressure_frame (F := ℚ)
    { u := fun k => (k : ℚ), v := fun _ => 0, p := fun _ => 3 } (fun _ => 0)
    (fun _ => FLUID_CELL_CPP) (fun _ => 0) 3 3 2 1 1 1 (19 / 10) 0 false (3 / 2) (3 / 2)
    10 false 0 0 0 0 0
  refine ⟨key.1 4 ?_, key.2 _ (fun a b hb => if_pos hb)⟩
  rintro ⟨i, j, _, _, _, _, _, _, hsum⟩
  norm_num [cellSumS, eps9] at hsum

/-! ## C26: fixed point of the pressure loop -/

/-- C26: if on entry the discrete divergence `(u[i+1,j] - u[i,j]) + (v[i,j+1] - v[i,j])` is
zero at every interior FLUID cell and drift compensation contributes nothing
(`compensateDrift` is false, or `particleRestDensity ≤ 0`, or
`particleDensity ≤ particleRestDensity` everywhere), then the pressure loop of
`solveIncompressibility_native` leaves `u`, `v` and `p` unchanged, for every `numIters`,
every `s` and every `overRelaxation`. -/
theorem C26_gauss_seidel_fixed_point (st : PressureState F) (s : ℤ → F) (cellType : ℤ → ℤ)
    (particleDensity : ℤ → F) (fNumX fNumY numIters : ℤ)
    (h dt density overRelaxation particleRestDensity : F) (compensateDrift : Bool)
    (hdiv : ∀ i j, 1 ≤ i → i ≤ fNumX - 2 → 1 ≤ j → j ≤ fNumY - 2 →
      cellType (i * fNumY + j) = FLUID_CELL_CPP → cellDivergence st fNumY i j = 0)
    (hcomp : compensateDrift = false ∨ particleRestDensity ≤ 0 ∨
      ∀ idx, particleDensity idx ≤ particleRestDensity) :
    (gaussSeidel s cellType particleDensity fNumX fNumY numIters (density * h / dt)
      overRelaxation particleRestDensity compensateDrift st).u = st.u ∧
    (gaussSeidel s cellType particleDensity fNumX fNumY numIters (density * h / dt)
      overRelaxation particleRestDensity compensateDrift st).v = st.v ∧
    (gaussSeidel s cellType particleDensity fNumX fNumY numIters (density * h / dt)
      overRelaxation particleRestDensity compensateDrift st).p = st.p := by
  have hfix : gaussSeidel s cellType particleDensity fNumX fNumY numIters (density * h / dt)
      overRelaxation particleRestDensity compensateDrift st = st := by
    apply gaussSeidel_fixed
    · intro i j hi0 hi1 hj0 hj1 hfl
      exact hdiv i j hi0 (by omega) hj0 (by omega) hfl
    · intro i j _ _ _ _ _ hc
      rcases hcomp with hf | hr | hd
      · rw [hf] at hc
        exact absurd hc.2.1 (by decide)
      · exact absurd hc.1 (not_lt.mpr hr)
      · have := hd (i * fNumY + j)
        linarith [hc.2.2]
  rw [hfix]
  exact ⟨rfl, rfl, rfl⟩

/-- Witness for C26 on a 4 x 4 grid with `u = 1`, `v = 0`, compensation enabled with
`particleDensity = 1/2 ≤ particleRestDensity = 1`, three sweeps. -/
theorem C26_gauss_seidel_fixed_point_witness :
    (gaussSeidel (F := ℚ) (fun _ => 1) (fun _ => FLUID_CELL_CPP) (fun _ => 1 / 2) 4 4 3
      (1 * 1 / 1) (19 / 10) 1 true { u := fun _ => 1, v := fun _ => 0, p := fun _ => 5 }).u =
      (({ u := fun _ => 1, v := fun _ => 0, p := fun _ => 5 } : PressureState ℚ).u) :=
  (C26_gauss_seidel_fixed_point (F := ℚ) { u := fun _ => 1, v := fun _ => 0, p := fun _ => 5 }
    (fun _ => 1) (fun _ => FLUID_CELL_CPP) (fun _ => 1 / 2) 4 4 3 1 1 1 (19 / 10) 1 true
    (by
      intro i j _ _ _ _ _
      norm_num [cellDivergence])
    (Or.inr (Or.inr (fun _ => by norm_num)))).1

/-! ## C24: drift compensation is gated -/

/-- The cell update does not read `particleDensity` and behaves as with compensation
disabled when compensation contributes nothing at the cell. -/
theorem gsCell_nocomp (s : ℤ → F) (cellType : ℤ → ℤ) (pd pd2 : ℤ → F) (n : ℤ)
    (cp overRelaxation particleRestDensity : F) (compensateDrift : Bool) (i j : ℤ)
    (st : PressureState F)
    (hnc : ¬ (particleRestDensity > 0 ∧ compensateDrift = true ∧
      pd (i * n + j) - particleRestDensity > 0)) :
    gsCell s cellType pd n cp overRelaxation particleRestDensity compensateDrift i j st =
      gsCell s cellType pd2 n cp overRelaxation particleRestDensity false i j st := by
  unfold gsCell
  simp only []
  by_cases hct : cellType (i * n + j) ≠ FLUID_CELL_CPP
  · rw [if_pos hct, if_pos hct]
  · rw [if_neg hct, if_neg hct]
    by_cases hsum : s ((i - 1) * n + j) + s ((i + 1) * n + j) + s (i * n + (j - 1)) +
        s (i * n + (j + 1)) < eps9
    · rw [if_pos hsum, if_pos hsum]
    · rw [if_neg hsum, if_neg hsum]
      have hR : ¬ (particleRestDensity > 0 ∧ false = true) := fun hc => by
        exact absurd hc.2 (by decide)
      rw [if_neg hR]
      by_cases hc : particleRestDensity > 0 ∧ compensateDrift = true
      · rw [if_pos hc, if_neg (fun hpos => hnc ⟨hc.1, hc.2, hpos⟩)]
      · rw [if_neg hc]

/-- C24: if `compensateDrift` is false or `particleRestDensity ≤ 0`, the result (`u`, `v`,
`p`) of `solveIncompressibility_native` is the same for any two density grids; and with
compensation enabled, the update of a cell with
`particleDensity[i,j] ≤ particleRestDensity` is exactly the update with compensation
disabled. -/
theorem C24_drift_compensation_gated (st : PressureState F) (s : ℤ → F) (cellType : ℤ → ℤ)
    (particleDensity particleDensity2 : ℤ → F) (fNumX fNumY numIters : ℤ)
    (h dt density overRelaxation particleRestDensity : F) (compensateDrift : Bool)
    (circleCenterX circleCenterY circleRadius : F) (isObstacleActive : Bool)
    (obstacleX obstacleY obstacleRadiusCpp obstacleVelX obstacleVelY : F) :
    ((compensateDrift = false ∨ particleRestDensity ≤ 0) →
      solveIncompressibility_native st s cellType particleDensity fNumX fNumY numIters h dt
          density overRelaxation particleRestDensity compensateDrift circleCenterX
          circleCenterY circleRadius isObstacleActive obstacleX obstacleY obstacleRadiusCpp
          obstacleVelX obstacleVelY =
        solveIncompressibility_native st s cellType particleDensity2 fNumX fNumY numIters h dt
          density overRelaxation particleRestDensity compensateDrift circleCenterX
          circleCenterY circleRadius isObstacleActive obstacleX obstacleY obstacleRadiusCpp
          obstacleVelX obstacleVelY) ∧
    (∀ (i j : ℤ) (t : PressureState F),
      particleDensity (i * fNumY + j) ≤ particleRestDensity →
      gsCell s cellType particleDensity fNumY (density * h / dt) overRelaxation
          particleRestDensity true i j t =
        gsCell s cellType particleDensity fNumY (density * h / dt) overRelaxation
          particleRestDensity false i j t) := by
  constructor
  · intro hgate
    have hoff : ∀ pd : ℤ → F, ∀ (i j : ℤ) (t : PressureState F),
        gsCell s cellType pd fNumY (density * h / dt) overRelaxation particleRestDensity
            compensateDrift i j t =
          gsCell s cellType (fun _ => 0) fNumY (density * h / dt) overRelaxation
            particleRestDensity false i j t := by
      intro pd i j t
      apply gsCell_nocomp
      intro hc
      rcases hgate with hf | hr
      · rw [hf] at hc
        exact absurd hc.2.1 (by decide)
      · exact absurd hc.1 (not_lt.mpr hr)
    have hgs : ∀ pd : ℤ → F,
        gaussSeidel s cellType pd fNumX fNumY numIters (density * h / dt) overRelaxation
            particleRestDensity compensateDrift st =
          gaussSeidel s cellType (fun _ => 0) fNumX fNumY numIters (density * h / dt)
            overRelaxation particleRestDensity false st := by
      intro pd
      unfold gaussSeidel
      simp only [hoff pd]
    unfold solveIncompressibility_native
    simp only []
    rw [hgs particleDensity, hgs particleDensity2]
  · intro i j t hle
    apply gsCell_nocomp
    intro hc
    linarith [hc.2.2]

/-- Witness for C24 on a 3 x 3 grid: with `compensateDrift = false` the density grids `0`
and `100` give the same result, and with compensation enabled the cell `(1, 1)` with
density `0 ≤ 1` is updated as with compensation disabled. -/
theorem C24_drift_compensation_gated_witness :
    solveIncompressibility_native (F := ℚ)
        { u := fun k => (k : ℚ), v := fun _ => 0, p := fun _ => 0 } (fun _ => 1)
        (fun _ => FLUID_CELL_CPP) (fun _ => 0) 3 3 2 1 1 1 (19 / 10) 1 false (3 / 2) (3 / 2)
        10 false 0 0 0 0 0 =
      solveIncompressibility_native (F := ℚ)
        { u := fun k => (k : ℚ), v := fun _ => 0, p := fun _ => 0 } (fun _ => 1)
        (fun _ => FLUID_CELL_CPP) (fun _ => 100) 3 3 2 1 1 1 (19 / 10) 1 false (3 / 2)
        (3 / 2) 10 false 0 0 0 0 0 ∧
    gsCell (F := ℚ) (fun _ => 1) (fun _ => FLUID_CELL_CPP) (fun _ => 0) 3 (1 * 1 / 1)
        (19 / 10) 1 true 1 1 { u := fun k => (k : ℚ), v := fun _ => 0, p := fun _ => 0 } =
      gsCell (F := ℚ) (fun _ => 1) (fun _ => FLUID_CELL_CPP) (fun _ => 0) 3 (1 * 1 / 1)
        (19 / 10) 1 false 1 1 { u := fun k => (k : ℚ), v := fun _ => 0, p := fun _ => 0 } := by
  have key := C24_drift_compensation_gated (F := ℚ)
    { u := fun k => (k : ℚ), v := fun _ => 0, p := fun _ => 0 } (fun _ => 1)
    (fun _ => FLUID_CELL_CPP) (fun _ => 0) (fun _ => 100) 3 3 2 1 1 1 (19 / 10) 1 false
    (3 / 2) (3 / 2) 10 false 0 0 0 0 0
  exact ⟨key.1 (Or.inl rfl), key.2 1 1 _ (by norm_num)⟩

/-! ## C25: the snapshot of the P->G transfer -/

theorem numBlocks4_lt (m : ℤ) (hm : 0 ≤ m) : m < 4 * numBlocks4 m + 4 := by
  unfold numBlocks4
  rw [Int.toNat_of_nonneg (Int.ediv_nonneg hm (by norm_num))]
  omega

/-- C25: after `transferVelocities_native` with `toGrid = true`, `prevU[idx]` equals the
value `u[idx]` had on entry and `prevV[idx]` equals the value `v[idx]` had on entry, for
every index `0 ≤ idx < fNumX*fNumY` and every grid size; the 4-wide block loop covers the
indices `[0, 4·numBlocks4 N)` and the scalar remainder starts at
`N - N % 4 = 4·numBlocks4 N` and ends at `N`, with fewer than four iterations, so together
they cover every index once (a second visit would store the zeroed `u` in `prevU`). -/
theorem C25_snapshot [FloorRing F] (vrecpeq_f32 : F → F) (flipRatio : F)
    (st : TransferState F) (s particlePos : ℤ → F) (fNumX fNumY : ℤ) (h invH : F)
    (numParticles : ℤ) :
    (∀ idx, 0 ≤ idx → idx < fNumX * fNumY →
      (transferVelocities_native vrecpeq_f32 true flipRatio st s particlePos fNumX fNumY h
        invH numParticles).prevU idx = st.u idx ∧
      (transferVelocities_native vrecpeq_f32 true flipRatio st s particlePos fNumX fNumY h
        invH numParticles).prevV idx = st.v idx) ∧
    (0 ≤ fNumX * fNumY →
      fNumX * fNumY - Int.tmod (fNumX * fNumY) 4 = 4 * numBlocks4 (fNumX * fNumY) ∧
      4 * numBlocks4 (fNumX * fNumY) ≤ fNumX * fNumY ∧
      fNumX * fNumY < 4 * numBlocks4 (fNumX * fNumY) + 4) := by
  constructor
  · intro idx h0 h1
    rw [transfer_toGrid_eq]
    obtain ⟨_, _, r3, r4, _, _⟩ := restoreSolid_sameAux fNumX fNumY
      (toGridSteps1to5 vrecpeq_f32 st s particlePos fNumX fNumY h invH numParticles)
    obtain ⟨_, _, g3, g4⟩ := toGridSteps1to5_frame vrecpeq_f32 st s particlePos fNumX fNumY h
      invH numParticles
    rw [r3, r4]
    exact ⟨g3 idx h0 h1, g4 idx h0 h1⟩
  · intro hN
    exact ⟨remainderStart_eq _ hN, numBlocks4_le _ hN, numBlocks4_lt _ hN⟩

/-- Witness for C25 on a 3 x 2 grid (6 cells: one block and a remainder of two) and on a
3 x 1 grid (3 cells: no block): `prevU[5]` resp. `prevU[2]` hold the entry value of `u`. -/
theorem C25_snapshot_witness :
    (transferVelocities_native (fun d => 1 / d) true 0 exampleState (fun _ => 1)
        (fun _ => 7 / 4) 3 2 1 1 1).prevU 5 = exampleState.u 5 ∧
    (transferVelocities_native (fun d => 1 / d) true 0 exampleState (fun _ => 1)
        (fun _ => 7 / 4) 3 1 1 1 1).prevU 2 = exampleState.u 2 :=
  ⟨((C25_snapshot (F := ℚ) (fun d => 1 / d) 0 exampleState (fun _ => 1) (fun _ => 7 / 4)
      3 2 1 1 1).1 5 (by norm_num) (by norm_num)).1,
    ((C25_snapshot (F := ℚ) (fun d => 1 / d) 0 exampleState (fun _ => 1) (fun _ => 7 / 4)
      3 1 1 1 1).1 2 (by norm_num) (by norm_num)).1⟩

/-! ## C23: colour fade and highlight -/

/-- The cast `static_cast<int>` of an integer-valued float `k ≥ 0` is `k`. -/
theorem toInt_intCast [FloorRing F] (k : ℤ) (hk : 0 ≤ k) : toInt ((k : ℤ) : F) = k := by
  unfold toInt
  rw [if_pos (by exact_mod_cast hk), Int.floor_intCast]

/-- For a grid axis with at least one cell the clamped cell coordinate lies on the axis. -/
theorem cellCoord_range [FloorRing F] (fNum : ℤ) (invH p : F) (hf : 1 ≤ fNum) :
    0 ≤ cellCoord fNum invH p ∧ cellCoord fNum invH p < fNum := by
  unfold cellCoord clamp_cpp floorf
  have e : max (0 : F) (min ((⌊p * invH⌋ : ℤ) : F) (((fNum - 1 : ℤ) : F))) =
      ((max 0 (min ⌊p * invH⌋ (fNum - 1)) : ℤ) : F) := by
    push_cast
    rfl
  rw [e, toInt_intCast _ (le_max_left _ _)]
  constructor
  · exact le_max_left _ _
  · have h1 : min ⌊p * invH⌋ (fNum - 1) ≤ fNum - 1 := min_le_right _ _
    have h2 : max 0 (min ⌊p * invH⌋ (fNum - 1)) ≤ fNum - 1 := max_le (by omega) h1
    omega

/-- The value written by the iteration of particle `i` to one of its own colour lanes `x`:
it depends on the colour buffer through `col[x]` only. -/
theorem colorParticle_self [FloorRing F] (rest invH : F) (fNumX fNumY : ℤ)
    (pos dens : ℤ → F) (i : ℤ) (col : ℤ → F) (x : ℤ) (hx0 : 4 * i ≤ x) (hx1 : x < 4 * i + 4) :
    colorParticle rest invH fNumX fNumY pos dens i col x =
      if rest > eps9 ∧
          (particleCellIndex pos fNumX fNumY invH i ≥ 0 ∧
            particleCellIndex pos fNumX fNumY invH i < fNumX * fNumY) ∧
          dens (particleCellIndex pos fNumX fNumY invH i) / rest < low_density_threshold
      then highlight_color_vec (x - 4 * i)
      else max 0 (min (col x - fade_adjustments (x - 4 * i)) 1) := by
  have e : 4 * i + (x - 4 * i) = x := by ring
  unfold colorParticle particleCellIndex
  simp only []
  by_cases h1 : rest > eps9
  · rw [if_pos h1]
    by_cases h2 : cellCoord fNumX invH (pos (2 * i)) * fNumY +
        cellCoord fNumY invH (pos (2 * i + 1)) ≥ 0 ∧
        cellCoord fNumX invH (pos (2 * i)) * fNumY +
        cellCoord fNumY invH (pos (2 * i + 1)) < fNumX * fNumY
    · rw [if_pos h2]
      by_cases h3 : dens (cellCoord fNumX invH (pos (2 * i)) * fNumY +
          cellCoord fNumY invH (pos (2 * i + 1))) / rest < low_density_threshold
      · rw [if_pos h3, if_pos ⟨h1, h2, h3⟩, store4_apply, if_pos ⟨hx0, hx1⟩]
      · rw [if_neg h3, if_neg (fun hc => h3 hc.2.2), store4_apply, if_pos ⟨hx0, hx1⟩, e]
    · rw [if_neg h2, if_neg (fun hc => h2 hc.2.1), store4_apply, if_pos ⟨hx0, hx1⟩, e]
  · rw [if_neg h1, if_neg (fun hc => h1 hc.1), store4_apply, if_pos ⟨hx0, hx1⟩, e]

/-- The four colour lanes of particle `i` after its iteration of the colour loop, for a
valid rest density and a grid with at least one cell in each direction. -/
theorem colorParticle_lane [FloorRing F] (rest invH : F) (fNumX fNumY : ℤ)
    (pos dens : ℤ → F) (i : ℤ) (col : ℤ → F) (l : ℤ) (hl0 : 0 ≤ l) (hl1 : l < 4)
    (hrest : eps9 < rest) (hfx : 1 ≤ fNumX) (hfy : 1 ≤ fNumY) :
    colorParticle rest invH fNumX fNumY pos dens i col (4 * i + l) =
      if dens (particleCellIndex pos fNumX fNumY invH i) / rest < low_density_threshold
      then highlight_color_vec l
      else max 0 (min (col (4 * i + l) - fade_adjustments l) 1) := by
  obtain ⟨x0, x1⟩ := cellCoord_range (F := F) fNumX invH (pos (2 * i)) hfx
  obtain ⟨y0, y1⟩ := cellCoord_range (F := F) fNumY invH (pos (2 * i + 1)) hfy
  have hc : particleCellIndex pos fNumX fNumY invH i ≥ 0 ∧
      particleCellIndex pos fNumX fNumY invH i < fNumX * fNumY :=
    cellIndex_inRange fNumX fNumY _ _ x0 x1 y0 y1
  have e : 4 * i + l - 4 * i = l := by ring
  rw [colorParticle_self _ _ _ _ _ _ _ _ _ (by omega) (by omega), e]
  by_cases hd : dens (particleCellIndex pos fNumX fNumY invH i) / rest < low_density_threshold
  · rw [if_pos ⟨hrest, hc, hd⟩, if_pos hd]
  · rw [if_neg (fun h => hd h.2.2), if_neg hd]

/-- The colour lanes of particle `i` on return are those written by its own iteration. -/
theorem updateColors_apply [FloorRing F] (numParticles : ℤ) (rest invH : F)
    (fNumX fNumY : ℤ) (h : F) (pos dens col : ℤ → F) (i l : ℤ) (hi0 : 0 ≤ i)
    (hi1 : i < numParticles) (hl0 : 0 ≤ l) (hl1 : l < 4) :
    updateDynamicParticleColors_native numParticles rest invH fNumX fNumY h pos dens col
        (4 * i + l) =
      colorParticle rest invH fNumX fNumY pos dens i col (4 * i + l) := by
  unfold updateDynamicParticleColors_native
  have hloop := forRange_induction
    (fun m c => (i < m → c (4 * i + l) =
        colorParticle rest invH fNumX fNumY pos dens i col (4 * i + l)) ∧
      (m ≤ i → c (4 * i + l) = col (4 * i + l)))
    0 numParticles (fun k c => colorParticle rest invH fNumX fNumY pos dens k c) col
    ⟨fun hlt => absurd hlt (by omega), fun _ => rfl⟩
    (by
      intro k c _ _ hP
      constructor
      · intro hlt
        show colorParticle rest invH fNumX fNumY pos dens k c (4 * i + l) = _
        by_cases hik : i = k
        · subst hik
          rw [colorParticle_self _ _ _ _ _ _ _ c _ (by omega) (by omega),
            colorParticle_self _ _ _ _ _ _ _ col _ (by omega) (by omega), hP.2 le_rfl]
        · rw [colorParticle_other _ _ _ _ _ _ _ _ _ (by omega)]
          exact hP.1 (by omega)
      · intro hle
        show colorParticle rest invH fNumX fNumY pos dens k c (4 * i + l) = _
        rw [colorParticle_other _ _ _ _ _ _ _ _ _ (by omega)]
        exact hP.2 (by omega))
  rw [max_eq_right (by omega)] at hloop
  exact hloop.1 hi1

/-- C23 (as stated, refuted): with `particleRestDensity = 1e-9 > 0`, density `0` in the
particle's cell (relative density `0 < 0.7`) and colour `(1/2, 1/2, 1/2, 1/2)`, the red
component on return is the faded `49/100`, not the highlight `0.8`: the density reset is
guarded by `particleRestDensity > 1e-9f`.  Likewise on an empty grid (`fNumX = 0`) with
`particleRestDensity = 1` the clamped cell index `0` fails the range check and the colour
is only faded. -/
theorem C23_counterexample :
    ((0 : ℚ) < 1 / 1000000000 ∧
      (fun _ : ℤ => (0 : ℚ)) (particleCellIndex (fun _ => (0 : ℚ)) 1 1 1 0) / (1 / 1000000000)
        < 7 / 10 ∧
      updateDynamicParticleColors_native 1 (1 / 1000000000 : ℚ) 1 1 1 1 (fun _ => 0)
        (fun _ => 0) (fun _ => 1 / 2) (4 * 0 + 0) = 49 / 100) ∧
    ((0 : ℚ) < 1 ∧
      (fun _ : ℤ => (0 : ℚ)) (particleCellIndex (fun _ => (0 : ℚ)) 0 1 1 0) / 1 < 7 / 10 ∧
      updateDynamicParticleColors_native 1 (1 : ℚ) 1 0 1 1 (fun _ => 0)
        (fun _ => 0) (fun _ => 1 / 2) (4 * 0 + 0) = 49 / 100) := by
  have f0 : ⌊(0 : ℚ)⌋ = 0 := by norm_num
  refine ⟨⟨by norm_num, by norm_num, ?_⟩, ⟨by norm_num, by norm_num, ?_⟩⟩
  · rw [updateColors_apply 1 _ _ _ _ _ _ _ _ 0 0 (by norm_num) (by norm_num) (by norm_num)
      (by norm_num)]
    unfold colorParticle
    simp only []
    rw [if_neg (by norm_num [eps9]), store4_apply, if_pos (by norm_num)]
    norm_num [fade_adjustments, color_fade_s]
  · rw [updateColors_apply 1 _ _ _ _ _ _ _ _ 0 0 (by norm_num) (by norm_num) (by norm_num)
      (by norm_num)]
    unfold colorParticle
    simp only []
    rw [if_pos (by norm_num [eps9]),
      if_neg (by norm_num [cellCoord, clamp_cpp, floorf, toInt, f0]), store4_apply,
      if_pos (by norm_num)]
    norm_num [fade_adjustments, color_fade_s]

/-- C23 (amended): for `particleRestDensity > 1e-9`, a grid with at least one cell in each
direction and every particle `i` in range whose colour components start in `[0, 1]`,
`updateDynamicParticleColors_native` sets the colour to `(0.8, 0.8, 1, 1)` if
`density[cell] / particleRestDensity < 0.7`, where `cell` is the particle's clamped
containing cell; otherwise it sets `(R, G, B, A)` to
`(clamp01(R - 0.01), clamp01(G - 0.01), clamp01(B + 0.01), A)`, alpha unchanged. -/
theorem C23_color_fade_and_highlight [FloorRing F] (numParticles : ℤ)
    (particleRestDensity invH : F) (fNumX fNumY : ℤ) (h : F)
    (particlePos particleDensityGrid particleColor : ℤ → F) (i : ℤ)
    (hi0 : 0 ≤ i) (hi1 : i < numParticles) (hrest : eps9 < particleRestDensity)
    (hfx : 1 ≤ fNumX) (hfy : 1 ≤ fNumY)
    (hin : ∀ l, 0 ≤ l → l < 4 →
      0 ≤ particleColor (4 * i + l) ∧ particleColor (4 * i + l) ≤ 1) :
    (particleDensityGrid (particleCellIndex particlePos fNumX fNumY invH i) /
          particleRestDensity < 7 / 10 →
      updateDynamicParticleColors_native numParticles particleRestDensity invH fNumX fNumY
          h particlePos particleDensityGrid particleColor (4 * i + 0) = 8 / 10 ∧
      updateDynamicParticleColors_native numParticles particleRestDensity invH fNumX fNumY
          h particlePos particleDensityGrid particleColor (4 * i + 1) = 8 / 10 ∧
      updateDynamicParticleColors_native numParticles particleRestDensity invH fNumX fNumY
          h particlePos particleDensityGrid particleColor (4 * i + 2) = 1 ∧
      updateDynamicParticleColors_native numParticles particleRestDensity invH fNumX fNumY
          h particlePos particleDensityGrid particleColor (4 * i + 3) = 1) ∧
    (¬ (particleDensityGrid (particleCellIndex particlePos fNumX fNumY invH i) /
          particleRestDensity < 7 / 10) →
      updateDynamicParticleColors_native numParticles particleRestDensity invH fNumX fNumY
          h particlePos particleDensityGrid particleColor (4 * i + 0) =
        max 0 (min (particleColor (4 * i + 0) - 1 / 100) 1) ∧
      updateDynamicParticleColors_native numParticles particleRestDensity invH fNumX fNumY
          h particlePos particleDensityGrid particleColor (4 * i + 1) =
        max 0 (min (particleColor (4 * i + 1) - 1 / 100) 1) ∧
      updateDynamicParticleColors_native numParticles particleRestDensity invH fNumX fNumY
          h particlePos particleDensityGrid particleColor (4 * i + 2) =
        max 0 (min (particleColor (4 * i + 2) + 1 / 100) 1) ∧
      updateDynamicParticleColors_native numParticles particleRestDensity invH fNumX fNumY
          h particlePos particleDensityGrid particleColor (4 * i + 3) =
        particleColor (4 * i + 3)) := by
  have hlane : ∀ l, 0 ≤ l → l < 4 →
      updateDynamicParticleColors_native numParticles particleRestDensity invH fNumX fNumY
          h particlePos particleDensityGrid particleColor (4 * i + l) =
        if particleDensityGrid (particleCellIndex particlePos fNumX fNumY invH i) /
            particleRestDensity < low_density_threshold
        then highlight_color_vec l
        else max 0 (min (particleColor (4 * i + l) - fade_adjustments l) 1) := by
    intro l hl0 hl1
    rw [updateColors_apply numParticles _ _ _ _ _ _ _ _ i l hi0 hi1 hl0 hl1,
      colorParticle_lane _ _ _ _ _ _ _ _ l hl0 hl1 hrest hfx hfy]
  have hth : (low_density_threshold : F) = 7 / 10 := rfl
  rw [hth] at hlane
  constructor
  · intro hlow
    rw [hlane 0 (by norm_num) (by norm_num), hlane 1 (by norm_num) (by norm_num),
      hlane 2 (by norm_num) (by norm_num), hlane 3 (by norm_num) (by norm_num)]
    simp only [if_pos hlow]
    norm_num [highlight_color_vec, low_density_highlight_s]
  · intro hhigh
    rw [hlane 0 (by norm_num) (by norm_num), hlane 1 (by norm_num) (by norm_num),
      hlane 2 (by norm_num) (by norm_num), hlane 3 (by norm_num) (by norm_num)]
    simp only [if_neg hhigh]
    obtain ⟨a0, a1⟩ := hin 3 (by norm_num) (by norm_num)
    refine ⟨?_, ?_, ?_, ?_⟩
    · norm_num [fade_adjustments, color_fade_s]
    · norm_num [fade_adjustments, color_fade_s]
    · norm_num [fade_adjustments, color_fade_s]
    · have e : fade_adjustments (F := F) 3 = 0 := by norm_num [fade_adjustments]
      rw [e, sub_zero, min_eq_left a1, max_eq_right a0]

/-- Witness for C23 with one particle of colour `(1/2, 1/2, 1/2, 1/2)` on a 1 x 1 grid,
rest density `1` and cell density `1` (relative density `1 ≥ 0.7`): the colour fades to
`(49/100, 49/100, 51/100, 1/2)`. -/
theorem C23_color_fade_and_highlight_witness :
    updateDynamicParticleColors_native 1 (1 : ℚ) 1 1 1 1 (fun _ => 0) (fun _ => 1)
        (fun _ => 1 / 2) (4 * 0 + 0) = max 0 (min (1 / 2 - 1 / 100) 1) ∧
    updateDynamicParticleColors_native 1 (1 : ℚ) 1 1 1 1 (fun _ => 0) (fun _ => 1)
        (fun _ => 1 / 2) (4 * 0 + 1) = max 0 (min (1 / 2 - 1 / 100) 1) ∧
    updateDynamicParticleColors_native 1 (1 : ℚ) 1 1 1 1 (fun _ => 0) (fun _ => 1)
        (fun _ => 1 / 2) (4 * 0 + 2) = max 0 (min (1 / 2 + 1 / 100) 1) ∧
    updateDynamicParticleColors_native 1 (1 : ℚ) 1 1 1 1 (fun _ => 0) (fun _ => 1)
        (fun _ => 1 / 2) (4 * 0 + 3) = 1 / 2 :=
  (C23_color_fade_and_highlight (F := ℚ) 1 1 1 1 1 1 (fun _ => 0) (fun _ => 1)
    (fun _ => 1 / 2) 0 (by norm_num) (by norm_num) (by norm_num [eps9]) (by norm_num)
    (by norm_num) (fun _ _ _ => by norm_num)).2 (by norm_num)

/-! ## The pair body of `pushParticlesApart_native`: when it moves a pair -/

/-- The pair body leaves the positions as they are when the in-range test fails. -/
theorem pushPair_skip (sqrtf : F → F) (minDist minDist2 : F) (ii jj : ℤ) (pos : ℤ → F)
    (hskip : pairDistSq pos ii jj > minDist2 ∨ pairDistSq pos ii jj < eps12) :
    pushPair sqrtf minDist minDist2 ii jj pos = pos := by
  rcases hskip with hs | hs
  · exact pushPair_far sqrtf minDist minDist2 ii jj pos hs
  · exact pushPair_close sqrtf minDist minDist2 ii jj pos hs

/-- The pair body leaves the positions as they are when the local `s_factor` is zero. -/
theorem pushPair_factor_zero (sqrtf : F → F) (minDist minDist2 : F) (ii jj : ℤ)
    (pos : ℤ → F)
    (hz : (if sqrtf (pairDistSq pos ii jj) > eps9
        then (1 / 2) * (minDist - sqrtf (pairDistSq pos ii jj)) / sqrtf (pairDistSq pos ii jj)
        else 0) = 0) :
    pushPair sqrtf minDist minDist2 ii jj pos = pos := by
  unfold pushPair
  unfold pairDistSq at hz
  simp only [] at hz ⊢
  by_cases hskip : (pos (2 * jj + 0) - pos (2 * ii + 0)) * (pos (2 * jj + 0) - pos (2 * ii + 0))
      + (pos (2 * jj + 1) - pos (2 * ii + 1)) * (pos (2 * jj + 1) - pos (2 * ii + 1)) > minDist2
      ∨ (pos (2 * jj + 0) - pos (2 * ii + 0)) * (pos (2 * jj + 0) - pos (2 * ii + 0))
      + (pos (2 * jj + 1) - pos (2 * ii + 1)) * (pos (2 * jj + 1) - pos (2 * ii + 1)) < eps12
  · rw [if_pos hskip]
  · rw [if_neg hskip, hz]
    simp only [mul_zero, sub_zero, add_zero, Function.update_eq_self]

/-! ## C22: which pairs are displaced -/

/-- C22 (as stated, refuted): (1) a pair at squared distance exactly `1e-12` (particles at
`(0, 0)` and `(1e-6, 0)`, radius 1, `minDist2 = 4`) is displaced although `d2 ≤ 1e-12`;
(2) with radius 1 and `minDist2 = 100` a pair at distance 2 (`1e-12 < d2 = 4 < minDist2`)
is left where it is; (3) and a pair at distance 10 (`d2 = 100 ≥ minDist2`) is displaced. -/
theorem C22_counterexample :
    (pairDistSq (fun k : ℤ => if k = 2 then (1 / 1000000 : ℚ) else 0) 0 1 ≤ eps12 ∧
      pushPair Rat.sqrt (2 * 1) 4 0 1 (fun k : ℤ => if k = 2 then (1 / 1000000 : ℚ) else 0)
          (2 * 0) ≠
        (fun k : ℤ => if k = 2 then (1 / 1000000 : ℚ) else 0) (2 * 0)) ∧
    ((eps12 : ℚ) < pairDistSq (fun k : ℤ => if k = 2 then (2 : ℚ) else 0) 0 1 ∧
      pairDistSq (fun k : ℤ => if k = 2 then (2 : ℚ) else 0) 0 1 < 100 ∧
      pushPair Rat.sqrt (2 * 1) 100 0 1 (fun k : ℤ => if k = 2 then (2 : ℚ) else 0) =
        (fun k : ℤ => if k = 2 then (2 : ℚ) else 0)) ∧
    ((100 : ℚ) ≤ pairDistSq (fun k : ℤ => if k = 2 then (10 : ℚ) else 0) 0 1 ∧
      pushPair Rat.sqrt (2 * 1) 100 0 1 (fun k : ℤ => if k = 2 then (10 : ℚ) else 0)
          (2 * 0) ≠
        (fun k : ℤ => if k = 2 then (10 : ℚ) else 0) (2 * 0)) := by
  have hA : pairDistSq (fun k : ℤ => if k = 2 then (1 / 1000000 : ℚ) else 0) 0 1 =
      (1 / 1000000) * (1 / 1000000) := by
    norm_num [pairDistSq]
  have hB : pairDistSq (fun k : ℤ => if k = 2 then (2 : ℚ) else 0) 0 1 = 2 * 2 := by
    norm_num [pairDistSq]
  have hC : pairDistSq (fun k : ℤ => if k = 2 then (10 : ℚ) else 0) 0 1 = 10 * 10 := by
    norm_num [pairDistSq]
  refine ⟨⟨?_, ?_⟩, ⟨?_, ?_, ?_⟩, ⟨?_, ?_⟩⟩
  · rw [hA]
    norm_num [eps12]
  · rw [(pushPair_apply Rat.sqrt (2 * 1) 4 0 1 _ (1 / 1000000) (by norm_num)
      (by rw [hA]; norm_num [eps12])
      (by rw [hA]; exact ratSqrt_mul_self _ (by norm_num)) (by norm_num [eps9])).1]
    norm_num
  · rw [hB]
    norm_num [eps12]
  · rw [hB]
    norm_num
  · apply pushPair_factor_zero
    rw [hB, ratSqrt_mul_self 2 (by norm_num)]
    norm_num
  · rw [hC]
    norm_num
  · rw [(pushPair_apply Rat.sqrt (2 * 1) 100 0 1 _ 10 (by norm_num)
      (by rw [hC]; norm_num [eps12])
      (by rw [hC]; exact ratSqrt_mul_self _ (by norm_num)) (by norm_num [eps9])).1]
    norm_num

/-- C22 (amended): the pair body of `pushParticlesApart_native` displaces an enumerated
neighbour pair `(ii, jj ≠ ii)` if and only if its squared distance `d2` satisfies
`1e-12 ≤ d2 ≤ minDist2` (both inequalities non-strict) and `d = sqrtf(d2)` satisfies
`d > 1e-9` and `d ≠ minDist = 2*particleRadius`; in particular a pair with `d2 < 1e-12` or
`d2 > minDist2` is left where it is. -/
theorem C22_displaced_iff (sqrtf : F → F) (particleRadius minDist2 : F) (ii jj : ℤ)
    (pos : ℤ → F) (hne : ii ≠ jj) :
    (pushPair sqrtf (2 * particleRadius) minDist2 ii jj pos ≠ pos ↔
      (eps12 ≤ pairDistSq pos ii jj ∧ pairDistSq pos ii jj ≤ minDist2 ∧
        eps9 < sqrtf (pairDistSq pos ii jj) ∧
        sqrtf (pairDistSq pos ii jj) ≠ 2 * particleRadius)) ∧
    ((pairDistSq pos ii jj < eps12 ∨ minDist2 < pairDistSq pos ii jj) →
      pushPair sqrtf (2 * particleRadius) minDist2 ii jj pos = pos) := by
  constructor
  · constructor
    · intro hmoved
      by_contra hnot
      apply hmoved
      by_cases hskip : pairDistSq pos ii jj > minDist2 ∨ pairDistSq pos ii jj < eps12
      · exact pushPair_skip sqrtf _ _ ii jj pos hskip
      · apply pushPair_factor_zero
        by_cases hd : sqrtf (pairDistSq pos ii jj) > eps9
        · rw [if_pos hd]
          have heq : sqrtf (pairDistSq pos ii jj) = 2 * particleRadius := by
            by_contra hneq
            exact hnot ⟨not_lt.mp (fun h => hskip (Or.inr h)),
              not_lt.mp (fun h => hskip (Or.inl h)), hd, hneq⟩
          rw [heq, sub_self, mul_zero, zero_div]
        · rw [if_neg hd]
    · rintro ⟨h1, h2, h3, h4⟩ heq
      have h9 : (0 : F) < eps9 := by unfold eps9; norm_num
      have h12 : (0 : F) < eps12 := by unfold eps12; norm_num
      have hdpos : 0 < sqrtf (pairDistSq pos ii jj) := lt_trans h9 h3
      obtain ⟨a0, a1, _, _⟩ := pushPair_apply sqrtf (2 * particleRadius) minDist2 ii jj pos
        (sqrtf (pairDistSq pos ii jj)) hne
        (fun hc => hc.elim (fun h => absurd h (not_lt.mpr h2))
          (fun h => absurd h (not_lt.mpr h1))) rfl h3
      rw [heq] at a0 a1
      have hsf : (1 / 2) * (2 * particleRadius - sqrtf (pairDistSq pos ii jj)) /
          sqrtf (pairDistSq pos ii jj) ≠ 0 := by
        apply div_ne_zero
        · apply mul_ne_zero (by norm_num)
          exact sub_ne_zero.mpr (Ne.symm h4)
        · exact ne_of_gt hdpos
      have hx : pos (2 * jj) - pos (2 * ii) = 0 := by
        have : (pos (2 * jj) - pos (2 * ii)) *
            ((1 / 2) * (2 * particleRadius - sqrtf (pairDistSq pos ii jj)) /
              sqrtf (pairDistSq pos ii jj)) = 0 := by linarith
        exact (mul_eq_zero.mp this).resolve_right hsf
      have hy : pos (2 * jj + 1) - pos (2 * ii + 1) = 0 := by
        have : (pos (2 * jj + 1) - pos (2 * ii + 1)) *
            ((1 / 2) * (2 * particleRadius - sqrtf (pairDistSq pos ii jj)) /
              sqrtf (pairDistSq pos ii jj)) = 0 := by linarith
        exact (mul_eq_zero.mp this).resolve_right hsf
      have hD : pairDistSq pos ii jj = 0 := by
        unfold pairDistSq
        simp only [add_zero]
        rw [hx, hy]
        ring
      rw [hD] at h1
      exact absurd h1 (not_le.mpr h12)
  · intro hskip
    exact pushPair_skip sqrtf _ _ ii jj pos (hskip.elim Or.inr Or.inl)

/-- Witness for C22 with radius 1, `minDist2 = 4`, `sqrtf = Rat.sqrt` and particles at
`(0, 0)`, `(1, 0)`: `d2 = 1` lies in `[1e-12, 4]` and `d = 1 ≠ 2`, so the pair is displaced;
and the pair at `(0, 0)`, `(3, 0)` with `d2 = 9 > 4` is left where it is. -/
theorem C22_displaced_iff_witness :
    pushPair Rat.sqrt (2 * 1) 4 0 1 (fun k : ℤ => if k = 2 then (1 : ℚ) else 0) ≠
      (fun k : ℤ => if k = 2 then (1 : ℚ) else 0) ∧
    pushPair Rat.sqrt (2 * 1) 4 0 1 (fun k : ℤ => if k = 2 then (3 : ℚ) else 0) =
      (fun k : ℤ => if k = 2 then (3 : ℚ) else 0) := by
  have hA : pairDistSq (fun k : ℤ => if k = 2 then (1 : ℚ) else 0) 0 1 = 1 * 1 := by
    norm_num [pairDistSq]
  have hB : pairDistSq (fun k : ℤ => if k = 2 then (3 : ℚ) else 0) 0 1 = 3 * 3 := by
    norm_num [pairDistSq]
  refine ⟨(C22_displaced_iff Rat.sqrt 1 4 0 1 _ (by norm_num)).1.mpr ?_,
    (C22_displaced_iff Rat.sqrt 1 4 0 1 _ (by norm_num)).2 (Or.inr ?_)⟩
  · rw [hA, ratSqrt_mul_self 1 (by norm_num)]
    norm_num [eps12, eps9]
  · rw [hB]
    norm_num

/-! ## C28: the pair body keeps the coordinate sums -/

/-- The pair body adds an offset to the coordinates of `jj` and subtracts the same offset
from the coordinates of `ii`, and leaves every other particle where it is. -/
theorem pushPair_offsets (sqrtf : F → F) (minDist minDist2 : F) (ii jj : ℤ) (pos : ℤ → F)
    (hne : ii ≠ jj) :
    ∃ ox oy : F, ∀ i : ℤ,
      pushPair sqrtf minDist minDist2 ii jj pos (2 * i + 0) =
          pos (2 * i + 0) + (if i = jj then ox else 0) - (if i = ii then ox else 0) ∧
      pushPair sqrtf minDist minDist2 ii jj pos (2 * i + 1) =
          pos (2 * i + 1) + (if i = jj then oy else 0) - (if i = ii then oy else 0) := by
  by_cases hskip : pairDistSq pos ii jj > minDist2 ∨ pairDistSq pos ii jj < eps12
  · refine ⟨0, 0, fun i => ?_⟩
    rw [pushPair_skip sqrtf minDist minDist2 ii jj pos hskip]
    simp only [ite_self, add_zero, sub_zero, and_self]
  · unfold pairDistSq at hskip
    simp only [] at hskip
    unfold pushPair
    simp only []
    rw [if_neg hskip]
    generalize (if sqrtf ((pos (2 * jj + 0) - pos (2 * ii + 0)) *
        (pos (2 * jj + 0) - pos (2 * ii + 0)) + (pos (2 * jj + 1) - pos (2 * ii + 1)) *
        (pos (2 * jj + 1) - pos (2 * ii + 1))) > eps9
      then (1 / 2) * (minDist - sqrtf ((pos (2 * jj + 0) - pos (2 * ii + 0)) *
        (pos (2 * jj + 0) - pos (2 * ii + 0)) + (pos (2 * jj + 1) - pos (2 * ii + 1)) *
        (pos (2 * jj + 1) - pos (2 * ii + 1)))) / sqrtf ((pos (2 * jj + 0) -
        pos (2 * ii + 0)) * (pos (2 * jj + 0) - pos (2 * ii + 0)) + (pos (2 * jj + 1) -
        pos (2 * ii + 1)) * (pos (2 * jj + 1) - pos (2 * ii + 1))) else 0) = sf
    refine ⟨(pos (2 * jj + 0) - pos (2 * ii + 0)) * sf,
      (pos (2 * jj + 1) - pos (2 * ii + 1)) * sf, fun i => ⟨?_, ?_⟩⟩
    · by_cases hj : i = jj
      · subst hj
        rw [Function.update_noteq (by omega), Function.update_same, if_pos rfl,
          if_neg (Ne.symm hne)]
        ring
      · by_cases hi : i = ii
        · subst hi
          rw [Function.update_noteq (by omega), Function.update_noteq (by omega),
            Function.update_noteq (by omega), Function.update_same, if_neg hj, if_pos rfl]
          ring
        · rw [Function.update_noteq (by omega), Function.update_noteq (by omega),
            Function.update_noteq (by omega), Function.update_noteq (by omega), if_neg hj,
            if_neg hi]
          ring
    · by_cases hj : i = jj
      · subst hj
        rw [Function.update_same, if_pos rfl, if_neg (Ne.symm hne)]
        ring
      · by_cases hi : i = ii
        · subst hi
          rw [Function.update_noteq (by omega), Function.update_noteq (by omega),
            Function.update_same, if_neg hj, if_pos rfl]
          ring
        · rw [Function.update_noteq (by omega), Function.update_noteq (by omega),
            Function.update_noteq (by omega), Function.update_noteq (by omega), if_neg hj,
            if_neg hi]
          ring

theorem sumCoord_offsets (f g : ℤ → F) (N c ii jj : ℤ) (o : F)
    (hii : 0 ≤ ii ∧ ii < N) (hjj : 0 ≤ jj ∧ jj < N)
    (h : ∀ i, g (2 * i + c) =
      f (2 * i + c) + (if i = jj then o else 0) - (if i = ii then o else 0)) :
    sumCoord g N c = sumCoord f N c := by
  unfold sumCoord
  rw [Finset.sum_congr rfl (fun i _ => h i), Finset.sum_sub_distrib, Finset.sum_add_distrib,
    Finset.sum_ite_eq', Finset.sum_ite_eq', if_pos (Finset.mem_Ico.mpr hjj),
    if_pos (Finset.mem_Ico.mpr hii)]
  ring

/-- C28: `pushParticlesApart_native` conserves the centroid: the sum over all particles of
the x-coordinates and the sum of the y-coordinates are the same on return as on entry, for
every input, `numIters`, bin structure and `sqrtf`. -/
theorem C28_centroid_conserved [FloorRing F] (sqrtf : F → F) (particlePos : ℤ → F)
    (firstCellParticle cellParticleIds : ℤ → ℤ) (numParticles pNumX pNumY : ℤ)
    (pInvSpacing : F) (numIters : ℤ) (particleRadius minDist2 : F) :
    sumCoord (pushParticlesApart_native sqrtf particlePos firstCellParticle cellParticleIds
        numParticles pNumX pNumY pInvSpacing numIters particleRadius minDist2)
        numParticles 0 = sumCoord particlePos numParticles 0 ∧
    sumCoord (pushParticlesApart_native sqrtf particlePos firstCellParticle cellParticleIds
        numParticles pNumX pNumY pInvSpacing numIters particleRadius minDist2)
        numParticles 1 = sumCoord particlePos numParticles 1 := by
  unfold pushParticlesApart_native
  simp only []
  apply forRange_preserves
    (fun pos => sumCoord pos numParticles 0 = sumCoord particlePos numParticles 0 ∧
      sumCoord pos numParticles 1 = sumCoord particlePos numParticles 1) _ _ _ _ ⟨rfl, rfl⟩
  intro _ pos1 _ _ h1
  apply forRange_preserves
    (fun pos => sumCoord pos numParticles 0 = sumCoord particlePos numParticles 0 ∧
      sumCoord pos numParticles 1 = sumCoord particlePos numParticles 1) _ _ _ _ h1
  intro ii pos2 hii0 hii1 h2
  unfold pushParticle
  simp only []
  apply neighbourLoop_preserves
    (fun pos => sumCoord pos numParticles 0 = sumCoord particlePos numParticles 0 ∧
      sumCoord pos numParticles 1 = sumCoord particlePos numParticles 1)
    _ _ _ _ _ _ _ _ _ _ h2
  intro jj pos3 hne hj0 hj1 h3
  obtain ⟨ox, oy, hoff⟩ := pushPair_offsets sqrtf (2 * particleRadius) minDist2 ii jj pos3
    (Ne.symm hne)
  constructor
  · rw [sumCoord_offsets pos3 _ numParticles 0 ii jj ox ⟨hii0, hii1⟩ ⟨hj0, hj1⟩
      (fun i => (hoff i).1)]
    exact h3.1
  · rw [sumCoord_offsets pos3 _ numParticles 1 ii jj oy ⟨hii0, hii1⟩ ⟨hj0, hj1⟩
      (fun i => (hoff i).2)]
    exact h3.2

/-! ## C21: the in-range test uses `minDist2`, the displacement uses `2*particleRadius` -/

/-- One pass over two particles: if the bins list particle 1 in the window of particle 0,
the first displacement of the pair turns `Orig` into `Pushed`, and `Pushed` is kept by the
pair body in both orders, then `Pushed` holds on return. -/
theorem pushParticles_two_pass [FloorRing F] (sqrtf : F → F) (pos : ℤ → F)
    (firstCellParticle cellParticleIds : ℤ → ℤ) (pNumX pNumY : ℤ)
    (pInvSpacing r minDist2 : F) (Orig Pushed : (ℤ → F) → Prop) (h0 : Orig pos)
    (hlist : EnumeratesNeighbour firstCellParticle cellParticleIds 2 pNumX pNumY
      (binCoord pNumX pInvSpacing (pos (2 * 0)))
      (binCoord pNumY pInvSpacing (pos (2 * 0 + 1))) 1)
    (hfirst : ∀ s, Orig s → Pushed (pushPair sqrtf (2 * r) minDist2 0 1 s))
    (hkeep01 : ∀ s, Pushed s → Pushed (pushPair sqrtf (2 * r) minDist2 0 1 s))
    (hkeep10 : ∀ s, Pushed s → Pushed (pushPair sqrtf (2 * r) minDist2 1 0 s)) :
    Pushed (pushParticlesApart_native sqrtf pos firstCellParticle cellParticleIds 2 pNumX
      pNumY pInvSpacing 1 r minDist2) := by
  have hstep0 : Pushed (pushParticle sqrtf firstCellParticle cellParticleIds 2 pNumX pNumY
      pInvSpacing (2 * r) minDist2 0 pos) := by
    unfold pushParticle
    simp only []
    refine neighbourLoop_reach (fun s => Orig s ∨ Pushed s) Pushed
      _ _ _ _ _ _ _ 0 1 _ pos hlist (by norm_num) (by norm_num) (by norm_num)
      (Or.inl h0) ?_ ?_ ?_
    · intro j s hj hj0 hj1 hs
      have hj' : j = 1 := by omega
      subst hj'
      exact Or.inr (hs.elim (hfirst s) (hkeep01 s))
    · intro s hs
      exact hs.elim (hfirst s) (hkeep01 s)
    · intro j s hj hj0 hj1 hs
      have hj' : j = 1 := by omega
      subst hj'
      exact hkeep01 s hs
  have hstep1 : Pushed (pushParticle sqrtf firstCellParticle cellParticleIds 2 pNumX pNumY
      pInvSpacing (2 * r) minDist2 1
      (pushParticle sqrtf firstCellParticle cellParticleIds 2 pNumX pNumY pInvSpacing
        (2 * r) minDist2 0 pos)) := by
    unfold pushParticle at hstep0 ⊢
    simp only [] at hstep0 ⊢
    refine neighbourLoop_preserves Pushed _ _ _ _ _ _ _ _ _ _ hstep0 ?_
    intro j s hj hj0 hj1 hs
    have hj' : j = 0 := by omega
    subst hj'
    exact hkeep10 s hs
  have hres : pushParticlesApart_native sqrtf pos firstCellParticle cellParticleIds 2 pNumX
      pNumY pInvSpacing 1 r minDist2 =
      pushParticle sqrtf firstCellParticle cellParticleIds 2 pNumX pNumY pInvSpacing
        (2 * r) minDist2 1
        (pushParticle sqrtf firstCellParticle cellParticleIds 2 pNumX pNumY pInvSpacing
          (2 * r) minDist2 0 pos) := by
    unfold pushParticlesApart_native
    simp only []
    rw [forRange_zero_one, forRange_zero_two]
  rw [hres]
  exact hstep1

/-- With radius 1 and `minDist2 = 100`, one pass moves the particles at `(0, 0)` and
`(4, 0)` (distance `4 > 2`) to `(1, 0)` and `(3, 0)`. -/
theorem push_wide_range_example :
    pushParticlesApart_native Rat.sqrt (fun k => if k = 2 then (4 : ℚ) else 0)
        (fun k => if k = 0 then 0 else 2) (fun k => k) 2 1 1 1 1 1 100 (2 * 0) = 1 ∧
    pushParticlesApart_native Rat.sqrt (fun k => if k = 2 then (4 : ℚ) else 0)
        (fun k => if k = 0 then 0 else 2) (fun k => k) 2 1 1 1 1 1 100 (2 * 0 + 1) = 0 ∧
    pushParticlesApart_native Rat.sqrt (fun k => if k = 2 then (4 : ℚ) else 0)
        (fun k => if k = 0 then 0 else 2) (fun k => k) 2 1 1 1 1 1 100 (2 * 1) = 3 ∧
    pushParticlesApart_native Rat.sqrt (fun k => if k = 2 then (4 : ℚ) else 0)
        (fun k => if k = 0 then 0 else 2) (fun k => k) 2 1 1 1 1 1 100 (2 * 1 + 1) = 0 := by
  have h9 : (eps9 : ℚ) < 2 := by norm_num [eps9]
  have h94 : (eps9 : ℚ) < 4 := by norm_num [eps9]
  have hguard4 : ¬ ((4 : ℚ) * 4 > 100 ∨ (4 : ℚ) * 4 < eps12) := by norm_num [eps12]
  have hguard2 : ¬ ((2 : ℚ) * 2 > 100 ∨ (2 : ℚ) * 2 < eps12) := by norm_num [eps12]
  refine pushParticles_two_pass (F := ℚ) Rat.sqrt _ _ _ 1 1 1 1 100
    (fun s => s (2 * 0) = 0 ∧ s (2 * 0 + 1) = 0 ∧ s (2 * 1) = 4 ∧ s (2 * 1 + 1) = 0)
    (fun s => s (2 * 0) = 1 ∧ s (2 * 0 + 1) = 0 ∧ s (2 * 1) = 3 ∧ s (2 * 1 + 1) = 0)
    (by norm_num) ⟨0, 0, 1, ?_⟩ ?_ ?_ ?_
  · have f0 : ⌊(0 : ℚ)⌋ = 0 := by norm_num
    norm_num [binCoord, floorf, toInt, f0]
  · rintro s ⟨s0, s1, s2, s3⟩
    have hD : pairDistSq s 0 1 = 4 * 4 := by
      unfold pairDistSq
      simp only [add_zero]
      rw [s0, s1, s2, s3]
      norm_num
    obtain ⟨a0, a1, a2, a3⟩ := pushPair_apply Rat.sqrt (2 * 1) 100 0 1 s 4 (by norm_num)
      (by rw [hD]; exact hguard4) (by rw [hD]; exact ratSqrt_mul_self 4 (by norm_num)) h94
    rw [a0, a1, a2, a3, s0, s1, s2, s3]
    norm_num
  · rintro s ⟨s0, s1, s2, s3⟩
    have hD : pairDistSq s 0 1 = 2 * 2 := by
      unfold pairDistSq
      simp only [add_zero]
      rw [s0, s1, s2, s3]
      norm_num
    obtain ⟨a0, a1, a2, a3⟩ := pushPair_apply Rat.sqrt (2 * 1) 100 0 1 s 2 (by norm_num)
      (by rw [hD]; exact hguard2) (by rw [hD]; exact ratSqrt_mul_self 2 (by norm_num)) h9
    rw [a0, a1, a2, a3, s0, s1, s2, s3]
    norm_num
  · rintro s ⟨s0, s1, s2, s3⟩
    have hD : pairDistSq s 1 0 = 2 * 2 := by
      unfold pairDistSq
      simp only [add_zero]
      rw [s0, s1, s2, s3]
      norm_num
    obtain ⟨a0, a1, a2, a3⟩ := pushPair_apply Rat.sqrt (2 * 1) 100 1 0 s 2 (by norm_num)
      (by rw [hD]; exact hguard2) (by rw [hD]; exact ratSqrt_mul_self 2 (by norm_num)) h9
    rw [a0, a1, a2, a3, s0, s1, s2, s3]
    norm_num

/-- C21: the pair body of `pushParticlesApart_native` tests the pair against the passed
`minDist2` (a pair with `d2 > minDist2` or `d2 < 1e-12` is left where it is, whatever
`particleRadius` is), while the displacement of a pair that passes the test is computed
from `minDist = 2*particleRadius`
(`s_factor = 0.5 * (2*particleRadius - d) / d` for `d = sqrtf(d2) > 1e-9`); and for some
input with `minDist2 > (2*particleRadius)^2` a pair farther apart than `2*particleRadius` is
moved closer together by one pass of the kernel. -/
theorem C21_range_test_uses_minDist2 (sqrtf : F → F) (particleRadius minDist2 : F)
    (ii jj : ℤ) (pos : ℤ → F) :
    ((pairDistSq pos ii jj > minDist2 ∨ pairDistSq pos ii jj < eps12) →
      ∀ radius : F, pushPair sqrtf (2 * radius) minDist2 ii jj pos = pos) ∧
    (ii ≠ jj → ¬ (pairDistSq pos ii jj > minDist2 ∨ pairDistSq pos ii jj < eps12) →
      eps9 < sqrtf (pairDistSq pos ii jj) →
      pushPair sqrtf (2 * particleRadius) minDist2 ii jj pos (2 * ii) =
          pos (2 * ii) - (pos (2 * jj) - pos (2 * ii)) *
            ((1 / 2) * (2 * particleRadius - sqrtf (pairDistSq pos ii jj)) /
              sqrtf (pairDistSq pos ii jj)) ∧
      pushPair sqrtf (2 * particleRadius) minDist2 ii jj pos (2 * ii + 1) =
          pos (2 * ii + 1) - (pos (2 * jj + 1) - pos (2 * ii + 1)) *
            ((1 / 2) * (2 * particleRadius - sqrtf (pairDistSq pos ii jj)) /
              sqrtf (pairDistSq pos ii jj)) ∧
      pushPair sqrtf (2 * particleRadius) minDist2 ii jj pos (2 * jj) =
          pos (2 * jj) + (pos (2 * jj) - pos (2 * ii)) *
            ((1 / 2) * (2 * particleRadius - sqrtf (pairDistSq pos ii jj)) /
              sqrtf (pairDistSq pos ii jj)) ∧
      pushPair sqrtf (2 * particleRadius) minDist2 ii jj pos (2 * jj + 1) =
          pos (2 * jj + 1) + (pos (2 * jj + 1) - pos (2 * ii + 1)) *
            ((1 / 2) * (2 * particleRadius - sqrtf (pairDistSq pos ii jj)) /
              sqrtf (pairDistSq pos ii jj))) ∧
    (∃ (pos0 : ℤ → ℚ) (fcp cpi : ℤ → ℤ) (r0 m2 : ℚ),
      (2 * r0) * (2 * r0) < m2 ∧ (2 * r0) * (2 * r0) < pairDistSq pos0 0 1 ∧
      pairDistSq (pushParticlesApart_native Rat.sqrt pos0 fcp cpi 2 1 1 1 1 r0 m2) 0 1 <
        pairDistSq pos0 0 1) := by
  refine ⟨fun hskip radius => pushPair_skip sqrtf _ _ ii jj pos hskip,
    fun hne hin hd => pushPair_apply sqrtf _ _ ii jj pos _ hne hin rfl hd, ?_⟩
  refine ⟨fun k => if k = 2 then (4 : ℚ) else 0, fun k => if k = 0 then 0 else 2,
    fun k => k, 1, 100, by norm_num, by norm_num [pairDistSq], ?_⟩
  obtain ⟨q0, q1, q2, q3⟩ := push_wide_range_example
  have hafter : pairDistSq (pushParticlesApart_native Rat.sqrt
      (fun k => if k = 2 then (4 : ℚ) else 0) (fun k => if k = 0 then 0 else 2) (fun k => k)
      2 1 1 1 1 1 100) 0 1 = 2 * 2 := by
    unfold pairDistSq
    simp only [add_zero]
    rw [q0, q1, q2, q3]
    norm_num
  rw [hafter]
  norm_num [pairDistSq]

/-- Witness for C21 with `sqrtf = Rat.sqrt`, `minDist2 = 100` and particles at `(0, 0)`,
`(4, 0)`: the pair passes the test, and with radius 1 particle 0 moves to `x = 1`; the pair
at `(0, 0)`, `(11, 0)` fails the test for every radius. -/
theorem C21_range_test_uses_minDist2_witness :
    pushPair Rat.sqrt (2 * 1) 100 0 1 (fun k : ℤ => if k = 2 then (4 : ℚ) else 0) (2 * 0) =
      (fun k : ℤ => if k = 2 then (4 : ℚ) else 0) (2 * 0) -
        ((fun k : ℤ => if k = 2 then (4 : ℚ) else 0) (2 * 1) -
          (fun k : ℤ => if k = 2 then (4 : ℚ) else 0) (2 * 0)) *
        ((1 / 2) * (2 * 1 - Rat.sqrt
            (pairDistSq (fun k : ℤ => if k = 2 then (4 : ℚ) else 0) 0 1)) /
          Rat.sqrt (pairDistSq (fun k : ℤ => if k = 2 then (4 : ℚ) else 0) 0 1)) ∧
    pushPair Rat.sqrt (2 * 7) 100 0 1 (fun k : ℤ => if k = 2 then (11 : ℚ) else 0) =
      (fun k : ℤ => if k = 2 then (11 : ℚ) else 0) := by
  have hD : pairDistSq (fun k : ℤ => if k = 2 then (4 : ℚ) else 0) 0 1 = 4 * 4 := by
    norm_num [pairDistSq]
  have hE : pairDistSq (fun k : ℤ => if k = 2 then (11 : ℚ) else 0) 0 1 = 11 * 11 := by
    norm_num [pairDistSq]
  refine ⟨((C21_range_test_uses_minDist2 Rat.sqrt 1 100 0 1
      (fun k : ℤ => if k = 2 then (4 : ℚ) else 0)).2.1 (by norm_num) ?_ ?_).1,
    (C21_range_test_uses_minDist2 Rat.sqrt 1 100 0 1
      (fun k : ℤ => if k = 2 then (11 : ℚ) else 0)).1 (Or.inl ?_) 7⟩
  · rw [hD]
    norm_num [eps12]
  · rw [hD, ratSqrt_mul_self 4 (by norm_num)]
    norm_num [eps9]
  · rw [hE]
    norm_num

/-! ## C35: vector/scalar equivalence of boundary enforcement -/

/-- The value the all-scalar row leaves at every index. -/
theorem enforceRowScalar_apply (scalar : ℤ → F → F) (rowBase fNumY : ℤ) (f : ℤ → F) (x : ℤ) :
    enforceRowScalar scalar rowBase fNumY f x =
      if rowBase ≤ x ∧ x < rowBase + fNumY then scalar (x - rowBase) (f x) else f x := by
  unfold enforceRowScalar
  have hr := forRange_induction
    (fun j g => ∀ y, g y =
      if rowBase ≤ y ∧ y < rowBase + j then scalar (y - rowBase) (f y) else f y)
    0 fNumY (fun j g => Function.update g (rowBase + j) (scalar j (g (rowBase + j)))) f
    (by intro y; rw [if_neg (by omega)])
    (by
      intro k g hk0 _ hP y
      show Function.update g (rowBase + k) (scalar k (g (rowBase + k))) y = _
      rw [Function.update_apply, hP y, hP (rowBase + k)]
      by_cases hy : y = rowBase + k
      · have e : y - rowBase = k := by omega
        rw [if_pos hy, if_neg (by omega), if_pos (by omega), e, hy]
      · rw [if_neg hy]
        by_cases hin : rowBase ≤ y ∧ y < rowBase + k
        · rw [if_pos hin, if_pos (by omega)]
        · rw [if_neg hin, if_neg (by omega)])
  rw [hr x]
  rcases lt_or_le fNumY 0 with hneg | hpos
  · rw [max_eq_left (by omega), if_neg (by omega), if_neg (by omega)]
  · rw [max_eq_right hpos]

/-- A row handled by 4-wide blocks and a scalar remainder equals the row handled by the
scalar path alone, when each lane computes the scalar value. -/
theorem enforceRow_eq_scalar (lane scalar : ℤ → F → F)
    (hls : ∀ j old, lane j old = scalar j old) (rowBase fNumY : ℤ) (f : ℤ → F) :
    enforceRow lane scalar rowBase fNumY f = enforceRowScalar scalar rowBase fNumY f := by
  funext x
  rw [enforceRow_apply lane scalar hls, enforceRowScalar_apply]

/-- C35: for every face, the value of the 4-wide masked lane (`laneValue`: static mask gives
`0`, else the not-static-and-draggable mask gives the obstacle velocity, else the old value)
equals the value the scalar remainder path computes with `isCellStaticWall_native` /
`isCellDraggable_native` (`scalarValue`); hence the buffers produced by the boundary
enforcement of `u` and of `v` equal those of the loops in which every face is handled by the
scalar path, which do not depend on `fNumY mod 4` or on which path handles a face. -/
theorem C35_vector_scalar_equivalence (fNumX fNumY : ℤ)
    (h circleCenterX circleCenterY circleRadius : F) (isObstacleActive : Bool)
    (obstacleX obstacleY obstacleRadiusCpp obstacleVelX obstacleVelY : F) (u v : ℤ → F) :
    (∀ (obstacleVel : F) (ax ay bx by_ : ℤ) (old : F),
      laneValue fNumX fNumY h circleCenterX circleCenterY circleRadius isObstacleActive
          obstacleX obstacleY obstacleRadiusCpp obstacleVel ax ay bx by_ old =
        scalarValue fNumX fNumY h circleCenterX circleCenterY circleRadius isObstacleActive
          obstacleX obstacleY obstacleRadiusCpp obstacleVel ax ay bx by_ old) ∧
    enforceU fNumX fNumY h circleCenterX circleCenterY circleRadius isObstacleActive
        obstacleX obstacleY obstacleRadiusCpp obstacleVelX u =
      enforceUScalar fNumX fNumY h circleCenterX circleCenterY circleRadius isObstacleActive
        obstacleX obstacleY obstacleRadiusCpp obstacleVelX u ∧
    enforceV fNumX fNumY h circleCenterX circleCenterY circleRadius isObstacleActive
        obstacleX obstacleY obstacleRadiusCpp obstacleVelY v =
      enforceVScalar fNumX fNumY h circleCenterX circleCenterY circleRadius isObstacleActive
        obstacleX obstacleY obstacleRadiusCpp obstacleVelY v := by
  refine ⟨fun _ _ _ _ _ _ => laneValue_eq_scalarValue _ _ _ _ _ _ _ _ _ _ _ _ _ _ _ _, ?_, ?_⟩
  · unfold enforceU enforceUScalar
    apply forRange_congr
    intro i g _ _
    exact enforceRow_eq_scalar _ _
      (fun j old => laneValue_eq_scalarValue _ _ _ _ _ _ _ _ _ _ _ _ _ _ _ _) _ _ _
  · unfold enforceV enforceVScalar
    apply forRange_congr
    intro i g _ _
    exact enforceRow_eq_scalar _ _
      (fun j old => laneValue_eq_scalarValue _ _ _ _ _ _ _ _ _ _ _ _ _ _ _ _) _ _ _

/-! ## C31: the distance of a displaced pair -/

/-- C31: whenever the pair body of `pushParticlesApart_native` displaces a pair
`(ii, jj ≠ ii)` (the in-range test passes) at distance `d = sqrtf(d2)` with `1e-9 < d`,
immediately after the displacement the separation vector of the two particles is the old
separation vector times `minDist / d`, with `minDist = 2*particleRadius`: the particles lie
on the same line, with the same orientation when `particleRadius > 0` (positive factor);
and in exact arithmetic (`sqrtf` exact at `d2`) they are exactly `minDist` apart: their
squared distance is `minDist^2`, and for `particleRadius ≥ 0` their distance (`sqrtf` exact
at the new squared distance) is `minDist`. -/
theorem C31_pair_resolution_distance (sqrtf : F → F) (particleRadius minDist2 : F)
    (ii jj : ℤ) (pos : ℤ → F) (hne : ii ≠ jj)
    (hin : ¬ (pairDistSq pos ii jj > minDist2 ∨ pairDistSq pos ii jj < eps12))
    (hd : eps9 < sqrtf (pairDistSq pos ii jj)) :
    (pushPair sqrtf (2 * particleRadius) minDist2 ii jj pos (2 * jj) -
        pushPair sqrtf (2 * particleRadius) minDist2 ii jj pos (2 * ii) =
      (pos (2 * jj) - pos (2 * ii)) *
        (2 * particleRadius / sqrtf (pairDistSq pos ii jj)) ∧
     pushPair sqrtf (2 * particleRadius) minDist2 ii jj pos (2 * jj + 1) -
        pushPair sqrtf (2 * particleRadius) minDist2 ii jj pos (2 * ii + 1) =
      (pos (2 * jj + 1) - pos (2 * ii + 1)) *
        (2 * particleRadius / sqrtf (pairDistSq pos ii jj))) ∧
    (0 < particleRadius → 0 < 2 * particleRadius / sqrtf (pairDistSq pos ii jj)) ∧
    (SqrtExactAt sqrtf (pairDistSq pos ii jj) →
      pairDistSq (pushPair sqrtf (2 * particleRadius) minDist2 ii jj pos) ii jj =
        (2 * particleRadius) * (2 * particleRadius)) ∧
    (0 ≤ particleRadius → SqrtExactAt sqrtf (pairDistSq pos ii jj) →
      SqrtExactAt sqrtf (pairDistSq (pushPair sqrtf (2 * particleRadius) minDist2 ii jj pos)
        ii jj) →
      sqrtf (pairDistSq (pushPair sqrtf (2 * particleRadius) minDist2 ii jj pos) ii jj) =
        2 * particleRadius) := by
  have h9 : (0 : F) < eps9 := by unfold eps9; norm_num
  have hdpos : 0 < sqrtf (pairDistSq pos ii jj) := lt_trans h9 hd
  have hdne : sqrtf (pairDistSq pos ii jj) ≠ 0 := ne_of_gt hdpos
  obtain ⟨a0, a1, a2, a3⟩ := pushPair_apply sqrtf (2 * particleRadius) minDist2 ii jj pos
    (sqrtf (pairDistSq pos ii jj)) hne hin rfl hd
  have hx : pushPair sqrtf (2 * particleRadius) minDist2 ii jj pos (2 * jj) -
        pushPair sqrtf (2 * particleRadius) minDist2 ii jj pos (2 * ii) =
      (pos (2 * jj) - pos (2 * ii)) *
        (2 * particleRadius / sqrtf (pairDistSq pos ii jj)) := by
    rw [a0, a2]
    field_simp
    ring
  have hy : pushPair sqrtf (2 * particleRadius) minDist2 ii jj pos (2 * jj + 1) -
        pushPair sqrtf (2 * particleRadius) minDist2 ii jj pos (2 * ii + 1) =
      (pos (2 * jj + 1) - pos (2 * ii + 1)) *
        (2 * particleRadius / sqrtf (pairDistSq pos ii jj)) := by
    rw [a1, a3]
    field_simp
    ring
  have hsqd : SqrtExactAt sqrtf (pairDistSq pos ii jj) →
      pairDistSq (pushPair sqrtf (2 * particleRadius) minDist2 ii jj pos) ii jj =
        (2 * particleRadius) * (2 * particleRadius) := by
    intro hsq
    have hD : pairDistSq pos ii jj =
        (pos (2 * jj) - pos (2 * ii)) * (pos (2 * jj) - pos (2 * ii)) +
          (pos (2 * jj + 1) - pos (2 * ii + 1)) * (pos (2 * jj + 1) - pos (2 * ii + 1)) := by
      unfold pairDistSq
      simp only [add_zero]
    have hnew : pairDistSq (pushPair sqrtf (2 * particleRadius) minDist2 ii jj pos) ii jj =
        (pushPair sqrtf (2 * particleRadius) minDist2 ii jj pos (2 * jj) -
          pushPair sqrtf (2 * particleRadius) minDist2 ii jj pos (2 * ii)) *
        (pushPair sqrtf (2 * particleRadius) minDist2 ii jj pos (2 * jj) -
          pushPair sqrtf (2 * particleRadius) minDist2 ii jj pos (2 * ii)) +
        (pushPair sqrtf (2 * particleRadius) minDist2 ii jj pos (2 * jj + 1) -
          pushPair sqrtf (2 * particleRadius) minDist2 ii jj pos (2 * ii + 1)) *
        (pushPair sqrtf (2 * particleRadius) minDist2 ii jj pos (2 * jj + 1) -
          pushPair sqrtf (2 * particleRadius) minDist2 ii jj pos (2 * ii + 1)) := by
      unfold pairDistSq
      simp only [add_zero]
    rw [hnew, hx, hy]
    have hsq2 : sqrtf (pairDistSq pos ii jj) * sqrtf (pairDistSq pos ii jj) =
        (pos (2 * jj) - pos (2 * ii)) * (pos (2 * jj) - pos (2 * ii)) +
          (pos (2 * jj + 1) - pos (2 * ii + 1)) * (pos (2 * jj + 1) - pos (2 * ii + 1)) := by
      rw [hsq.2]
      exact hD
    field_simp
    linear_combination (2 * particleRadius) * (2 * particleRadius) * hsq2.symm
  refine ⟨⟨hx, hy⟩, fun hr => div_pos (by linarith) hdpos, hsqd, fun hr hsq hnew => ?_⟩
  have h2r : 0 ≤ 2 * particleRadius := by linarith
  exact (mul_self_inj hnew.1 h2r).mp (hnew.2.trans (hsqd hsq))

/-- Witness for C31 with radius 1, `minDist2 = 4`, `sqrtf = Rat.sqrt` and particles at
`(0, 0)` and `(1, 0)`: after the pair body the squared distance is `4 = minDist^2`. -/
theorem C31_pair_resolution_distance_witness :
    pairDistSq (pushPair Rat.sqrt (2 * 1) 4 0 1 (fun k : ℤ => if k = 2 then (1 : ℚ) else 0))
      0 1 = (2 * 1) * (2 * 1) := by
  have hA : pairDistSq (fun k : ℤ => if k = 2 then (1 : ℚ) else 0) 0 1 = 1 * 1 := by
    norm_num [pairDistSq]
  have hroot : Rat.sqrt (pairDistSq (fun k : ℤ => if k = 2 then (1 : ℚ) else 0) 0 1) = 1 := by
    rw [hA, ratSqrt_mul_self 1 (by norm_num)]
  refine (C31_pair_resolution_distance Rat.sqrt 1 4 0 1 _ (by norm_num) ?_ ?_).2.2.1 ?_
  · rw [hA]
    norm_num [eps12]
  · rw [hroot]
    norm_num [eps9]
  · refine ⟨Rat.sqrt_nonneg _, ?_⟩
    rw [hroot, hA]

/-! ## C32: the transfer stencil stays inside the grid -/

/-- One axis of the transfer stencil: for `0 ≤ f ≤ fNum - 1` and `fNum ≥ 2` the lower index
`static_cast<int>(fminf(floorf(f), fNum - 2))` lies in `[0, fNum - 2]` and the offset
`f - x0` in `[0, 1]`. -/
theorem stencil_axis [FloorRing F] (f : F) (fNum : ℤ) (hf0 : 0 ≤ f)
    (hf1 : f ≤ ((fNum - 1 : ℤ) : F)) (hN : 2 ≤ fNum) :
    0 ≤ toInt (min (floorf f) (((fNum - 2 : ℤ) : F))) ∧
    toInt (min (floorf f) (((fNum - 2 : ℤ) : F))) ≤ fNum - 2 ∧
    0 ≤ f - ((toInt (min (floorf f) (((fNum - 2 : ℤ) : F))) : ℤ) : F) ∧
    f - ((toInt (min (floorf f) (((fNum - 2 : ℤ) : F))) : ℤ) : F) ≤ 1 := by
  have hfl0 : 0 ≤ ⌊f⌋ := Int.floor_nonneg.mpr hf0
  have hm0 : 0 ≤ min ⌊f⌋ (fNum - 2) := le_min hfl0 (by omega)
  have e : min (floorf f) (((fNum - 2 : ℤ) : F)) = ((min ⌊f⌋ (fNum - 2) : ℤ) : F) := by
    unfold floorf
    push_cast
    rfl
  rw [e, toInt_intCast _ hm0]
  refine ⟨hm0, min_le_right _ _, ?_, ?_⟩
  · have h1 : ((min ⌊f⌋ (fNum - 2) : ℤ) : F) ≤ ((⌊f⌋ : ℤ) : F) :=
      Int.cast_le.mpr (min_le_left _ _)
    have h2 : ((⌊f⌋ : ℤ) : F) ≤ f := Int.floor_le f
    linarith
  · rcases le_total ⌊f⌋ (fNum - 2) with hle | hge
    · rw [min_eq_left hle]
      have := Int.lt_floor_add_one f
      linarith
    · rw [min_eq_right hge]
      push_cast at hf1 ⊢
      linarith

/-- The clamped, shifted and scaled coordinate `fx` of the transfer stencil lies in
`[0, fNum - 1]` for either offset (`0` or `h/2`). -/
theorem stencil_coord_range (fNum : ℤ) (h p : F) (c : Prop) [Decidable c] (hh : 0 < h)
    (hN : 2 ≤ fNum) :
    0 ≤ (max h (min p (((fNum - 1 : ℤ) : F) * h)) - (if c then 0 else (1 / 2) * h)) * (1 / h) ∧
    (max h (min p (((fNum - 1 : ℤ) : F) * h)) - (if c then 0 else (1 / 2) * h)) * (1 / h) ≤
      ((fNum - 1 : ℤ) : F) := by
  have hNF : (1 : F) ≤ ((fNum - 1 : ℤ) : F) := by exact_mod_cast (by omega : 1 ≤ fNum - 1)
  have hmax : h ≤ ((fNum - 1 : ℤ) : F) * h := by nlinarith
  have hlo : h ≤ max h (min p (((fNum - 1 : ℤ) : F) * h)) := le_max_left _ _
  have hhi : max h (min p (((fNum - 1 : ℤ) : F) * h)) ≤ ((fNum - 1 : ℤ) : F) * h :=
    max_le hmax (min_le_right _ _)
  have hoff : 0 ≤ (if c then (0 : F) else (1 / 2) * h) ∧
      (if c then (0 : F) else (1 / 2) * h) ≤ (1 / 2) * h := by
    split_ifs
    · exact ⟨le_rfl, by linarith⟩
    · exact ⟨by linarith, le_rfl⟩
  have hinv : 0 < 1 / h := one_div_pos.mpr hh
  constructor
  · apply mul_nonneg _ (le_of_lt hinv)
    linarith [hoff.2]
  · have h1 : (max h (min p (((fNum - 1 : ℤ) : F) * h)) - (if c then 0 else (1 / 2) * h)) ≤
        ((fNum - 1 : ℤ) : F) * h := by linarith [hoff.1]
    calc (max h (min p (((fNum - 1 : ℤ) : F) * h)) - (if c then 0 else (1 / 2) * h)) * (1 / h)
        ≤ (((fNum - 1 : ℤ) : F) * h) * (1 / h) :=
          mul_le_mul_of_nonneg_right h1 (le_of_lt hinv)
      _ = ((fNum - 1 : ℤ) : F) := by field_simp

/-- The transfer stencil for `h > 0`, `invH = 1/h` and a grid of at least 2 x 2 cells:
lower-left cell `(x0, y0)` with `0 ≤ x0 ≤ fNumX - 2`, `0 ≤ y0 ≤ fNumY - 2` and offsets
`tx`, `ty` in `[0, 1]`. -/
theorem stencil_spec [FloorRing F] (fNumX fNumY : ℤ) (h : F) (comp : ℤ) (px py : F)
    (hh : 0 < h) (hx : 2 ≤ fNumX) (hy : 2 ≤ fNumY) :
    ∃ (x0 y0 : ℤ) (tx ty : F),
      (0 ≤ x0 ∧ x0 ≤ fNumX - 2) ∧ (0 ≤ y0 ∧ y0 ≤ fNumY - 2) ∧
      (0 ≤ tx ∧ tx ≤ 1) ∧ (0 ≤ ty ∧ ty ≤ 1) ∧
      stencil fNumX fNumY h (1 / h) comp px py =
        { w0 := (1 - tx) * (1 - ty), w1 := tx * (1 - ty), w2 := tx * ty, w3 := (1 - tx) * ty,
          n0 := x0 * fNumY + y0, n1 := (x0 + 1) * fNumY + y0,
          n2 := (x0 + 1) * fNumY + (y0 + 1), n3 := x0 * fNumY + (y0 + 1) } := by
  obtain ⟨fx0, fx1⟩ := stencil_coord_range (F := F) fNumX h px (comp = 0) hh hx
  obtain ⟨fy0, fy1⟩ := stencil_coord_range (F := F) fNumY h py (¬ comp = 0) hh hy
  have hfy : (if ¬ comp = 0 then (0 : F) else (1 / 2) * h) =
      (if comp = 0 then (1 / 2) * h else 0) := by
    by_cases hc : comp = 0
    · rw [if_neg (not_not.mpr hc), if_pos hc]
    · rw [if_pos hc, if_neg hc]
  rw [hfy] at fy0 fy1
  obtain ⟨a0, a1, a2, a3⟩ := stencil_axis _ fNumX fx0 fx1 hx
  obtain ⟨b0, b1, b2, b3⟩ := stencil_axis _ fNumY fy0 fy1 hy
  exact ⟨_, _, _, _, ⟨a0, a1⟩, ⟨b0, b1⟩, ⟨a2, a3⟩, ⟨b2, b3⟩, rfl⟩

/-- C32: for `h > 0`, `invH = 1/h`, `fNumX ≥ 2`, `fNumY ≥ 2`, every particle position and
either component, the stencil used by both modes of `transferVelocities_native` has
weights `w0..w3` each in `[0, 1]` and summing to `1`, and corner indices
`n0 = x0*n + y0`, `n1 = x1*n + y0`, `n2 = x1*n + y1`, `n3 = x0*n + y1` with `x0, x1` in
`[0, fNumX-1]` and `y0, y1` in `[0, fNumY-1]`, all in `[0, fNumX*fNumY)`: the guard
`nk >= 0 && nk < fNumCells` of every deposit and read holds, and no corner wraps into a
neighbouring column. -/
theorem C32_stencil_safety [FloorRing F] (fNumX fNumY : ℤ) (h : F) (comp : ℤ) (px py : F)
    (st : Stencil F) (hh : 0 < h) (hx : 2 ≤ fNumX) (hy : 2 ≤ fNumY)
    (hst : stencil fNumX fNumY h (1 / h) comp px py = st) :
    ((0 ≤ st.w0 ∧ st.w0 ≤ 1) ∧ (0 ≤ st.w1 ∧ st.w1 ≤ 1) ∧ (0 ≤ st.w2 ∧ st.w2 ≤ 1) ∧
      (0 ≤ st.w3 ∧ st.w3 ≤ 1)) ∧
    st.w0 + st.w1 + st.w2 + st.w3 = 1 ∧
    (∃ x0 x1 y0 y1 : ℤ,
      (0 ≤ x0 ∧ x0 ≤ fNumX - 1) ∧ (0 ≤ x1 ∧ x1 ≤ fNumX - 1) ∧
      (0 ≤ y0 ∧ y0 ≤ fNumY - 1) ∧ (0 ≤ y1 ∧ y1 ≤ fNumY - 1) ∧
      st.n0 = x0 * fNumY + y0 ∧ st.n1 = x1 * fNumY + y0 ∧
      st.n2 = x1 * fNumY + y1 ∧ st.n3 = x0 * fNumY + y1) ∧
    ((0 ≤ st.n0 ∧ st.n0 < fNumX * fNumY) ∧ (0 ≤ st.n1 ∧ st.n1 < fNumX * fNumY) ∧
      (0 ≤ st.n2 ∧ st.n2 < fNumX * fNumY) ∧ (0 ≤ st.n3 ∧ st.n3 < fNumX * fNumY)) := by
  obtain ⟨x0, y0, tx, ty, ⟨a0, a1⟩, ⟨b0, b1⟩, ⟨t0, t1⟩, ⟨u0, u1⟩, hs⟩ :=
    stencil_spec (F := F) fNumX fNumY h comp px py hh hx hy
  rw [← hst, hs]
  have hsx0 : 0 ≤ 1 - tx := by linarith
  have hsx1 : 1 - tx ≤ 1 := by linarith
  have hsy0 : 0 ≤ 1 - ty := by linarith
  have hsy1 : 1 - ty ≤ 1 := by linarith
  have hprod : ∀ a b : F, 0 ≤ a → a ≤ 1 → 0 ≤ b → b ≤ 1 → 0 ≤ a * b ∧ a * b ≤ 1 := by
    intro a b ha0 ha1 hb0 hb1
    exact ⟨mul_nonneg ha0 hb0, by nlinarith⟩
  refine ⟨⟨hprod _ _ hsx0 hsx1 hsy0 hsy1, hprod _ _ t0 t1 hsy0 hsy1, hprod _ _ t0 t1 u0 u1,
    hprod _ _ hsx0 hsx1 u0 u1⟩, ?_, ?_, ?_⟩
  · show (1 - tx) * (1 - ty) + tx * (1 - ty) + tx * ty + (1 - tx) * ty = 1
    ring
  · exact ⟨x0, x0 + 1, y0, y0 + 1, ⟨a0, by omega⟩, ⟨by omega, by omega⟩, ⟨b0, by omega⟩,
      ⟨by omega, by omega⟩, rfl, rfl, rfl, rfl⟩
  · exact ⟨cellIndex_inRange fNumX fNumY x0 y0 a0 (by omega) b0 (by omega),
      cellIndex_inRange fNumX fNumY (x0 + 1) y0 (by omega) (by omega) b0 (by omega),
      cellIndex_inRange fNumX fNumY (x0 + 1) (y0 + 1) (by omega) (by omega) (by omega)
        (by omega),
      cellIndex_inRange fNumX fNumY x0 (y0 + 1) a0 (by omega) (by omega) (by omega)⟩

/-- Witness for C32 on a 4 x 4 grid with `h = 1`: the weights of the stencil of the
position `(7/4, 7/4)` for component 0 sum to `1` and its first corner is a grid index. -/
theorem C32_stencil_safety_witness :
    (stencil 4 4 (1 : ℚ) (1 / 1) 0 (7 / 4) (7 / 4)).w0 +
        (stencil 4 4 (1 : ℚ) (1 / 1) 0 (7 / 4) (7 / 4)).w1 +
        (stencil 4 4 (1 : ℚ) (1 / 1) 0 (7 / 4) (7 / 4)).w2 +
        (stencil 4 4 (1 : ℚ) (1 / 1) 0 (7 / 4) (7 / 4)).w3 = 1 ∧
    (0 ≤ (stencil 4 4 (1 : ℚ) (1 / 1) 0 (7 / 4) (7 / 4)).n0 ∧
      (stencil 4 4 (1 : ℚ) (1 / 1) 0 (7 / 4) (7 / 4)).n0 < 4 * 4) :=
  ⟨(C32_stencil_safety (F := ℚ) 4 4 1 0 (7 / 4) (7 / 4) _ (by norm_num) (by norm_num)
      (by norm_num) rfl).2.1,
    (C32_stencil_safety (F := ℚ) 4 4 1 0 (7 / 4) (7 / 4) _ (by norm_num) (by norm_num)
      (by norm_num) rfl).2.2.2.1⟩

/-! ## C33: the density grid conserves the number of particles -/

/-- One axis of the density stencil: for `h > 0` and `fNum ≥ 2` the lower index
`static_cast<int>(floorf((clamp(p, h, (fNum-1)h) - h/2) * (1/h)))` lies in `[0, fNum - 2]`
and the offset in `[0, 1]`. -/
theorem density_axis [FloorRing F] (fNum : ℤ) (h p : F) (hh : 0 < h) (hN : 2 ≤ fNum) :
    ∃ (k : ℤ) (t : F),
      toInt (floorf ((clamp_cpp p h (((fNum - 1 : ℤ) : F) * h) - 1 / 2 * h) * (1 / h))) = k ∧
      (clamp_cpp p h (((fNum - 1 : ℤ) : F) * h) - 1 / 2 * h - (k : F) * h) * (1 / h) = t ∧
      0 ≤ k ∧ k < fNum - 1 ∧ 0 ≤ t ∧ t ≤ 1 := by
  have hNF : (1 : F) ≤ ((fNum - 1 : ℤ) : F) := by exact_mod_cast (by omega : 1 ≤ fNum - 1)
  have hmax : h ≤ ((fNum - 1 : ℤ) : F) * h := by nlinarith
  have hlo : h ≤ clamp_cpp p h (((fNum - 1 : ℤ) : F) * h) := le_max_left _ _
  have hhi : clamp_cpp p h (((fNum - 1 : ℤ) : F) * h) ≤ ((fNum - 1 : ℤ) : F) * h :=
    max_le hmax (min_le_right _ _)
  generalize clamp_cpp p h (((fNum - 1 : ℤ) : F) * h) = c at hlo hhi ⊢
  have hinv : 0 < 1 / h := one_div_pos.mpr hh
  have hne : h ≠ 0 := ne_of_gt hh
  have e : (c - 1 / 2 * h) * (1 / h) = c / h - 1 / 2 := by
    have e1 : (c - 1 / 2 * h) * (1 / h) = c / h - 1 / 2 * (h * (1 / h)) := by ring
    rw [e1, mul_one_div_cancel hne, mul_one]
  have hc0 : 1 ≤ c / h := by
    rw [le_div_iff₀ hh]
    linarith
  have hc1 : c / h ≤ ((fNum - 1 : ℤ) : F) := by
    rw [div_le_iff₀ hh]
    exact hhi
  have hf0 : (0 : F) ≤ c / h - 1 / 2 := by linarith
  have hfl0 : 0 ≤ ⌊c / h - 1 / 2⌋ := Int.floor_nonneg.mpr hf0
  have hfl1 : ⌊c / h - 1 / 2⌋ < fNum - 1 := by
    rw [Int.floor_lt]
    linarith
  refine ⟨⌊c / h - 1 / 2⌋, c / h - 1 / 2 - ((⌊c / h - 1 / 2⌋ : ℤ) : F), ?_, ?_, hfl0, hfl1,
    ?_, ?_⟩
  · rw [e]
    unfold floorf
    exact toInt_intCast _ hfl0
  · field_simp
    ring
  · have := Int.floor_le (c / h - 1 / 2)
    linarith
  · have := Int.lt_floor_add_one (c / h - 1 / 2)
    linarith

/-- For `h > 0`, `invH = 1/h` and a grid of at least 2 x 2 cells the accumulation of a
particle never takes the skip branch: it adds four weights in `[0, 1]` that sum to one at
four cells inside the grid. -/
theorem densityParticle_spec [FloorRing F] (fNumX fNumY : ℤ) (h : F) (pos : ℤ → F) (i : ℤ)
    (hh : 0 < h) (hx : 2 ≤ fNumX) (hy : 2 ≤ fNumY) :
    ∃ (x0 y0 : ℤ) (tx ty : F),
      (0 ≤ x0 ∧ x0 < fNumX - 1) ∧ (0 ≤ y0 ∧ y0 < fNumY - 1) ∧
      (0 ≤ tx ∧ tx ≤ 1) ∧ (0 ≤ ty ∧ ty ≤ 1) ∧
      ∀ grid : ℤ → F, densityParticle (1 / h) fNumX fNumY h pos i grid =
        addAt (fNumX * fNumY) (x0 * fNumY + (y0 + 1)) ((1 - tx) * ty)
          (addAt (fNumX * fNumY) ((x0 + 1) * fNumY + (y0 + 1)) (tx * ty)
            (addAt (fNumX * fNumY) ((x0 + 1) * fNumY + y0) (tx * (1 - ty))
              (addAt (fNumX * fNumY) (x0 * fNumY + y0) ((1 - tx) * (1 - ty)) grid))) := by
  obtain ⟨x0, tx, ex0, etx, a0, a1, a2, a3⟩ := density_axis fNumX h (pos (2 * i)) hh hx
  obtain ⟨y0, ty, ey0, ety, b0, b1, b2, b3⟩ := density_axis fNumY h (pos (2 * i + 1)) hh hy
  exact ⟨x0, y0, tx, ty, ⟨a0, a1⟩, ⟨b0, b1⟩, ⟨a2, a3⟩, ⟨b2, b3⟩, fun grid =>
    densityParticle_eval (1 / h) fNumX fNumY h pos i grid x0 y0 tx ty ex0 ey0 etx ety
      ⟨a0, a1, b0, b1⟩⟩

/-- Adding `w` at an index inside the grid raises the sum of the grid by `w`. -/
theorem gridSum_addAt (N idx : ℤ) (w : F) (grid : ℤ → F) (h0 : 0 ≤ idx) (h1 : idx < N) :
    gridSum (addAt N idx w grid) N = gridSum grid N + w := by
  unfold gridSum
  rw [Finset.sum_congr rfl (fun x _ => addAt_apply N idx w grid x), Finset.sum_add_distrib]
  have e : ∀ x ∈ Finset.Ico (0 : ℤ) N,
      (if idx = x ∧ 0 ≤ idx ∧ idx < N then w else 0) = (if idx = x then w else 0) := by
    intro x _
    by_cases hx : idx = x
    · rw [if_pos ⟨hx, h0, h1⟩, if_pos hx]
    · rw [if_neg (fun hc => hx hc.1), if_neg hx]
  rw [Finset.sum_congr rfl e, Finset.sum_ite_eq, if_pos (Finset.mem_Ico.mpr ⟨h0, h1⟩)]

/-- Adding a nonnegative amount keeps every entry nonnegative. -/
theorem addAt_nonneg (N idx : ℤ) (w : F) (grid : ℤ → F) (x : ℤ) (hw : 0 ≤ w)
    (hg : 0 ≤ grid x) : 0 ≤ addAt N idx w grid x := by
  rw [addAt_apply]
  by_cases hc : idx = x ∧ 0 ≤ idx ∧ idx < N
  · rw [if_pos hc]
    exact add_nonneg hg hw
  · rw [if_neg hc, add_zero]
    exact hg

/-- Two grids that agree at `x` still agree at `x` after the same guarded addition. -/
theorem addAt_agree (N idx : ℤ) (w : F) (g1 g2 : ℤ → F) (x : ℤ) (hg : g1 x = g2 x) :
    addAt N idx w g1 x = addAt N idx w g2 x := by
  rw [addAt_apply, addAt_apply, hg]

/-- Relational loop rule for `forRange`: two runs of the same loop from related states end
in related states. -/
theorem forRange_rel {σ : Type} (R : σ → σ → Prop) (lo hi : ℤ) (body : ℤ → σ → σ)
    (s1 s2 : σ) (h0 : R s1 s2)
    (hstep : ∀ k a b, lo ≤ k → k < hi → R a b → R (body k a) (body k b)) :
    R (forRange lo hi body s1) (forRange lo hi body s2) := by
  have key := forRange_preserves (fun p : σ × σ => R p.1 p.2) lo hi
    (fun k p => (body k p.1, body k p.2)) (s1, s2) h0
    (fun k p hk0 hk1 hp => hstep k p.1 p.2 hk0 hk1 hp)
  have e1 : ∀ p : σ × σ, (forRange lo hi (fun k p => (body k p.1, body k p.2)) p).1 =
      forRange lo hi body p.1 := by
    intro p
    unfold forRange
    induction (List.range (hi - lo).toNat) generalizing p with
    | nil => rfl
    | cons a l ih =>
      simp only [List.foldl_cons]
      rw [ih]
  have e2 : ∀ p : σ × σ, (forRange lo hi (fun k p => (body k p.1, body k p.2)) p).2 =
      forRange lo hi body p.2 := by
    intro p
    unfold forRange
    induction (List.range (hi - lo).toNat) generalizing p with
    | nil => rfl
    | cons a l ih =>
      simp only [List.foldl_cons]
      rw [ih]
  have key2 : R (forRange lo hi (fun k p => (body k p.1, body k p.2)) (s1, s2)).1
      (forRange lo hi (fun k p => (body k p.1, body k p.2)) (s1, s2)).2 := key
  rw [e1, e2] at key2
  exact key2

/-- C33: for `h > 0`, `invH = 1/h`, `fNumX ≥ 2`, `fNumY ≥ 2` and any `numParticles ≥ 0`
particles at any positions, in `updateParticleDensityGrid_native` (1) no particle takes the
skip branch: each adds four weights of `[0, 1]` at four cells inside the grid; (2) every
entry of the grid is `≥ 0` on return; (3) the sum of all entries equals `numParticles`; and
(4) the returned grid is the same for any previous grid contents and any
`particleRestDensity`. -/
theorem C33_density_mass_conservation [FloorRing F] (numParticles : ℤ) (rest : F)
    (fNumX fNumY : ℤ) (h : F) (pos grid : ℤ → F) (hh : 0 < h) (hx : 2 ≤ fNumX)
    (hy : 2 ≤ fNumY) (hn : 0 ≤ numParticles) :
    (∀ i : ℤ, ∃ (x0 y0 : ℤ) (tx ty : F),
      (0 ≤ x0 ∧ x0 < fNumX - 1) ∧ (0 ≤ y0 ∧ y0 < fNumY - 1) ∧
      (0 ≤ tx ∧ tx ≤ 1) ∧ (0 ≤ ty ∧ ty ≤ 1) ∧
      ∀ g : ℤ → F, densityParticle (1 / h) fNumX fNumY h pos i g =
        addAt (fNumX * fNumY) (x0 * fNumY + (y0 + 1)) ((1 - tx) * ty)
          (addAt (fNumX * fNumY) ((x0 + 1) * fNumY + (y0 + 1)) (tx * ty)
            (addAt (fNumX * fNumY) ((x0 + 1) * fNumY + y0) (tx * (1 - ty))
              (addAt (fNumX * fNumY) (x0 * fNumY + y0) ((1 - tx) * (1 - ty)) g)))) ∧
    (∀ x, 0 ≤ x → x < fNumX * fNumY →
      0 ≤ updateParticleDensityGrid_native numParticles rest (1 / h) fNumX fNumY h pos grid x) ∧
    gridSum (updateParticleDensityGrid_native numParticles rest (1 / h) fNumX fNumY h pos grid)
      (fNumX * fNumY) = (numParticles : F) ∧
    (∀ (rest2 : F) (grid2 : ℤ → F) (x : ℤ), 0 ≤ x → x < fNumX * fNumY →
      updateParticleDensityGrid_native numParticles rest (1 / h) fNumX fNumY h pos grid x =
        updateParticleDensityGrid_native numParticles rest2 (1 / h) fNumX fNumY h pos grid2 x) := by
  refine ⟨fun i => densityParticle_spec fNumX fNumY h pos i hh hx hy, ?_, ?_, ?_⟩
  · intro x hx0 hx1
    unfold updateParticleDensityGrid_native
    refine forRange_preserves (fun g : ℤ → F => 0 ≤ g x) 0 numParticles _ _ ?_ ?_
    · show 0 ≤ forRange 0 (fNumX * fNumY) (fun i g => Function.update g i 0) grid x
      rw [zeroGrid_apply, if_pos ⟨hx0, hx1⟩]
    · intro i g _ _ hg
      obtain ⟨x0, y0, tx, ty, _, _, ⟨t0, t1⟩, ⟨s0, s1⟩, hev⟩ :=
        densityParticle_spec fNumX fNumY h pos i hh hx hy
      show 0 ≤ densityParticle (1 / h) fNumX fNumY h pos i g x
      rw [hev g]
      have u0 : 0 ≤ 1 - tx := by linarith
      have v0 : 0 ≤ 1 - ty := by linarith
      exact addAt_nonneg _ _ _ _ _ (mul_nonneg u0 s0)
        (addAt_nonneg _ _ _ _ _ (mul_nonneg t0 s0)
          (addAt_nonneg _ _ _ _ _ (mul_nonneg t0 v0)
            (addAt_nonneg _ _ _ _ _ (mul_nonneg u0 v0) hg)))
  · unfold updateParticleDensityGrid_native
    have key := forRange_induction
      (fun m (g : ℤ → F) => gridSum g (fNumX * fNumY) = ((m : ℤ) : F)) 0 numParticles
      (fun i g => densityParticle (1 / h) fNumX fNumY h pos i g)
      (forRange 0 (fNumX * fNumY) (fun i g => Function.update g i 0) grid)
      (by
        show gridSum _ _ = ((0 : ℤ) : F)
        unfold gridSum
        rw [Int.cast_zero]
        apply Finset.sum_eq_zero
        intro x hxm
        rw [zeroGrid_apply, if_pos (Finset.mem_Ico.mp hxm)])
      (by
        intro i g _ _ hg
        obtain ⟨x0, y0, tx, ty, ⟨a0, a1⟩, ⟨b0, b1⟩, _, _, hev⟩ :=
          densityParticle_spec fNumX fNumY h pos i hh hx hy
        show gridSum (densityParticle (1 / h) fNumX fNumY h pos i g) _ = _
        obtain ⟨p0, p1⟩ := cellIndex_inRange fNumX fNumY x0 y0 a0 (by omega) b0 (by omega)
        obtain ⟨q0, q1⟩ := cellIndex_inRange fNumX fNumY (x0 + 1) y0 (by omega) (by omega) b0
          (by omega)
        obtain ⟨r0, r1⟩ := cellIndex_inRange fNumX fNumY (x0 + 1) (y0 + 1) (by omega)
          (by omega) (by omega) (by omega)
        obtain ⟨s0, s1⟩ := cellIndex_inRange fNumX fNumY x0 (y0 + 1) a0 (by omega) (by omega)
          (by omega)
        rw [hev g, gridSum_addAt _ _ _ _ s0 s1, gridSum_addAt _ _ _ _ r0 r1,
          gridSum_addAt _ _ _ _ q0 q1, gridSum_addAt _ _ _ _ p0 p1, hg]
        push_cast
        ring)
    rw [max_eq_right hn] at key
    exact key
  · intro rest2 grid2 x hx0 hx1
    unfold updateParticleDensityGrid_native
    have key := forRange_rel (fun a b : ℤ → F => ∀ y, 0 ≤ y → y < fNumX * fNumY → a y = b y)
      0 numParticles (fun i g => densityParticle (1 / h) fNumX fNumY h pos i g)
      (forRange 0 (fNumX * fNumY) (fun i g => Function.update g i 0) grid)
      (forRange 0 (fNumX * fNumY) (fun i g => Function.update g i 0) grid2)
      (by
        intro y hy0 hy1
        rw [zeroGrid_apply, zeroGrid_apply, if_pos ⟨hy0, hy1⟩, if_pos ⟨hy0, hy1⟩])
      (by
        intro i a b _ _ hab y hy0 hy1
        obtain ⟨x0, y0, tx, ty, _, _, _, _, hev⟩ :=
          densityParticle_spec fNumX fNumY h pos i hh hx hy
        show densityParticle (1 / h) fNumX fNumY h pos i a y =
          densityParticle (1 / h) fNumX fNumY h pos i b y
        rw [hev a, hev b]
        exact addAt_agree _ _ _ _ _ _ (addAt_agree _ _ _ _ _ _ (addAt_agree _ _ _ _ _ _
          (addAt_agree _ _ _ _ _ _ (hab y hy0 hy1)))))
    exact key x hx0 hx1

/-- Witness for C33: a 3 x 3 grid with `h = 1`, two particles at `(5/4, 7/4)` and
`(9, -3)` (the second far outside the domain), previous grid contents all `7`: the entries
of the returned grid sum to `2`. -/
theorem C33_density_mass_conservation_witness :
    ((0 : ℚ) < 1 ∧ (2 : ℤ) ≤ 3 ∧ (0 : ℤ) ≤ 2) ∧
    gridSum (updateParticleDensityGrid_native (F := ℚ) 2 0 (1 / 1) 3 3 1
        (fun k => if k = 0 then 5 / 4 else if k = 1 then 7 / 4 else if k = 2 then 9 else -3)
        (fun _ => 7)) (3 * 3) = ((2 : ℤ) : ℚ) :=
  ⟨by norm_num,
    (C33_density_mass_conservation (F := ℚ) 2 0 3 3 1
      (fun k => if k = 0 then 5 / 4 else if k = 1 then 7 / 4 else if k = 2 then 9 else -3)
      (fun _ => 7) (by norm_num) (by norm_num) (by norm_num) (by norm_num)).2.2.1⟩

/-! ## C34: colour diffusion conserves colour -/

/-- A blend of two values of `[0, 1]` with a coefficient of `[0, 1]` stays in `[0, 1]`. -/
theorem blend_mem (p q c : F) (hp : 0 ≤ p ∧ p ≤ 1) (hq : 0 ≤ q ∧ q ≤ 1) (hc0 : 0 ≤ c)
    (hc1 : c ≤ 1) :
    0 ≤ p + ((p + q) * (1 / 2) - p) * c ∧ p + ((p + q) * (1 / 2) - p) * c ≤ 1 := by
  obtain ⟨p0, p1⟩ := hp
  obtain ⟨q0, q1⟩ := hq
  have e : p + ((p + q) * (1 / 2) - p) * c = p * (1 - c / 2) + q * (c / 2) := by ring
  rw [e]
  have h1 : 0 ≤ 1 - c / 2 := by linarith
  have h2 : 0 ≤ c / 2 := by linarith
  constructor
  · exact add_nonneg (mul_nonneg p0 h1) (mul_nonneg q0 h2)
  · have a1 : p * (1 - c / 2) ≤ 1 * (1 - c / 2) := mul_le_mul_of_nonneg_right p1 h1
    have a2 : q * (c / 2) ≤ 1 * (c / 2) := mul_le_mul_of_nonneg_right q1 h2
    linarith

theorem clamp01_of_mem (x : F) (hx : 0 ≤ x ∧ x ≤ 1) : max 0 (min x 1) = x := by
  rw [min_eq_left hx.2, max_eq_right hx.1]

/-- One lane of every particle after a pair blend that passes the distance test. -/
theorem diffusePair_apply (particlePos : ℤ → F) (minDist2 coeff : F) (ii jj : ℤ)
    (col : ℤ → F) (hne : ii ≠ jj)
    (hguard : pairDistSq particlePos ii jj < minDist2 ∧ pairDistSq particlePos ii jj > eps12)
    (i l : ℤ) (hl0 : 0 ≤ l) (hl1 : l < 4) :
    diffusePair particlePos minDist2 coeff ii jj col (4 * i + l) =
      if i = jj then
        max 0 (min (col (4 * jj + l) +
          ((col (4 * ii + l) + col (4 * jj + l)) * (1 / 2) - col (4 * jj + l)) * coeff) 1)
      else if i = ii then
        max 0 (min (col (4 * ii + l) +
          ((col (4 * ii + l) + col (4 * jj + l)) * (1 / 2) - col (4 * ii + l)) * coeff) 1)
      else col (4 * i + l) := by
  unfold diffusePair
  unfold pairDistSq at hguard
  simp only [] at hguard ⊢
  rw [if_pos hguard, store4_apply]
  by_cases hj : i = jj
  · subst hj
    have e : 4 * i + l - 4 * i = l := by ring
    rw [if_pos (by omega), if_pos rfl, e]
  · rw [if_neg (by omega), if_neg hj, store4_apply]
    by_cases hi : i = ii
    · subst hi
      have e : 4 * i + l - 4 * i = l := by ring
      rw [if_pos (by omega), if_pos rfl, e]
    · rw [if_neg (by omega), if_neg hi]

/-- A pair blend leaves the colours as they are when the distance test fails. -/
theorem diffusePair_skip (particlePos : ℤ → F) (minDist2 coeff : F) (ii jj : ℤ)
    (col : ℤ → F)
    (hguard : ¬ (pairDistSq particlePos ii jj < minDist2 ∧
      pairDistSq particlePos ii jj > eps12)) :
    diffusePair particlePos minDist2 coeff ii jj col = col := by
  unfold diffusePair
  unfold pairDistSq at hguard
  simp only [] at hguard ⊢
  rw [if_neg hguard]

/-- On colours in `[0, 1]` with `0 ≤ coeff ≤ 1`, a pair blend adds an amount to a lane of
`jj`, subtracts the same amount from the lane of `ii` and leaves every other particle's lane
as it is. -/
theorem diffusePair_offsets (particlePos : ℤ → F) (minDist2 coeff : F) (ii jj : ℤ)
    (col : ℤ → F) (hne : ii ≠ jj) (l : ℤ) (hl0 : 0 ≤ l) (hl1 : l < 4)
    (hp : 0 ≤ col (4 * ii + l) ∧ col (4 * ii + l) ≤ 1)
    (hq : 0 ≤ col (4 * jj + l) ∧ col (4 * jj + l) ≤ 1) (hc0 : 0 ≤ coeff) (hc1 : coeff ≤ 1) :
    ∃ o : F, ∀ i : ℤ,
      diffusePair particlePos minDist2 coeff ii jj col (4 * i + l) =
        col (4 * i + l) + (if i = jj then o else 0) - (if i = ii then o else 0) := by
  by_cases hguard : pairDistSq particlePos ii jj < minDist2 ∧
      pairDistSq particlePos ii jj > eps12
  · refine ⟨((col (4 * ii + l) + col (4 * jj + l)) * (1 / 2) - col (4 * jj + l)) * coeff,
      fun i => ?_⟩
    rw [diffusePair_apply particlePos minDist2 coeff ii jj col hne hguard i l hl0 hl1]
    by_cases hj : i = jj
    · subst hj
      have hb := blend_mem (col (4 * i + l)) (col (4 * ii + l)) coeff hq hp hc0 hc1
      have e : (col (4 * ii + l) + col (4 * i + l)) * (1 / 2) =
          (col (4 * i + l) + col (4 * ii + l)) * (1 / 2) := by ring
      rw [if_pos rfl, if_pos rfl, if_neg (Ne.symm hne), e, clamp01_of_mem _ hb]
      ring
    · rw [if_neg hj, if_neg hj]
      by_cases hi : i = ii
      · subst hi
        have hb := blend_mem (col (4 * i + l)) (col (4 * jj + l)) coeff hp hq hc0 hc1
        rw [if_pos rfl, if_pos rfl, clamp01_of_mem _ hb]
        ring
      · rw [if_neg hi, if_neg hi]
        ring
  · refine ⟨0, fun i => ?_⟩
    rw [diffusePair_skip particlePos minDist2 coeff ii jj col hguard]
    simp only [ite_self, add_zero, sub_zero]

theorem sumChannel_offsets (f g : ℤ → F) (N l ii jj : ℤ) (o : F)
    (hii : 0 ≤ ii ∧ ii < N) (hjj : 0 ≤ jj ∧ jj < N)
    (h : ∀ i, g (4 * i + l) =
      f (4 * i + l) + (if i = jj then o else 0) - (if i = ii then o else 0)) :
    sumChannel g N l = sumChannel f N l := by
  unfold sumChannel
  rw [Finset.sum_congr rfl (fun i _ => h i), Finset.sum_sub_distrib, Finset.sum_add_distrib,
    Finset.sum_ite_eq', Finset.sum_ite_eq', if_pos (Finset.mem_Ico.mpr hjj),
    if_pos (Finset.mem_Ico.mpr hii)]
  ring

/-- C34: if every colour component of every particle is in `[0, 1]` on entry and
`0 ≤ coeff ≤ 1`, then in `diffuseParticleColors_native` (1) a pair blend of two particles
`ii ≠ jj` with colours in `[0, 1]` writes the unclamped blended values (the clamp does not
change them), keeps the pair's per-channel sum and multiplies the pair's per-channel
difference by `1 - coeff`; and (2) the per-channel sum of colour over all particles is the
same on return as on entry. -/
theorem C34_diffusion_conserves_color [FloorRing F] (particlePos particleColor : ℤ → F)
    (firstCellParticle cellParticleIds : ℤ → ℤ) (numParticles pNumX pNumY : ℤ)
    (pInvSpacing particleRadius : F) (enableDynamicColoring : Bool) (coeff : F)
    (hc0 : 0 ≤ coeff) (hc1 : coeff ≤ 1)
    (hin : ∀ i l, 0 ≤ i → i < numParticles → 0 ≤ l → l < 4 →
      0 ≤ particleColor (4 * i + l) ∧ particleColor (4 * i + l) ≤ 1) :
    (∀ (minDist2 : F) (ii jj : ℤ) (col : ℤ → F) (l : ℤ), ii ≠ jj → 0 ≤ l → l < 4 →
      (0 ≤ col (4 * ii + l) ∧ col (4 * ii + l) ≤ 1) →
      (0 ≤ col (4 * jj + l) ∧ col (4 * jj + l) ≤ 1) →
      (pairDistSq particlePos ii jj < minDist2 ∧ pairDistSq particlePos ii jj > eps12) →
      diffusePair particlePos minDist2 coeff ii jj col (4 * ii + l) =
          col (4 * ii + l) +
            ((col (4 * ii + l) + col (4 * jj + l)) * (1 / 2) - col (4 * ii + l)) * coeff ∧
      diffusePair particlePos minDist2 coeff ii jj col (4 * jj + l) =
          col (4 * jj + l) +
            ((col (4 * ii + l) + col (4 * jj + l)) * (1 / 2) - col (4 * jj + l)) * coeff ∧
      diffusePair particlePos minDist2 coeff ii jj col (4 * ii + l) +
          diffusePair particlePos minDist2 coeff ii jj col (4 * jj + l) =
        col (4 * ii + l) + col (4 * jj + l) ∧
      diffusePair particlePos minDist2 coeff ii jj col (4 * ii + l) -
          diffusePair particlePos minDist2 coeff ii jj col (4 * jj + l) =
        (1 - coeff) * (col (4 * ii + l) - col (4 * jj + l))) ∧
    (∀ l, 0 ≤ l → l < 4 →
      sumChannel (diffuseParticleColors_native particlePos particleColor firstCellParticle
          cellParticleIds numParticles pNumX pNumY pInvSpacing particleRadius
          enableDynamicColoring coeff) numParticles l =
        sumChannel particleColor numParticles l) := by
  constructor
  · intro minDist2 ii jj col l hne hl0 hl1 hp hq hguard
    have hi := diffusePair_apply particlePos minDist2 coeff ii jj col hne hguard ii l hl0 hl1
    have hj := diffusePair_apply particlePos minDist2 coeff ii jj col hne hguard jj l hl0 hl1
    rw [if_neg hne, if_pos rfl, clamp01_of_mem _ (blend_mem _ _ coeff hp hq hc0 hc1)] at hi
    have e : (col (4 * ii + l) + col (4 * jj + l)) * (1 / 2) =
        (col (4 * jj + l) + col (4 * ii + l)) * (1 / 2) := by ring
    have hb := blend_mem (col (4 * jj + l)) (col (4 * ii + l)) coeff hq hp hc0 hc1
    rw [← e] at hb
    rw [if_pos rfl, clamp01_of_mem _ hb] at hj
    refine ⟨hi, hj, ?_, ?_⟩
    · rw [hi, hj]
      ring
    · rw [hi, hj]
      ring
  · intro l hl0 hl1
    unfold diffuseParticleColors_native
    by_cases hret : (!enableDynamicColoring) = true ∨ numParticles = 0
    · rw [if_pos hret]
    · rw [if_neg hret]
      simp only []
      have key := forRange_preserves
        (fun c : ℤ → F =>
          (∀ i l', 0 ≤ i → i < numParticles → 0 ≤ l' → l' < 4 →
            0 ≤ c (4 * i + l') ∧ c (4 * i + l') ≤ 1) ∧
          sumChannel c numParticles l = sumChannel particleColor numParticles l)
        0 numParticles
        (fun ii col =>
          neighbourLoop firstCellParticle cellParticleIds numParticles pNumX pNumY
            (binCoord pNumX pInvSpacing (particlePos (2 * ii)))
            (binCoord pNumY pInvSpacing (particlePos (2 * ii + 1))) ii
            (fun jj col1 => diffusePair particlePos
              ((2 * particleRadius) * (2 * particleRadius)) coeff ii jj col1) col)
        particleColor ⟨hin, rfl⟩
        (by
          intro ii c hii0 hii1 hP
          refine neighbourLoop_preserves
            (fun c : ℤ → F =>
              (∀ i l', 0 ≤ i → i < numParticles → 0 ≤ l' → l' < 4 →
                0 ≤ c (4 * i + l') ∧ c (4 * i + l') ≤ 1) ∧
              sumChannel c numParticles l = sumChannel particleColor numParticles l)
            _ _ _ _ _ _ _ _ _ _ hP ?_
          intro jj c2 hne hj0 hj1 hc2
          refine ⟨fun i l' hi0 hi1 hl0' hl1' =>
            diffusePair_mem _ _ _ _ _ _ _ (hc2.1 i l' hi0 hi1 hl0' hl1'), ?_⟩
          obtain ⟨o, ho⟩ := diffusePair_offsets particlePos
            ((2 * particleRadius) * (2 * particleRadius)) coeff ii jj c2 (Ne.symm hne) l hl0 hl1
            (hc2.1 ii l hii0 hii1 hl0 hl1) (hc2.1 jj l hj0 hj1 hl0 hl1) hc0 hc1
          rw [sumChannel_offsets c2 _ numParticles l ii jj o ⟨hii0, hii1⟩ ⟨hj0, hj1⟩ ho]
          exact hc2.2)
      exact key.2

/-- Witness for C34: two particles at `(0, 0)` and `(1, 0)` with `particleRadius = 1` (so
closer than `minDist = 2`), listed in one bin, colours `(1, 0, 1/2, 1)` and
`(0, 1, 1/2, 1)`, `coeff = 1/2`: the sum of the red channel is unchanged. -/
theorem C34_diffusion_conserves_color_witness :
    ((0 : ℚ) ≤ 1 / 2 ∧ (1 / 2 : ℚ) ≤ 1) ∧
    sumChannel (diffuseParticleColors_native (F := ℚ) (fun k => if k = 2 then 1 else 0)
        (fun k => if k = 0 ∨ k = 5 ∨ k = 3 ∨ k = 7 then 1
          else if k = 2 ∨ k = 6 then 1 / 2 else 0)
        (fun c => if c = 0 then 0 else 2) (fun k => k) 2 1 1 1 1 true (1 / 2)) 2 0 =
      sumChannel (F := ℚ) (fun k => if k = 0 ∨ k = 5 ∨ k = 3 ∨ k = 7 then 1
          else if k = 2 ∨ k = 6 then 1 / 2 else 0) 2 0 :=
  ⟨by norm_num,
    (C34_diffusion_conserves_color (F := ℚ) (fun k => if k = 2 then 1 else 0)
      (fun k => if k = 0 ∨ k = 5 ∨ k = 3 ∨ k = 7 then 1
        else if k = 2 ∨ k = 6 then 1 / 2 else 0)
      (fun c => if c = 0 then 0 else 2) (fun k => k) 2 1 1 1 1 true (1 / 2)
      (by norm_num) (by norm_num)
      (by
        intro i l _ _ _ _
        show (0 : ℚ) ≤ (if _ then 1 else if _ then 1 / 2 else 0) ∧
          (if _ then 1 else if _ then 1 / 2 else 0) ≤ (1 : ℚ)
        constructor <;> split_ifs <;> norm_num)).2 0 (by norm_num) (by norm_num)⟩

/-! ## The normalisation threshold in the round trip on a regular grid -/

/-- The x-face values on return from the P->G branch with two particles and no solid cell,
in terms of the two particles' stencils. -/
theorem toGrid_values_two [FloorRing F] (vrecpeq_f32 : F → F)
    (hrecip : ∀ d, eps9 < d → vrecpeq_f32 d = 1 / d) (flipRatio : F)
    (st : TransferState F) (s particlePos : ℤ → F) (fNumX fNumY : ℤ) (h invH : F)
    (hs : ∀ idx, 0 ≤ idx → idx < fNumX * fNumY → s idx ≠ 0)
    (stenA stenB : Stencil F)
    (hA : stencil fNumX fNumY h invH 0 (particlePos (2 * 0)) (particlePos (2 * 0 + 1)) = stenA)
    (hB : stencil fNumX fNumY h invH 0 (particlePos (2 * 1)) (particlePos (2 * 1 + 1)) = stenB)
    (x : ℤ) (hx0 : 0 ≤ x) (hx1 : x < fNumX * fNumY) :
    (transferVelocities_native vrecpeq_f32 true flipRatio st s particlePos fNumX fNumY h invH
        2).u x =
      normalizeValue
        (0 + (if stenA.n0 = x ∧ 0 ≤ stenA.n0 ∧ stenA.n0 < fNumX * fNumY
              then st.particleVel (2 * 0 + 0) * stenA.w0 else 0)
          + (if stenA.n1 = x ∧ 0 ≤ stenA.n1 ∧ stenA.n1 < fNumX * fNumY
              then st.particleVel (2 * 0 + 0) * stenA.w1 else 0)
          + (if stenA.n2 = x ∧ 0 ≤ stenA.n2 ∧ stenA.n2 < fNumX * fNumY
              then st.particleVel (2 * 0 + 0) * stenA.w2 else 0)
          + (if stenA.n3 = x ∧ 0 ≤ stenA.n3 ∧ stenA.n3 < fNumX * fNumY
              then st.particleVel (2 * 0 + 0) * stenA.w3 else 0)
          + (if stenB.n0 = x ∧ 0 ≤ stenB.n0 ∧ stenB.n0 < fNumX * fNumY
              then st.particleVel (2 * 1 + 0) * stenB.w0 else 0)
          + (if stenB.n1 = x ∧ 0 ≤ stenB.n1 ∧ stenB.n1 < fNumX * fNumY
              then st.particleVel (2 * 1 + 0) * stenB.w1 else 0)
          + (if stenB.n2 = x ∧ 0 ≤ stenB.n2 ∧ stenB.n2 < fNumX * fNumY
              then st.particleVel (2 * 1 + 0) * stenB.w2 else 0)
          + (if stenB.n3 = x ∧ 0 ≤ stenB.n3 ∧ stenB.n3 < fNumX * fNumY
              then st.particleVel (2 * 1 + 0) * stenB.w3 else 0))
        (0 + (if stenA.n0 = x ∧ 0 ≤ stenA.n0 ∧ stenA.n0 < fNumX * fNumY then stenA.w0 else 0)
          + (if stenA.n1 = x ∧ 0 ≤ stenA.n1 ∧ stenA.n1 < fNumX * fNumY then stenA.w1 else 0)
          + (if stenA.n2 = x ∧ 0 ≤ stenA.n2 ∧ stenA.n2 < fNumX * fNumY then stenA.w2 else 0)
          + (if stenA.n3 = x ∧ 0 ≤ stenA.n3 ∧ stenA.n3 < fNumX * fNumY then stenA.w3 else 0)
          + (if stenB.n0 = x ∧ 0 ≤ stenB.n0 ∧ stenB.n0 < fNumX * fNumY then stenB.w0 else 0)
          + (if stenB.n1 = x ∧ 0 ≤ stenB.n1 ∧ stenB.n1 < fNumX * fNumY then stenB.w1 else 0)
          + (if stenB.n2 = x ∧ 0 ≤ stenB.n2 ∧ stenB.n2 < fNumX * fNumY then stenB.w2 else 0)
          + (if stenB.n3 = x ∧ 0 ≤ stenB.n3 ∧ stenB.n3 < fNumX * fNumY then stenB.w3 else 0))
      := by
  rw [transfer_toGrid_eq]
  obtain ⟨g1, _, _, _⟩ := toGridSteps1to5_frame vrecpeq_f32 st s particlePos fNumX fNumY h
    invH 2
  have hns : ∀ idx, 0 ≤ idx → idx < fNumX * fNumY →
      (toGridSteps1to5 vrecpeq_f32 st s particlePos fNumX fNumY h invH 2).cellType
        idx ≠ SOLID_CELL_CPP := by
    intro idx h0 h1
    rw [g1]
    exact toGrid_cellType_ne_solid _ _ _ _ _ _ _ idx h0 h1 (hs idx h0 h1)
  rw [restoreSolid_noSolid fNumX fNumY _ hns]
  obtain ⟨_, _, v3, _⟩ := toGridSteps1to5_values vrecpeq_f32 hrecip st s particlePos
    fNumX fNumY h invH 2
  obtain ⟨_, _, c3, _, c5, _, _, _⟩ := backupAndClear_spec (fNumX * fNumY) st
  rw [v3 x hx0 hx1]
  unfold scatterComp
  rw [forRange_zero_two,
    (scatterParticle_apply _ _ _ _ _ _ _ _ _ x stenB hB).1,
    (scatterParticle_apply _ _ _ _ _ _ _ _ _ x stenB hB).2,
    (scatterParticle_apply _ _ _ _ _ _ _ _ _ x stenA hA).1,
    (scatterParticle_apply _ _ _ _ _ _ _ _ _ x stenA hA).2]
  have e3 : (backupAndClear (fNumX * fNumY) st).du x = 0 := by
    rw [c3 x, if_pos ⟨hx0, hx1⟩]
  have e5 : (backupAndClear (fNumX * fNumY) st).u x = 0 := by
    rw [c5 x, if_pos ⟨hx0, hx1⟩]
  show normalizeValue ((backupAndClear (fNumX * fNumY) st).u x + _ + _ + _ + _ + _ + _ + _ + _)
    ((backupAndClear (fNumX * fNumY) st).du x + _ + _ + _ + _ + _ + _ + _ + _) = _
  rw [e3, e5]

/-- The normalisation threshold on a grid of at least 2 x 2 cells, in exact arithmetic and
at binary32 inputs: a 4×4 grid with `h = invH = 1`, `s = 1` everywhere and two particles of
velocity `(1, 1)`, the first at `(1, 5/2)` (cell 6, all its x-weight on face 6) and the
second at `(1 + 2^-23, 3/2 + 2^-23)` (cell 5, `tx = ty = 2^-23`).  Face 10 receives only the
weight `tx*ty = 2^-46 ≤ 1e-9` of the second particle, so P->G sets it to `0`; the corner is
valid in G->P (cell 6 is FLUID), and the second particle's x-velocity returns as
`1 - 2^-46`.  The deficit is below the resolution of binary32 at `1`. -/
theorem round_trip_threshold_two_particles :
    uniformVelocityState.particleVel (2 * 1) = 1 ∧
    (transferVelocities_native exactReciprocal false 0
        (transferVelocities_native exactReciprocal true 0 uniformVelocityState (fun _ => 1)
          twoParticlePositions 4 4 1 1 2)
        (fun _ => 1) twoParticlePositions 4 4 1 1 2).particleVel (2 * 1) =
      70368744177663 / 70368744177664 := by
  refine ⟨rfl, ?_⟩
  have f1 : ⌊(1 : ℚ)⌋ = 1 := by norm_num
  have f2 : ⌊(2 : ℚ)⌋ = 2 := by norm_num
  have f3 : ⌊(8388609 / 8388608 : ℚ)⌋ = 1 := by norm_num
  have f4 : ⌊(12582913 / 8388608 : ℚ)⌋ = 1 := by norm_num
  have f5 : ⌊(5 / 2 : ℚ)⌋ = 2 := by norm_num
  have hsA : stencil 4 4 (1 : ℚ) 1 0 (twoParticlePositions (2 * 0))
      (twoParticlePositions (2 * 0 + 1))
      = { w0 := 1, w1 := 0, w2 := 0, w3 := 0, n0 := 6, n1 := 10, n2 := 11, n3 := 7 } := by
    norm_num [twoParticlePositions, stencil, floorf, toInt, f1, f2]
  have hsB : stencil 4 4 (1 : ℚ) 1 0 (twoParticlePositions (2 * 1))
      (twoParticlePositions (2 * 1 + 1))
      = { w0 := 70368727400449 / 70368744177664, w1 := 8388607 / 70368744177664,
          w2 := 1 / 70368744177664, w3 := 8388607 / 70368744177664,
          n0 := 5, n1 := 9, n2 := 10, n3 := 6 } := by
    norm_num [twoParticlePositions, stencil, floorf, toInt, f3]
  have hrecip : ∀ d : ℚ, eps9 < d → exactReciprocal d = 1 / d := fun _ _ => rfl
  have hsne : ∀ idx : ℤ, 0 ≤ idx → idx < 4 * 4 → (fun _ : ℤ => (1 : ℚ)) idx ≠ 0 := by
    intro idx _ _
    norm_num
  have hu := fun x hx0 hx1 => toGrid_values_two (F := ℚ) exactReciprocal hrecip 0
    uniformVelocityState (fun _ => 1) twoParticlePositions 4 4 1 1 hsne _ _ hsA hsB x hx0 hx1
  have hu5 : (transferVelocities_native exactReciprocal true 0 uniformVelocityState
      (fun _ => (1 : ℚ)) twoParticlePositions 4 4 1 1 2).u 5 = 1 := by
    rw [hu 5 (by norm_num) (by norm_num)]
    norm_num [normalizeValue, eps9, uniformVelocityState]
  have hu9 : (transferVelocities_native exactReciprocal true 0 uniformVelocityState
      (fun _ => (1 : ℚ)) twoParticlePositions 4 4 1 1 2).u 9 = 1 := by
    rw [hu 9 (by norm_num) (by norm_num)]
    norm_num [normalizeValue, eps9, uniformVelocityState]
  have hu10 : (transferVelocities_native exactReciprocal true 0 uniformVelocityState
      (fun _ => (1 : ℚ)) twoParticlePositions 4 4 1 1 2).u 10 = 0 := by
    rw [hu 10 (by norm_num) (by norm_num)]
    norm_num [normalizeValue, eps9, uniformVelocityState]
  have hu6 : (transferVelocities_native exactReciprocal true 0 uniformVelocityState
      (fun _ => (1 : ℚ)) twoParticlePositions 4 4 1 1 2).u 6 = 1 := by
    rw [hu 6 (by norm_num) (by norm_num)]
    norm_num [normalizeValue, eps9, uniformVelocityState]
  have hcellA : particleCellIndex twoParticlePositions 4 4 (1 : ℚ) 0 = 6 := by
    norm_num [particleCellIndex, cellCoord, floorf, clamp_cpp, toInt, twoParticlePositions,
      f1, f5]
  have hcellB : particleCellIndex twoParticlePositions 4 4 (1 : ℚ) 1 = 5 := by
    norm_num [particleCellIndex, cellCoord, floorf, clamp_cpp, toInt, twoParticlePositions,
      f3, f4]
  have hct5 : (transferVelocities_native exactReciprocal true 0 uniformVelocityState
      (fun _ => (1 : ℚ)) twoParticlePositions 4 4 1 1 2).cellType 5 = FLUID_CELL_CPP := by
    rw [transfer_toGrid_cellType]
    exact (toGrid_cellType_cases _ _ _ _ _ _ _ 5 (by norm_num) (by norm_num)).2.1
      (by norm_num) ⟨1, by norm_num, by norm_num, hcellB⟩
  have hct6 : (transferVelocities_native exactReciprocal true 0 uniformVelocityState
      (fun _ => (1 : ℚ)) twoParticlePositions 4 4 1 1 2).cellType 6 = FLUID_CELL_CPP := by
    rw [transfer_toGrid_cellType]
    exact (toGrid_cellType_cases _ _ _ _ _ _ _ 6 (by norm_num) (by norm_num)).2.1
      (by norm_num) ⟨0, by norm_num, by norm_num, hcellA⟩
  have hv5 : (cornerOk (transferVelocities_native exactReciprocal true 0 uniformVelocityState
      (fun _ => (1 : ℚ)) twoParticlePositions 4 4 1 1 2).cellType (4 * 4) 4 5 0 : ℚ) = 1 := by
    unfold cornerOk isValidVelocitySample
    simp only [hct5]
    norm_num [FLUID_CELL_CPP, AIR_CELL_CPP]
  have hv9 : (cornerOk (transferVelocities_native exactReciprocal true 0 uniformVelocityState
      (fun _ => (1 : ℚ)) twoParticlePositions 4 4 1 1 2).cellType (4 * 4) 4 9 0 : ℚ) = 1 := by
    unfold cornerOk isValidVelocitySample
    have e : (9 : ℤ) - 4 = 5 := by norm_num
    simp only [if_true, e, hct5]
    norm_num [FLUID_CELL_CPP, AIR_CELL_CPP]
  have hv10 : (cornerOk (transferVelocities_native exactReciprocal true 0 uniformVelocityState
      (fun _ => (1 : ℚ)) twoParticlePositions 4 4 1 1 2).cellType (4 * 4) 4 10 0 : ℚ) = 1 := by
    unfold cornerOk isValidVelocitySample
    have e : (10 : ℤ) - 4 = 6 := by norm_num
    simp only [if_true, e, hct6]
    norm_num [FLUID_CELL_CPP, AIR_CELL_CPP]
  have hv6 : (cornerOk (transferVelocities_native exactReciprocal true 0 uniformVelocityState
      (fun _ => (1 : ℚ)) twoParticlePositions 4 4 1 1 2).cellType (4 * 4) 4 6 0 : ℚ) = 1 := by
    unfold cornerOk isValidVelocitySample
    simp only [hct6]
    norm_num [FLUID_CELL_CPP, AIR_CELL_CPP]
  rw [(transfer_toParticles_apply (F := ℚ) exactReciprocal 0 _ (fun _ => 1)
    twoParticlePositions 4 4 1 1 2 1 (by norm_num) (by norm_num)).1,
    gatherParticle_flip_zero _ _ _ _ _ _ _ _ _ _ _ _ hsB]
  dsimp only
  rw [hv5, hv9, hv10, hv6]
  simp only [hu5, hu9, hu10, hu6, readOrZero]
  norm_num [eps9]

end Proofs

end FluidSim
